import Mathlib


/-!
A shallow embedding of the dwm core (`src/src/dwm.c`).

The window manager's model state (monitors, clients, the two intrusive lists,
tag masks, geometry) is embedded as pure state-passing functions.

Conventions of the embedding.

* A `Client *` is the window id of the client (`c->win`), a `Monitor *` is the
  position of the monitor in the `mons` list.  `NULL` is `none`.
* The intrusive lists `mon->clients` (links `next`) and `mon->stack`
  (links `snext`) are Lean lists of window ids, head first.
* C `int` / `unsigned int` geometry is embedded in unbounded integers (no
  overflow assumed); C `int` flags that are only used as truth values are
  `Bool`.
* C `float` is IEEE binary32 and `double` is binary64, every operation being
  rounded to the nearest value of its type, ties to even (`f32`, `f64`).  The
  aspect ratios `mina`, `maxa` are quotients of numbers a client supplies and
  can be infinite or NaN: they have the type `Flt`.  `mfact` and the argument
  of `setmfact` come from `config.h` and are finite: they are the rational
  number the `float` denotes.
* Requests sent to the X server are not part of the model, except the root
  property `_NET_CLIENT_LIST`, which is the list `netClientList`.
* `config.h` is not part of the sources: its constants are the fields of
  `Config`; data read back from the X server is an explicit input.
-/

namespace Dwm

/-! ## Floating point -/

/-- `2^e` for an integer exponent. -/
def pow2 (e : Int) : ℚ := (2 : ℚ) ^ e

/-- The position of the leading binary digit of `n` (`0` for `n < 2`), by
halving; `fuel = n` steps are enough. -/
def log2Fuel : Nat → Nat → Nat
  | 0, _ => 0
  | fuel + 1, n => if n < 2 then 0 else log2Fuel fuel (n / 2) + 1

/-- The binary exponent of a rational `q ≠ 0`: the `e` with
`2^e ≤ |q| < 2^(e+1)`.  It is one of the two candidates the leading digits of
numerator and denominator leave. -/
def ilog2 (q : ℚ) : Int :=
  let e0 : Int := (log2Fuel q.num.natAbs q.num.natAbs : Int) - (log2Fuel q.den q.den : Int)
  if pow2 e0 ≤ |q| then e0 else e0 - 1

/-- The integer nearest to `t`, the even one of the two when `t` lies half way
between two integers. -/
def roundEven (t : ℚ) : Int :=
  let f : Int := t.num / t.den
  if t - f < 1 / 2 then f
  else if t - f > 1 / 2 then f + 1
  else if f % 2 = 0 then f else f + 1

/-- Rounding to the nearest number of the binary floating-point format with
`p` significant digits and least normal exponent `emin` (ties to even, gradual
underflow; the exponent is not bounded above). -/
def rnd (p : Nat) (emin : Int) (q : ℚ) : ℚ :=
  if q = 0 then 0
  else (roundEven (q / pow2 (max (ilog2 q) emin - (p - 1))) : ℚ) *
    pow2 (max (ilog2 q) emin - (p - 1))

/-- Rounding to `float` (IEEE binary32). -/
def f32 (q : ℚ) : ℚ := rnd 24 (-126) q

/-- Rounding to `double` (IEEE binary64). -/
def f64 (q : ℚ) : ℚ := rnd 53 (-1022) q

/-- A value of type `float`: a finite number, an infinity or NaN.  The sign of
a zero is not kept: no operation of `dwm.c` tells the two zeros apart (the
divisors are converted integers, which are never `-0`). -/
inductive Flt where
  | fin (q : ℚ)
  | pinf
  | ninf
  | nan
  deriving DecidableEq

instance : OfNat Flt 0 := ⟨Flt.fin 0⟩

/-- The result of a `float` operation whose exact value is `q`: rounded, and
infinite when the rounded value is beyond the largest `float`. -/
def Flt.round (q : ℚ) : Flt :=
  if f32 q ≥ pow2 128 then Flt.pinf
  else if f32 q ≤ -pow2 128 then Flt.ninf
  else Flt.fin (f32 q)

/-- `(float)a / b` for two `int`s: both are converted to `float`, the quotient
is rounded; a zero divisor gives an infinity with the sign of `a`, or NaN for
`0 / 0`. -/
def Flt.divInt (a b : Int) : Flt :=
  if b = 0 then (if a > 0 then Flt.pinf else if a < 0 then Flt.ninf else Flt.nan)
  else Flt.round (f32 a / f32 b)

/-- `a < b` on `float`: false when an operand is NaN. -/
def Flt.lt : Flt → Flt → Bool
  | Flt.fin a, Flt.fin b => decide (a < b)
  | Flt.fin _, Flt.pinf => true
  | Flt.ninf, Flt.fin _ => true
  | Flt.ninf, Flt.pinf => true
  | _, _ => false

instance : LT Flt := ⟨fun a b => Flt.lt a b = true⟩

instance (a b : Flt) : Decidable (a < b) :=
  inferInstanceAs (Decidable (Flt.lt a b = true))

/-- Conversion of a non-integral C value to an integer: truncation toward
zero. -/
def truncQ (q : ℚ) : Int := Int.tdiv q.num q.den

/-- `(int)(n * a + 0.5)` for an `int` `n` and a `float` `a`: `n` is converted
to `float`, the product is a `float`, the sum with the `double` constant `0.5`
is a `double`, the conversion to `int` truncates.  The conversion of an
infinite or NaN value is undefined in C (here `0`); the aspect block of
`applysizehints` only passes a finite positive `a`. -/
def Flt.mulAddHalf (n : Int) (a : Flt) : Int :=
  match a with
  | Flt.fin q => truncQ (f64 (f32 (f32 n * q) + 1 / 2))
  | _ => 0

/-! ## Data model (`dwm.h`) -/

/-- The two layout functions of `dwm.c` a `Layout.arrange` pointer can hold. -/
inductive ArrangeFn where
  | tile
  | monocle
  deriving DecidableEq, Repr

/-- `Layout`: a symbol and an arrange function (`none` is the floating layout). -/
structure Layout where
  symbol : String
  arrange : Option ArrangeFn
  deriving DecidableEq, Repr

/-- `struct Client` (without `name`, `next`, `snext`; `win` is the key of the
client in `State.cl`). -/
structure Client where
  mina : Flt
  maxa : Flt
  x : Int
  y : Int
  w : Int
  h : Int
  oldx : Int
  oldy : Int
  oldw : Int
  oldh : Int
  basew : Int
  baseh : Int
  incw : Int
  inch : Int
  maxw : Int
  maxh : Int
  minw : Int
  minh : Int
  hintsvalid : Bool
  bw : Int
  oldbw : Int
  tags : Nat
  isfixed : Bool
  isfloating : Bool
  isurgent : Bool
  neverfocus : Bool
  oldstate : Bool
  isfullscreen : Bool
  mon : Nat
  deriving DecidableEq

/-- `struct Monitor` (without `next`; `tagset[2]` and `lt[2]` are two fields
each). -/
structure Monitor where
  ltsymbol : String
  mfact : ℚ
  nmaster : Int
  num : Int
  barY : Int
  mx : Int
  my : Int
  mw : Int
  mh : Int
  wx : Int
  wy : Int
  ww : Int
  wh : Int
  seltags : Nat
  sellt : Nat
  tagset0 : Nat
  tagset1 : Nat
  showbar : Bool
  topbar : Bool
  clients : List Nat
  sel : Option Nat
  stack : List Nat
  barwin : Nat
  lt0 : Layout
  lt1 : Layout
  deriving DecidableEq

/-- `Rule` of `dwm.h`: the fields `applyrules` writes to the client. -/
structure Rule where
  tags : Nat
  isfloating : Bool
  monitor : Int
  deriving DecidableEq, Repr

/-- The constants of `config.h` the core reads. -/
structure Config where
  ntags : Nat
  resizehints : Bool
  borderpx : Int
  lockfullscreen : Bool
  mfact : ℚ
  nmaster : Int
  showbar : Bool
  topbar : Bool
  layout0 : Layout
  layout1 : Layout

/-- `XSizeHints` as returned by `XGetWMNormalHints`. -/
structure XSizeHints where
  flags : Nat
  min_width : Int
  min_height : Int
  max_width : Int
  max_height : Int
  width_inc : Int
  height_inc : Int
  min_aspect_x : Int
  min_aspect_y : Int
  max_aspect_x : Int
  max_aspect_y : Int
  base_width : Int
  base_height : Int
  deriving DecidableEq, Repr

/-- The file-scope variables of `dwm.c` that make up the model, and the part of
the X server the handlers read back: `xhints w` is what `XGetWMNormalHints`
returns for window `w` (`none` when the call fails). -/
structure State where
  nmons : Nat
  mon : Nat → Monitor
  selmon : Nat
  cl : Nat → Client
  sw : Int
  sh : Int
  bh : Int
  netClientList : List Nat
  xhints : Nat → Option XSizeHints

/-! ## Macros -/

def PSize : Nat := 8
def PMinSize : Nat := 16
def PMaxSize : Nat := 32
def PResizeInc : Nat := 64
def PAspect : Nat := 128
def PBaseSize : Nat := 256

/-- `TAGMASK`: `(1 << LENGTH(tags)) - 1`. -/
def TAGMASK (cfg : Config) : Nat := (1 <<< cfg.ntags) - 1

/-- `WIDTH(X)`: `(X)->w + 2 * (X)->bw`. -/
def WIDTH (c : Client) : Int := c.w + 2 * c.bw

/-- `HEIGHT(X)`: `(X)->h + 2 * (X)->bw`. -/
def HEIGHT (c : Client) : Int := c.h + 2 * c.bw

/-- `m->tagset[i]` for the two-element array. -/
def Monitor.tagset (m : Monitor) (i : Nat) : Nat :=
  if i = 0 then m.tagset0 else m.tagset1

/-- `m->tagset[i] = v`. -/
def Monitor.setTagset (m : Monitor) (i : Nat) (v : Nat) : Monitor :=
  if i = 0 then { m with tagset0 := v } else { m with tagset1 := v }

/-- `m->lt[i]` for the two-element array. -/
def Monitor.lt (m : Monitor) (i : Nat) : Layout :=
  if i = 0 then m.lt0 else m.lt1

/-- `m->lt[i] = l`. -/
def Monitor.setLt (m : Monitor) (i : Nat) (l : Layout) : Monitor :=
  if i = 0 then { m with lt0 := l } else { m with lt1 := l }

/-- `m->tagset[m->seltags]`. -/
def Monitor.curtags (m : Monitor) : Nat := m.tagset m.seltags

/-- `m->lt[m->sellt]`. -/
def Monitor.curlt (m : Monitor) : Layout := m.lt m.sellt

/-- `ISVISIBLE(C)`: `C->tags & C->mon->tagset[C->mon->seltags]`. -/
def ISVISIBLE (s : State) (c : Nat) : Bool :=
  (s.cl c).tags &&& (s.mon (s.cl c).mon).curtags != 0

/-- Store a client record (a write through a `Client *`). -/
def State.setCl (s : State) (c : Nat) (v : Client) : State :=
  { s with cl := Function.update s.cl c v }

/-- Store a monitor record (a write through a `Monitor *`). -/
def State.setMon (s : State) (m : Nat) (v : Monitor) : State :=
  { s with mon := Function.update s.mon m v }

/-! ## Size hints -/

/-- `updatesizehints`. -/
def updatesizehints (s : State) (c : Nat) : State :=
  let flags : Nat := match s.xhints c with
    | some size => size.flags
    | none => PSize
  let size : XSizeHints := match s.xhints c with
    | some size => size
    | none => ⟨PSize, 0, 0, 0, 0, 0, 0, 0, 0, 0, 0, 0, 0⟩
  let c0 := s.cl c
  let c1 : Client :=
    if flags &&& PBaseSize ≠ 0 then
      { c0 with basew := size.base_width, baseh := size.base_height }
    else if flags &&& PMinSize ≠ 0 then
      { c0 with basew := size.min_width, baseh := size.min_height }
    else { c0 with basew := 0, baseh := 0 }
  let c2 : Client :=
    if flags &&& PResizeInc ≠ 0 then
      { c1 with incw := size.width_inc, inch := size.height_inc }
    else { c1 with incw := 0, inch := 0 }
  let c3 : Client :=
    if flags &&& PMaxSize ≠ 0 then
      { c2 with maxw := size.max_width, maxh := size.max_height }
    else { c2 with maxw := 0, maxh := 0 }
  let c4 : Client :=
    if flags &&& PMinSize ≠ 0 then
      { c3 with minw := size.min_width, minh := size.min_height }
    else if flags &&& PBaseSize ≠ 0 then
      { c3 with minw := size.base_width, minh := size.base_height }
    else { c3 with minw := 0, minh := 0 }
  let c5 : Client :=
    if flags &&& PAspect ≠ 0 then
      { c4 with mina := Flt.divInt size.min_aspect_y size.min_aspect_x,
                maxa := Flt.divInt size.max_aspect_x size.max_aspect_y }
    else { c4 with maxa := 0, mina := 0 }
  let c6 : Client :=
    { c5 with isfixed := (c5.maxw != 0 && c5.maxh != 0 && c5.maxw == c5.minw
                           && c5.maxh == c5.minh) }
  s.setCl c { c6 with hintsvalid := true }

/-- The two position statements of `applysizehints` for one axis, on the
position `p` and the size `d` (already at least 1): with `interact` against the
screen size `screen`, else against the work area `lo .. lo + len`; `outer` is
`WIDTH(c)` or `HEIGHT(c)` of the stored geometry.  For the x axis:
`if (*x > sw) *x = sw - WIDTH(c); if (*x + *w + 2 * c->bw < 0) *x = 0;` or
`if (*x >= m->wx + m->ww) *x = m->wx + m->ww - WIDTH(c);
if (*x + *w + 2 * c->bw <= m->wx) *x = m->wx;`. -/
def clampAxis (interact : Bool) (screen lo len outer bw p d : Int) : Int :=
  let p1 :=
    if interact then (if p > screen then screen - outer else p)
    else (if p ≥ lo + len then lo + len - outer else p)
  if interact then (if p1 + d + 2 * bw < 0 then 0 else p1)
  else (if p1 + d + 2 * bw ≤ lo then lo else p1)

/-- The two size floors of `applysizehints` for one axis: `v = MAX(1, v)` at
the start and `if (v < bh) v = bh;` after the position statements. -/
def floorSize (bh v : Int) : Int :=
  if max 1 v < bh then bh else max 1 v

/-- The first part of `applysizehints` (up to `if (*w < bh) *w = bh;`): the
floor of 1 on `w` and `h`, the position clamps against the screen (`interact`)
or the work area of `c->mon`, and the floor of the bar height.  The statements
for the two axes are independent of each other. -/
def clampRect (s : State) (c : Nat) (x y w h : Int) (interact : Bool) :
    Int × Int × Int × Int :=
  let m := s.mon (s.cl c).mon
  let c0 := s.cl c
  (clampAxis interact s.sw m.wx m.ww (WIDTH c0) c0.bw x (max 1 w),
   clampAxis interact s.sh m.wy m.wh (HEIGHT c0) c0.bw y (max 1 h),
   floorSize s.bh w, floorSize s.bh h)

/-- The guard of the size-hint block of `applysizehints`:
`resizehints || c->isfloating || !c->mon->lt[c->mon->sellt]->arrange`. -/
def hintsApply (cfg : Config) (s : State) (c : Nat) : Bool :=
  cfg.resizehints || (s.cl c).isfloating ||
    ((s.mon (s.cl c).mon).curlt.arrange == none)

/-- The aspect block of `applysizehints` ("adjust for aspect limits"):
`if (c->mina > 0 && c->maxa > 0) { if (c->maxa < (float)*w / *h)
*w = *h * c->maxa + 0.5; else if (c->mina < (float)*h / *w)
*h = *w * c->mina + 0.5; }`. -/
def aspectAdjust (c1 : Client) (w h : Int) : Int × Int :=
  if c1.mina > 0 ∧ c1.maxa > 0 then
    if c1.maxa < Flt.divInt w h then (Flt.mulAddHalf h c1.maxa, h)
    else if c1.mina < Flt.divInt h w then (w, Flt.mulAddHalf w c1.mina)
    else (w, h)
  else (w, h)

/-- The increment step of `applysizehints`: `if (inc) v -= v % inc;` with the
truncating remainder of C. -/
def incAdjust (v inc : Int) : Int :=
  if inc ≠ 0 then v - Int.tmod v inc else v

/-- The last step of `applysizehints` ("restore base dimensions"):
`v = MAX(v + base, min); if (max) v = MIN(v, max);`. -/
def restoreBase (v base minv maxv : Int) : Int :=
  if maxv ≠ 0 then min (max (v + base) minv) maxv else max (v + base) minv

/-- The size-hint block of `applysizehints` on `(w, h)`, for the client record
`c1` with its hints refreshed. -/
def hintSize (c1 : Client) (w h : Int) : Int × Int :=
  let baseismin : Bool := c1.basew == c1.minw && c1.baseh == c1.minh
  let a := aspectAdjust c1 (if !baseismin then w - c1.basew else w)
    (if !baseismin then h - c1.baseh else h)
  (restoreBase (incAdjust (if baseismin then a.1 - c1.basew else a.1) c1.incw)
      c1.basew c1.minw c1.maxw,
   restoreBase (incAdjust (if baseismin then a.2 - c1.baseh else a.2) c1.inch)
      c1.baseh c1.minh c1.maxh)

/-- The state after `applysizehints`: the hints are refreshed when the
size-hint block runs and they are stale. -/
def hintState (cfg : Config) (s : State) (c : Nat) : State :=
  if hintsApply cfg s c && !(s.cl c).hintsvalid then updatesizehints s c else s

/-- The rectangle `applysizehints` leaves in `*x, *y, *w, *h`. -/
def hintRect (cfg : Config) (s : State) (c : Nat) (x y w h : Int) (interact : Bool) :
    Int × Int × Int × Int :=
  let r := clampRect s c x y w h interact
  if hintsApply cfg s c then
    (r.1, r.2.1, hintSize ((hintState cfg s c).cl c) r.2.2.1 r.2.2.2)
  else r

/-- `applysizehints`: the state after the call (the hints may have been
refreshed), the adjusted `(x, y, w, h)` and the returned flag. -/
def applysizehints (cfg : Config) (s : State) (c : Nat) (x y w h : Int)
    (interact : Bool) : State × (Int × Int × Int × Int) × Bool :=
  let s1 := hintState cfg s c
  let r := hintRect cfg s c x y w h interact
  let c1 := s1.cl c
  (s1, r, decide (r.1 ≠ c1.x ∨ r.2.1 ≠ c1.y ∨ r.2.2.1 ≠ c1.w ∨ r.2.2.2 ≠ c1.h))

/-- `resizeclient`: record the old geometry, write the new one. -/
def resizeclient (s : State) (c : Nat) (x y w h : Int) : State :=
  let c0 := s.cl c
  s.setCl c { c0 with oldx := c0.x, x := x, oldy := c0.y, y := y,
                      oldw := c0.w, w := w, oldh := c0.h, h := h }

/-- `resize`: `applysizehints`, then `resizeclient` when it returned true. -/
def resize (cfg : Config) (s : State) (c : Nat) (x y w h : Int)
    (interact : Bool) : State :=
  let r := applysizehints cfg s c x y w h interact
  if r.2.2 then resizeclient r.1 c r.2.1.1 r.2.1.2.1 r.2.1.2.2.1 r.2.1.2.2.2
  else r.1

/-! ## The two lists of a monitor -/

/-- `wintoclient`: the managed client of window `w`, looked up through the
`clients` lists of all monitors. -/
def wintoclient (s : State) (w : Nat) : Option Nat :=
  if (List.range s.nmons).any (fun i => (s.mon i).clients.contains w) then some w
  else none

/-- `attach`: `c` becomes the head of `c->mon->clients`. -/
def attach (s : State) (c : Nat) : State :=
  let m := (s.cl c).mon
  s.setMon m { s.mon m with clients := c :: (s.mon m).clients }

/-- `attachstack`: `c` becomes the head of `c->mon->stack`. -/
def attachstack (s : State) (c : Nat) : State :=
  let m := (s.cl c).mon
  s.setMon m { s.mon m with stack := c :: (s.mon m).stack }

/-- `detach`: unlink `c` from `c->mon->clients`.  All callers pass a client
that is in the list; a list holds a client at most once. -/
def detach (s : State) (c : Nat) : State :=
  let m := (s.cl c).mon
  s.setMon m { s.mon m with clients := (s.mon m).clients.erase c }

/-- `detachstack`: unlink `c` from `c->mon->stack`; when `c` was `c->mon->sel`
the first visible client of the remaining stack (or `NULL`) is selected. -/
def detachstack (s : State) (c : Nat) : State :=
  let m := (s.cl c).mon
  let s1 := s.setMon m { s.mon m with stack := (s.mon m).stack.erase c }
  if (s1.mon m).sel = some c then
    s1.setMon m { s1.mon m with sel := (s1.mon m).stack.find? (ISVISIBLE s1) }
  else s1

/-- `nexttiled`: the part of a client list that starts at its first client
that is neither floating nor invisible. -/
def nexttiled (s : State) (l : List Nat) : List Nat :=
  l.dropWhile (fun c => (s.cl c).isfloating || !ISVISIBLE s c)

/-! ## The intrusive lists in memory -/

/-- A singly linked list as `dwm.c` stores it: the head pointer
(`mon->clients` or `mon->stack`) and the link field of every client (`next` or
`snext`). -/
structure Links where
  head : Option Nat
  next : Nat → Option Nat

/-- `*tc` for a cursor `tc` of type `Client **`: the cursor `none` is the
address of the head pointer, `some p` is the address of the link field of
`p`. -/
def Links.deref (k : Links) (tc : Option Nat) : Option Nat :=
  match tc with
  | none => k.head
  | some p => k.next p

/-- `*tc = v`. -/
def Links.store (k : Links) (tc : Option Nat) (v : Option Nat) : Links :=
  match tc with
  | none => { k with head := v }
  | some p => { k with next := Function.update k.next p v }

/-- The loop of `detach` and `detachstack` from the cursor `tc` on:
`for (...; *tc && *tc != c; tc = &(*tc)->next);`.  The result is the cursor the
loop stops at, or `none` when the loop tests its condition more than `fuel`
times. -/
def Links.walk (k : Links) (c : Nat) : Nat → Option Nat → Option (Option Nat)
  | 0, _ => none
  | fuel + 1, tc =>
    match k.deref tc with
    | none => some tc
    | some p => if p = c then some tc else Links.walk k c fuel (some p)

/-- The unlinking of `detach` and `detachstack`: the loop from the address of
the head pointer, then `*tc = c->next;`. -/
def Links.unlink (k : Links) (c : Nat) (fuel : Nat) : Option Links :=
  match Links.walk k c fuel none with
  | none => none
  | some tc => some (k.store tc (k.next c))

/-- The pointer `p` starts a `NULL`-terminated chain of links through the
clients of `l`, in this order. -/
def Chain (next : Nat → Option Nat) : Option Nat → List Nat → Prop
  | p, [] => p = none
  | p, x :: xs => p = some x ∧ Chain next (next x) xs

/-- The linked list `k` holds the clients of `l`, in this order. -/
def Links.Holds (k : Links) (l : List Nat) : Prop := Chain k.next k.head l

instance Chain.decidable (next : Nat → Option Nat) :
    (l : List Nat) → (p : Option Nat) → Decidable (Chain next p l)
  | [], p => inferInstanceAs (Decidable (p = none))
  | x :: xs, _ => @instDecidableAnd _ _ _ (Chain.decidable next xs (next x))

instance (k : Links) (l : List Nat) : Decidable (k.Holds l) := by
  unfold Links.Holds; infer_instance

/-- The list a linked list holds, read from the pointer `p` on; `none` when
more than `fuel` clients are linked. -/
def Links.read (k : Links) : Nat → Option Nat → Option (List Nat)
  | _, none => some []
  | 0, some _ => none
  | fuel + 1, some x =>
    match Links.read k fuel (k.next x) with
    | some l => some (x :: l)
    | none => none

/-! ## Layouts -/

/-- One call `resize(c, x, y, w, h, 0)` of a layout function: the client, the
rectangle requested for it, and the rectangle `applysizehints` made of it
(`ax, ay, aw, ah`), which is the geometry the client has after the call. -/
structure Placement where
  c : Nat
  x : Int
  y : Int
  w : Int
  h : Int
  ax : Int
  ay : Int
  aw : Int
  ah : Int
  deriving DecidableEq, Repr

/-- The `Placement` of the call `resize(c, x, y, w, h, 0)` in state `s`. -/
def placement (cfg : Config) (s : State) (c : Nat) (x y w h : Int) : Placement :=
  let r := hintRect cfg s c x y w h false
  { c := c, x := x, y := y, w := w, h := h,
    ax := r.1, ay := r.2.1, aw := r.2.2.1, ah := r.2.2.2 }

/-- The loop of `monocle` over `nexttiled`: every tiled client is resized to
the work area.  The result is the state and the calls of `resize`, in order. -/
def monocleLoop (cfg : Config) (m : Nat) : List Nat → State → State × List Placement
  | [], s => (s, [])
  | c :: rest, s =>
    if (s.cl c).isfloating || !ISVISIBLE s c then monocleLoop cfg m rest s
    else
      let mm := s.mon m
      let p := placement cfg s c mm.wx mm.wy (mm.ww - 2 * (s.cl c).bw)
        (mm.wh - 2 * (s.cl c).bw)
      let r := monocleLoop cfg m rest
        (resize cfg s c mm.wx mm.wy (mm.ww - 2 * (s.cl c).bw)
          (mm.wh - 2 * (s.cl c).bw) false)
      (r.1, p :: r.2)

/-- `monocle`, with the calls of `resize` it makes. -/
def monocleTrace (cfg : Config) (s : State) (m : Nat) : State × List Placement :=
  let n := ((s.mon m).clients.filter (ISVISIBLE s)).length
  let s1 :=
    if n > 0 then s.setMon m { s.mon m with ltsymbol := "[" ++ toString n ++ "]" }
    else s
  monocleLoop cfg m (s1.mon m).clients s1

/-- `monocle`. -/
def monocle (cfg : Config) (s : State) (m : Nat) : State := (monocleTrace cfg s m).1

/-- The clients `nexttiled` walks over on monitor `m`: those of `m->clients`
that are neither floating nor invisible, in list order. -/
def tiled (s : State) (m : Nat) : List Nat :=
  (s.mon m).clients.filter (fun c => !((s.cl c).isfloating || !ISVISIBLE s c))

/-- The number of tiled clients: the counting loop of `tile`. -/
def tileCount (s : State) (m : Nat) : Nat := (tiled s m).length

/-- The master width `mw` of `tile`:
`n > m->nmaster ? (m->nmaster ? m->ww * m->mfact : 0) : m->ww`.  In the
product `m->ww` is converted to `float`, the product is a `float`, and the
conversion to `unsigned int` truncates. -/
def tileMw (s : State) (m : Nat) : Int :=
  let mm := s.mon m
  if (tileCount s m : Int) > mm.nmaster then
    (if mm.nmaster ≠ 0 then truncQ (f32 (f32 mm.ww * mm.mfact)) else 0)
  else mm.ww

/-- The placing loop of `tile` over `nexttiled`, with the loop variables `i`,
`my`, `ty`; `n` and `mw` are fixed before the loop.  The result is the state
and the calls of `resize`, in order.  In C `i`, `n`, `h`, `mw`, `my`, `ty` are
`unsigned int`: the integers used here agree with them as long as `nmaster`
and `wh` are not negative and nothing leaves the 32-bit range (a negative
difference such as `h - 2 * c->bw` reaches `resize` as the same negative
`int`). -/
def tileLoop (cfg : Config) (m : Nat) (n : Nat) (mw : Int) :
    List Nat → Nat → Int → Int → State → State × List Placement
  | [], _, _, _, s => (s, [])
  | c :: rest, i, my, ty, s =>
    if (s.cl c).isfloating || !ISVISIBLE s c then
      tileLoop cfg m n mw rest i my ty s
    else
      let mm := s.mon m
      if (i : Int) < mm.nmaster then
        let h := (mm.wh - my) / (min (n : Int) mm.nmaster - i)
        let p := placement cfg s c mm.wx (mm.wy + my) (mw - 2 * (s.cl c).bw)
          (h - 2 * (s.cl c).bw)
        let s1 := resize cfg s c mm.wx (mm.wy + my) (mw - 2 * (s.cl c).bw)
          (h - 2 * (s.cl c).bw) false
        let my1 := if my + HEIGHT (s1.cl c) < mm.wh then my + HEIGHT (s1.cl c) else my
        let r := tileLoop cfg m n mw rest (i + 1) my1 ty s1
        (r.1, p :: r.2)
      else
        let h := (mm.wh - ty) / ((n : Int) - i)
        let p := placement cfg s c (mm.wx + mw) (mm.wy + ty)
          (mm.ww - mw - 2 * (s.cl c).bw) (h - 2 * (s.cl c).bw)
        let s1 := resize cfg s c (mm.wx + mw) (mm.wy + ty)
          (mm.ww - mw - 2 * (s.cl c).bw) (h - 2 * (s.cl c).bw) false
        let ty1 := if ty + HEIGHT (s1.cl c) < mm.wh then ty + HEIGHT (s1.cl c) else ty
        let r := tileLoop cfg m n mw rest (i + 1) my ty1 s1
        (r.1, p :: r.2)

/-- `tile`, with the calls of `resize` it makes. -/
def tileTrace (cfg : Config) (s : State) (m : Nat) : State × List Placement :=
  let n := tileCount s m
  if n = 0 then (s, [])
  else tileLoop cfg m n (tileMw s m) (s.mon m).clients 0 0 0 s

/-- `tile`. -/
def tile (cfg : Config) (s : State) (m : Nat) : State := (tileTrace cfg s m).1

/-- `showhide` along a stack list: visible clients that are floating (or
under the floating layout) and not fullscreen are resized to their own
geometry; moving windows on the X server is not modelled. -/
def showhide (cfg : Config) : List Nat → State → State
  | [], s => s
  | c :: rest, s =>
    if ISVISIBLE s c then
      let c0 := s.cl c
      if ((s.mon c0.mon).curlt.arrange == none || c0.isfloating)
          && !c0.isfullscreen then
        showhide cfg rest (resize cfg s c c0.x c0.y c0.w c0.h false)
      else showhide cfg rest s
    else showhide cfg rest s

/-- `arrangemon`, with the calls of `resize` its layout function makes. -/
def arrangemonTrace (cfg : Config) (s : State) (m : Nat) : State × List Placement :=
  let s1 := s.setMon m { s.mon m with ltsymbol := (s.mon m).curlt.symbol }
  match (s1.mon m).curlt.arrange with
  | some ArrangeFn.tile => tileTrace cfg s1 m
  | some ArrangeFn.monocle => monocleTrace cfg s1 m
  | none => (s1, [])

/-- `arrangemon`. -/
def arrangemon (cfg : Config) (s : State) (m : Nat) : State := (arrangemonTrace cfg s m).1

/-- `arrange(m)` for one monitor (`restack` only talks to the X server). -/
def arrange (cfg : Config) (s : State) (m : Nat) : State :=
  arrangemon cfg (showhide cfg (s.mon m).stack s) m

/-- The calls of `resize` the layout function makes in `arrange(m)`. -/
def arrangeTrace (cfg : Config) (s : State) (m : Nat) : List Placement :=
  (arrangemonTrace cfg (showhide cfg (s.mon m).stack s) m).2

/-- `arrange(NULL)`: `showhide` on every monitor, then `arrangemon` on every
monitor, in list order. -/
def arrangeAll (cfg : Config) (s : State) : State :=
  let s1 := (List.range s.nmons).foldl (fun t i => showhide cfg (t.mon i).stack t) s
  (List.range s1.nmons).foldl (fun t i => arrangemon cfg t i) s1

/-! ## Focus -/

/-- `seturgent`: the model part, `c->isurgent = urg`. -/
def seturgent (s : State) (c : Nat) (urg : Bool) : State :=
  s.setCl c { s.cl c with isurgent := urg }

/-- The first statement of `focus`: when `c` is `NULL` or not visible, the
first visible client of `selmon->stack` (or `NULL`) takes its place. -/
def focusTarget (s : State) (c : Option Nat) : Option Nat :=
  match c with
  | none => (s.mon s.selmon).stack.find? (ISVISIBLE s)
  | some w =>
    if !ISVISIBLE s w then (s.mon s.selmon).stack.find? (ISVISIBLE s) else some w

/-- `focus` (`unfocus`, `grabbuttons`, `setfocus` and `drawbars` only talk to
the X server). -/
def focus (s : State) (c : Option Nat) : State :=
  match focusTarget s c with
  | some w =>
    let s1 := if (s.cl w).mon ≠ s.selmon then { s with selmon := (s.cl w).mon } else s
    let s2 := if (s1.cl w).isurgent then seturgent s1 w false else s1
    let s3 := attachstack (detachstack s2 w) w
    s3.setMon s3.selmon { s3.mon s3.selmon with sel := some w }
  | none => s.setMon s.selmon { s.mon s.selmon with sel := none }

/-- `dirtomon`. -/
def dirtomon (s : State) (dir : Int) : Nat :=
  if dir > 0 then (if s.selmon + 1 < s.nmons then s.selmon + 1 else 0)
  else if s.selmon = 0 then s.nmons - 1
  else s.selmon - 1

/-- `focusmon`. -/
def focusmon (s : State) (dir : Int) : State :=
  if s.nmons ≤ 1 then s
  else
    let m := dirtomon s dir
    if m = s.selmon then s
    else focus { s with selmon := m } none

/-- The client `c` the two loops of `focusstack` find, from the selected
client `sel`: forward the first visible client after `sel`, else the first
visible client of the list; backward the last visible client before `sel`,
else the last visible client from `sel` on. -/
def focusstackTarget (s : State) (sel : Nat) (dir : Int) : Option Nat :=
  let l := (s.mon s.selmon).clients
  if dir > 0 then
    match ((l.dropWhile (fun i => i != sel)).drop 1).find? (ISVISIBLE s) with
    | some c => some c
    | none => l.find? (ISVISIBLE s)
  else
    match ((l.takeWhile (fun i => i != sel)).filter (ISVISIBLE s)).getLast? with
    | some c => some c
    | none => ((l.dropWhile (fun i => i != sel)).filter (ISVISIBLE s)).getLast?

/-- `focusstack`. -/
def focusstack (cfg : Config) (s : State) (dir : Int) : State :=
  match (s.mon s.selmon).sel with
  | none => s
  | some sel =>
    if (s.cl sel).isfullscreen && cfg.lockfullscreen then s
    else
      match focusstackTarget s sel dir with
      | some c => focus s (some c)
      | none => s

/-! ## Tags and views -/

/-- `view`. -/
def view (cfg : Config) (s : State) (ui : Nat) : State :=
  let m := s.mon s.selmon
  if ui &&& TAGMASK cfg = m.tagset m.seltags then s
  else
    let m1 := { m with seltags := m.seltags ^^^ 1 }
    let m2 := if ui &&& TAGMASK cfg ≠ 0 then m1.setTagset m1.seltags (ui &&& TAGMASK cfg) else m1
    let s1 := s.setMon s.selmon m2
    arrange cfg (focus s1 none) (focus s1 none).selmon

/-- `toggleview`. -/
def toggleview (cfg : Config) (s : State) (ui : Nat) : State :=
  let m := s.mon s.selmon
  let newtagset := m.tagset m.seltags ^^^ (ui &&& TAGMASK cfg)
  if newtagset ≠ 0 then
    let s1 := s.setMon s.selmon (m.setTagset m.seltags newtagset)
    arrange cfg (focus s1 none) (focus s1 none).selmon
  else s

/-- `tag`. -/
def tag (cfg : Config) (s : State) (ui : Nat) : State :=
  match (s.mon s.selmon).sel with
  | none => s
  | some sel =>
    if ui &&& TAGMASK cfg ≠ 0 then
      let s1 := s.setCl sel { s.cl sel with tags := ui &&& TAGMASK cfg }
      arrange cfg (focus s1 none) (focus s1 none).selmon
    else s

/-- `toggletag`. -/
def toggletag (cfg : Config) (s : State) (ui : Nat) : State :=
  match (s.mon s.selmon).sel with
  | none => s
  | some sel =>
    let newtags := (s.cl sel).tags ^^^ (ui &&& TAGMASK cfg)
    if newtags ≠ 0 then
      let s1 := s.setCl sel { s.cl sel with tags := newtags }
      arrange cfg (focus s1 none) (focus s1 none).selmon
    else s

/-! ## Layout parameters -/

/-- `incnmaster`. -/
def incnmaster (cfg : Config) (s : State) (i : Int) : State :=
  let m := s.mon s.selmon
  let s1 := s.setMon s.selmon { m with nmaster := max (m.nmaster + i) 0 }
  arrange cfg s1 s1.selmon

/-- The value `f` of `setmfact`:
`f = arg->f < 1.0 ? arg->f + selmon->mfact : arg->f - 1.0`.  The sum is a sum
of two `float`s; the difference is taken in `double` (`1.0` is a `double`)
and rounded to `float` by the assignment. -/
def mfactTarget (mfact d : ℚ) : ℚ :=
  if d < 1 then f32 (d + mfact) else f32 (f64 (d - 1))

/-- `setmfact`; the argument `none` is a `NULL` argument, `some d` the value of
`arg->f`.  In `f < 0.05 || f > 0.95` the `float` `f` is compared with the
`double` constants, which are `f64 (1/20)` and `f64 (19/20)`. -/
def setmfact (cfg : Config) (s : State) (arg : Option ℚ) : State :=
  match arg with
  | none => s
  | some d =>
    let m := s.mon s.selmon
    if m.curlt.arrange == none then s
    else if mfactTarget m.mfact d < f64 (1 / 20) ∨
        mfactTarget m.mfact d > f64 (19 / 20) then s
    else
      let s1 := s.setMon s.selmon { m with mfact := mfactTarget m.mfact d }
      arrange cfg s1 s1.selmon

/-- The first three statements of `setlayout` on the record of `selmon`: the
flip of `sellt`, the store into `lt[sellt]` and the copy of the symbol.  The
argument `none` is a `NULL` argument or a `NULL` `arg->v`.  A `Layout *` is the
layout entry it points to: the comparison of pointers is the comparison of the
entries, which agree as long as the entries of the layout table are pairwise
different. -/
def setlayoutMon (m : Monitor) (arg : Option Layout) : Monitor :=
  let m1 : Monitor :=
    if arg ≠ some (m.lt m.sellt) then { m with sellt := m.sellt ^^^ 1 } else m
  let m2 : Monitor :=
    match arg with
    | some l => m1.setLt m1.sellt l
    | none => m1
  { m2 with ltsymbol := (m2.lt m2.sellt).symbol }

/-- `setlayout` (`drawbar` only talks to the X server). -/
def setlayout (cfg : Config) (s : State) (arg : Option Layout) : State :=
  let s1 := s.setMon s.selmon (setlayoutMon (s.mon s.selmon) arg)
  match (s1.mon s1.selmon).sel with
  | some _ => arrange cfg s1 s1.selmon
  | none => s1

/-! ## Fullscreen, window type, hints -/

/-- `setfullscreen`. -/
def setfullscreen (cfg : Config) (s : State) (c : Nat) (fullscreen : Bool) : State :=
  let c0 := s.cl c
  if fullscreen && !c0.isfullscreen then
    let s1 := s.setCl c { c0 with isfullscreen := true, oldstate := c0.isfloating,
                                  oldbw := c0.bw, bw := 0, isfloating := true }
    let m := s1.mon (s1.cl c).mon
    resizeclient s1 c m.mx m.my m.mw m.mh
  else if !fullscreen && c0.isfullscreen then
    let s1 := s.setCl c { c0 with isfullscreen := false, isfloating := c0.oldstate,
                                  bw := c0.oldbw, x := c0.oldx, y := c0.oldy,
                                  w := c0.oldw, h := c0.oldh }
    let c1 := s1.cl c
    let s2 := resizeclient s1 c c1.x c1.y c1.w c1.h
    arrange cfg s2 (s2.cl c).mon
  else s

/-- The state of the second branch of `setfullscreen` (leaving fullscreen)
after its `resizeclient`, before `arrange(c->mon)`. -/
def exitFullscreen (s : State) (c : Nat) : State :=
  let c0 := s.cl c
  let s1 := s.setCl c { c0 with isfullscreen := false, isfloating := c0.oldstate,
                                bw := c0.oldbw, x := c0.oldx, y := c0.oldy,
                                w := c0.oldw, h := c0.oldh }
  let c1 := s1.cl c
  resizeclient s1 c c1.x c1.y c1.w c1.h

/-- `updatewindowtype`; `fullscreen` and `dialog` say whether the window's
`_NET_WM_STATE` is the fullscreen atom and its `_NET_WM_WINDOW_TYPE` the
dialog atom. -/
def updatewindowtype (cfg : Config) (s : State) (c : Nat) (fullscreen dialog : Bool) :
    State :=
  let s1 := if fullscreen then setfullscreen cfg s c true else s
  if dialog then s1.setCl c { s1.cl c with isfloating := true } else s1

/-- `XWMHints` as read by `updatewmhints`: the urgency flag, whether the input
hint is given, and its value. -/
structure XWMHints where
  urgent : Bool
  inputHint : Bool
  input : Bool
  deriving DecidableEq, Repr

/-- `updatewmhints`; `none` when `XGetWMHints` returns `NULL`. -/
def updatewmhints (s : State) (c : Nat) (wmh : Option XWMHints) : State :=
  match wmh with
  | none => s
  | some hints =>
    let s1 :=
      if (s.mon s.selmon).sel = some c && hints.urgent then s
      else s.setCl c { s.cl c with isurgent := hints.urgent }
    s1.setCl c { s1.cl c with neverfocus := if hints.inputHint then !hints.input else false }

/-! ## Floating, client messages, configure requests, properties -/

/-- `togglefloating`. -/
def togglefloating (cfg : Config) (s : State) : State :=
  match (s.mon s.selmon).sel with
  | none => s
  | some c =>
    if (s.cl c).isfullscreen then s
    else
      let s1 := s.setCl c { s.cl c with
        isfloating := !(s.cl c).isfloating || (s.cl c).isfixed }
      let c1 := s1.cl c
      let s2 := if c1.isfloating then resize cfg s1 c c1.x c1.y c1.w c1.h false else s1
      arrange cfg s2 s2.selmon

/-- The atoms `clientmessage` compares with (`netatom[NetWMState]`,
`netatom[NetActiveWindow]`, `netatom[NetWMFullscreen]`), interned by `setup`. -/
structure Atoms where
  netWMState : Int
  netActiveWindow : Int
  netWMFullscreen : Int

/-- `XClientMessageEvent`: the fields `clientmessage` reads (`l0`, `l1`, `l2`
are `data.l[0..2]`). -/
structure XClientMessageEvent where
  window : Nat
  message_type : Int
  l0 : Int
  l1 : Int
  l2 : Int

/-- `clientmessage`. -/
def clientmessage (cfg : Config) (atoms : Atoms) (s : State) (cme : XClientMessageEvent) :
    State :=
  match wintoclient s cme.window with
  | none => s
  | some c =>
    if cme.message_type = atoms.netWMState then
      if cme.l1 = atoms.netWMFullscreen ∨ cme.l2 = atoms.netWMFullscreen then
        setfullscreen cfg s c (cme.l0 == 1 || (cme.l0 == 2 && !(s.cl c).isfullscreen))
      else s
    else if cme.message_type = atoms.netActiveWindow then
      if (s.mon s.selmon).sel ≠ some c ∧ (s.cl c).isurgent = false then seturgent s c true
      else s
    else s

def CWX : Nat := 1
def CWY : Nat := 2
def CWWidth : Nat := 4
def CWHeight : Nat := 8
def CWBorderWidth : Nat := 16

/-- `XConfigureRequestEvent`: the fields `configurerequest` reads. -/
structure XConfigureRequestEvent where
  window : Nat
  value_mask : Nat
  x : Int
  y : Int
  width : Int
  height : Int
  border_width : Int

/-- `configurerequest`: the model part, for a managed window (for an unmanaged
window the request is passed on to the X server).  The two halvings are the
truncating division of C. -/
def configurerequest (s : State) (ev : XConfigureRequestEvent) : State :=
  match wintoclient s ev.window with
  | none => s
  | some c =>
    let c0 := s.cl c
    if ev.value_mask &&& CWBorderWidth ≠ 0 then s.setCl c { c0 with bw := ev.border_width }
    else if c0.isfloating || (s.mon s.selmon).curlt.arrange == none then
      let m := s.mon c0.mon
      let c1 : Client :=
        if ev.value_mask &&& CWX ≠ 0 then { c0 with oldx := c0.x, x := m.mx + ev.x } else c0
      let c2 : Client :=
        if ev.value_mask &&& CWY ≠ 0 then { c1 with oldy := c1.y, y := m.my + ev.y } else c1
      let c3 : Client :=
        if ev.value_mask &&& CWWidth ≠ 0 then { c2 with oldw := c2.w, w := ev.width } else c2
      let c4 : Client :=
        if ev.value_mask &&& CWHeight ≠ 0 then { c3 with oldh := c3.h, h := ev.height } else c3
      let c5 : Client :=
        if c4.x + c4.w > m.mx + m.mw ∧ c4.isfloating = true then
          { c4 with x := m.mx + (Int.tdiv m.mw 2 - Int.tdiv (WIDTH c4) 2) }
        else c4
      let c6 : Client :=
        if c5.y + c5.h > m.my + m.mh ∧ c5.isfloating = true then
          { c5 with y := m.my + (Int.tdiv m.mh 2 - Int.tdiv (HEIGHT c5) 2) }
        else c5
      s.setCl c c6
    else s

/-- The atom of a `PropertyNotify` event, as far as `propertynotify`
distinguishes it for a client window. -/
inductive PropAtom where
  | wmTransientFor
  | wmNormalHints
  | wmHints
  | netWMWindowType
  | other
  deriving DecidableEq, Repr

/-- `propertynotify` for a window other than the root window: `deleted` is
`ev->state == PropertyDelete`, `trans` the window of `XGetTransientForHint`
(`none` when the call fails), `wmh`, `fullscreen` and `dialog` what
`updatewmhints` and `updatewindowtype` read.  Titles are not part of the
model. -/
def propertynotify (cfg : Config) (s : State) (w : Nat) (deleted : Bool) (atom : PropAtom)
    (trans : Option Nat) (wmh : Option XWMHints) (fullscreen dialog : Bool) : State :=
  if deleted then s
  else
    match wintoclient s w with
    | none => s
    | some c =>
      match atom with
      | PropAtom.wmTransientFor =>
        if !(s.cl c).isfloating then
          match trans with
          | some tw =>
            let s1 := s.setCl c { s.cl c with isfloating := (wintoclient s tw).isSome }
            if (s1.cl c).isfloating then arrange cfg s1 (s1.cl c).mon else s1
          | none => s
        else s
      | PropAtom.wmNormalHints => s.setCl c { s.cl c with hintsvalid := false }
      | PropAtom.wmHints => updatewmhints s c wmh
      | PropAtom.netWMWindowType => updatewindowtype cfg s c fullscreen dialog
      | PropAtom.other => s

/-! ## Managing and unmanaging windows -/

/-- `XWindowAttributes`: the fields `manage` reads. -/
structure XWindowAttributes where
  x : Int
  y : Int
  width : Int
  height : Int
  border_width : Int
  deriving DecidableEq, Repr

/-- What `manage` reads back from the X server and from the rule table:
`trans` is the window of `XGetTransientForHint` (`none` when the call fails or
gives `None`), `rules` the rules of `config.h` that match the window, in table
order, then the two window-type flags and the WM hints. -/
structure ManageInput where
  trans : Option Nat
  rules : List Rule
  fullscreen : Bool
  dialog : Bool
  wmhints : Option XWMHints

/-- The record `ecalloc` returns: every field zero. -/
def zeroClient : Client :=
  { mina := 0, maxa := 0, x := 0, y := 0, w := 0, h := 0, oldx := 0, oldy := 0,
    oldw := 0, oldh := 0, basew := 0, baseh := 0, incw := 0, inch := 0, maxw := 0,
    maxh := 0, minw := 0, minh := 0, hintsvalid := false, bw := 0, oldbw := 0,
    tags := 0, isfixed := false, isfloating := false, isurgent := false,
    neverfocus := false, oldstate := false, isfullscreen := false, mon := 0 }

/-- `applyrules`, over the rules that match the client. -/
def applyrules (cfg : Config) (s : State) (c : Nat) (rules : List Rule) : State :=
  let c0 : Client := { s.cl c with isfloating := false, tags := 0 }
  let c1 : Client := rules.foldl (fun a r =>
      let a1 : Client := { a with isfloating := r.isfloating, tags := a.tags ||| r.tags }
      match (List.range s.nmons).find? (fun i => (s.mon i).num == r.monitor) with
      | some m => { a1 with mon := m }
      | none => a1) c0
  let t := if c1.tags &&& TAGMASK cfg ≠ 0 then c1.tags &&& TAGMASK cfg
           else (s.mon c1.mon).curtags
  s.setCl c { c1 with tags := t }

/-- The start of `manage`: the zeroed record with the window's geometry, put
on the monitor and tags of its transient-for parent when that is a managed
client, else on `selmon` and through `applyrules`. -/
def manageNew (cfg : Config) (s : State) (w : Nat) (wa : XWindowAttributes)
    (inp : ManageInput) : State :=
  let c0 : Client :=
    { zeroClient with x := wa.x, oldx := wa.x, y := wa.y, oldy := wa.y,
                      w := wa.width, oldw := wa.width, h := wa.height,
                      oldh := wa.height, oldbw := wa.border_width }
  let t : Option Nat := match inp.trans with
    | some tw => wintoclient s tw
    | none => none
  match t with
  | some t => s.setCl w { c0 with mon := (s.cl t).mon, tags := (s.cl t).tags }
  | none => applyrules cfg (s.setCl w { c0 with mon := s.selmon }) w inp.rules

/-- The next four statements of `manage`: the position is moved into the work
area of `c->mon`, the border width is `borderpx`. -/
def manageGeom (cfg : Config) (s : State) (w : Nat) : State :=
  let m := s.mon (s.cl w).mon
  let c1 := s.cl w
  let c2 : Client :=
    if c1.x + WIDTH c1 > m.wx + m.ww then { c1 with x := m.wx + m.ww - WIDTH c1 } else c1
  let c3 : Client :=
    if c2.y + HEIGHT c2 > m.wy + m.wh then { c2 with y := m.wy + m.wh - HEIGHT c2 } else c2
  s.setCl w { c3 with x := max c3.x m.wx, y := max c3.y m.wy, bw := cfg.borderpx }

/-- The floating state `manage` gives a client that no rule made floating:
`c->isfloating = c->oldstate = trans != None || c->isfixed`. -/
def manageFloat (s : State) (w : Nat) (trans : Option Nat) : State :=
  let c5 := s.cl w
  if !c5.isfloating then
    s.setCl w { c5 with isfloating := (trans.isSome || c5.isfixed),
                        oldstate := (trans.isSome || c5.isfixed) }
  else s

/-- The first half of `manage`: the new client record, up to the point where
it is linked into the lists. -/
def manageInit (cfg : Config) (s : State) (w : Nat) (wa : XWindowAttributes)
    (inp : ManageInput) : State :=
  let s2 := manageGeom cfg (manageNew cfg s w wa inp) w
  let s3 := updatewindowtype cfg s2 w inp.fullscreen inp.dialog
  let s4 := updatesizehints s3 w
  let s5 := updatewmhints s4 w inp.wmhints
  manageFloat s5 w inp.trans

/-- `manage`. -/
def manage (cfg : Config) (s : State) (w : Nat) (wa : XWindowAttributes)
    (inp : ManageInput) : State :=
  let s6 := manageInit cfg s w wa inp
  let s7 := attachstack (attach s6 w) w
  let s8 := { s7 with netClientList := s7.netClientList ++ [w] }
  let s9 := s8.setMon (s8.cl w).mon { s8.mon (s8.cl w).mon with sel := some w }
  let s10 := arrange cfg s9 (s9.cl w).mon
  focus s10 none

/-- `maprequest` for a window whose attributes could be read and that is not
override-redirect: `manage` unless the window is managed already. -/
def maprequest (cfg : Config) (s : State) (w : Nat) (wa : XWindowAttributes)
    (inp : ManageInput) : State :=
  if wintoclient s w = none then manage cfg s w wa inp else s

/-- `updateclientlist`: the property is rebuilt from the `clients` lists. -/
def updateclientlist (s : State) : State :=
  { s with netClientList := ((List.range s.nmons).map (fun i => (s.mon i).clients)).flatten }


/-- `unmanage`. -/
def unmanage (cfg : Config) (s : State) (c : Nat) : State :=
  let m := (s.cl c).mon
  let s1 := detachstack (detach s c) c
  let s2 := focus s1 none
  let s3 := updateclientlist s2
  arrange cfg s3 m

/-- `sendmon`. -/
def sendmon (cfg : Config) (s : State) (c : Nat) (m : Nat) : State :=
  if (s.cl c).mon = m then s
  else
    let s1 := detachstack (detach s c) c
    let s2 := s1.setCl c { s1.cl c with mon := m, tags := (s1.mon m).curtags }
    let s3 := attachstack (attach s2 c) c
    arrangeAll cfg (focus s3 none)

/-- `tagmon`. -/
def tagmon (cfg : Config) (s : State) (dir : Int) : State :=
  match (s.mon s.selmon).sel with
  | none => s
  | some sel => if s.nmons ≤ 1 then s else sendmon cfg s sel (dirtomon s dir)

/-- `pop`. -/
def pop (cfg : Config) (s : State) (c : Nat) : State :=
  let s1 := focus (attach (detach s c) c) (some c)
  arrange cfg s1 (s1.cl c).mon

/-- `zoom`. -/
def zoom (cfg : Config) (s : State) : State :=
  match (s.mon s.selmon).sel with
  | none => s
  | some c =>
    if (s.mon s.selmon).curlt.arrange == none || (s.cl c).isfloating then s
    else
      match nexttiled s (s.mon s.selmon).clients with
      | t :: rest =>
        if c = t then
          match nexttiled s rest with
          | [] => s
          | t2 :: _ => pop cfg s t2
        else pop cfg s c
      | [] => pop cfg s c

/-! ## Monitors -/

/-- `createmon`: a zeroed monitor with both tag sets `1` and the configured
defaults (`layout1` is `layouts[1 % LENGTH(layouts)]`). -/
def createmon (cfg : Config) : Monitor :=
  { ltsymbol := cfg.layout0.symbol, mfact := cfg.mfact, nmaster := cfg.nmaster, num := 0,
    barY := 0, mx := 0, my := 0, mw := 0, mh := 0, wx := 0, wy := 0, ww := 0, wh := 0,
    seltags := 0, sellt := 0, tagset0 := 1, tagset1 := 1, showbar := cfg.showbar,
    topbar := cfg.topbar, clients := [], sel := none, stack := [], barwin := 0,
    lt0 := cfg.layout0, lt1 := cfg.layout1 }

/-- `updatebarpos`, for the bar height `bh`. -/
def updatebarpos (bh : Int) (m : Monitor) : Monitor :=
  let m1 : Monitor := { m with wy := m.my, wh := m.mh }
  if m1.showbar then
    let m2 : Monitor := { m1 with wh := m1.wh - bh }
    let m3 : Monitor := { m2 with barY := if m2.topbar then m2.wy else m2.wy + m2.wh }
    { m3 with wy := if m3.topbar then m3.wy + bh else m3.wy }
  else { m1 with barY := -bh }

/-- `INTERSECT(x, y, w, h, m)`: the area the rectangle shares with the work
area of `m`. -/
def INTERSECT (x y w h : Int) (m : Monitor) : Int :=
  max 0 (min (x + w) (m.wx + m.ww) - max x m.wx) *
    max 0 (min (y + h) (m.wy + m.wh) - max y m.wy)

/-- The loop of `recttomon` over the monitors of the list, on the pair
`(r, area)`. -/
def recttomonLoop (s : State) (x y w h : Int) : List Nat → Nat × Int → Nat × Int
  | [], ra => ra
  | m :: rest, ra =>
    if INTERSECT x y w h (s.mon m) > ra.2 then
      recttomonLoop s x y w h rest (m, INTERSECT x y w h (s.mon m))
    else recttomonLoop s x y w h rest ra

/-- `recttomon`. -/
def recttomon (s : State) (x y w h : Int) : Nat :=
  (recttomonLoop s x y w h (List.range s.nmons) (s.selmon, 0)).1

/-- The last statement of `movemouse` and of `resizemouse`, for the dragged
client `c`: `if ((m = recttomon(c->x, c->y, c->w, c->h)) != selmon)
{ sendmon(c, m); selmon = m; focus(NULL); }`. -/
def dragRelease (cfg : Config) (s : State) (c : Nat) : State :=
  let m := recttomon s (s.cl c).x (s.cl c).y (s.cl c).w (s.cl c).h
  if m ≠ s.selmon then
    let s1 := sendmon cfg s c m
    focus { s1 with selmon := m } none
  else s

/-! ## Reachable states -/

/-- A state right after `setup`: monitors as `createmon` leaves them (no
clients, both tag sets `1`), `_NET_CLIENT_LIST` deleted. -/
def Initial (s : State) : Prop :=
  0 < s.nmons ∧ s.selmon < s.nmons ∧ s.netClientList = [] ∧
  ∀ i, i < s.nmons →
    (s.mon i).clients = [] ∧ (s.mon i).stack = [] ∧ (s.mon i).sel = none ∧
    (s.mon i).seltags = 0 ∧ (s.mon i).tagset0 = 1 ∧ (s.mon i).tagset1 = 1

/-- One handler or user action, with the arguments its callers can pass: a
client argument is a managed client (it comes from `wintoclient` or from a
list), a monitor argument is a monitor of the list.  `xprop` is a change of the
windows' size-hint properties on the X server between two handlers. -/
inductive Step (cfg : Config) : State → State → Prop where
  | manage (s : State) (w : Nat) (wa : XWindowAttributes) (inp : ManageInput) :
      wintoclient s w = none → Step cfg s (manage cfg s w wa inp)
  | unmanage (s : State) (c : Nat) :
      wintoclient s c = some c → Step cfg s (unmanage cfg s c)
  | focus (s : State) (c : Nat) :
      wintoclient s c = some c → Step cfg s (focus s (some c))
  | focusNull (s : State) : Step cfg s (focus s none)
  | focusmon (s : State) (dir : Int) : Step cfg s (focusmon s dir)
  | focusstack (s : State) (dir : Int) : Step cfg s (focusstack cfg s dir)
  | zoom (s : State) : Step cfg s (zoom cfg s)
  | sendmon (s : State) (c m : Nat) :
      wintoclient s c = some c → m < s.nmons → Step cfg s (sendmon cfg s c m)
  | tagmon (s : State) (dir : Int) : Step cfg s (tagmon cfg s dir)
  | view (s : State) (ui : Nat) : Step cfg s (view cfg s ui)
  | toggleview (s : State) (ui : Nat) : Step cfg s (toggleview cfg s ui)
  | tag (s : State) (ui : Nat) : Step cfg s (tag cfg s ui)
  | toggletag (s : State) (ui : Nat) : Step cfg s (toggletag cfg s ui)
  | xprop (s : State) (f : Nat → Option XSizeHints) : Step cfg s { s with xhints := f }

/-- The states reachable from an initial state by handlers and actions. -/
inductive Reachable (cfg : Config) : State → Prop where
  | init (s : State) : Initial s → Reachable cfg s
  | step (s t : State) : Reachable cfg s → Step cfg s t → Reachable cfg t

/-! ## Concrete scenarios -/

/-- The tile layout entry of a layout table. -/
def exTile : Layout := { symbol := "[]=", arrange := some ArrangeFn.tile }

/-- The floating layout entry of a layout table. -/
def exFloat : Layout := { symbol := "><>", arrange := none }

/-- A configuration: nine tags, `resizehints` on, `borderpx = 1`, `mfact = 0.5`,
`nmaster = 1`, bar on top, layouts tile and floating. -/
def exCfg : Config :=
  { ntags := 9, resizehints := true, borderpx := 1, lockfullscreen := true, mfact := 1 / 2,
    nmaster := 1, showbar := true, topbar := true, layout0 := exTile, layout1 := exFloat }

/-- A 1920x1080 monitor at `(x0, 0)` with a bar of 14 pixels, as `createmon` and
`updatebarpos` set it up: the work area is `x0, 14, 1920, 1066`. -/
def exMon (num : Int) (x0 : Int) : Monitor :=
  updatebarpos 14 { createmon exCfg with num := num, mx := x0, wx := x0, mw := 1920,
                                         ww := 1920, mh := 1080, wh := 1080 }

/-- The state after `setup` with one such monitor and no window. -/
def exInit : State :=
  { nmons := 1, mon := fun _ => exMon 0 0, selmon := 0, cl := fun _ => zeroClient,
    sw := 1920, sh := 1080, bh := 14, netClientList := [], xhints := fun _ => none }

/-- The attributes of a 640x480 window at the origin. -/
def exWa : XWindowAttributes := { x := 0, y := 0, width := 640, height := 480, border_width := 0 }

/-- A window without transient-for hint, matching rule, window type or WM
hints. -/
def exInp : ManageInput :=
  { trans := none, rules := [], fullscreen := false, dialog := false, wmhints := none }

/-- Window `1` (A) has been managed. -/
def exA : State := manage exCfg exInit 1 exWa exInp

/-- Windows `1` (A) and `2` (B) have been managed, in this order. -/
def exAB : State := manage exCfg exA 2 exWa exInp

/-- Windows `1` (A), `2` (B), `3` (C) have been managed, in this order. -/
def exABC : State := manage exCfg exAB 3 exWa exInp

/-- The geometry `(x, y, w, h)` of a client. -/
def geom (s : State) (c : Nat) : Int × Int × Int × Int :=
  ((s.cl c).x, (s.cl c).y, (s.cl c).w, (s.cl c).h)

/-- The state after `setup` with two monitors side by side, the first one
selected. -/
def exInit2 : State :=
  { nmons := 2, mon := fun i => if i = 0 then exMon 0 0 else exMon 1 1920, selmon := 0,
    cl := fun _ => zeroClient, sw := 3840, sh := 1080, bh := 14, netClientList := [],
    xhints := fun _ => none }

/-- On two monitors: the second monitor is focused, window `1` is managed
there and moved to tag 2 (so it is hidden), the first monitor is focused
again. -/
def exHidden : State :=
  focusmon (tag exCfg (manage exCfg (focusmon exInit2 1) 1 exWa exInp) 2) 1

/-- Then window `2`, whose transient-for hint names window `1`, is managed. -/
def exTransient : State :=
  manage exCfg exHidden 2 exWa { exInp with trans := some 1 }

/-- The concatenation, over the monitors in list order, of their `clients`
lists. -/
def clientsConcat (s : State) : List Nat :=
  ((List.range s.nmons).map (fun i => (s.mon i).clients)).flatten

/-- The size of claim C9 in the spec's words, for one axis: with
`w1 = max(w, 1, bh)` and `q` the value `w1 - base` rounded toward zero to a
multiple of `inc` (`q = w1 - base` when `inc = 0`), the result is
`clampmax(max(base + q, min))`, where `clampmax(v) = min(v, max)` when
`max != 0` and `v` otherwise. -/
def specHintSize (bh v base inc minv maxv : Int) : Int :=
  let w1 := max (max v 1) bh
  let q := if inc = 0 then w1 - base else inc * Int.tdiv (w1 - base) inc
  let r := max (base + q) minv
  if maxv ≠ 0 then min r maxv else r

/-- A window whose size hints give resize increments 7 x 13 and a maximum size
of 1000 x 1000 (flags `PResizeInc | PMaxSize`). -/
def exIncMax : XSizeHints :=
  { flags := 96, min_width := 0, min_height := 0, max_width := 1000, max_height := 1000,
    width_inc := 7, height_inc := 13, min_aspect_x := 0, min_aspect_y := 0,
    max_aspect_x := 0, max_aspect_y := 0, base_width := 0, base_height := 0 }

/-- Size hints with the aspect ratios `min_aspect = 0/1`, `max_aspect = 2/1`
(flag `PAspect`): the minimum ratio `y/x` has a zero divisor. -/
def exZeroAspect : XSizeHints :=
  { flags := 128, min_width := 0, min_height := 0, max_width := 0, max_height := 0,
    width_inc := 0, height_inc := 0, min_aspect_x := 0, min_aspect_y := 1,
    max_aspect_x := 2, max_aspect_y := 1, base_width := 0, base_height := 0 }

/-- Window `1` with the hints `exIncMax` has been managed on the one monitor. -/
def exHinted : State :=
  manage exCfg { exInit with xhints := fun _ => some exIncMax } 1 exWa exInp

/-- One column of `tile` as the specification words it, for `k` clients yet
to place and the height `used` taken by the clients placed before: the pairs
`(y, outer height)`, where each client gets the outer height
`(wh - used) / (clients left in the column)`, at the offset `wy + used`. -/
def specColumn (wy wh : Int) : Nat → Int → List (Int × Int)
  | 0, _ => []
  | k + 1, used =>
    (wy + used, (wh - used) / ((k : Int) + 1)) ::
      specColumn wy wh k (used + (wh - used) / ((k : Int) + 1))

/-- The selection of claim C24 in the spec's words: `vis` are the visible
clients of `selmon->clients` in list order and `k` is the position of the
selected client among them; for a positive argument the new selection is
`vis[k + 1]`, wrapping around to the first element, otherwise `vis[k - 1]`,
wrapping around to the last element. -/
def specFocusNext (vis : List Nat) (sel : Nat) (dir : Int) : Option Nat :=
  if dir > 0 then vis[(vis.indexOf sel + 1) % vis.length]?
  else vis[(vis.indexOf sel + vis.length - 1) % vis.length]?

/-- A client lies inside the work area of a monitor, border included. -/
def InsideWorkArea (m : Monitor) (c : Client) : Prop :=
  m.wx ≤ c.x ∧ m.wy ≤ c.y ∧ c.x + c.w + 2 * c.bw ≤ m.wx + m.ww ∧
    c.y + c.h + 2 * c.bw ≤ m.wy + m.wh

/-- `applysizehints` returned the requested rectangle unchanged. -/
def Placement.unaltered (p : Placement) : Prop :=
  p.ax = p.x ∧ p.ay = p.y ∧ p.aw = p.w ∧ p.ah = p.h

/-- A window whose size hints give a minimum size of 800 x 1200 (flag
`PMinSize`). -/
def exMin : XSizeHints :=
  { flags := 16, min_width := 800, min_height := 1200, max_width := 0, max_height := 0,
    width_inc := 0, height_inc := 0, min_aspect_x := 0, min_aspect_y := 0,
    max_aspect_x := 0, max_aspect_y := 0, base_width := 0, base_height := 0 }

/-- Window `1` with the hints `exMin` has been managed on the one monitor. -/
def exTall : State :=
  manage exCfg { exInit with xhints := fun _ => some exMin } 1 exWa exInp

/-- The links `3 -> 2 -> 1 -> NULL`: the lists of the monitor after windows
`1`, `2`, `3` have been managed. -/
def exLinks : Links :=
  { head := some 3,
    next := fun x => if x = 3 then some 2 else if x = 2 then some 1 else none }

/-- Size hints with minimum and maximum size both 200 x 100 (flags
`PMinSize | PMaxSize`). -/
def exFixed : XSizeHints :=
  { flags := 48, min_width := 200, min_height := 100, max_width := 200, max_height := 100,
    width_inc := 0, height_inc := 0, min_aspect_x := 0, min_aspect_y := 0,
    max_aspect_x := 0, max_aspect_y := 0, base_width := 0, base_height := 0 }

/-- Window `1` has been managed without size hints; then it sets the hints
`exFixed`, and the `PropertyNotify` event for `WM_NORMAL_HINTS` has been
handled. -/
def exStale : State :=
  propertynotify exCfg { exA with xhints := fun _ => some exFixed } 1 false
    PropAtom.wmNormalHints none none false false

/-- The three windows are managed and `setmfact(0.45f)` has been called:
`mfact` is the `float` `0.95f = 15938355 / 2^24`. -/
def exWide : State := setmfact exCfg exABC (some (f32 (9 / 20)))

/-- The three windows are managed and `setmfact(0.43f)` has been called:
`mfact` is the `float` `0.93f = 15602811 / 2^24`. -/
def exMf93 : State := setmfact exCfg exABC (some (f32 (43 / 100)))

/-- The monocle layout entry of a layout table. -/
def exMonocle : Layout := { symbol := "[M]", arrange := some ArrangeFn.monocle }

/-- On two monitors side by side, window `1` has been managed on the first
one. -/
def exTwo : State := manage exCfg exInit2 1 exWa exInp

/-- On two monitors, window `1` of the first monitor has been made fullscreen
and then sent to the second monitor. -/
def exFullMoved : State := sendmon exCfg (setfullscreen exCfg exTwo 1 true) 1 1

/-- Window `1` has been made fullscreen on the one monitor and then asks for a
border width of 5 with a `ConfigureRequest`. -/
def exFullBorder : State :=
  configurerequest (setfullscreen exCfg exA 1 true)
    { window := 1, value_mask := CWBorderWidth, x := 0, y := 0, width := 0, height := 0,
      border_width := 5 }

instance (m : Monitor) (c : Client) : Decidable (InsideWorkArea m c) := by
  unfold InsideWorkArea; infer_instance

instance (p : Placement) : Decidable p.unaltered := by
  unfold Placement.unaltered; infer_instance


/-! ## Proof devices -/

/-- The fields of a client that resizing and refreshing size hints leave
alone. -/
def Client.core (c : Client) : Client :=
  { c with mina := 0, maxa := 0, x := 0, y := 0, w := 0, h := 0, oldx := 0, oldy := 0,
           oldw := 0, oldh := 0, basew := 0, baseh := 0, incw := 0, inch := 0,
           maxw := 0, maxh := 0, minw := 0, minh := 0, hintsvalid := false,
           isfixed := false }

/-- The fields of a monitor that arranging leaves alone. -/
def Monitor.core (m : Monitor) : Monitor := { m with ltsymbol := "" }

/-- `Same s t`: `t` differs from `s` at most in client geometry, size hints and
layout symbols. -/
def Same (s t : State) : Prop :=
  t.nmons = s.nmons ∧ t.selmon = s.selmon ∧ t.netClientList = s.netClientList ∧
  t.sw = s.sw ∧ t.sh = s.sh ∧ t.bh = s.bh ∧ t.xhints = s.xhints ∧
  (∀ i, (t.mon i).core = (s.mon i).core) ∧ (∀ c, (t.cl c).core = (s.cl c).core)

/-- `OnlyClient c s t`: `t` differs from `s` at most in the record of the
client `c`, whose `mon` is the same. -/
def OnlyClient (c : Nat) (s t : State) : Prop :=
  t.nmons = s.nmons ∧ t.mon = s.mon ∧ t.selmon = s.selmon ∧
  t.netClientList = s.netClientList ∧ (∀ d, d ≠ c → t.cl d = s.cl d) ∧
  (t.cl c).mon = (s.cl c).mon

/-- A managed client: a window that occurs in the `clients` list of some
monitor (what `wintoclient` finds). -/
def Managed (s : State) (w : Nat) : Prop :=
  ∃ i, i < s.nmons ∧ w ∈ (s.mon i).clients

/-- The list invariant: `selmon` is a monitor of the list; on every monitor the
two lists have no repetition and the same members, every member points back to
the monitor with `c->mon`, `sel` is `NULL` or a member of the stack, and
`seltags` is `0` or `1`. -/
def ListsOK (s : State) : Prop :=
  s.selmon < s.nmons ∧
  ∀ i, i < s.nmons →
    (s.mon i).clients.Nodup ∧ (s.mon i).stack.Nodup ∧
    (∀ w, w ∈ (s.mon i).clients ↔ w ∈ (s.mon i).stack) ∧
    (∀ w, w ∈ (s.mon i).clients → (s.cl w).mon = i) ∧
    (∀ w, (s.mon i).sel = some w → w ∈ (s.mon i).stack) ∧
    (s.mon i).seltags ≤ 1

/-- `selmon->sel` is `NULL` or visible. -/
def SelVisible (s : State) : Prop :=
  ∀ w, (s.mon s.selmon).sel = some w → ISVISIBLE s w = true

/-- `_NET_CLIENT_LIST` lists every managed window exactly once. -/
def NclOK (s : State) : Prop :=
  s.netClientList.Nodup ∧ ∀ w, w ∈ s.netClientList ↔ Managed s w

/-- The invariant of the reachable states. -/
def Inv (s : State) : Prop := ListsOK s ∧ SelVisible s ∧ NclOK s

/-- A well-formed tag mask: not zero and within `TAGMASK`. -/
def MaskOK (cfg : Config) (t : Nat) : Prop := t ≠ 0 ∧ t &&& TAGMASK cfg = t

/-- Well-formed tag masks: both tag sets of every monitor of the list, and the
tags of every managed client. -/
def TagsOK (cfg : Config) (s : State) : Prop :=
  (∀ i, i < s.nmons → MaskOK cfg (s.mon i).tagset0 ∧ MaskOK cfg (s.mon i).tagset1) ∧
  ∀ c, Managed s c → MaskOK cfg (s.cl c).tags

/-- The fullscreen invariant: every client with `isfullscreen` set is floating,
has border width zero and the geometry `(mx, my, mw, mh)` of its monitor. -/
def FullOK (s : State) : Prop :=
  ∀ c, (s.cl c).isfullscreen = true →
    (s.cl c).isfloating = true ∧ (s.cl c).bw = 0 ∧
    geom s c = ((s.mon (s.cl c).mon).mx, (s.mon (s.cl c).mon).my,
      (s.mon (s.cl c).mon).mw, (s.mon (s.cl c).mon).mh)

/-- One of the operations that keep the fullscreen invariant: `setfullscreen`
on a client, `togglefloating`, the view and tag actions, and `arrange` of a
monitor. -/
inductive FullStep (cfg : Config) : State → State → Prop where
  | setfullscreen (s : State) (c : Nat) (b : Bool) : FullStep cfg s (setfullscreen cfg s c b)
  | togglefloating (s : State) : FullStep cfg s (togglefloating cfg s)
  | view (s : State) (ui : Nat) : FullStep cfg s (view cfg s ui)
  | toggleview (s : State) (ui : Nat) : FullStep cfg s (toggleview cfg s ui)
  | tag (s : State) (ui : Nat) : FullStep cfg s (tag cfg s ui)
  | toggletag (s : State) (ui : Nat) : FullStep cfg s (toggletag cfg s ui)
  | arrange (s : State) (m : Nat) : FullStep cfg s (arrange cfg s m)

end Dwm


/-! ## Rounding to `float` -/

namespace Dwm

theorem log2Fuel_spec : ∀ (fuel n : Nat), n ≤ fuel → 1 ≤ n →
    2 ^ log2Fuel fuel n ≤ n ∧ n < 2 ^ (log2Fuel fuel n + 1) := by
  intro fuel
  induction fuel with
  | zero => intro n h1 h2; omega
  | succ fuel ih =>
    intro n hn h1
    unfold log2Fuel
    split_ifs with h2
    · have e : n = 1 := by omega
      subst e
      exact ⟨by norm_num, by norm_num⟩
    · obtain ⟨a, b⟩ := ih (n / 2) (by omega) (by omega)
      rw [pow_succ] at b
      rw [pow_succ, pow_succ, pow_succ]
      generalize 2 ^ log2Fuel fuel (n / 2) = P at a b ⊢
      omega

theorem pow2_pos (e : Int) : 0 < pow2 e := by
  unfold pow2
  exact zpow_pos (by norm_num) e

theorem pow2_lt {a b : Int} : pow2 a < pow2 b ↔ a < b := by
  unfold pow2
  exact zpow_lt_zpow_iff_right₀ (by norm_num)

theorem pow2_le {a b : Int} : pow2 a ≤ pow2 b ↔ a ≤ b := by
  unfold pow2
  exact zpow_le_zpow_iff_right₀ (by norm_num)

/-- The exponent `ilog2` finds is below every `k` with `q < 2^k`. -/
theorem ilog2_lt (q : ℚ) (k : Int) (h0 : 0 < q) (hk : q < pow2 k) : ilog2 q < k := by
  unfold ilog2
  simp only
  rw [abs_of_pos h0]
  split_ifs with h
  · exact pow2_lt.mp (lt_of_le_of_lt h hk)
  · by_contra hcon
    have hnum : 0 < q.num := Rat.num_pos.mpr h0
    have hden : 0 < q.den := q.den_pos
    obtain ⟨a1, _⟩ := log2Fuel_spec q.num.natAbs q.num.natAbs (le_refl _)
      (by omega)
    obtain ⟨_, b2⟩ := log2Fuel_spec q.den q.den (le_refl _) hden
    generalize log2Fuel q.num.natAbs q.num.natAbs = la at *
    generalize log2Fuel q.den q.den = lb at *
    have hkl : k ≤ (la : Int) - ((lb + 1 : Nat) : Int) := by push_cast; omega
    have h1 : pow2 k ≤ pow2 ((la : Int) - ((lb + 1 : Nat) : Int)) := pow2_le.mpr hkl
    have h2 : pow2 ((la : Int) - ((lb + 1 : Nat) : Int)) = (2 : ℚ) ^ la / (2 : ℚ) ^ (lb + 1) := by
      unfold pow2
      exact zpow_natCast_sub_natCast₀ (by norm_num) la (lb + 1)
    have ha : ((2 : ℚ) ^ la) ≤ (q.num.natAbs : ℚ) := by exact_mod_cast a1
    have hb : (q.den : ℚ) < (2 : ℚ) ^ (lb + 1) := by exact_mod_cast b2
    have hq : q = (q.num.natAbs : ℚ) / (q.den : ℚ) := by
      have e : ((q.num.natAbs : Int) : ℚ) = (q.num : ℚ) := by
        rw [Int.natAbs_of_nonneg hnum.le]
      rw [← Int.cast_natCast, e]
      exact (Rat.num_div_den q).symm
    have hdq : (0 : ℚ) < (q.den : ℚ) := by exact_mod_cast hden
    have hpp : (0 : ℚ) < (2 : ℚ) ^ (lb + 1) := by positivity
    have h3 : (2 : ℚ) ^ la / (2 : ℚ) ^ (lb + 1) < q := by
      rw [hq, div_lt_div_iff₀ hpp hdq]
      have hla : (0 : ℚ) < (2 : ℚ) ^ la := by positivity
      nlinarith
    rw [h2] at h1
    linarith

theorem roundEven_le (t : ℚ) (M : Int) (h : t ≤ (M : ℚ)) : roundEven t ≤ M := by
  have hf : t.num / (t.den : Int) = ⌊t⌋ := Rat.floor_def.symm
  have h1 : ((⌊t⌋ : Int) : ℚ) ≤ t := Int.floor_le t
  have h2 : ⌊t⌋ ≤ M := by
    have : ((⌊t⌋ : Int) : ℚ) ≤ (M : ℚ) := le_trans h1 h
    exact_mod_cast this
  have h3 : ¬ t - ((⌊t⌋ : Int) : ℚ) < 1 / 2 → ⌊t⌋ + 1 ≤ M := by
    intro hh
    have : ((⌊t⌋ : Int) : ℚ) < (M : ℚ) := by linarith
    have : ⌊t⌋ < M := by exact_mod_cast this
    omega
  unfold roundEven
  simp only
  rw [hf]
  split_ifs with c1 c2 c3
  · exact h2
  · exact h3 c1
  · exact h2
  · exact h3 c1

theorem le_roundEven (t : ℚ) (M : Int) (h : (M : ℚ) ≤ t) : M ≤ roundEven t := by
  have hf : t.num / (t.den : Int) = ⌊t⌋ := Rat.floor_def.symm
  have h2 : M ≤ ⌊t⌋ := Int.le_floor.mpr h
  unfold roundEven
  simp only
  rw [hf]
  split_ifs <;> omega

theorem rnd_nonneg (p : Nat) (emin : Int) (q : ℚ) (h : 0 ≤ q) : 0 ≤ rnd p emin q := by
  unfold rnd
  split_ifs
  · exact le_refl _
  · apply mul_nonneg _ (pow2_pos _).le
    have := le_roundEven (q / pow2 (max (ilog2 q) emin - ((p : Int) - 1))) 0
      (by rw [Int.cast_zero]; exact div_nonneg h (pow2_pos _).le)
    exact_mod_cast this

theorem f32_nonneg (q : ℚ) (h : 0 ≤ q) : 0 ≤ f32 q := rnd_nonneg 24 (-126) q h

/-- An integer is a multiple of every `2^k` with `k ≤ 0`. -/
theorem int_multiple (n k : Int) (hk : k ≤ 0) :
    ((n * 2 ^ (-k).toNat : Int) : ℚ) * pow2 k = (n : ℚ) := by
  have e : k = -(((-k).toNat : Nat) : Int) := by omega
  generalize (-k).toNat = j at e
  subst e
  unfold pow2
  rw [zpow_neg, zpow_natCast]
  push_cast
  field_simp

/-- Rounding to `float` does not pass an integer below `2^24`. -/
theorem f32_le_int (q : ℚ) (n : Int) (h0 : 0 < q) (hq : q ≤ (n : ℚ)) (hn : n < 2 ^ 24) :
    f32 q ≤ (n : ℚ) := by
  have hq24 : q < pow2 24 := by
    have : (n : ℚ) < (2 : ℚ) ^ (24 : Nat) := by exact_mod_cast hn
    unfold pow2
    rw [show (24 : Int) = ((24 : Nat) : Int) by rfl, zpow_natCast]
    linarith
  have hl := ilog2_lt q 24 h0 hq24
  unfold f32 rnd
  rw [if_neg h0.ne']
  have hk : max (ilog2 q) (-126) - (((24 : Nat) : Int) - 1) ≤ 0 := by
    have : max (ilog2 q) (-126) ≤ 23 := max_le (by omega) (by norm_num)
    push_cast
    omega
  generalize max (ilog2 q) (-126) - (((24 : Nat) : Int) - 1) = k at hk ⊢
  have hm := int_multiple n k hk
  have ht : q / pow2 k ≤ ((n * 2 ^ (-k).toNat : Int) : ℚ) := by
    rw [div_le_iff₀ (pow2_pos k), hm]
    exact hq
  have hr := roundEven_le _ _ ht
  have hr2 : ((roundEven (q / pow2 k) : Int) : ℚ) ≤ ((n * 2 ^ (-k).toNat : Int) : ℚ) := by
    exact_mod_cast hr
  calc ((roundEven (q / pow2 k) : Int) : ℚ) * pow2 k
      ≤ ((n * 2 ^ (-k).toNat : Int) : ℚ) * pow2 k :=
        mul_le_mul_of_nonneg_right hr2 (pow2_pos k).le
    _ = (n : ℚ) := hm

/-- Rounding to `float` does not pass below an integer when the value is below
`2^24`. -/
theorem int_le_f32 (q : ℚ) (n : Int) (h0 : 0 < q) (hq : (n : ℚ) ≤ q) (hq24 : q < pow2 24) :
    (n : ℚ) ≤ f32 q := by
  have hl := ilog2_lt q 24 h0 hq24
  unfold f32 rnd
  rw [if_neg h0.ne']
  have hk : max (ilog2 q) (-126) - (((24 : Nat) : Int) - 1) ≤ 0 := by
    have : max (ilog2 q) (-126) ≤ 23 := max_le (by omega) (by norm_num)
    push_cast
    omega
  generalize max (ilog2 q) (-126) - (((24 : Nat) : Int) - 1) = k at hk ⊢
  have hm := int_multiple n k hk
  have ht : ((n * 2 ^ (-k).toNat : Int) : ℚ) ≤ q / pow2 k := by
    rw [le_div_iff₀ (pow2_pos k), hm]
    exact hq
  have hr := le_roundEven _ _ ht
  have hr2 : ((n * 2 ^ (-k).toNat : Int) : ℚ) ≤ ((roundEven (q / pow2 k) : Int) : ℚ) := by
    exact_mod_cast hr
  calc (n : ℚ) = ((n * 2 ^ (-k).toNat : Int) : ℚ) * pow2 k := hm.symm
    _ ≤ ((roundEven (q / pow2 k) : Int) : ℚ) * pow2 k :=
        mul_le_mul_of_nonneg_right hr2 (pow2_pos k).le

/-- An integer from `0` to `2^24` is a `float`: the conversion is exact. -/
theorem f32_int (n : Int) (h0 : 0 ≤ n) (hn : n < 2 ^ 24) : f32 (n : ℚ) = (n : ℚ) := by
  rcases eq_or_lt_of_le h0 with e | e
  · rw [← e]
    unfold f32 rnd
    simp
  · have hp : (0 : ℚ) < (n : ℚ) := by exact_mod_cast e
    have hq24 : (n : ℚ) < pow2 24 := by
      have : (n : ℚ) < (2 : ℚ) ^ (24 : Nat) := by exact_mod_cast hn
      unfold pow2
      rw [show (24 : Int) = ((24 : Nat) : Int) by rfl, zpow_natCast]
      exact this
    exact le_antisymm (f32_le_int _ n hp (le_refl _) hn) (int_le_f32 _ n hp (le_refl _) hq24)

/-- The exponent `ilog2` finds is at least every `k` with `2^k ≤ q`. -/
theorem le_ilog2 (q : ℚ) (k : Int) (h0 : 0 < q) (hk : pow2 k ≤ q) : k ≤ ilog2 q := by
  unfold ilog2
  simp only
  rw [abs_of_pos h0]
  split_ifs with h
  · by_contra hcon
    have hnum : 0 < q.num := Rat.num_pos.mpr h0
    have hden : 0 < q.den := q.den_pos
    obtain ⟨_, a2⟩ := log2Fuel_spec q.num.natAbs q.num.natAbs (le_refl _)
      (by omega)
    obtain ⟨b1, _⟩ := log2Fuel_spec q.den q.den (le_refl _) hden
    generalize log2Fuel q.num.natAbs q.num.natAbs = la at *
    generalize log2Fuel q.den q.den = lb at *
    have hkl : ((la + 1 : Nat) : Int) - (lb : Int) ≤ k := by push_cast; omega
    have h1 : pow2 (((la + 1 : Nat) : Int) - (lb : Int)) ≤ pow2 k := pow2_le.mpr hkl
    have h2 : pow2 (((la + 1 : Nat) : Int) - (lb : Int)) = (2 : ℚ) ^ (la + 1) / (2 : ℚ) ^ lb := by
      unfold pow2
      exact zpow_natCast_sub_natCast₀ (by norm_num) (la + 1) lb
    have ha : (q.num.natAbs : ℚ) < ((2 : ℚ) ^ (la + 1)) := by exact_mod_cast a2
    have hb : (2 : ℚ) ^ lb ≤ (q.den : ℚ) := by exact_mod_cast b1
    have hq : q = (q.num.natAbs : ℚ) / (q.den : ℚ) := by
      have e : ((q.num.natAbs : Int) : ℚ) = (q.num : ℚ) := by
        rw [Int.natAbs_of_nonneg hnum.le]
      rw [← Int.cast_natCast, e]
      exact (Rat.num_div_den q).symm
    have hdq : (0 : ℚ) < (q.den : ℚ) := by exact_mod_cast hden
    have hpp : (0 : ℚ) < (2 : ℚ) ^ lb := by positivity
    have hn0 : (0 : ℚ) ≤ (q.num.natAbs : ℚ) := by positivity
    have h3 : q < (2 : ℚ) ^ (la + 1) / (2 : ℚ) ^ lb := by
      rw [hq, div_lt_div_iff₀ hdq hpp]
      have hla : (0 : ℚ) < (2 : ℚ) ^ (la + 1) := by positivity
      nlinarith
    rw [h2] at h1
    linarith
  · have : k < (log2Fuel q.num.natAbs q.num.natAbs : Int) - (log2Fuel q.den q.den : Int) :=
      pow2_lt.mp (lt_of_le_of_lt hk (not_le.mp h))
    omega

/-- A multiple of `2^e` is a multiple of every `2^k` with `k ≤ e`. -/
theorem grid_multiple (n e k : Int) (hk : k ≤ e) :
    ((n * 2 ^ (e - k).toNat : Int) : ℚ) * pow2 k = (n : ℚ) * pow2 e := by
  have e1 : e = k + (((e - k).toNat : Nat) : Int) := by omega
  generalize (e - k).toNat = j at e1
  subst e1
  unfold pow2
  rw [zpow_add₀ (by norm_num), zpow_natCast]
  push_cast
  ring

/-- Rounding to `float` does not pass a multiple of `2^e` above, when the
value is below `2^(e+24)`. -/
theorem f32_le_grid (q : ℚ) (n e : Int) (h0 : 0 < q) (hq : q ≤ (n : ℚ) * pow2 e)
    (hlt : q < pow2 (e + 24)) (he : -149 ≤ e) : f32 q ≤ (n : ℚ) * pow2 e := by
  have hl := ilog2_lt q (e + 24) h0 hlt
  unfold f32 rnd
  rw [if_neg h0.ne']
  have hk : max (ilog2 q) (-126) - (((24 : Nat) : Int) - 1) ≤ e := by
    have : max (ilog2 q) (-126) ≤ e + 23 := max_le (by omega) (by omega)
    push_cast
    omega
  generalize max (ilog2 q) (-126) - (((24 : Nat) : Int) - 1) = k at hk ⊢
  have hm := grid_multiple n e k hk
  have ht : q / pow2 k ≤ ((n * 2 ^ (e - k).toNat : Int) : ℚ) := by
    rw [div_le_iff₀ (pow2_pos k), hm]
    exact hq
  have hr := roundEven_le _ _ ht
  have hr2 : ((roundEven (q / pow2 k) : Int) : ℚ) ≤ ((n * 2 ^ (e - k).toNat : Int) : ℚ) := by
    exact_mod_cast hr
  calc ((roundEven (q / pow2 k) : Int) : ℚ) * pow2 k
      ≤ ((n * 2 ^ (e - k).toNat : Int) : ℚ) * pow2 k :=
        mul_le_mul_of_nonneg_right hr2 (pow2_pos k).le
    _ = (n : ℚ) * pow2 e := hm

/-- Rounding to `float` does not pass a multiple of `2^e` below, when the
value is below `2^(e+24)`. -/
theorem grid_le_f32 (q : ℚ) (n e : Int) (h0 : 0 < q) (hq : (n : ℚ) * pow2 e ≤ q)
    (hlt : q < pow2 (e + 24)) (he : -149 ≤ e) : (n : ℚ) * pow2 e ≤ f32 q := by
  have hl := ilog2_lt q (e + 24) h0 hlt
  unfold f32 rnd
  rw [if_neg h0.ne']
  have hk : max (ilog2 q) (-126) - (((24 : Nat) : Int) - 1) ≤ e := by
    have : max (ilog2 q) (-126) ≤ e + 23 := max_le (by omega) (by omega)
    push_cast
    omega
  generalize max (ilog2 q) (-126) - (((24 : Nat) : Int) - 1) = k at hk ⊢
  have hm := grid_multiple n e k hk
  have ht : ((n * 2 ^ (e - k).toNat : Int) : ℚ) ≤ q / pow2 k := by
    rw [le_div_iff₀ (pow2_pos k), hm]
    exact hq
  have hr := le_roundEven _ _ ht
  have hr2 : ((n * 2 ^ (e - k).toNat : Int) : ℚ) ≤ ((roundEven (q / pow2 k) : Int) : ℚ) := by
    exact_mod_cast hr
  calc (n : ℚ) * pow2 e = ((n * 2 ^ (e - k).toNat : Int) : ℚ) * pow2 k := hm.symm
    _ ≤ ((roundEven (q / pow2 k) : Int) : ℚ) * pow2 k :=
        mul_le_mul_of_nonneg_right hr2 (pow2_pos k).le

/-- Rounding to the nearest integer, ties to even, stays at or below an odd
`M` exactly below `M + 1/2`. -/
theorem roundEven_le_odd (t : ℚ) (M : Int) (hodd : M % 2 = 1) :
    roundEven t ≤ M ↔ t < (M : ℚ) + 1 / 2 := by
  have hf : t.num / (t.den : Int) = ⌊t⌋ := Rat.floor_def.symm
  have h1 : ((⌊t⌋ : Int) : ℚ) ≤ t := Int.floor_le t
  have h2 : t < ((⌊t⌋ : Int) : ℚ) + 1 := Int.lt_floor_add_one t
  unfold roundEven
  simp only
  rw [hf]
  constructor
  · intro h
    by_contra hcon
    have hcon2 : (M : ℚ) + 1 / 2 ≤ t := not_lt.mp hcon
    have hM : M ≤ ⌊t⌋ := by
      have : (M : ℚ) < ((⌊t⌋ : Int) : ℚ) + 1 := by linarith
      have : M < ⌊t⌋ + 1 := by exact_mod_cast this
      omega
    split_ifs at h with ha hb hc
    · have : ((⌊t⌋ : Int) : ℚ) ≤ (M : ℚ) := by exact_mod_cast h
      linarith
    · omega
    · omega
    · omega
  · intro h
    have hM : ⌊t⌋ ≤ M := by
      have : ((⌊t⌋ : Int) : ℚ) < (M : ℚ) + 1 / 2 := by linarith
      have h3 : ((⌊t⌋ : Int) : ℚ) < ((M + 1 : Int) : ℚ) := by push_cast; linarith
      have : ⌊t⌋ < M + 1 := by exact_mod_cast h3
      omega
    rcases eq_or_lt_of_le hM with e | e
    · have ha : t - ((⌊t⌋ : Int) : ℚ) < 1 / 2 := by rw [e]; linarith
      rw [if_pos ha]
      exact hM
    · split_ifs <;> omega

/-- In the binade `[2^e, 2^(e+1))` of a normal `float` the unit of the last
place is `2^(e-23)`. -/
theorem f32_binade (q : ℚ) (e : Int) (h1 : pow2 e ≤ q) (h2 : q < pow2 (e + 1))
    (he : -126 ≤ e) :
    f32 q = ((roundEven (q / pow2 (e - 23)) : Int) : ℚ) * pow2 (e - 23) := by
  have h0 : 0 < q := lt_of_lt_of_le (pow2_pos e) h1
  have hl1 := le_ilog2 q e h0 h1
  have hl2 := ilog2_lt q (e + 1) h0 h2
  have hi : ilog2 q = e := by omega
  unfold f32 rnd
  rw [if_neg h0.ne', hi, max_eq_left he]
  norm_num

/-- The `float` nearest to a value in `(0, 2)` is at most the `double` `0.95`
exactly when the value is below the midpoint of `0.95f = 15938355 / 2^24` and
the next `float`. -/
theorem f32_le_hi (q : ℚ) (h0 : 0 < q) (h2 : q < 2) :
    f32 q ≤ f64 (19 / 20) ↔ q < 31876711 / 33554432 := by
  have hc : f64 (19 / 20) = 4278419646001971 / 4503599627370496 := by decide!
  rw [hc]
  rcases lt_or_le q (1 / 2) with ha | ha
  · have h := f32_le_grid q 1 (-1) h0 (by unfold pow2; norm_num; linarith)
      (by unfold pow2; norm_num; linarith) (by norm_num)
    have e : ((1 : Int) : ℚ) * pow2 (-1) = 1 / 2 := by unfold pow2; norm_num
    rw [e] at h
    constructor
    · intro _; linarith
    · intro _; linarith
  · rcases lt_or_le q 1 with hb | hb
    · have hbin := f32_binade q (-1) (by unfold pow2; norm_num; linarith)
        (by unfold pow2; norm_num; linarith) (by norm_num)
      rw [hbin]
      have ep : pow2 (-1 - 23) = 1 / 16777216 := by unfold pow2; norm_num
      rw [ep]
      have key := roundEven_le_odd (q / (1 / 16777216)) 15938355 (by decide)
      constructor
      · intro h
        have h3 : ((roundEven (q / (1 / 16777216)) : Int) : ℚ) < 15938356 := by linarith
        have h4 : roundEven (q / (1 / 16777216)) < 15938356 := by exact_mod_cast h3
        have h5 := key.mp (by omega)
        rw [div_lt_iff₀ (by norm_num)] at h5
        push_cast at h5
        linarith
      · intro h
        have h5 : q / (1 / 16777216) < ((15938355 : Int) : ℚ) + 1 / 2 := by
          rw [div_lt_iff₀ (by norm_num)]
          push_cast
          linarith
        have h4 := key.mpr h5
        have h3 : ((roundEven (q / (1 / 16777216)) : Int) : ℚ) ≤ 15938355 := by
          exact_mod_cast h4
        linarith
    · have h := grid_le_f32 q 1 0 h0 (by unfold pow2; norm_num; linarith)
        (by unfold pow2; norm_num; linarith) (by norm_num)
      have e : ((1 : Int) : ℚ) * pow2 0 = 1 := by unfold pow2; norm_num
      rw [e] at h
      constructor
      · intro _; linarith
      · intro _; linarith

/-- The `float` nearest to a value in `[1/16, 2)` is not below the `double`
`0.05`. -/
theorem f32_ge_lo (q : ℚ) (h1 : 1 / 16 ≤ q) (h2 : q < 2) : f64 (1 / 20) ≤ f32 q := by
  have hc : f64 (1 / 20) = 3602879701896397 / 72057594037927936 := by decide!
  rw [hc]
  have h := grid_le_f32 q 1 (-4) (by linarith) (by unfold pow2; norm_num; linarith)
    (by unfold pow2; norm_num; linarith) (by norm_num)
  have e : ((1 : Int) : ℚ) * pow2 (-4) = 1 / 16 := by unfold pow2; norm_num
  rw [e] at h
  linarith

/-- The `double` constants `0.05` and `0.95` lie inside `[1/20, 19/20]`. -/
theorem f64_bounds : (1 : ℚ) / 20 ≤ f64 (1 / 20) ∧ f64 (19 / 20) ≤ 19 / 20 := by
  decide!

end Dwm


/-! ## Frame lemmas -/

namespace Dwm

theorem same_refl (s : State) : Same s s :=
  ⟨rfl, rfl, rfl, rfl, rfl, rfl, rfl, fun _ => rfl, fun _ => rfl⟩

theorem same_trans {s t u : State} (h1 : Same s t) (h2 : Same t u) : Same s u :=
  ⟨h2.1.trans h1.1, h2.2.1.trans h1.2.1, h2.2.2.1.trans h1.2.2.1,
    h2.2.2.2.1.trans h1.2.2.2.1, h2.2.2.2.2.1.trans h1.2.2.2.2.1,
    h2.2.2.2.2.2.1.trans h1.2.2.2.2.2.1, h2.2.2.2.2.2.2.1.trans h1.2.2.2.2.2.2.1,
    fun i => (h2.2.2.2.2.2.2.2.1 i).trans (h1.2.2.2.2.2.2.2.1 i),
    fun c => (h2.2.2.2.2.2.2.2.2 c).trans (h1.2.2.2.2.2.2.2.2 c)⟩

theorem same_setCl (s : State) (c : Nat) (v : Client) (h : v.core = (s.cl c).core) :
    Same s (s.setCl c v) := by
  refine ⟨rfl, rfl, rfl, rfl, rfl, rfl, rfl, fun _ => rfl, fun d => ?_⟩
  by_cases hd : d = c
  · subst hd; simp [State.setCl, h]
  · simp [State.setCl, Function.update_noteq hd]

theorem same_setMon (s : State) (m : Nat) (v : Monitor) (h : v.core = (s.mon m).core) :
    Same s (s.setMon m v) := by
  refine ⟨rfl, rfl, rfl, rfl, rfl, rfl, rfl, fun i => ?_, fun _ => rfl⟩
  by_cases hd : i = m
  · subst hd; simp [State.setMon, h]
  · simp [State.setMon, Function.update_noteq hd]

theorem same_updatesizehints (s : State) (c : Nat) : Same s (updatesizehints s c) := by
  unfold updatesizehints
  apply same_setCl
  simp only [Client.core]
  split_ifs <;> rfl

theorem same_resizeclient (s : State) (c : Nat) (x y w h : Int) :
    Same s (resizeclient s c x y w h) := by
  unfold resizeclient
  apply same_setCl
  rfl

theorem same_hintState (cfg : Config) (s : State) (c : Nat) :
    Same s (hintState cfg s c) := by
  unfold hintState
  split_ifs
  · exact same_updatesizehints s c
  · exact same_refl s

theorem same_resize (cfg : Config) (s : State) (c : Nat) (x y w h : Int)
    (interact : Bool) : Same s (resize cfg s c x y w h interact) := by
  unfold resize applysizehints
  simp only
  split_ifs
  · exact same_trans (same_hintState cfg s c) (same_resizeclient _ _ _ _ _ _)
  · exact same_hintState cfg s c

theorem same_monocleLoop (cfg : Config) (m : Nat) (l : List Nat) :
    ∀ s : State, Same s (monocleLoop cfg m l s).1 := by
  induction l with
  | nil => intro s; exact same_refl s
  | cons c rest ih =>
    intro s
    unfold monocleLoop
    split_ifs
    · exact ih s
    · exact same_trans (same_resize _ _ _ _ _ _ _ _) (ih _)

theorem same_monocle (cfg : Config) (s : State) (m : Nat) : Same s (monocle cfg s m) := by
  unfold monocle monocleTrace
  simp only
  split_ifs
  · exact same_trans (same_setMon s m _ (by rfl)) (same_monocleLoop _ _ _ _)
  · exact same_monocleLoop _ _ _ _

theorem same_tileLoop (cfg : Config) (m n : Nat) (mw : Int) (l : List Nat) :
    ∀ (i : Nat) (my ty : Int) (s : State), Same s (tileLoop cfg m n mw l i my ty s).1 := by
  induction l with
  | nil => intro i my ty s; exact same_refl s
  | cons c rest ih =>
    intro i my ty s
    unfold tileLoop
    simp only
    split_ifs
    all_goals first
      | exact ih _ _ _ _
      | exact same_trans (same_resize _ _ _ _ _ _ _ _) (ih _ _ _ _)

theorem same_tile (cfg : Config) (s : State) (m : Nat) : Same s (tile cfg s m) := by
  unfold tile tileTrace
  simp only
  split_ifs
  · exact same_refl s
  · exact same_tileLoop _ _ _ _ _ _ _ _ _

theorem same_showhide (cfg : Config) (l : List Nat) :
    ∀ s : State, Same s (showhide cfg l s) := by
  induction l with
  | nil => intro s; exact same_refl s
  | cons c rest ih =>
    intro s
    unfold showhide
    simp only
    split_ifs
    all_goals first
      | exact ih _
      | exact same_trans (same_resize _ _ _ _ _ _ _ _) (ih _)

theorem same_arrangemon (cfg : Config) (s : State) (m : Nat) :
    Same s (arrangemon cfg s m) := by
  unfold arrangemon arrangemonTrace
  simp only
  have h1 : Same s (s.setMon m { s.mon m with ltsymbol := (s.mon m).curlt.symbol }) :=
    same_setMon s m _ (by rfl)
  split
  · exact same_trans h1 (same_tile _ _ _)
  · exact same_trans h1 (same_monocle _ _ _)
  · exact h1

theorem same_arrange (cfg : Config) (s : State) (m : Nat) : Same s (arrange cfg s m) :=
  same_trans (same_showhide cfg _ s) (same_arrangemon cfg _ m)

theorem same_foldl (f : State → Nat → State) (hf : ∀ t i, Same t (f t i)) (l : List Nat) :
    ∀ s : State, Same s (l.foldl f s) := by
  induction l with
  | nil => intro s; exact same_refl s
  | cons i rest ih => intro s; exact same_trans (hf s i) (ih _)

theorem same_arrangeAll (cfg : Config) (s : State) : Same s (arrangeAll cfg s) := by
  unfold arrangeAll
  exact same_trans (same_foldl _ (fun t i => same_showhide cfg _ t) _ s)
    (same_foldl _ (fun t i => same_arrangemon cfg t i) _ _)

/-! ### What `Same` states keep -/

theorem Same.clients {s t : State} (h : Same s t) (i : Nat) :
    (t.mon i).clients = (s.mon i).clients := by
  have h1 := congrArg Monitor.clients (h.2.2.2.2.2.2.2.1 i)
  simpa [Monitor.core] using h1

theorem Same.stack {s t : State} (h : Same s t) (i : Nat) :
    (t.mon i).stack = (s.mon i).stack := by
  have h1 := congrArg Monitor.stack (h.2.2.2.2.2.2.2.1 i)
  simpa [Monitor.core] using h1

theorem Same.sel {s t : State} (h : Same s t) (i : Nat) :
    (t.mon i).sel = (s.mon i).sel := by
  have h1 := congrArg Monitor.sel (h.2.2.2.2.2.2.2.1 i)
  simpa [Monitor.core] using h1

theorem Same.seltags {s t : State} (h : Same s t) (i : Nat) :
    (t.mon i).seltags = (s.mon i).seltags := by
  have h1 := congrArg Monitor.seltags (h.2.2.2.2.2.2.2.1 i)
  simpa [Monitor.core] using h1

theorem Same.tagset0 {s t : State} (h : Same s t) (i : Nat) :
    (t.mon i).tagset0 = (s.mon i).tagset0 := by
  have h1 := congrArg Monitor.tagset0 (h.2.2.2.2.2.2.2.1 i)
  simpa [Monitor.core] using h1

theorem Same.tagset1 {s t : State} (h : Same s t) (i : Nat) :
    (t.mon i).tagset1 = (s.mon i).tagset1 := by
  have h1 := congrArg Monitor.tagset1 (h.2.2.2.2.2.2.2.1 i)
  simpa [Monitor.core] using h1

theorem Same.curtags {s t : State} (h : Same s t) (i : Nat) :
    (t.mon i).curtags = (s.mon i).curtags := by
  simp [Monitor.curtags, Monitor.tagset, h.seltags i, h.tagset0 i, h.tagset1 i]

theorem Same.cmon {s t : State} (h : Same s t) (c : Nat) :
    (t.cl c).mon = (s.cl c).mon := by
  have h1 := congrArg Client.mon (h.2.2.2.2.2.2.2.2 c)
  simpa [Client.core] using h1

theorem Same.ctags {s t : State} (h : Same s t) (c : Nat) :
    (t.cl c).tags = (s.cl c).tags := by
  have h1 := congrArg Client.tags (h.2.2.2.2.2.2.2.2 c)
  simpa [Client.core] using h1

theorem Same.visible {s t : State} (h : Same s t) (c : Nat) :
    ISVISIBLE t c = ISVISIBLE s c := by
  simp [ISVISIBLE, h.cmon c, h.ctags c, h.curtags]

end Dwm


/-! ## Closed forms of the list operations -/

namespace Dwm

@[simp] theorem setMon_mon (s : State) (m : Nat) (v : Monitor) (i : Nat) :
    (s.setMon m v).mon i = if i = m then v else s.mon i := by
  simp [State.setMon, Function.update_apply]

@[simp] theorem setMon_cl (s : State) (m : Nat) (v : Monitor) : (s.setMon m v).cl = s.cl := rfl
@[simp] theorem setMon_nmons (s : State) (m : Nat) (v : Monitor) :
    (s.setMon m v).nmons = s.nmons := rfl
@[simp] theorem setMon_selmon (s : State) (m : Nat) (v : Monitor) :
    (s.setMon m v).selmon = s.selmon := rfl
@[simp] theorem setMon_ncl (s : State) (m : Nat) (v : Monitor) :
    (s.setMon m v).netClientList = s.netClientList := rfl

@[simp] theorem setCl_cl (s : State) (c : Nat) (v : Client) (d : Nat) :
    (s.setCl c v).cl d = if d = c then v else s.cl d := by
  simp [State.setCl, Function.update_apply]

@[simp] theorem setCl_mon (s : State) (c : Nat) (v : Client) : (s.setCl c v).mon = s.mon := rfl
@[simp] theorem setCl_nmons (s : State) (c : Nat) (v : Client) :
    (s.setCl c v).nmons = s.nmons := rfl
@[simp] theorem setCl_selmon (s : State) (c : Nat) (v : Client) :
    (s.setCl c v).selmon = s.selmon := rfl
@[simp] theorem setCl_ncl (s : State) (c : Nat) (v : Client) :
    (s.setCl c v).netClientList = s.netClientList := rfl

@[simp] theorem setMon_sw (s : State) (m : Nat) (v : Monitor) : (s.setMon m v).sw = s.sw := rfl
@[simp] theorem setMon_sh (s : State) (m : Nat) (v : Monitor) : (s.setMon m v).sh = s.sh := rfl
@[simp] theorem setMon_bh (s : State) (m : Nat) (v : Monitor) : (s.setMon m v).bh = s.bh := rfl
@[simp] theorem setMon_xhints (s : State) (m : Nat) (v : Monitor) :
    (s.setMon m v).xhints = s.xhints := rfl
@[simp] theorem setCl_sw (s : State) (c : Nat) (v : Client) : (s.setCl c v).sw = s.sw := rfl
@[simp] theorem setCl_sh (s : State) (c : Nat) (v : Client) : (s.setCl c v).sh = s.sh := rfl
@[simp] theorem setCl_bh (s : State) (c : Nat) (v : Client) : (s.setCl c v).bh = s.bh := rfl
@[simp] theorem setCl_xhints (s : State) (c : Nat) (v : Client) :
    (s.setCl c v).xhints = s.xhints := rfl

/-- Visibility only reads the clients' tags and monitors and the monitors'
current tag sets. -/
theorem visible_congr (s t : State) (h1 : ∀ c, (t.cl c).tags = (s.cl c).tags)
    (h2 : ∀ c, (t.cl c).mon = (s.cl c).mon) (h3 : ∀ i, (t.mon i).curtags = (s.mon i).curtags) :
    ISVISIBLE t = ISVISIBLE s := by
  funext c
  simp [ISVISIBLE, h1, h2, h3]

theorem visible_setMon (s : State) (m : Nat) (v : Monitor)
    (h : v.curtags = (s.mon m).curtags) : ISVISIBLE (s.setMon m v) = ISVISIBLE s := by
  apply visible_congr
  · intro c; rfl
  · intro c; rfl
  · intro i
    by_cases hi : i = m
    · subst hi; simp [h]
    · simp [hi]

/-! ### `attach`, `attachstack`, `detach`, `detachstack` by components -/

theorem attach_mon (s : State) (c i : Nat) :
    (attach s c).mon i =
      if i = (s.cl c).mon then { s.mon i with clients := c :: (s.mon i).clients }
      else s.mon i := by
  unfold attach
  by_cases hi : i = (s.cl c).mon
  · subst hi; simp
  · simp [hi]

theorem attachstack_mon (s : State) (c i : Nat) :
    (attachstack s c).mon i =
      if i = (s.cl c).mon then { s.mon i with stack := c :: (s.mon i).stack }
      else s.mon i := by
  unfold attachstack
  by_cases hi : i = (s.cl c).mon
  · subst hi; simp
  · simp [hi]

theorem detach_mon (s : State) (c i : Nat) :
    (detach s c).mon i =
      if i = (s.cl c).mon then { s.mon i with clients := (s.mon i).clients.erase c }
      else s.mon i := by
  unfold detach
  by_cases hi : i = (s.cl c).mon
  · subst hi; simp
  · simp [hi]

theorem detachstack_mon (s : State) (c i : Nat) :
    (detachstack s c).mon i =
      if i = (s.cl c).mon then
        { s.mon i with
          stack := (s.mon i).stack.erase c
          sel := if (s.mon i).sel = some c then
                   ((s.mon i).stack.erase c).find? (ISVISIBLE s)
                 else (s.mon i).sel }
      else s.mon i := by
  unfold detachstack
  have hv : ISVISIBLE (s.setMon (s.cl c).mon
      { s.mon (s.cl c).mon with stack := (s.mon (s.cl c).mon).stack.erase c }) = ISVISIBLE s :=
    visible_setMon _ _ _ (by rfl)
  simp only [setMon_cl, hv]
  by_cases hi : i = (s.cl c).mon
  · subst hi
    by_cases hs : (s.mon (s.cl c).mon).sel = some c
    · simp [hs]
    · simp [hs]
  · by_cases hs : (s.mon (s.cl c).mon).sel = some c
    · simp [hs, hi]
    · simp [hs, hi]

@[simp] theorem attach_cl (s : State) (c : Nat) : (attach s c).cl = s.cl := rfl
@[simp] theorem attachstack_cl (s : State) (c : Nat) : (attachstack s c).cl = s.cl := rfl
@[simp] theorem detach_cl (s : State) (c : Nat) : (detach s c).cl = s.cl := rfl
@[simp] theorem detachstack_cl (s : State) (c : Nat) : (detachstack s c).cl = s.cl := by
  unfold detachstack; simp only; split_ifs <;> rfl
@[simp] theorem attach_nmons (s : State) (c : Nat) : (attach s c).nmons = s.nmons := rfl
@[simp] theorem attachstack_nmons (s : State) (c : Nat) : (attachstack s c).nmons = s.nmons := rfl
@[simp] theorem detach_nmons (s : State) (c : Nat) : (detach s c).nmons = s.nmons := rfl
@[simp] theorem detachstack_nmons (s : State) (c : Nat) : (detachstack s c).nmons = s.nmons := by
  unfold detachstack; simp only; split_ifs <;> rfl
@[simp] theorem attach_selmon (s : State) (c : Nat) : (attach s c).selmon = s.selmon := rfl
@[simp] theorem attachstack_selmon (s : State) (c : Nat) :
    (attachstack s c).selmon = s.selmon := rfl
@[simp] theorem detach_selmon (s : State) (c : Nat) : (detach s c).selmon = s.selmon := rfl
@[simp] theorem detachstack_selmon (s : State) (c : Nat) :
    (detachstack s c).selmon = s.selmon := by
  unfold detachstack; simp only; split_ifs <;> rfl
@[simp] theorem attach_ncl (s : State) (c : Nat) :
    (attach s c).netClientList = s.netClientList := rfl
@[simp] theorem attachstack_ncl (s : State) (c : Nat) :
    (attachstack s c).netClientList = s.netClientList := rfl
@[simp] theorem detach_ncl (s : State) (c : Nat) :
    (detach s c).netClientList = s.netClientList := rfl
@[simp] theorem detachstack_ncl (s : State) (c : Nat) :
    (detachstack s c).netClientList = s.netClientList := by
  unfold detachstack; simp only; split_ifs <;> rfl

/-! ### `focus` by components -/

theorem focus_none (s : State) (c : Option Nat) (h : focusTarget s c = none) :
    focus s c = s.setMon s.selmon { s.mon s.selmon with sel := none } := by
  unfold focus; rw [h]

theorem client_isurgent_eta (c : Client) (h : c.isurgent = false) :
    { c with isurgent := false } = c := by
  cases c; simp_all

/-- The state on which `focus` runs `detachstack`/`attachstack`: `selmon` moved
to the monitor of `w`, urgency of `w` cleared. -/
theorem focus_prep (s : State) (w : Nat) :
    ∃ s2 : State,
      (if ((if (s.cl w).mon ≠ s.selmon then { s with selmon := (s.cl w).mon } else s).cl
            w).isurgent = true then
          seturgent (if (s.cl w).mon ≠ s.selmon then { s with selmon := (s.cl w).mon } else s)
            w false
        else (if (s.cl w).mon ≠ s.selmon then { s with selmon := (s.cl w).mon } else s)) = s2 ∧
      s2.mon = s.mon ∧ s2.selmon = (s.cl w).mon ∧ s2.nmons = s.nmons ∧
      s2.netClientList = s.netClientList ∧
      (∀ d, s2.cl d = if d = w then { s.cl w with isurgent := false } else s.cl d) := by
  refine ⟨_, rfl, ?_, ?_, ?_, ?_, ?_⟩
  · split_ifs <;> rfl
  · split_ifs with h1 h2 h3 <;> first | rfl | exact (not_not.mp h1).symm
  · split_ifs <;> rfl
  · split_ifs <;> rfl
  · intro d
    by_cases hu : (s.cl w).isurgent = true
    · by_cases hm : (s.cl w).mon = s.selmon <;> simp [hm, hu, seturgent]
    · simp only [Bool.not_eq_true] at hu
      rw [client_isurgent_eta _ hu]
      by_cases hm : (s.cl w).mon = s.selmon <;> by_cases hd : d = w <;> simp [hm, hu, hd]

theorem focus_some_cl (s : State) (c : Option Nat) (w : Nat) (h : focusTarget s c = some w)
    (d : Nat) :
    (focus s c).cl d = if d = w then { s.cl w with isurgent := false } else s.cl d := by
  unfold focus
  rw [h]
  simp only
  obtain ⟨s2, e, _, _, _, _, h5⟩ := focus_prep s w
  rw [e]
  simp only [setMon_cl, attachstack_cl, detachstack_cl, h5]

theorem focus_some_selmon (s : State) (c : Option Nat) (w : Nat)
    (h : focusTarget s c = some w) : (focus s c).selmon = (s.cl w).mon := by
  unfold focus
  rw [h]
  simp only
  obtain ⟨s2, e, _, h2, _, _, _⟩ := focus_prep s w
  rw [e]
  simp only [setMon_selmon, attachstack_selmon, detachstack_selmon, h2]

theorem focus_some_mon (s : State) (c : Option Nat) (w : Nat) (h : focusTarget s c = some w)
    (i : Nat) :
    (focus s c).mon i =
      if i = (s.cl w).mon then
        { s.mon i with stack := w :: (s.mon i).stack.erase w, sel := some w }
      else s.mon i := by
  unfold focus
  rw [h]
  simp only
  obtain ⟨s2, e, h1, h2, _, _, h5⟩ := focus_prep s w
  rw [e]
  have hw : (s2.cl w).mon = (s.cl w).mon := by simp [h5]
  simp only [setMon_mon, setMon_selmon, attachstack_selmon, detachstack_selmon, h2,
    attachstack_mon, detachstack_mon, attachstack_cl, detachstack_cl, hw, h1]
  by_cases hi : i = (s.cl w).mon
  · simp [hi]
  · simp [hi]

theorem focus_nmons (s : State) (c : Option Nat) : (focus s c).nmons = s.nmons := by
  unfold focus
  split
  · simp only [setMon_nmons, attachstack_nmons, detachstack_nmons, seturgent]
    split_ifs <;> rfl
  · rfl

theorem focus_ncl (s : State) (c : Option Nat) :
    (focus s c).netClientList = s.netClientList := by
  unfold focus
  split
  · simp only [setMon_ncl, attachstack_ncl, detachstack_ncl, seturgent]
    split_ifs <;> rfl
  · rfl

end Dwm


/-! ## The invariant of the reachable states -/

namespace Dwm

theorem wintoclient_any (s : State) (w : Nat) :
    (List.range s.nmons).any (fun i => (s.mon i).clients.contains w) = true ↔ Managed s w := by
  unfold Managed
  simp [List.any_eq_true]

theorem wintoclient_eq_some (s : State) (w : Nat) :
    wintoclient s w = some w ↔ Managed s w := by
  rw [← wintoclient_any]
  unfold wintoclient
  split_ifs with h
  · simp only [true_iff]; exact h
  · simp only [false_iff, reduceCtorEq]; exact h

theorem wintoclient_eq_none (s : State) (w : Nat) :
    wintoclient s w = none ↔ ¬ Managed s w := by
  rw [← wintoclient_eq_some]
  unfold wintoclient
  split_ifs <;> simp

/-- A state whose lists are rearrangements of the lists of a state with
`ListsOK` has `ListsOK`. -/
theorem listsOK_perm {s t : State} (hs : ListsOK s) (hn : t.nmons = s.nmons)
    (hsel : t.selmon < s.nmons)
    (hc : ∀ i, i < s.nmons → (t.mon i).clients.Perm (s.mon i).clients)
    (hst : ∀ i, i < s.nmons → (t.mon i).stack.Perm (s.mon i).stack)
    (hsl : ∀ i, i < s.nmons → ∀ w, (t.mon i).sel = some w → w ∈ (t.mon i).stack)
    (htg : ∀ i, i < s.nmons → (t.mon i).seltags ≤ 1)
    (hm : ∀ w, (t.cl w).mon = (s.cl w).mon) : ListsOK t := by
  refine ⟨hn ▸ hsel, fun i hi => ?_⟩
  rw [hn] at hi
  obtain ⟨h1, h2, h3, h4, _, _⟩ := hs.2 i hi
  refine ⟨(hc i hi).nodup_iff.mpr h1, (hst i hi).nodup_iff.mpr h2, fun w => ?_, fun w hw => ?_,
    hsl i hi, htg i hi⟩
  · rw [(hc i hi).mem_iff, (hst i hi).mem_iff]; exact h3 w
  · rw [hm]; exact h4 w ((hc i hi).mem_iff.mp hw)

theorem managed_perm {s t : State} (hn : t.nmons = s.nmons)
    (hc : ∀ i, i < s.nmons → (t.mon i).clients.Perm (s.mon i).clients) (w : Nat) :
    Managed t w ↔ Managed s w := by
  unfold Managed
  constructor
  · rintro ⟨i, hi, hw⟩
    rw [hn] at hi
    exact ⟨i, hi, (hc i hi).mem_iff.mp hw⟩
  · rintro ⟨i, hi, hw⟩
    exact ⟨i, hn ▸ hi, (hc i hi).mem_iff.mpr hw⟩

theorem nclOK_perm {s t : State} (hs : NclOK s) (hn : t.nmons = s.nmons)
    (hc : ∀ i, i < s.nmons → (t.mon i).clients.Perm (s.mon i).clients)
    (hl : t.netClientList = s.netClientList) : NclOK t := by
  refine ⟨hl ▸ hs.1, fun w => ?_⟩
  rw [hl, hs.2 w, managed_perm hn hc w]

/-! ### `Same` states -/

theorem listsOK_same {s t : State} (h : Same s t) (hs : ListsOK s) : ListsOK t :=
  listsOK_perm hs h.1 (h.2.1 ▸ hs.1) (fun i _ => by rw [h.clients i])
    (fun i _ => by rw [h.stack i])
    (fun i hi w hw => by
      rw [h.sel i] at hw; rw [h.stack i]; exact (hs.2 i hi).2.2.2.2.1 w hw)
    (fun i hi => by rw [h.seltags i]; exact (hs.2 i hi).2.2.2.2.2) h.cmon

theorem selVisible_same {s t : State} (h : Same s t) (hs : SelVisible s) : SelVisible t := by
  intro w hw
  rw [h.2.1, h.sel] at hw
  rw [h.visible]
  exact hs w hw

theorem nclOK_same {s t : State} (h : Same s t) (hs : NclOK s) : NclOK t :=
  nclOK_perm hs h.1 (fun i _ => by rw [h.clients i]) h.2.2.1

theorem inv_same {s t : State} (h : Same s t) (hs : Inv s) : Inv t :=
  ⟨listsOK_same h hs.1, selVisible_same h hs.2.1, nclOK_same h hs.2.2⟩

/-! ### `focus` -/

theorem listsOK_mem_stack {s : State} (hs : ListsOK s) {i w : Nat} (hi : i < s.nmons)
    (hw : w ∈ (s.mon i).stack) : (s.cl w).mon = i :=
  (hs.2 i hi).2.2.2.1 w (((hs.2 i hi).2.2.1 w).mpr hw)

theorem managed_stack {s : State} (hs : ListsOK s) {w : Nat} (hw : Managed s w) :
    (s.cl w).mon < s.nmons ∧ w ∈ (s.mon (s.cl w).mon).clients ∧
      w ∈ (s.mon (s.cl w).mon).stack := by
  obtain ⟨i, hi, hm⟩ := hw
  have e := (hs.2 i hi).2.2.2.1 w hm
  rw [e]
  exact ⟨hi, hm, ((hs.2 i hi).2.2.1 w).mp hm⟩

theorem focusTarget_some {s : State} {c : Option Nat} {w : Nat} (hs : ListsOK s)
    (hc : ∀ v, c = some v → Managed s v) (h : focusTarget s c = some w) :
    ISVISIBLE s w = true ∧ (s.cl w).mon < s.nmons ∧ w ∈ (s.mon (s.cl w).mon).stack := by
  have hfind : (s.mon s.selmon).stack.find? (ISVISIBLE s) = some w →
      ISVISIBLE s w = true ∧ (s.cl w).mon < s.nmons ∧ w ∈ (s.mon (s.cl w).mon).stack := by
    intro hf
    have hmem := List.mem_of_find?_eq_some hf
    have e := listsOK_mem_stack hs hs.1 hmem
    rw [e]
    exact ⟨List.find?_some hf, hs.1, hmem⟩
  unfold focusTarget at h
  cases c with
  | none => exact hfind h
  | some v =>
    simp only at h
    split_ifs at h with hv
    · exact hfind h
    · have hm := managed_stack hs (hc v rfl)
      injection h with h
      subst h
      exact ⟨by simpa using hv, hm.1, hm.2.2⟩

theorem visible_focus (s : State) (c : Option Nat) : ISVISIBLE (focus s c) = ISVISIBLE s := by
  cases h : focusTarget s c with
  | none => rw [focus_none s c h]; exact visible_setMon _ _ _ (by rfl)
  | some w =>
    apply visible_congr
    · intro d; rw [focus_some_cl s c w h]; split_ifs with hd
      · rw [hd]
      · rfl
    · intro d; rw [focus_some_cl s c w h]; split_ifs with hd
      · rw [hd]
      · rfl
    · intro i; rw [focus_some_mon s c w h]; split_ifs <;> rfl

theorem focus_clients (s : State) (c : Option Nat) (i : Nat) :
    ((focus s c).mon i).clients = (s.mon i).clients := by
  cases h : focusTarget s c with
  | none => rw [focus_none s c h, setMon_mon]; split_ifs with hi
            · rw [hi]
            · rfl
  | some w => rw [focus_some_mon s c w h]; split_ifs <;> rfl

theorem focus_cmon (s : State) (c : Option Nat) (d : Nat) :
    ((focus s c).cl d).mon = (s.cl d).mon := by
  cases h : focusTarget s c with
  | none => rw [focus_none s c h]; rfl
  | some w => rw [focus_some_cl s c w h]; split_ifs with hd
              · rw [hd]
              · rfl

theorem focus_ctags (s : State) (c : Option Nat) (d : Nat) :
    ((focus s c).cl d).tags = (s.cl d).tags := by
  cases h : focusTarget s c with
  | none => rw [focus_none s c h]; rfl
  | some w => rw [focus_some_cl s c w h]; split_ifs with hd
              · rw [hd]
              · rfl

theorem focus_seltags (s : State) (c : Option Nat) (i : Nat) :
    ((focus s c).mon i).seltags = (s.mon i).seltags := by
  cases h : focusTarget s c with
  | none => rw [focus_none s c h, setMon_mon]; split_ifs with hi
            · rw [hi]
            · rfl
  | some w => rw [focus_some_mon s c w h]; split_ifs <;> rfl

theorem focus_tagset0 (s : State) (c : Option Nat) (i : Nat) :
    ((focus s c).mon i).tagset0 = (s.mon i).tagset0 := by
  cases h : focusTarget s c with
  | none => rw [focus_none s c h, setMon_mon]; split_ifs with hi
            · rw [hi]
            · rfl
  | some w => rw [focus_some_mon s c w h]; split_ifs <;> rfl

theorem focus_tagset1 (s : State) (c : Option Nat) (i : Nat) :
    ((focus s c).mon i).tagset1 = (s.mon i).tagset1 := by
  cases h : focusTarget s c with
  | none => rw [focus_none s c h, setMon_mon]; split_ifs with hi
            · rw [hi]
            · rfl
  | some w => rw [focus_some_mon s c w h]; split_ifs <;> rfl

/-- `focus` keeps the list invariant and leaves `selmon->sel` `NULL` or
visible. -/
theorem listsOK_focus {s : State} {c : Option Nat} (hs : ListsOK s)
    (hc : ∀ v, c = some v → Managed s v) : ListsOK (focus s c) ∧ SelVisible (focus s c) := by
  cases h : focusTarget s c with
  | none =>
    constructor
    · refine listsOK_perm hs (focus_nmons s c) ?_ (fun i _ => by rw [focus_clients])
        ?_ ?_ (fun i hi => by rw [focus_seltags]; exact (hs.2 i hi).2.2.2.2.2) (focus_cmon s c)
      · rw [focus_none s c h]; exact hs.1
      · intro i _; rw [focus_none s c h, setMon_mon]; split_ifs with hi
        · rw [hi]
        · exact List.Perm.refl _
      · intro i hi w; rw [focus_none s c h, setMon_mon]; split_ifs with he
        · intro hw; cases hw
        · exact (hs.2 i hi).2.2.2.2.1 w
    · intro w hw
      rw [focus_none s c h] at hw
      simp at hw
  | some w =>
    obtain ⟨hv, hm, hst⟩ := focusTarget_some hs hc h
    constructor
    · refine listsOK_perm hs (focus_nmons s c) ?_ (fun i _ => by rw [focus_clients])
        ?_ ?_ (fun i hi => by rw [focus_seltags]; exact (hs.2 i hi).2.2.2.2.2) (focus_cmon s c)
      · rw [focus_some_selmon s c w h]; exact hm
      · intro i _; rw [focus_some_mon s c w h]; split_ifs with hi
        · subst hi; exact (List.perm_cons_erase hst).symm
        · exact List.Perm.refl _
      · intro i hi v; rw [focus_some_mon s c w h]; split_ifs with he
        · intro hw; cases hw; exact List.mem_cons_self _ _
        · exact (hs.2 i hi).2.2.2.2.1 v
    · intro v hw
      rw [focus_some_selmon s c w h, focus_some_mon s c w h] at hw
      simp only [if_true] at hw
      cases hw
      rw [visible_focus]; exact hv

theorem nclOK_focus {s : State} (c : Option Nat) (hs : NclOK s) : NclOK (focus s c) :=
  nclOK_perm hs (focus_nmons s c) (fun i _ => by rw [focus_clients]) (focus_ncl s c)

theorem inv_focus {s : State} {c : Option Nat} (hl : ListsOK s) (hn : NclOK s)
    (hc : ∀ v, c = some v → Managed s v) : Inv (focus s c) :=
  ⟨(listsOK_focus hl hc).1, (listsOK_focus hl hc).2, nclOK_focus c hn⟩

theorem inv_focus_arrange (cfg : Config) {s : State} {c : Option Nat} (hl : ListsOK s)
    (hn : NclOK s) (hc : ∀ v, c = some v → Managed s v) (m : Nat) :
    Inv (arrange cfg (focus s c) m) :=
  inv_same (same_arrange cfg _ m) (inv_focus hl hn hc)

end Dwm


/-! ## The actions keep the invariant -/

namespace Dwm

@[simp] theorem setTagset_clients (m : Monitor) (i v : Nat) :
    (m.setTagset i v).clients = m.clients := by unfold Monitor.setTagset; split_ifs <;> rfl
@[simp] theorem setTagset_stack (m : Monitor) (i v : Nat) :
    (m.setTagset i v).stack = m.stack := by unfold Monitor.setTagset; split_ifs <;> rfl
@[simp] theorem setTagset_sel (m : Monitor) (i v : Nat) :
    (m.setTagset i v).sel = m.sel := by unfold Monitor.setTagset; split_ifs <;> rfl
@[simp] theorem setTagset_seltags (m : Monitor) (i v : Nat) :
    (m.setTagset i v).seltags = m.seltags := by unfold Monitor.setTagset; split_ifs <;> rfl

theorem xor_one_le_one (n : Nat) (h : n ≤ 1) : n ^^^ 1 ≤ 1 := by
  interval_cases n <;> decide

/-- Replacing a monitor record by one with the same lists and selection keeps
the list invariant. -/
theorem listsOK_setMon {s : State} (hs : ListsOK s) (m : Nat) (v : Monitor)
    (h1 : v.clients = (s.mon m).clients) (h2 : v.stack = (s.mon m).stack)
    (h3 : v.sel = (s.mon m).sel) (h4 : v.seltags ≤ 1) : ListsOK (s.setMon m v) := by
  refine listsOK_perm hs rfl hs.1 ?_ ?_ ?_ ?_ (fun _ => rfl)
  · intro i _; rw [setMon_mon]; split_ifs with hi
    · rw [h1, hi]
    · exact List.Perm.refl _
  · intro i _; rw [setMon_mon]; split_ifs with hi
    · rw [h2, hi]
    · exact List.Perm.refl _
  · intro i hi w; rw [setMon_mon]; split_ifs with he
    · rw [h3, h2, ← he]; exact (hs.2 i hi).2.2.2.2.1 w
    · exact (hs.2 i hi).2.2.2.2.1 w
  · intro i hi; rw [setMon_mon]; split_ifs with he
    · exact h4
    · exact (hs.2 i hi).2.2.2.2.2

theorem nclOK_setMon {s : State} (hs : NclOK s) (m : Nat) (v : Monitor)
    (h1 : v.clients = (s.mon m).clients) : NclOK (s.setMon m v) := by
  refine nclOK_perm hs rfl ?_ rfl
  intro i _; rw [setMon_mon]; split_ifs with hi
  · rw [h1, hi]
  · exact List.Perm.refl _

/-- Changing fields of a client other than `mon` keeps the list invariant. -/
theorem listsOK_setCl {s : State} (hs : ListsOK s) (c : Nat) (v : Client)
    (h : v.mon = (s.cl c).mon) : ListsOK (s.setCl c v) := by
  refine listsOK_perm hs rfl hs.1 (fun _ _ => List.Perm.refl _) (fun _ _ => List.Perm.refl _)
    (fun i hi => (hs.2 i hi).2.2.2.2.1) (fun i hi => (hs.2 i hi).2.2.2.2.2) ?_
  intro w; rw [setCl_cl]; split_ifs with hw
  · rw [h, hw]
  · rfl

theorem nclOK_setCl {s : State} (hs : NclOK s) (c : Nat) (v : Client) :
    NclOK (s.setCl c v) :=
  nclOK_perm hs rfl (fun _ _ => List.Perm.refl _) rfl

theorem inv_view (cfg : Config) {s : State} (hs : Inv s) (ui : Nat) : Inv (view cfg s ui) := by
  unfold view
  simp only
  split_ifs with h1 h2
  · exact hs
  · apply inv_focus_arrange
    · apply listsOK_setMon hs.1 <;> simp
      exact xor_one_le_one _ (hs.1.2 _ hs.1.1).2.2.2.2.2
    · apply nclOK_setMon hs.2.2; simp
    · intro v hv; cases hv
  · apply inv_focus_arrange
    · apply listsOK_setMon hs.1 <;> simp
      exact xor_one_le_one _ (hs.1.2 _ hs.1.1).2.2.2.2.2
    · apply nclOK_setMon hs.2.2; simp
    · intro v hv; cases hv

theorem inv_toggleview (cfg : Config) {s : State} (hs : Inv s) (ui : Nat) :
    Inv (toggleview cfg s ui) := by
  unfold toggleview
  simp only
  split_ifs with h1
  · apply inv_focus_arrange
    · apply listsOK_setMon hs.1 <;> simp
      exact (hs.1.2 _ hs.1.1).2.2.2.2.2
    · apply nclOK_setMon hs.2.2; simp
    · intro v hv; cases hv
  · exact hs

theorem inv_tag (cfg : Config) {s : State} (hs : Inv s) (ui : Nat) : Inv (tag cfg s ui) := by
  unfold tag
  split
  · exact hs
  · simp only
    split_ifs
    · apply inv_focus_arrange
      · apply listsOK_setCl hs.1; rfl
      · exact nclOK_setCl hs.2.2 _ _
      · intro v hv; cases hv
    · exact hs

theorem inv_toggletag (cfg : Config) {s : State} (hs : Inv s) (ui : Nat) :
    Inv (toggletag cfg s ui) := by
  unfold toggletag
  split
  · exact hs
  · simp only
    split_ifs
    · apply inv_focus_arrange
      · apply listsOK_setCl hs.1; rfl
      · exact nclOK_setCl hs.2.2 _ _
      · intro v hv; cases hv
    · exact hs

theorem dirtomon_lt {s : State} (hs : s.selmon < s.nmons) (dir : Int) :
    dirtomon s dir < s.nmons := by
  unfold dirtomon
  split_ifs <;> omega

theorem listsOK_selmon {s : State} (hs : ListsOK s) (m : Nat) (hm : m < s.nmons) :
    ListsOK { s with selmon := m } :=
  listsOK_perm hs rfl hm (fun _ _ => List.Perm.refl _) (fun _ _ => List.Perm.refl _)
    (fun i hi => (hs.2 i hi).2.2.2.2.1) (fun i hi => (hs.2 i hi).2.2.2.2.2) (fun _ => rfl)

theorem nclOK_selmon {s : State} (hs : NclOK s) (m : Nat) : NclOK { s with selmon := m } :=
  nclOK_perm hs rfl (fun _ _ => List.Perm.refl _) rfl

theorem inv_focusmon {s : State} (hs : Inv s) (dir : Int) : Inv (focusmon s dir) := by
  unfold focusmon
  simp only
  split_ifs
  · exact hs
  · exact hs
  · exact inv_focus (listsOK_selmon hs.1 _ (dirtomon_lt hs.1.1 dir)) (nclOK_selmon hs.2.2 _)
      (fun v hv => by cases hv)

theorem focusstackTarget_mem {s : State} {sel c : Nat} {dir : Int}
    (h : focusstackTarget s sel dir = some c) : c ∈ (s.mon s.selmon).clients := by
  unfold focusstackTarget at h
  simp only at h
  split_ifs at h with hd
  · split at h
    · rename_i c1 h2
      injection h with h
      subst h
      exact (List.dropWhile_sublist _).subset
        ((List.drop_sublist _ _).subset (List.mem_of_find?_eq_some h2))
    · exact List.mem_of_find?_eq_some h
  · split at h
    · rename_i c1 h2
      injection h with h
      subst h
      exact (List.takeWhile_sublist _).subset
        ((List.filter_sublist _).subset (List.mem_of_getLast?_eq_some h2))
    · exact (List.dropWhile_sublist _).subset
        ((List.filter_sublist _).subset (List.mem_of_getLast?_eq_some h))

theorem inv_focusstack (cfg : Config) {s : State} (hs : Inv s) (dir : Int) :
    Inv (focusstack cfg s dir) := by
  unfold focusstack
  split
  · exact hs
  · rename_i sel hsel
    split_ifs with h1
    · exact hs
    · split
      · rename_i c hc
        apply inv_focus hs.1 hs.2.2
        intro v hv
        injection hv with hv
        subst hv
        exact ⟨s.selmon, hs.1.1, focusstackTarget_mem hc⟩
      · exact hs

end Dwm


/-! ## Linking and unlinking clients -/

namespace Dwm

/-- `detach; attach` of a managed client (`pop`) moves it to the head of its
`clients` list. -/
theorem pop_lists {s : State} (hs : ListsOK s) (hn : NclOK s) {c : Nat} (hc : Managed s c) :
    ListsOK (attach (detach s c) c) ∧ NclOK (attach (detach s c) c) ∧
      Managed (attach (detach s c) c) c := by
  obtain ⟨hm, hcl, _⟩ := managed_stack hs hc
  have hperm : ∀ i, i < s.nmons →
      ((attach (detach s c) c).mon i).clients.Perm (s.mon i).clients := by
    intro i _
    rw [attach_mon, detach_cl]
    split_ifs with hi
    · subst hi
      simp only [detach_mon, if_true]
      exact (List.perm_cons_erase hcl).symm
    · rw [detach_mon, if_neg hi]
  have hstack : ∀ i, ((attach (detach s c) c).mon i).stack = (s.mon i).stack := by
    intro i
    rw [attach_mon, detach_cl]
    split_ifs with hi
    · subst hi; simp only [detach_mon, if_true]
    · rw [detach_mon, if_neg hi]
  have hsel : ∀ i, ((attach (detach s c) c).mon i).sel = (s.mon i).sel := by
    intro i
    rw [attach_mon, detach_cl]
    split_ifs with hi
    · subst hi; simp only [detach_mon, if_true]
    · rw [detach_mon, if_neg hi]
  have hseltags : ∀ i, ((attach (detach s c) c).mon i).seltags = (s.mon i).seltags := by
    intro i
    rw [attach_mon, detach_cl]
    split_ifs with hi
    · subst hi; simp only [detach_mon, if_true]
    · rw [detach_mon, if_neg hi]
  refine ⟨listsOK_perm hs rfl hs.1 hperm (fun i _ => by rw [hstack]) ?_ ?_ (fun _ => rfl),
    nclOK_perm hn rfl hperm rfl,
    (managed_perm (s := s) (t := attach (detach s c) c) rfl hperm c).mpr hc⟩
  · intro i hi w; rw [hsel, hstack]; exact (hs.2 i hi).2.2.2.2.1 w
  · intro i hi; rw [hseltags]; exact (hs.2 i hi).2.2.2.2.2

theorem inv_pop (cfg : Config) {s : State} (hs : Inv s) {c : Nat} (hc : Managed s c) :
    Inv (pop cfg s c) := by
  unfold pop
  obtain ⟨h1, h2, h3⟩ := pop_lists hs.1 hs.2.2 hc
  exact inv_focus_arrange cfg h1 h2 (fun v hv => by injection hv with hv; subst hv; exact h3) _

theorem inv_zoom (cfg : Config) {s : State} (hs : Inv s) : Inv (zoom cfg s) := by
  unfold zoom
  split
  · exact hs
  · rename_i c hsel
    have hc : Managed s c :=
      ⟨s.selmon, hs.1.1, ((hs.1.2 _ hs.1.1).2.2.1 c).mpr ((hs.1.2 _ hs.1.1).2.2.2.2.1 c hsel)⟩
    split_ifs
    · exact hs
    · split
      · rename_i t rest ht
        split_ifs
        · split
          · exact hs
          · rename_i t2 rest2 ht2
            apply inv_pop cfg hs
            refine ⟨s.selmon, hs.1.1, ?_⟩
            have h1 : t2 ∈ nexttiled s rest := by rw [ht2]; exact List.mem_cons_self _ _
            have h2 : t2 ∈ rest := (List.dropWhile_sublist _).subset h1
            have h3 : t2 ∈ nexttiled s (s.mon s.selmon).clients := by
              rw [ht]; exact List.mem_cons_of_mem _ h2
            exact (List.dropWhile_sublist _).subset h3
        · exact inv_pop cfg hs hc
      · exact inv_pop cfg hs hc

/-- Unlinking a managed client from both lists. -/
theorem detach_lists {s : State} (hs : ListsOK s) {c : Nat} (hc : Managed s c) :
    ListsOK (detachstack (detach s c) c) ∧
      (∀ i, i < s.nmons → ∀ w, w ∈ ((detachstack (detach s c) c).mon i).clients ↔
        (w ∈ (s.mon i).clients ∧ w ≠ c)) := by
  obtain ⟨hm, hcl, hst⟩ := managed_stack hs hc
  have hclients : ∀ i, ((detachstack (detach s c) c).mon i).clients =
      if i = (s.cl c).mon then (s.mon i).clients.erase c else (s.mon i).clients := by
    intro i
    rw [detachstack_mon, detach_cl, detach_mon]
    split_ifs <;> rfl
  have hstack : ∀ i, ((detachstack (detach s c) c).mon i).stack =
      if i = (s.cl c).mon then (s.mon i).stack.erase c else (s.mon i).stack := by
    intro i
    rw [detachstack_mon, detach_cl, detach_mon]
    split_ifs <;> rfl
  have hseltags : ∀ i, ((detachstack (detach s c) c).mon i).seltags = (s.mon i).seltags := by
    intro i
    rw [detachstack_mon, detach_cl, detach_mon]
    split_ifs <;> rfl
  have hselval : ∀ i, ((detachstack (detach s c) c).mon i).sel =
      if i = (s.cl c).mon then
        (if (s.mon i).sel = some c then
          ((s.mon i).stack.erase c).find? (ISVISIBLE (detach s c))
         else (s.mon i).sel)
      else (s.mon i).sel := by
    intro i
    rw [detachstack_mon, detach_cl, detach_mon]
    by_cases h1 : i = (s.cl c).mon
    · simp only [h1, if_true]
    · simp only [h1, if_false]
  have hsel : ∀ i, i < s.nmons → ∀ w, ((detachstack (detach s c) c).mon i).sel = some w →
      w ∈ ((detachstack (detach s c) c).mon i).stack := by
    intro i hi w
    rw [hstack, hselval]
    split_ifs with h1 h2
    · intro hf; exact List.mem_of_find?_eq_some hf
    · intro hw
      have hne : w ≠ c := by
        intro e; subst e; exact h2 hw
      exact (List.mem_erase_of_ne hne).mpr ((hs.2 _ hi).2.2.2.2.1 w hw)
    · exact (hs.2 i hi).2.2.2.2.1 w
  have hnotin : ∀ i, i < s.nmons → i ≠ (s.cl c).mon → c ∉ (s.mon i).clients := by
    intro i hi hne hmem
    exact hne ((hs.2 i hi).2.2.2.1 c hmem).symm
  have hmemc : ∀ i, i < s.nmons → ∀ w, w ∈ ((detachstack (detach s c) c).mon i).clients ↔
      (w ∈ (s.mon i).clients ∧ w ≠ c) := by
    intro i hi w
    rw [hclients]
    split_ifs with h1
    · subst h1
      exact (hs.2 _ hi).1.mem_erase_iff.trans and_comm
    · constructor
      · intro hw; exact ⟨hw, fun e => hnotin i hi h1 (e ▸ hw)⟩
      · exact fun hw => hw.1
  have hmems : ∀ i, i < s.nmons → ∀ w, w ∈ ((detachstack (detach s c) c).mon i).stack ↔
      (w ∈ (s.mon i).stack ∧ w ≠ c) := by
    intro i hi w
    rw [hstack]
    split_ifs with h1
    · subst h1
      exact (hs.2 _ hi).2.1.mem_erase_iff.trans and_comm
    · constructor
      · intro hw
        exact ⟨hw, fun e => hnotin i hi h1 (((hs.2 i hi).2.2.1 c).mpr (e ▸ hw))⟩
      · exact fun hw => hw.1
  refine ⟨⟨by simpa using hs.1, fun i hi => ?_⟩, hmemc⟩
  have hi' : i < s.nmons := by simpa using hi
  obtain ⟨a1, a2, a3, a4, _, a6⟩ := hs.2 i hi'
  refine ⟨?_, ?_, ?_, ?_, hsel i hi', by rw [hseltags]; exact a6⟩
  · rw [hclients]; split_ifs
    · exact a1.erase c
    · exact a1
  · rw [hstack]; split_ifs
    · exact a2.erase c
    · exact a2
  · intro w; rw [hmemc i hi', hmems i hi', a3 w]
  · intro w hw
    simp only [detachstack_cl, detach_cl]
    exact a4 w ((hmemc i hi' w).mp hw).1

/-- Linking a client that is in no list into both lists of its monitor. -/
theorem attach_lists {s : State} (hs : ListsOK s) {c : Nat} (hc : ¬ Managed s c) :
    ListsOK (attachstack (attach s c) c) ∧
      (∀ i, i < s.nmons → ∀ w, w ∈ ((attachstack (attach s c) c).mon i).clients ↔
        (w ∈ (s.mon i).clients ∨ (w = c ∧ i = (s.cl c).mon))) := by
  have hclients : ∀ i, ((attachstack (attach s c) c).mon i).clients =
      if i = (s.cl c).mon then c :: (s.mon i).clients else (s.mon i).clients := by
    intro i
    rw [attachstack_mon, attach_cl, attach_mon]
    split_ifs <;> rfl
  have hstack : ∀ i, ((attachstack (attach s c) c).mon i).stack =
      if i = (s.cl c).mon then c :: (s.mon i).stack else (s.mon i).stack := by
    intro i
    rw [attachstack_mon, attach_cl, attach_mon]
    split_ifs <;> rfl
  have hsel : ∀ i, ((attachstack (attach s c) c).mon i).sel = (s.mon i).sel := by
    intro i
    rw [attachstack_mon, attach_cl, attach_mon]
    split_ifs <;> rfl
  have hseltags : ∀ i, ((attachstack (attach s c) c).mon i).seltags = (s.mon i).seltags := by
    intro i
    rw [attachstack_mon, attach_cl, attach_mon]
    split_ifs <;> rfl
  have hnc : ∀ i, i < s.nmons → c ∉ (s.mon i).clients := fun i hi hmem => hc ⟨i, hi, hmem⟩
  have hmemc : ∀ i, i < s.nmons → ∀ w, w ∈ ((attachstack (attach s c) c).mon i).clients ↔
      (w ∈ (s.mon i).clients ∨ (w = c ∧ i = (s.cl c).mon)) := by
    intro i hi w
    rw [hclients]
    split_ifs with h1
    · simp only [List.mem_cons, h1, and_true]; exact or_comm
    · simp [h1]
  refine ⟨⟨by simpa using hs.1, fun i hi => ?_⟩, hmemc⟩
  have hi' : i < s.nmons := by simpa using hi
  obtain ⟨a1, a2, a3, a4, a5, a6⟩ := hs.2 i hi'
  refine ⟨?_, ?_, ?_, ?_, ?_, by rw [hseltags]; exact a6⟩
  · rw [hclients]; split_ifs
    · exact List.nodup_cons.mpr ⟨hnc i hi', a1⟩
    · exact a1
  · rw [hstack]; split_ifs
    · exact List.nodup_cons.mpr ⟨fun h => hnc i hi' ((a3 c).mpr h), a2⟩
    · exact a2
  · intro w; rw [hclients, hstack]; split_ifs
    · simp only [List.mem_cons, a3 w]
    · exact a3 w
  · intro w hw
    simp only [attachstack_cl, attach_cl]
    rcases (hmemc i hi' w).mp hw with h | ⟨h1, h2⟩
    · exact a4 w h
    · rw [h1, h2]
  · intro w hw
    rw [hsel] at hw
    rw [hstack]; split_ifs
    · exact List.mem_cons_of_mem _ (a5 w hw)
    · exact a5 w hw

/-- Rewriting the record of a client that is in no list keeps the list
invariant. -/
theorem listsOK_unmanaged {s t : State} (hs : ListsOK s) {c : Nat} (hc : ¬ Managed s c)
    (h1 : t.nmons = s.nmons) (h2 : t.mon = s.mon) (h3 : t.selmon = s.selmon)
    (h4 : ∀ d, d ≠ c → t.cl d = s.cl d) : ListsOK t ∧ ¬ Managed t c := by
  constructor
  · refine ⟨by rw [h1, h3]; exact hs.1, fun i hi => ?_⟩
    rw [h1] at hi
    rw [h2]
    obtain ⟨a1, a2, a3, a4, a5, a6⟩ := hs.2 i hi
    refine ⟨a1, a2, a3, fun w hw => ?_, a5, a6⟩
    have hne : w ≠ c := fun e => hc ⟨i, hi, e ▸ hw⟩
    rw [h4 w hne]; exact a4 w hw
  · rintro ⟨i, hi, hw⟩
    rw [h1] at hi; rw [h2] at hw
    exact hc ⟨i, hi, hw⟩

end Dwm


/-! ## `unmanage`, `sendmon`, `manage` -/

namespace Dwm

theorem onlyClient_refl (c : Nat) (s : State) : OnlyClient c s s :=
  ⟨rfl, rfl, rfl, rfl, fun _ _ => rfl, rfl⟩

theorem onlyClient_trans {c : Nat} {s t u : State} (h1 : OnlyClient c s t)
    (h2 : OnlyClient c t u) : OnlyClient c s u :=
  ⟨h2.1.trans h1.1, h2.2.1.trans h1.2.1, h2.2.2.1.trans h1.2.2.1,
    h2.2.2.2.1.trans h1.2.2.2.1,
    fun d hd => (h2.2.2.2.2.1 d hd).trans (h1.2.2.2.2.1 d hd),
    h2.2.2.2.2.2.trans h1.2.2.2.2.2⟩

theorem onlyClient_setCl (s : State) (c : Nat) (v : Client) (h : v.mon = (s.cl c).mon) :
    OnlyClient c s (s.setCl c v) := by
  refine ⟨rfl, rfl, rfl, rfl, fun d hd => ?_, ?_⟩
  · rw [setCl_cl, if_neg hd]
  · rw [setCl_cl, if_pos rfl, h]

theorem onlyClient_updatesizehints (s : State) (c : Nat) :
    OnlyClient c s (updatesizehints s c) := by
  unfold updatesizehints
  apply onlyClient_setCl
  simp only
  split_ifs <;> rfl

theorem onlyClient_resizeclient (s : State) (c : Nat) (x y w h : Int) :
    OnlyClient c s (resizeclient s c x y w h) := by
  unfold resizeclient
  apply onlyClient_setCl
  rfl

theorem onlyClient_setfullscreen_true (cfg : Config) (s : State) (c : Nat) :
    OnlyClient c s (setfullscreen cfg s c true) := by
  unfold setfullscreen
  simp only [Bool.true_and, Bool.not_true, Bool.false_and, Bool.false_eq_true, if_false]
  split_ifs
  · exact onlyClient_trans (onlyClient_setCl s c _ (by rfl)) (onlyClient_resizeclient _ _ _ _ _ _)
  · exact onlyClient_refl c s

theorem onlyClient_updatewindowtype (cfg : Config) (s : State) (c : Nat) (fs dialog : Bool) :
    OnlyClient c s (updatewindowtype cfg s c fs dialog) := by
  unfold updatewindowtype
  cases fs <;> cases dialog <;> simp only [↓reduceIte, Bool.false_eq_true]
  · exact onlyClient_refl c s
  · exact onlyClient_setCl _ c _ (by rfl)
  · exact onlyClient_setfullscreen_true cfg s c
  · exact onlyClient_trans (onlyClient_setfullscreen_true cfg s c)
      (onlyClient_setCl _ c _ (by rfl))

theorem onlyClient_updatewmhints (s : State) (c : Nat) (wmh : Option XWMHints) :
    OnlyClient c s (updatewmhints s c wmh) := by
  unfold updatewmhints
  split
  · exact onlyClient_refl c s
  · rename_i hints
    have h1 : OnlyClient c s
        (if ((s.mon s.selmon).sel = some c && hints.urgent) = true then s
         else s.setCl c { s.cl c with isurgent := hints.urgent }) := by
      split_ifs
      · exact onlyClient_refl c s
      · exact onlyClient_setCl _ c _ (by rfl)
    exact onlyClient_trans h1 (onlyClient_setCl _ c _ (by rfl))

/-- The monitor `applyrules` leaves in `c->mon` is the one it had or a monitor
of the list. -/
theorem applyrules_fold_mon (s : State) (rules : List Rule) :
    ∀ c0 : Client, c0.mon < s.nmons →
      (rules.foldl (fun a r =>
        match (List.range s.nmons).find? (fun i => (s.mon i).num == r.monitor) with
        | some m => { ({ a with isfloating := r.isfloating, tags := a.tags ||| r.tags } : Client)
                      with mon := m }
        | none => { a with isfloating := r.isfloating, tags := a.tags ||| r.tags }) c0).mon
        < s.nmons := by
  induction rules with
  | nil => intro c0 h; exact h
  | cons r rest ih =>
    intro c0 h
    simp only [List.foldl_cons]
    apply ih
    split
    · rename_i m hm
      have := List.mem_of_find?_eq_some hm
      simpa using this
    · exact h

theorem applyrules_frame (cfg : Config) (s : State) (c : Nat) (rules : List Rule)
    (h : (s.cl c).mon < s.nmons) :
    (applyrules cfg s c rules).nmons = s.nmons ∧ (applyrules cfg s c rules).mon = s.mon ∧
    (applyrules cfg s c rules).selmon = s.selmon ∧
    (applyrules cfg s c rules).netClientList = s.netClientList ∧
    (∀ d, d ≠ c → (applyrules cfg s c rules).cl d = s.cl d) ∧
    ((applyrules cfg s c rules).cl c).mon < s.nmons := by
  unfold applyrules
  refine ⟨rfl, rfl, rfl, rfl, fun d hd => ?_, ?_⟩
  · simp only [setCl_cl, if_neg hd]
  · simp only [setCl_cl, if_true]
    exact applyrules_fold_mon s rules _ h

theorem onlyClient_manageGeom (cfg : Config) (s : State) (w : Nat) :
    OnlyClient w s (manageGeom cfg s w) := by
  unfold manageGeom
  apply onlyClient_setCl
  simp only
  split_ifs <;> rfl

theorem onlyClient_manageFloat (s : State) (w : Nat) (trans : Option Nat) :
    OnlyClient w s (manageFloat s w trans) := by
  unfold manageFloat
  simp only
  split_ifs
  · exact onlyClient_setCl _ w _ (by rfl)
  · exact onlyClient_refl w s

theorem wintoclient_cases (s : State) (w : Nat) :
    wintoclient s w = some w ∨ wintoclient s w = none := by
  unfold wintoclient; split_ifs <;> simp

theorem manageNew_frame (cfg : Config) {s : State} (hs : ListsOK s) (w : Nat)
    (wa : XWindowAttributes) (inp : ManageInput) :
    (manageNew cfg s w wa inp).nmons = s.nmons ∧ (manageNew cfg s w wa inp).mon = s.mon ∧
    (manageNew cfg s w wa inp).selmon = s.selmon ∧
    (manageNew cfg s w wa inp).netClientList = s.netClientList ∧
    (∀ d, d ≠ w → (manageNew cfg s w wa inp).cl d = s.cl d) ∧
    ((manageNew cfg s w wa inp).cl w).mon < s.nmons := by
  unfold manageNew
  simp only
  split
  · rename_i t ht
    refine ⟨rfl, rfl, rfl, rfl, fun d hd => by rw [setCl_cl, if_neg hd], ?_⟩
    rw [setCl_cl, if_pos rfl]
    have htm : Managed s t := by
      rw [← wintoclient_eq_some]
      split at ht
      · rename_i tw _
        rcases wintoclient_cases s tw with h | h
        · rw [h] at ht; injection ht with ht; subst ht; exact h
        · rw [h] at ht; cases ht
      · cases ht
    exact (managed_stack hs htm).1
  · obtain ⟨b1, b2, b3, b4, b5, b6⟩ :=
      applyrules_frame cfg (s.setCl w { zeroClient with
        x := wa.x, oldx := wa.x, y := wa.y, oldy := wa.y, w := wa.width, oldw := wa.width,
        h := wa.height, oldh := wa.height, oldbw := wa.border_width, mon := s.selmon })
        w inp.rules (by rw [setCl_cl, if_pos rfl]; exact hs.1)
    exact ⟨b1, b2, b3, b4, fun d hd => by rw [b5 d hd, setCl_cl, if_neg hd], b6⟩

/-- `manageInit` only writes the record of the new client, and leaves it on a
monitor of the list. -/
theorem manageInit_frame (cfg : Config) {s : State} (hs : ListsOK s) (w : Nat)
    (wa : XWindowAttributes) (inp : ManageInput) :
    (manageInit cfg s w wa inp).nmons = s.nmons ∧ (manageInit cfg s w wa inp).mon = s.mon ∧
    (manageInit cfg s w wa inp).selmon = s.selmon ∧
    (manageInit cfg s w wa inp).netClientList = s.netClientList ∧
    (∀ d, d ≠ w → (manageInit cfg s w wa inp).cl d = s.cl d) ∧
    ((manageInit cfg s w wa inp).cl w).mon < s.nmons := by
  obtain ⟨a1, a2, a3, a4, a5, a6⟩ := manageNew_frame cfg hs w wa inp
  have o : OnlyClient w (manageNew cfg s w wa inp) (manageInit cfg s w wa inp) := by
    unfold manageInit
    exact onlyClient_trans (onlyClient_manageGeom cfg _ w)
      (onlyClient_trans (onlyClient_updatewindowtype cfg _ w _ _)
        (onlyClient_trans (onlyClient_updatesizehints _ w)
          (onlyClient_trans (onlyClient_updatewmhints _ w _) (onlyClient_manageFloat _ w _))))
  obtain ⟨b1, b2, b3, b4, b5, b6⟩ := o
  exact ⟨b1.trans a1, b2.trans a2, b3.trans a3, b4.trans a4,
    fun d hd => (b5 d hd).trans (a5 d hd), b6 ▸ a6⟩

theorem listsOK_setSel {s : State} (hs : ListsOK s) (m w : Nat)
    (hw : w ∈ (s.mon m).stack) :
    ListsOK (s.setMon m { s.mon m with sel := some w }) := by
  refine listsOK_perm hs rfl hs.1 ?_ ?_ ?_ ?_ (fun _ => rfl)
  · intro i _; rw [setMon_mon]; split_ifs with hi
    · rw [hi]
    · exact List.Perm.refl _
  · intro i _; rw [setMon_mon]; split_ifs with hi
    · rw [hi]
    · exact List.Perm.refl _
  · intro i hi v; rw [setMon_mon]; split_ifs with he
    · intro hv; injection hv with hv; subst hv; exact hw
    · exact (hs.2 i hi).2.2.2.2.1 v
  · intro i hi; rw [setMon_mon]; split_ifs with he
    · rw [he] at hi; exact (hs.2 m hi).2.2.2.2.2
    · exact (hs.2 i hi).2.2.2.2.2

theorem inv_manage (cfg : Config) {s : State} (hs : Inv s) (w : Nat) (wa : XWindowAttributes)
    (inp : ManageInput) (hw : ¬ Managed s w) : Inv (manage cfg s w wa inp) := by
  obtain ⟨a1, a2, a3, a4, a5, a6⟩ := manageInit_frame cfg hs.1 w wa inp
  obtain ⟨l6, u6⟩ := listsOK_unmanaged hs.1 hw a1 a2 a3 a5
  obtain ⟨l7, m7⟩ := attach_lists l6 u6
  unfold manage
  simp only
  generalize manageInit cfg s w wa inp = s6 at *
  have hmon : ((attachstack (attach s6 w) w).cl w).mon = (s6.cl w).mon := rfl
  have hstack : w ∈ ((attachstack (attach s6 w) w).mon (s6.cl w).mon).stack := by
    rw [attachstack_mon, attach_cl, if_pos rfl]
    exact List.mem_cons_self _ _
  -- the state before `arrange`
  have l9 : ListsOK (State.setMon { attachstack (attach s6 w) w with
      netClientList := (attachstack (attach s6 w) w).netClientList ++ [w] } (s6.cl w).mon
      { (attachstack (attach s6 w) w).mon (s6.cl w).mon with sel := some w }) :=
    listsOK_setSel (s := { attachstack (attach s6 w) w with
      netClientList := (attachstack (attach s6 w) w).netClientList ++ [w] })
      (listsOK_perm l7 rfl l7.1 (fun _ _ => List.Perm.refl _) (fun _ _ => List.Perm.refl _)
        (fun i hi => (l7.2 i hi).2.2.2.2.1) (fun i hi => (l7.2 i hi).2.2.2.2.2) (fun _ => rfl))
      _ _ hstack
  have hman : ∀ v, Managed (State.setMon { attachstack (attach s6 w) w with
      netClientList := (attachstack (attach s6 w) w).netClientList ++ [w] } (s6.cl w).mon
      { (attachstack (attach s6 w) w).mon (s6.cl w).mon with sel := some w }) v ↔
      (Managed s v ∨ v = w) := by
    intro v
    unfold Managed
    simp only [setMon_nmons, attachstack_nmons, attach_nmons, setMon_mon]
    constructor
    · rintro ⟨i, hi, hv⟩
      have hv' : v ∈ ((attachstack (attach s6 w) w).mon i).clients := by
        split_ifs at hv with he
        · rw [he]; exact hv
        · exact hv
      rcases (m7 i hi v).mp hv' with h | ⟨h, _⟩
      · left; exact ⟨i, a1 ▸ hi, a2 ▸ h⟩
      · right; exact h
    · rintro (⟨i, hi, hv⟩ | h)
      · refine ⟨i, a1 ▸ hi, ?_⟩
        have hv' : v ∈ ((attachstack (attach s6 w) w).mon i).clients :=
          (m7 i (a1 ▸ hi) v).mpr (Or.inl (a2 ▸ hv))
        split_ifs with he
        · rw [he] at hv'; exact hv'
        · exact hv'
      · refine ⟨(s6.cl w).mon, a1 ▸ a6, ?_⟩
        rw [if_pos rfl]
        exact (m7 _ (a1 ▸ a6) v).mpr (Or.inr ⟨h, rfl⟩)
  have n9 : NclOK (State.setMon { attachstack (attach s6 w) w with
      netClientList := (attachstack (attach s6 w) w).netClientList ++ [w] } (s6.cl w).mon
      { (attachstack (attach s6 w) w).mon (s6.cl w).mon with sel := some w }) := by
    constructor
    · simp only [setMon_ncl, attachstack_ncl, attach_ncl, a4]
      have hnot : w ∉ s.netClientList := fun h => hw ((hs.2.2.2 w).mp h)
      exact List.Nodup.append hs.2.2.1 (List.nodup_singleton w)
        (by
          intro a ha hb
          rw [List.mem_singleton] at hb
          exact hnot (hb ▸ ha))
    · intro v
      rw [hman v]
      simp only [setMon_ncl, attachstack_ncl, attach_ncl, a4, List.mem_append,
        List.mem_singleton, hs.2.2.2 v]
  exact inv_focus (listsOK_same (same_arrange cfg _ _) l9) (nclOK_same (same_arrange cfg _ _) n9)
    (fun v hv => by cases hv)

theorem listsOK_updateclientlist {s : State} (hs : ListsOK s) :
    ListsOK (updateclientlist s) :=
  listsOK_perm hs rfl hs.1 (fun _ _ => List.Perm.refl _) (fun _ _ => List.Perm.refl _)
    (fun i hi => (hs.2 i hi).2.2.2.2.1) (fun i hi => (hs.2 i hi).2.2.2.2.2) (fun _ => rfl)

theorem nclOK_updateclientlist {s : State} (hs : ListsOK s) : NclOK (updateclientlist s) := by
  unfold updateclientlist NclOK
  simp only
  constructor
  · rw [List.nodup_flatten]
    constructor
    · intro l hl
      rw [List.mem_map] at hl
      obtain ⟨i, hi, rfl⟩ := hl
      exact (hs.2 i (List.mem_range.mp hi)).1
    · rw [List.pairwise_map]
      refine List.Pairwise.imp_of_mem ?_ (List.pairwise_lt_range s.nmons)
      intro i j hi hj hlt v hvi hvj
      have e1 := (hs.2 i (List.mem_range.mp hi)).2.2.2.1 v hvi
      have e2 := (hs.2 j (List.mem_range.mp hj)).2.2.2.1 v hvj
      omega
  · intro w
    simp only [List.mem_flatten, List.mem_map, List.mem_range, Managed]
    constructor
    · rintro ⟨l, ⟨i, hi, rfl⟩, hw⟩; exact ⟨i, hi, hw⟩
    · rintro ⟨i, hi, hw⟩; exact ⟨_, ⟨i, hi, rfl⟩, hw⟩

theorem selVisible_updateclientlist {s : State} (hs : SelVisible s) :
    SelVisible (updateclientlist s) := hs

theorem inv_unmanage (cfg : Config) {s : State} (hs : Inv s) {c : Nat} (hc : Managed s c) :
    Inv (unmanage cfg s c) := by
  unfold unmanage
  simp only
  obtain ⟨l1, _⟩ := detach_lists hs.1 hc
  obtain ⟨l2, v2⟩ := listsOK_focus (c := none) l1 (fun v hv => by cases hv)
  exact inv_same (same_arrange cfg _ _)
    ⟨listsOK_updateclientlist l2, selVisible_updateclientlist v2, nclOK_updateclientlist l2⟩

theorem inv_sendmon (cfg : Config) {s : State} (hs : Inv s) {c m : Nat} (hc : Managed s c)
    (hm : m < s.nmons) : Inv (sendmon cfg s c m) := by
  unfold sendmon
  split_ifs with h0
  · exact hs
  · simp only
    obtain ⟨l1, m1⟩ := detach_lists hs.1 hc
    generalize hs1 : detachstack (detach s c) c = s1 at *
    have n1 : s1.nmons = s.nmons := by rw [← hs1]; simp
    have u1 : ¬ Managed s1 c := by
      rintro ⟨i, hi, hw⟩
      exact ((m1 i (n1 ▸ hi) c).mp hw).2 rfl
    obtain ⟨l2, u2⟩ := listsOK_unmanaged (t := s1.setCl c { s1.cl c with
        mon := m, tags := (s1.mon m).curtags }) l1 u1 rfl rfl rfl
      (fun d hd => by rw [setCl_cl, if_neg hd])
    obtain ⟨l3, m3⟩ := attach_lists l2 u2
    generalize hs2 : s1.setCl c { s1.cl c with mon := m, tags := (s1.mon m).curtags } = s2 at *
    have hmon2 : (s2.cl c).mon = m := by rw [← hs2, setCl_cl, if_pos rfl]
    have hmons2 : s2.mon = s1.mon := by rw [← hs2]; rfl
    have n2 : s2.nmons = s.nmons := by rw [← hs2]; exact n1
    have hncl : (attachstack (attach s2 c) c).netClientList = s.netClientList := by
      rw [attachstack_ncl, attach_ncl, ← hs2, setCl_ncl, ← hs1, detachstack_ncl, detach_ncl]
    have n3 : NclOK (attachstack (attach s2 c) c) := by
      refine ⟨hncl ▸ hs.2.2.1, fun v => ?_⟩
      rw [hncl, hs.2.2.2 v]
      unfold Managed
      simp only [attachstack_nmons, attach_nmons, n2]
      constructor
      · rintro ⟨i, hi, hv⟩
        by_cases hvc : v = c
        · refine ⟨m, hm, (m3 m (n2 ▸ hm) v).mpr (Or.inr ⟨hvc, hmon2.symm⟩)⟩
        · refine ⟨i, hi, (m3 i (n2 ▸ hi) v).mpr (Or.inl ?_)⟩
          rw [hmons2]
          exact (m1 i hi v).mpr ⟨hv, hvc⟩
      · rintro ⟨i, hi, hv⟩
        rcases (m3 i (n2 ▸ hi) v).mp hv with h | ⟨h, _⟩
        · rw [hmons2] at h
          exact ⟨i, hi, ((m1 i hi v).mp h).1⟩
        · rw [h]; exact hc
    exact inv_same (same_arrangeAll cfg _) (inv_focus l3 n3 (fun v hv => by cases hv))

theorem inv_tagmon (cfg : Config) {s : State} (hs : Inv s) (dir : Int) :
    Inv (tagmon cfg s dir) := by
  unfold tagmon
  split
  · exact hs
  · rename_i sel hsel
    split_ifs
    · exact hs
    · exact inv_sendmon cfg hs
        ⟨s.selmon, hs.1.1, ((hs.1.2 _ hs.1.1).2.2.1 sel).mpr ((hs.1.2 _ hs.1.1).2.2.2.2.1 sel hsel)⟩
        (dirtomon_lt hs.1.1 dir)

theorem inv_initial {s : State} (h : Initial s) : Inv s := by
  obtain ⟨_, h2, h3, h4⟩ := h
  refine ⟨⟨h2, fun i hi => ?_⟩, ?_, ?_, ?_⟩
  · obtain ⟨b1, b2, b3, b4, _, _⟩ := h4 i hi
    rw [b1, b2, b3, b4]
    simp
  · intro w hw
    rw [(h4 _ h2).2.2.1] at hw
    cases hw
  · rw [h3]; exact List.nodup_nil
  · intro w
    rw [h3]
    simp only [List.not_mem_nil, false_iff]
    rintro ⟨i, hi, hw⟩
    rw [(h4 i hi).1] at hw
    cases hw

theorem inv_step (cfg : Config) {s t : State} (hs : Inv s) (h : Step cfg s t) : Inv t := by
  cases h with
  | manage w wa inp hw => exact inv_manage cfg hs w wa inp ((wintoclient_eq_none s w).mp hw)
  | unmanage c hc => exact inv_unmanage cfg hs ((wintoclient_eq_some s c).mp hc)
  | focus c hc =>
    exact inv_focus hs.1 hs.2.2 (fun v hv => by
      injection hv with hv; subst hv; exact (wintoclient_eq_some s c).mp hc)
  | focusNull => exact inv_focus hs.1 hs.2.2 (fun v hv => by cases hv)
  | focusmon dir => exact inv_focusmon hs dir
  | focusstack dir => exact inv_focusstack cfg hs dir
  | zoom => exact inv_zoom cfg hs
  | sendmon c m hc hm => exact inv_sendmon cfg hs ((wintoclient_eq_some s c).mp hc) hm
  | tagmon dir => exact inv_tagmon cfg hs dir
  | view ui => exact inv_view cfg hs ui
  | toggleview ui => exact inv_toggleview cfg hs ui
  | tag ui => exact inv_tag cfg hs ui
  | toggletag ui => exact inv_toggletag cfg hs ui
  | xprop f => exact hs

/-- Every reachable state satisfies the invariant. -/
theorem inv_reachable (cfg : Config) {s : State} (h : Reachable cfg s) : Inv s := by
  induction h with
  | init s h => exact inv_initial h
  | step s t _ hst ih => exact inv_step cfg ih hst

end Dwm


/-! ## Claims on the lists, the selection and `_NET_CLIENT_LIST` -/

namespace Dwm

theorem exInit_initial : Initial exInit :=
  ⟨by decide, by decide, rfl, fun _ _ => ⟨rfl, rfl, rfl, rfl, rfl, rfl⟩⟩

theorem exA_reachable : Reachable exCfg exA :=
  Reachable.step _ _ (Reachable.init _ exInit_initial)
    (Step.manage exInit 1 exWa exInp (by decide!))

theorem exAB_reachable : Reachable exCfg exAB :=
  Reachable.step _ _ exA_reachable (Step.manage exA 2 exWa exInp (by decide!))

theorem exABC_reachable : Reachable exCfg exABC :=
  Reachable.step _ _ exAB_reachable (Step.manage exAB 3 exWa exInp (by decide!))

/-- C1: in every reachable state a managed client occurs exactly once in the
`clients` list and exactly once in the `stack` list of its own monitor
`c->mon`, and in no list of any other monitor. -/
theorem client_in_exactly_one_list_pair (cfg : Config) (s : State) (c : Nat)
    (hr : Reachable cfg s) (hc : wintoclient s c = some c) :
    (s.cl c).mon < s.nmons ∧
    (s.mon (s.cl c).mon).clients.count c = 1 ∧
    (s.mon (s.cl c).mon).stack.count c = 1 ∧
    ∀ i, i < s.nmons → i ≠ (s.cl c).mon →
      c ∉ (s.mon i).clients ∧ c ∉ (s.mon i).stack := by
  have hs := (inv_reachable cfg hr).1
  obtain ⟨hm, hcl, hst⟩ := managed_stack hs ((wintoclient_eq_some s c).mp hc)
  refine ⟨hm, List.count_eq_one_of_mem (hs.2 _ hm).1 hcl,
    List.count_eq_one_of_mem (hs.2 _ hm).2.1 hst, fun i hi hne => ?_⟩
  have h1 : c ∉ (s.mon i).clients := fun h => hne ((hs.2 i hi).2.2.2.1 c h).symm
  exact ⟨h1, fun h => h1 (((hs.2 i hi).2.2.1 c).mpr h)⟩

/-- C1 at the state with the three windows 1, 2, 3 managed, for window 2. -/
theorem client_in_exactly_one_list_pair_witness :
    (exABC.cl 2).mon < exABC.nmons ∧
    (exABC.mon (exABC.cl 2).mon).clients.count 2 = 1 ∧
    (exABC.mon (exABC.cl 2).mon).stack.count 2 = 1 ∧
    ∀ i, i < exABC.nmons → i ≠ (exABC.cl 2).mon →
      2 ∉ (exABC.mon i).clients ∧ 2 ∉ (exABC.mon i).stack :=
  client_in_exactly_one_list_pair exCfg exABC 2 exABC_reachable (by decide!)

/-- C2: in every reachable state `selmon->sel` is `NULL` or a client `c` with
`c->tags & selmon->tagset[selmon->seltags] != 0`. -/
theorem selmon_sel_null_or_visible (cfg : Config) (s : State) (hr : Reachable cfg s) :
    (s.mon s.selmon).sel = none ∨
    ∃ c, (s.mon s.selmon).sel = some c ∧
      (s.cl c).tags &&& (s.mon s.selmon).tagset (s.mon s.selmon).seltags ≠ 0 := by
  obtain ⟨hl, hv, _⟩ := inv_reachable cfg hr
  cases hsel : (s.mon s.selmon).sel with
  | none => exact Or.inl rfl
  | some c =>
    refine Or.inr ⟨c, rfl, ?_⟩
    have h1 := hv c hsel
    have h2 := listsOK_mem_stack hl hl.1 ((hl.2 _ hl.1).2.2.2.2.1 c hsel)
    unfold ISVISIBLE at h1
    rw [h2] at h1
    simpa [Monitor.curtags] using h1

/-- C2 at the state with the three windows 1, 2, 3 managed. -/
theorem selmon_sel_null_or_visible_witness :
    (exABC.mon exABC.selmon).sel = none ∨
    ∃ c, (exABC.mon exABC.selmon).sel = some c ∧
      (exABC.cl c).tags &&& (exABC.mon exABC.selmon).tagset (exABC.mon exABC.selmon).seltags ≠ 0 :=
  selmon_sel_null_or_visible exCfg exABC exABC_reachable

/-- In every reachable state the `sel` of every monitor is `NULL` or a member
of that monitor's stack; on the selected monitor it is moreover visible. -/
theorem sel_member_of_stack (cfg : Config) (s : State) (hr : Reachable cfg s) (i w : Nat)
    (hi : i < s.nmons) (hsel : (s.mon i).sel = some w) :
    w ∈ (s.mon i).stack ∧ (s.cl w).mon = i ∧ (i = s.selmon → ISVISIBLE s w = true) := by
  obtain ⟨hl, hv, _⟩ := inv_reachable cfg hr
  have h1 := (hl.2 i hi).2.2.2.2.1 w hsel
  exact ⟨h1, listsOK_mem_stack hl hi h1, fun e => hv w (e ▸ hsel)⟩

theorem exInit2_initial : Initial exInit2 :=
  ⟨by decide, by decide, rfl, fun i _ => by
    by_cases h : i = 0
    · subst h; exact ⟨rfl, rfl, rfl, rfl, rfl, rfl⟩
    · simp only [exInit2, if_neg h]; exact ⟨rfl, rfl, rfl, rfl, rfl, rfl⟩⟩

theorem exHidden_reachable : Reachable exCfg exHidden :=
  Reachable.step _ _
    (Reachable.step _ _
      (Reachable.step _ _
        (Reachable.step _ _ (Reachable.init _ exInit2_initial) (Step.focusmon exInit2 1))
        (Step.manage (focusmon exInit2 1) 1 exWa exInp (by decide!)))
      (Step.tag _ 2))
    (Step.focusmon _ 1)

/-- C3, the code at the failing input: on two monitors with the first one
selected, window 2 is managed as a transient of the hidden window 1 of the
second monitor.  Afterwards the second monitor's `sel` is window 2, a member
of its stack, which is not visible under that monitor's tag set. -/
theorem manage_selects_hidden_client :
    Reachable exCfg exTransient ∧ exTransient.selmon = 0 ∧
    (exTransient.mon 1).sel = some 2 ∧ 2 ∈ (exTransient.mon 1).stack ∧
    (exTransient.cl 2).mon = 1 ∧
    (exTransient.cl 2).tags &&& (exTransient.mon 1).tagset (exTransient.mon 1).seltags = 0 :=
  ⟨Reachable.step _ _ exHidden_reachable
      (Step.manage exHidden 2 exWa { exInp with trans := some 1 } (by decide!)),
    by decide!, by decide!, by decide!, by decide!, by decide!⟩

theorem clientsConcat_same {s t : State} (h : Same s t) : clientsConcat t = clientsConcat s := by
  unfold clientsConcat
  rw [h.1]
  congr 1
  apply List.map_congr_left
  intro i _
  exact h.clients i

theorem clientsConcat_nodup {s : State} (hs : ListsOK s) : (clientsConcat s).Nodup :=
  (nclOK_updateclientlist hs).1

theorem mem_clientsConcat {s : State} (hs : ListsOK s) (w : Nat) :
    w ∈ clientsConcat s ↔ Managed s w :=
  (nclOK_updateclientlist hs).2 w

theorem manage_ncl (cfg : Config) {s : State} (hs : ListsOK s) (w : Nat)
    (wa : XWindowAttributes) (inp : ManageInput) :
    (manage cfg s w wa inp).netClientList = s.netClientList ++ [w] := by
  unfold manage
  simp only
  rw [focus_ncl, (same_arrange cfg _ _).2.2.1, setMon_ncl]
  simp only [attachstack_ncl, attach_ncl, (manageInit_frame cfg hs w wa inp).2.2.2.1]

/-- C4 as amended: in every reachable state `_NET_CLIENT_LIST` holds the window
ids of the concatenated `clients` lists, each once, in some order; after
`unmanage` it is that concatenation, and `manage` appends the new window id to
the previous list. -/
theorem net_client_list_maintained (cfg : Config) (s : State) (hr : Reachable cfg s) :
    s.netClientList.Perm (clientsConcat s) ∧
    (∀ c, wintoclient s c = some c →
      (unmanage cfg s c).netClientList = clientsConcat (unmanage cfg s c)) ∧
    (∀ w wa inp, wintoclient s w = none →
      (manage cfg s w wa inp).netClientList = s.netClientList ++ [w]) := by
  obtain ⟨hl, _, hn⟩ := inv_reachable cfg hr
  refine ⟨?_, fun c _ => ?_, fun w wa inp _ => manage_ncl cfg hl w wa inp⟩
  · rw [List.perm_ext_iff_of_nodup hn.1 (clientsConcat_nodup hl)]
    intro w
    rw [hn.2 w, mem_clientsConcat hl w]
  · unfold unmanage
    simp only
    rw [clientsConcat_same (same_arrange cfg _ _), (same_arrange cfg _ _).2.2.1]
    rfl

/-- C4 at the state with the three windows 1, 2, 3 managed. -/
theorem net_client_list_maintained_witness :
    exABC.netClientList.Perm (clientsConcat exABC) ∧
    (∀ c, wintoclient exABC c = some c →
      (unmanage exCfg exABC c).netClientList = clientsConcat (unmanage exCfg exABC c)) ∧
    (∀ w wa inp, wintoclient exABC w = none →
      (manage exCfg exABC w wa inp).netClientList = exABC.netClientList ++ [w]) :=
  net_client_list_maintained exCfg exABC exABC_reachable

/-- C4 as stated fails: after windows 1 and 2 have been managed the property is
`[1, 2]` (the second `manage` appended), the concatenation of the `clients`
lists is `[2, 1]` (`attach` prepended). -/
theorem net_client_list_after_manage_differs :
    Reachable exCfg exA ∧
    (manage exCfg exA 2 exWa exInp).netClientList = [1, 2] ∧
    clientsConcat (manage exCfg exA 2 exWa exInp) = [2, 1] ∧
    (manage exCfg exA 2 exWa exInp).netClientList ≠
      clientsConcat (manage exCfg exA 2 exWa exInp) :=
  ⟨exA_reachable, by decide!, by decide!, by decide!⟩

end Dwm


/-! ## `view` -/

namespace Dwm

theorem focus_none_selmon (s : State) (h : ∀ w, w ∈ (s.mon s.selmon).stack →
    (s.cl w).mon = s.selmon) : (focus s none).selmon = s.selmon := by
  cases hf : focusTarget s none with
  | none => rw [focus_none s none hf]; rfl
  | some w =>
    rw [focus_some_selmon s none w hf]
    exact h w (List.mem_of_find?_eq_some hf)

/-- The monitor fields `focus(NULL); arrange(selmon)` leaves alone. -/
theorem focus_arrange_banks (cfg : Config) (s : State) (m i : Nat) :
    ((arrange cfg (focus s none) m).mon i).seltags = (s.mon i).seltags ∧
    ((arrange cfg (focus s none) m).mon i).tagset0 = (s.mon i).tagset0 ∧
    ((arrange cfg (focus s none) m).mon i).tagset1 = (s.mon i).tagset1 := by
  have h := same_arrange cfg (focus s none) m
  exact ⟨(h.seltags i).trans (focus_seltags s none i), (h.tagset0 i).trans (focus_tagset0 s none i),
    (h.tagset1 i).trans (focus_tagset1 s none i)⟩

theorem tagset_congr {m n : Monitor} (h0 : m.tagset0 = n.tagset0) (h1 : m.tagset1 = n.tagset1)
    (i : Nat) : m.tagset i = n.tagset i := by
  unfold Monitor.tagset; rw [h0, h1]

/-- The effect of `view(mask)` on `seltags` and the two banks of the selected
monitor. -/
theorem view_effect (cfg : Config) (s : State) (ui : Nat)
    (h1 : (s.mon s.selmon).seltags ≤ 1)
    (h2 : ∀ w, w ∈ (s.mon s.selmon).stack → (s.cl w).mon = s.selmon) :
    (view cfg s ui).selmon = s.selmon ∧
    (ui &&& TAGMASK cfg = (s.mon s.selmon).tagset (s.mon s.selmon).seltags →
      ((view cfg s ui).mon s.selmon).seltags = (s.mon s.selmon).seltags ∧
      ((view cfg s ui).mon s.selmon).tagset 0 = (s.mon s.selmon).tagset 0 ∧
      ((view cfg s ui).mon s.selmon).tagset 1 = (s.mon s.selmon).tagset 1) ∧
    (ui &&& TAGMASK cfg ≠ (s.mon s.selmon).tagset (s.mon s.selmon).seltags →
      ((view cfg s ui).mon s.selmon).seltags = (s.mon s.selmon).seltags ^^^ 1 ∧
      ((view cfg s ui).mon s.selmon).tagset (s.mon s.selmon).seltags =
        (s.mon s.selmon).tagset (s.mon s.selmon).seltags ∧
      (ui &&& TAGMASK cfg ≠ 0 →
        ((view cfg s ui).mon s.selmon).tagset ((s.mon s.selmon).seltags ^^^ 1) =
          ui &&& TAGMASK cfg) ∧
      (ui &&& TAGMASK cfg = 0 →
        ((view cfg s ui).mon s.selmon).tagset ((s.mon s.selmon).seltags ^^^ 1) =
          (s.mon s.selmon).tagset ((s.mon s.selmon).seltags ^^^ 1))) := by
  have hsel : (view cfg s ui).selmon = s.selmon := by
    unfold view
    simp only
    split_ifs
    · rfl
    · rw [(same_arrange cfg _ _).2.1]
      exact focus_none_selmon _ (fun w hw => by
        simp only [setMon_mon, setMon_selmon, if_true, setTagset_stack, setMon_cl] at hw ⊢
        exact h2 w hw)
    · rw [(same_arrange cfg _ _).2.1]
      exact focus_none_selmon _ (fun w hw => by
        simp only [setMon_mon, setMon_selmon, if_true, setMon_cl] at hw ⊢
        exact h2 w hw)
  refine ⟨hsel, fun he => ?_, fun hne => ?_⟩
  · have hv : view cfg s ui = s := by
      unfold view
      simp only [he, if_true]
    rw [hv]
    exact ⟨rfl, rfl, rfl⟩
  · have hcase : (s.mon s.selmon).seltags = 0 ∨ (s.mon s.selmon).seltags = 1 := by omega
    by_cases hz : ui &&& TAGMASK cfg = 0
    · have hv : view cfg s ui = arrange cfg
          (focus (s.setMon s.selmon
            { s.mon s.selmon with seltags := (s.mon s.selmon).seltags ^^^ 1 }) none)
          (focus (s.setMon s.selmon
            { s.mon s.selmon with seltags := (s.mon s.selmon).seltags ^^^ 1 }) none).selmon := by
        unfold view
        simp only [if_neg hne]
        rw [if_neg (not_not.mpr hz)]
      rw [hv]
      obtain ⟨e1, e2, e3⟩ := focus_arrange_banks cfg
        (s.setMon s.selmon { s.mon s.selmon with seltags := (s.mon s.selmon).seltags ^^^ 1 })
        (focus (s.setMon s.selmon
          { s.mon s.selmon with seltags := (s.mon s.selmon).seltags ^^^ 1 }) none).selmon
        s.selmon
      simp only [setMon_mon, if_true] at e1 e2 e3
      exact ⟨e1, tagset_congr e2 e3 _, fun h => absurd hz h, fun _ => tagset_congr e2 e3 _⟩
    · have hv : view cfg s ui = arrange cfg
          (focus (s.setMon s.selmon
            (Monitor.setTagset { s.mon s.selmon with seltags := (s.mon s.selmon).seltags ^^^ 1 }
              ((s.mon s.selmon).seltags ^^^ 1) (ui &&& TAGMASK cfg))) none)
          (focus (s.setMon s.selmon
            (Monitor.setTagset { s.mon s.selmon with seltags := (s.mon s.selmon).seltags ^^^ 1 }
              ((s.mon s.selmon).seltags ^^^ 1) (ui &&& TAGMASK cfg))) none).selmon := by
        unfold view
        simp only [if_neg hne]
        rw [if_pos hz]
      rw [hv]
      obtain ⟨e1, e2, e3⟩ := focus_arrange_banks cfg
        (s.setMon s.selmon
          (Monitor.setTagset { s.mon s.selmon with seltags := (s.mon s.selmon).seltags ^^^ 1 }
            ((s.mon s.selmon).seltags ^^^ 1) (ui &&& TAGMASK cfg)))
        (focus (s.setMon s.selmon
          (Monitor.setTagset { s.mon s.selmon with seltags := (s.mon s.selmon).seltags ^^^ 1 }
            ((s.mon s.selmon).seltags ^^^ 1) (ui &&& TAGMASK cfg))) none).selmon s.selmon
      simp only [setMon_mon, if_true, setTagset_seltags] at e1 e2 e3
      refine ⟨e1, ?_, fun _ => ?_, fun h => absurd h hz⟩
      · unfold Monitor.tagset
        rw [e2, e3]
        rcases hcase with h | h <;> simp [h, Monitor.setTagset]
      · unfold Monitor.tagset
        rw [e2, e3]
        rcases hcase with h | h <;> simp [h, Monitor.setTagset]

/-- C10: `view(mask)` on the selected monitor.  When `mask & TAGMASK` is the
current tag set, `seltags` and both banks are unchanged; otherwise `seltags`
is flipped, the bank selected before the call is unchanged, and the newly
selected bank is `mask & TAGMASK` when that is nonzero and keeps its content
when it is zero.  `selmon` stays the same monitor. -/
theorem view_banks (cfg : Config) (s : State) (ui : Nat)
    (h1 : (s.mon s.selmon).seltags ≤ 1)
    (h2 : ∀ w, w ∈ (s.mon s.selmon).stack → (s.cl w).mon = s.selmon) :
    (view cfg s ui).selmon = s.selmon ∧
    (ui &&& TAGMASK cfg = (s.mon s.selmon).tagset (s.mon s.selmon).seltags →
      ((view cfg s ui).mon s.selmon).seltags = (s.mon s.selmon).seltags ∧
      ((view cfg s ui).mon s.selmon).tagset 0 = (s.mon s.selmon).tagset 0 ∧
      ((view cfg s ui).mon s.selmon).tagset 1 = (s.mon s.selmon).tagset 1) ∧
    (ui &&& TAGMASK cfg ≠ (s.mon s.selmon).tagset (s.mon s.selmon).seltags →
      ((view cfg s ui).mon s.selmon).seltags = (s.mon s.selmon).seltags ^^^ 1 ∧
      ((view cfg s ui).mon s.selmon).tagset (s.mon s.selmon).seltags =
        (s.mon s.selmon).tagset (s.mon s.selmon).seltags ∧
      (ui &&& TAGMASK cfg ≠ 0 →
        ((view cfg s ui).mon s.selmon).tagset ((s.mon s.selmon).seltags ^^^ 1) =
          ui &&& TAGMASK cfg) ∧
      (ui &&& TAGMASK cfg = 0 →
        ((view cfg s ui).mon s.selmon).tagset ((s.mon s.selmon).seltags ^^^ 1) =
          (s.mon s.selmon).tagset ((s.mon s.selmon).seltags ^^^ 1))) :=
  view_effect cfg s ui h1 h2

/-- C10 at the state with the three windows managed, for `view(2)`. -/
theorem view_banks_witness :
    (view exCfg exABC 2).selmon = exABC.selmon ∧
    (2 &&& TAGMASK exCfg = (exABC.mon exABC.selmon).tagset (exABC.mon exABC.selmon).seltags →
      ((view exCfg exABC 2).mon exABC.selmon).seltags = (exABC.mon exABC.selmon).seltags ∧
      ((view exCfg exABC 2).mon exABC.selmon).tagset 0 = (exABC.mon exABC.selmon).tagset 0 ∧
      ((view exCfg exABC 2).mon exABC.selmon).tagset 1 = (exABC.mon exABC.selmon).tagset 1) ∧
    (2 &&& TAGMASK exCfg ≠ (exABC.mon exABC.selmon).tagset (exABC.mon exABC.selmon).seltags →
      ((view exCfg exABC 2).mon exABC.selmon).seltags =
        (exABC.mon exABC.selmon).seltags ^^^ 1 ∧
      ((view exCfg exABC 2).mon exABC.selmon).tagset (exABC.mon exABC.selmon).seltags =
        (exABC.mon exABC.selmon).tagset (exABC.mon exABC.selmon).seltags ∧
      (2 &&& TAGMASK exCfg ≠ 0 →
        ((view exCfg exABC 2).mon exABC.selmon).tagset
          ((exABC.mon exABC.selmon).seltags ^^^ 1) = 2 &&& TAGMASK exCfg) ∧
      (2 &&& TAGMASK exCfg = 0 →
        ((view exCfg exABC 2).mon exABC.selmon).tagset
          ((exABC.mon exABC.selmon).seltags ^^^ 1) =
          (exABC.mon exABC.selmon).tagset ((exABC.mon exABC.selmon).seltags ^^^ 1))) :=
  view_banks exCfg exABC 2 (by decide!) (by decide!)

end Dwm


/-! ## `applysizehints` -/

namespace Dwm

theorem floorSize_eq (bh v : Int) : floorSize bh v = max (max v 1) bh := by
  unfold floorSize
  split_ifs <;> omega

theorem incAdjust_eq (v inc : Int) :
    incAdjust v inc = if inc = 0 then v else inc * Int.tdiv v inc := by
  unfold incAdjust
  have h := Int.tmod_add_tdiv v inc
  split_ifs <;> omega

theorem hintSize_no_aspect (c1 : Client) (w h : Int) (ha : ¬ (c1.mina > 0 ∧ c1.maxa > 0)) :
    hintSize c1 w h =
      (restoreBase (incAdjust (w - c1.basew) c1.incw) c1.basew c1.minw c1.maxw,
       restoreBase (incAdjust (h - c1.baseh) c1.inch) c1.baseh c1.minh c1.maxh) := by
  unfold hintSize aspectAdjust
  simp only [if_neg ha]
  cases (c1.basew == c1.minw && c1.baseh == c1.minh) <;> simp

theorem restoreBase_incAdjust (bh v base inc minv maxv : Int) :
    restoreBase (incAdjust (floorSize bh v - base) inc) base minv maxv =
      specHintSize bh v base inc minv maxv := by
  unfold restoreBase specHintSize
  rw [incAdjust_eq, floorSize_eq]
  simp only
  split_ifs <;> simp only [add_comm]

/-- C9: when the size-hint block of `applysizehints` runs and the client (with
its hints refreshed when they were stale) has no aspect hints, the resulting
width and height are the values of the spec's formula `specHintSize`, which
does not mention `baseismin`. -/
theorem hint_size_without_aspect (cfg : Config) (s : State) (c : Nat) (x y w h : Int)
    (interact : Bool) (happly : hintsApply cfg s c = true)
    (ha : ¬ (((hintState cfg s c).cl c).mina > 0 ∧ ((hintState cfg s c).cl c).maxa > 0)) :
    (applysizehints cfg s c x y w h interact).2.1.2.2.1 =
      specHintSize s.bh w ((hintState cfg s c).cl c).basew ((hintState cfg s c).cl c).incw
        ((hintState cfg s c).cl c).minw ((hintState cfg s c).cl c).maxw ∧
    (applysizehints cfg s c x y w h interact).2.1.2.2.2 =
      specHintSize s.bh h ((hintState cfg s c).cl c).baseh ((hintState cfg s c).cl c).inch
        ((hintState cfg s c).cl c).minh ((hintState cfg s c).cl c).maxh := by
  unfold applysizehints hintRect
  simp only [happly, if_true, hintSize_no_aspect _ _ _ ha, clampRect, restoreBase_incAdjust,
    and_self]

/-- C9 at the window with increments 7 x 13 and maximum size 1000 x 1000, for
the request `(0, 14, 1918, 1064)`. -/
theorem hint_size_without_aspect_witness :
    (applysizehints exCfg exHinted 1 0 14 1918 1064 false).2.1.2.2.1 =
      specHintSize exHinted.bh 1918 ((hintState exCfg exHinted 1).cl 1).basew
        ((hintState exCfg exHinted 1).cl 1).incw ((hintState exCfg exHinted 1).cl 1).minw
        ((hintState exCfg exHinted 1).cl 1).maxw ∧
    (applysizehints exCfg exHinted 1 0 14 1918 1064 false).2.1.2.2.2 =
      specHintSize exHinted.bh 1064 ((hintState exCfg exHinted 1).cl 1).baseh
        ((hintState exCfg exHinted 1).cl 1).inch ((hintState exCfg exHinted 1).cl 1).minh
        ((hintState exCfg exHinted 1).cl 1).maxh :=
  hint_size_without_aspect exCfg exHinted 1 0 14 1918 1064 false (by decide!) (by decide!)

/-- A zero divisor in the aspect hints: with `min_aspect = 0/1` and
`max_aspect = 2/1` (flag `PAspect`), `updatesizehints` stores
`mina = (float)1 / 0`, which is `+inf`, and `maxa = 2`, so the aspect block of
`applysizehints` runs: the size `500 x 100` becomes `200 x 100`. -/
theorem updatesizehints_zero_divisor :
    ((updatesizehints { exInit with xhints := fun _ => some exZeroAspect } 1).cl 1).mina =
      Flt.pinf ∧
    ((updatesizehints { exInit with xhints := fun _ => some exZeroAspect } 1).cl 1).maxa =
      Flt.fin 2 ∧
    hintSize ((updatesizehints { exInit with xhints := fun _ => some exZeroAspect } 1).cl 1)
      500 100 = (200, 100) := by
  decide!

/-! ### Idempotence -/

theorem clampAxis_idem (interact : Bool) (screen lo len outer bw p d d2 : Int)
    (hd : d ≤ d2) (harea : if interact = true then 0 ≤ screen else 0 < len) :
    clampAxis interact screen lo len outer bw
      (clampAxis interact screen lo len outer bw p d) d2 =
    clampAxis interact screen lo len outer bw p d := by
  unfold clampAxis
  cases interact
  · simp only [Bool.false_eq_true, if_false] at harea ⊢
    split_ifs <;> omega
  · simp only [if_true] at harea ⊢
    split_ifs <;> omega

theorem floorSize_idem (bh v : Int) : floorSize bh (floorSize bh v) = floorSize bh v := by
  simp only [floorSize_eq]; omega

theorem le_floorSize (bh v : Int) : max 1 v ≤ max 1 (floorSize bh v) := by
  simp only [floorSize_eq]; omega

theorem clampRect_idem (s : State) (c : Nat) (x y w h : Int) (interact : Bool)
    (harea : if interact = true then 0 ≤ s.sw ∧ 0 ≤ s.sh
             else 0 < (s.mon (s.cl c).mon).ww ∧ 0 < (s.mon (s.cl c).mon).wh) :
    clampRect s c (clampRect s c x y w h interact).1 (clampRect s c x y w h interact).2.1
      (clampRect s c x y w h interact).2.2.1 (clampRect s c x y w h interact).2.2.2 interact =
    clampRect s c x y w h interact := by
  unfold clampRect
  simp only [floorSize_idem]
  rw [clampAxis_idem _ _ _ _ _ _ _ _ _ (le_floorSize s.bh w)
      (by cases interact <;> simp_all),
    clampAxis_idem _ _ _ _ _ _ _ _ _ (le_floorSize s.bh h)
      (by cases interact <;> simp_all)]

/-- A client without size hints: every hint field is zero. -/
theorem hintSize_zero (c1 : Client) (w h : Int) (hw : 0 ≤ w) (hh : 0 ≤ h)
    (hz : c1.basew = 0 ∧ c1.baseh = 0 ∧ c1.incw = 0 ∧ c1.inch = 0 ∧ c1.minw = 0 ∧
      c1.minh = 0 ∧ c1.maxw = 0 ∧ c1.maxh = 0 ∧ ¬ (c1.mina > 0 ∧ c1.maxa > 0)) :
    hintSize c1 w h = (w, h) := by
  obtain ⟨z1, z2, z3, z4, z5, z6, z7, z8, z9⟩ := hz
  rw [hintSize_no_aspect c1 w h z9]
  simp only [z1, z2, z3, z4, z5, z6, z7, z8, restoreBase, incAdjust, ne_eq, not_true_eq_false,
    if_false, sub_zero, add_zero, Prod.mk.injEq]
  omega

theorem floorSize_nonneg (bh v : Int) : 0 ≤ floorSize bh v := by
  simp only [floorSize_eq]; omega

/-- C8 as amended: `applysizehints` is idempotent when the hints are valid, the
work area of the client's monitor is not empty (with `interact`: the screen
size is not negative), and either the size-hint block does not run or the
client has no size hints (all hint fields zero). -/
theorem applysizehints_idempotent (cfg : Config) (s : State) (c : Nat) (x y w h : Int)
    (interact : Bool) (hvalid : (s.cl c).hintsvalid = true)
    (harea : if interact = true then 0 ≤ s.sw ∧ 0 ≤ s.sh
             else 0 < (s.mon (s.cl c).mon).ww ∧ 0 < (s.mon (s.cl c).mon).wh)
    (hhints : hintsApply cfg s c = false ∨
      ((s.cl c).basew = 0 ∧ (s.cl c).baseh = 0 ∧ (s.cl c).incw = 0 ∧ (s.cl c).inch = 0 ∧
       (s.cl c).minw = 0 ∧ (s.cl c).minh = 0 ∧ (s.cl c).maxw = 0 ∧ (s.cl c).maxh = 0 ∧
       ¬ ((s.cl c).mina > 0 ∧ (s.cl c).maxa > 0))) :
    (applysizehints cfg s c x y w h interact).1 = s ∧
    (applysizehints cfg (applysizehints cfg s c x y w h interact).1 c
      (applysizehints cfg s c x y w h interact).2.1.1
      (applysizehints cfg s c x y w h interact).2.1.2.1
      (applysizehints cfg s c x y w h interact).2.1.2.2.1
      (applysizehints cfg s c x y w h interact).2.1.2.2.2 interact).2.1 =
    (applysizehints cfg s c x y w h interact).2.1 := by
  have hst : hintState cfg s c = s := by
    unfold hintState
    simp [hvalid]
  have hrect : ∀ x y w h, hintRect cfg s c x y w h interact = clampRect s c x y w h interact := by
    intro x y w h
    unfold hintRect
    simp only
    split_ifs with hap
    · rcases hhints with hf | hz
      · rw [hf] at hap; cases hap
      · rw [hst, hintSize_zero _ _ _ _ _ hz]
        · simp only [clampRect]; exact floorSize_nonneg _ _
        · simp only [clampRect]; exact floorSize_nonneg _ _
    · rfl
  unfold applysizehints
  simp only [hst, hrect, true_and]
  exact clampRect_idem s c x y w h interact harea

/-- C8 as amended, at window `2` of the three plain windows, for the request
`(3000, -50, 0, 2000)`. -/
theorem applysizehints_idempotent_witness :
    (applysizehints exCfg exABC 2 3000 (-50) 0 2000 false).1 = exABC ∧
    (applysizehints exCfg (applysizehints exCfg exABC 2 3000 (-50) 0 2000 false).1 2
      (applysizehints exCfg exABC 2 3000 (-50) 0 2000 false).2.1.1
      (applysizehints exCfg exABC 2 3000 (-50) 0 2000 false).2.1.2.1
      (applysizehints exCfg exABC 2 3000 (-50) 0 2000 false).2.1.2.2.1
      (applysizehints exCfg exABC 2 3000 (-50) 0 2000 false).2.1.2.2.2 false).2.1 =
    (applysizehints exCfg exABC 2 3000 (-50) 0 2000 false).2.1 :=
  applysizehints_idempotent exCfg exABC 2 3000 (-50) 0 2000 false (by decide!) (by decide!)
    (Or.inr (by decide!))

/-- C8 as stated fails: for the window with increments 7 x 13 and maximum size
1000 x 1000 (valid hints), `applysizehints` maps `(0, 14, 1918, 1064)` to
`(0, 14, 1000, 1000)` and that to `(0, 14, 994, 988)`. -/
theorem applysizehints_not_idempotent :
    (exHinted.cl 1).hintsvalid = true ∧
    (applysizehints exCfg exHinted 1 0 14 1918 1064 false).1 = exHinted ∧
    (applysizehints exCfg exHinted 1 0 14 1918 1064 false).2.1 = (0, 14, 1000, 1000) ∧
    (applysizehints exCfg exHinted 1 0 14 1000 1000 false).2.1 = (0, 14, 994, 988) :=
  ⟨by decide!, by simp [applysizehints, hintState, show (exHinted.cl 1).hintsvalid = true by decide!],
    by decide!, by decide!⟩

end Dwm


/-! ## `tile`: the columns -/

namespace Dwm

theorem Same.wx {s t : State} (h : Same s t) (i : Nat) : (t.mon i).wx = (s.mon i).wx := by
  have h1 := congrArg Monitor.wx (h.2.2.2.2.2.2.2.1 i)
  simpa [Monitor.core] using h1

theorem Same.wy {s t : State} (h : Same s t) (i : Nat) : (t.mon i).wy = (s.mon i).wy := by
  have h1 := congrArg Monitor.wy (h.2.2.2.2.2.2.2.1 i)
  simpa [Monitor.core] using h1

theorem Same.ww {s t : State} (h : Same s t) (i : Nat) : (t.mon i).ww = (s.mon i).ww := by
  have h1 := congrArg Monitor.ww (h.2.2.2.2.2.2.2.1 i)
  simpa [Monitor.core] using h1

theorem Same.wh {s t : State} (h : Same s t) (i : Nat) : (t.mon i).wh = (s.mon i).wh := by
  have h1 := congrArg Monitor.wh (h.2.2.2.2.2.2.2.1 i)
  simpa [Monitor.core] using h1

theorem Same.nmaster {s t : State} (h : Same s t) (i : Nat) :
    (t.mon i).nmaster = (s.mon i).nmaster := by
  have h1 := congrArg Monitor.nmaster (h.2.2.2.2.2.2.2.1 i)
  simpa [Monitor.core] using h1

theorem Same.mfact {s t : State} (h : Same s t) (i : Nat) :
    (t.mon i).mfact = (s.mon i).mfact := by
  have h1 := congrArg Monitor.mfact (h.2.2.2.2.2.2.2.1 i)
  simpa [Monitor.core] using h1

theorem Same.curlt {s t : State} (h : Same s t) (i : Nat) :
    (t.mon i).curlt = (s.mon i).curlt := by
  have h1 := congrArg Monitor.sellt (h.2.2.2.2.2.2.2.1 i)
  have h2 := congrArg Monitor.lt0 (h.2.2.2.2.2.2.2.1 i)
  have h3 := congrArg Monitor.lt1 (h.2.2.2.2.2.2.2.1 i)
  simp only [Monitor.core] at h1 h2 h3
  simp [Monitor.curlt, Monitor.lt, h1, h2, h3]

theorem Same.cbw {s t : State} (h : Same s t) (c : Nat) : (t.cl c).bw = (s.cl c).bw := by
  have h1 := congrArg Client.bw (h.2.2.2.2.2.2.2.2 c)
  simpa [Client.core] using h1

theorem Same.cfloating {s t : State} (h : Same s t) (c : Nat) :
    (t.cl c).isfloating = (s.cl c).isfloating := by
  have h1 := congrArg Client.isfloating (h.2.2.2.2.2.2.2.2 c)
  simpa [Client.core] using h1

theorem Same.symm {s t : State} (h : Same s t) : Same t s :=
  ⟨h.1.symm, h.2.1.symm, h.2.2.1.symm, h.2.2.2.1.symm, h.2.2.2.2.1.symm,
    h.2.2.2.2.2.1.symm, h.2.2.2.2.2.2.1.symm, fun i => (h.2.2.2.2.2.2.2.1 i).symm,
    fun c => (h.2.2.2.2.2.2.2.2 c).symm⟩

/-- The test by which `nexttiled` skips a client gives the same answer in
`Same` states. -/
theorem Same.skip {s t : State} (h : Same s t) (c : Nat) :
    ((t.cl c).isfloating || !ISVISIBLE t c) = ((s.cl c).isfloating || !ISVISIBLE s c) := by
  rw [h.cfloating, h.visible]

theorem Same.tiled {s t : State} (h : Same s t) (m : Nat) : tiled t m = tiled s m := by
  unfold Dwm.tiled
  rw [h.clients]
  apply List.filter_congr
  intro c _
  rw [h.skip]

/-- The calls of `resize` in the loop of `tile`: one for each tiled client of
the list, in order, the `k`-th one in the master column when `i + k < nmaster`
and in the stack column otherwise. -/
theorem tileLoop_columns (cfg : Config) (m n : Nat) (mw : Int) (s0 : State) (l : List Nat) :
    ∀ (i : Nat) (my ty : Int) (s : State), Same s0 s →
      ((tileLoop cfg m n mw l i my ty s).2.map (fun p => p.c) =
        l.filter (fun c => !((s0.cl c).isfloating || !ISVISIBLE s0 c))) ∧
      ∀ (k : Nat) (p : Placement), (tileLoop cfg m n mw l i my ty s).2[k]? = some p →
        p.x = (if ((i + k : Nat) : Int) < (s0.mon m).nmaster then (s0.mon m).wx
               else (s0.mon m).wx + mw) ∧
        p.w = (if ((i + k : Nat) : Int) < (s0.mon m).nmaster then mw - 2 * (s0.cl p.c).bw
               else (s0.mon m).ww - mw - 2 * (s0.cl p.c).bw) := by
  induction l with
  | nil =>
    intro i my ty s _
    exact ⟨rfl, fun k p hp => by simp [tileLoop] at hp⟩
  | cons c rest ih =>
    intro i my ty s hs
    unfold tileLoop
    simp only
    have hskip := hs.skip c
    by_cases hc : ((s.cl c).isfloating || !ISVISIBLE s c) = true
    · rw [if_pos hc]
      rw [hskip] at hc
      obtain ⟨e1, e2⟩ := ih i my ty s hs
      refine ⟨?_, e2⟩
      rw [e1, List.filter_cons_of_neg (by simp [hc])]
    · rw [if_neg hc]
      rw [hskip] at hc
      have hfil : (c :: rest).filter (fun c => !((s0.cl c).isfloating || !ISVISIBLE s0 c)) =
          c :: rest.filter (fun c => !((s0.cl c).isfloating || !ISVISIBLE s0 c)) :=
        List.filter_cons_of_pos (by simpa using hc)
      by_cases hi : (i : Int) < (s.mon m).nmaster
      · simp only [if_pos hi]
        obtain ⟨e1, e2⟩ := ih (i + 1)
          (if my + HEIGHT ((resize cfg s c (s.mon m).wx ((s.mon m).wy + my)
                (mw - 2 * (s.cl c).bw)
                (((s.mon m).wh - my) / (min (n : Int) (s.mon m).nmaster - i) - 2 * (s.cl c).bw)
                false).cl c) < (s.mon m).wh then
              my + HEIGHT ((resize cfg s c (s.mon m).wx ((s.mon m).wy + my)
                (mw - 2 * (s.cl c).bw)
                (((s.mon m).wh - my) / (min (n : Int) (s.mon m).nmaster - i) - 2 * (s.cl c).bw)
                false).cl c)
            else my) ty _ (same_trans hs (same_resize cfg s c _ _ _ _ false))
        refine ⟨by rw [List.map_cons, e1, hfil]; rfl, fun k p hp => ?_⟩
        cases k with
        | zero =>
          simp only [List.getElem?_cons_zero, Option.some.injEq] at hp
          subst hp
          rw [hs.nmaster m] at hi
          simp only [placement, Nat.add_zero, if_pos hi, hs.wx m, hs.cbw c, and_self]
        | succ k =>
          simp only [List.getElem?_cons_succ] at hp
          have := e2 k p hp
          rw [show i + 1 + k = i + (k + 1) by omega] at this
          exact this
      · simp only [if_neg hi]
        obtain ⟨e1, e2⟩ := ih (i + 1) my
          (if ty + HEIGHT ((resize cfg s c ((s.mon m).wx + mw) ((s.mon m).wy + ty)
                ((s.mon m).ww - mw - 2 * (s.cl c).bw)
                (((s.mon m).wh - ty) / ((n : Int) - i) - 2 * (s.cl c).bw) false).cl c) <
                (s.mon m).wh then
              ty + HEIGHT ((resize cfg s c ((s.mon m).wx + mw) ((s.mon m).wy + ty)
                ((s.mon m).ww - mw - 2 * (s.cl c).bw)
                (((s.mon m).wh - ty) / ((n : Int) - i) - 2 * (s.cl c).bw) false).cl c)
            else ty) _ (same_trans hs (same_resize cfg s c _ _ _ _ false))
        refine ⟨by rw [List.map_cons, e1, hfil]; rfl, fun k p hp => ?_⟩
        cases k with
        | zero =>
          simp only [List.getElem?_cons_zero, Option.some.injEq] at hp
          subst hp
          rw [hs.nmaster m] at hi
          simp only [placement, Nat.add_zero, if_neg hi, hs.wx m, hs.ww m, hs.cbw c, and_self]
        | succ k =>
          simp only [List.getElem?_cons_succ] at hp
          have := e2 k p hp
          rw [show i + 1 + k = i + (k + 1) by omega] at this
          exact this

theorem tiled_eq_filter (s : State) (m : Nat) :
    tiled s m = (s.mon m).clients.filter (fun c => !(s.cl c).isfloating && ISVISIBLE s c) := by
  unfold tiled
  apply List.filter_congr
  intro c _
  cases (s.cl c).isfloating <;> cases ISVISIBLE s c <;> rfl

/-- The calls of `resize` that `tile` makes, in terms of its master width. -/
theorem tile_trace (cfg : Config) (s : State) (m : Nat) :
    (tileTrace cfg s m).2.map (fun p => p.c) = tiled s m ∧
    ∀ (i : Nat) (p : Placement), (tileTrace cfg s m).2[i]? = some p →
      p.x = (if (i : Int) < (s.mon m).nmaster then (s.mon m).wx
             else (s.mon m).wx + tileMw s m) ∧
      p.w = (if (i : Int) < (s.mon m).nmaster then tileMw s m - 2 * (s.cl p.c).bw
             else (s.mon m).ww - tileMw s m - 2 * (s.cl p.c).bw) := by
  constructor
  · unfold tileTrace
    simp only
    split_ifs with hn
    · simp only [List.map_nil]
      exact (List.length_eq_zero.mp hn).symm
    · exact (tileLoop_columns cfg m _ _ s _ 0 0 0 s (same_refl s)).1
  · intro i p hp
    unfold tileTrace at hp
    simp only at hp
    split_ifs at hp with hn
    · simp at hp
    · have := (tileLoop_columns cfg m _ _ s _ 0 0 0 s (same_refl s)).2 i p hp
      simpa using this

/-- C6 as amended: the master width of `tile` and the columns of its requests.
With `n` the number of visible non-floating clients of `m` and `nmaster` not
negative, the master width `mw` is `m->ww` when `n <= nmaster`, `0` when
`nmaster = 0 < n`, and for `n > nmaster > 0` the truncation of the `float`
product of `(float)m->ww` and `m->mfact`, which is rounded to the nearest
`float` before it is truncated.  `tile` calls
`resize` once for each visible non-floating client, in `clients` order; the
`i`-th call asks for `x = wx`, width `mw - 2*bw` when `i < nmaster` and for
`x = wx + mw`, width `ww - mw - 2*bw` otherwise.  For `n <= nmaster` every call
asks for `x = wx` and width `ww - 2*bw`. -/
theorem tile_columns (cfg : Config) (s : State) (m : Nat) (n : Nat) (mw : Int)
    (hn : n = ((s.mon m).clients.filter
      (fun c => !(s.cl c).isfloating && ISVISIBLE s c)).length)
    (hnm : 0 ≤ (s.mon m).nmaster)
    (hmw : mw = if (n : Int) ≤ (s.mon m).nmaster then (s.mon m).ww
                else if 0 < (s.mon m).nmaster then
                  truncQ (f32 (f32 (s.mon m).ww * (s.mon m).mfact))
                else 0) :
    (tileTrace cfg s m).2.map (fun p => p.c) =
      (s.mon m).clients.filter (fun c => !(s.cl c).isfloating && ISVISIBLE s c) ∧
    (∀ (i : Nat) (p : Placement), (tileTrace cfg s m).2[i]? = some p →
      p.x = (if (i : Int) < (s.mon m).nmaster then (s.mon m).wx
             else (s.mon m).wx + mw) ∧
      p.w = (if (i : Int) < (s.mon m).nmaster then mw - 2 * (s.cl p.c).bw
             else (s.mon m).ww - mw - 2 * (s.cl p.c).bw)) ∧
    ((n : Int) ≤ (s.mon m).nmaster →
      ∀ p, p ∈ (tileTrace cfg s m).2 →
        p.x = (s.mon m).wx ∧ p.w = (s.mon m).ww - 2 * (s.cl p.c).bw) := by
  obtain ⟨hmap, hidx⟩ := tile_trace cfg s m
  have hcount : tileCount s m = n := by
    unfold tileCount
    rw [tiled_eq_filter, hn]
  have hw : tileMw s m = mw := by
    unfold tileMw
    simp only
    rw [hcount, hmw]
    split_ifs <;> first | rfl | omega
  rw [hw] at hidx
  rw [tiled_eq_filter] at hmap
  refine ⟨hmap, hidx, fun hle p hp => ?_⟩
  obtain ⟨i, hi⟩ := List.getElem?_of_mem hp
  have hlen : i < (tileTrace cfg s m).2.length := by
    by_contra hcon
    rw [List.getElem?_eq_none (by omega)] at hi
    cases hi
  have hlen2 : (tileTrace cfg s m).2.length = n := by
    rw [hn, ← hmap, List.length_map]
  have hlt : (i : Int) < (s.mon m).nmaster := by omega
  have hww : mw = (s.mon m).ww := by rw [hmw, if_pos hle]
  have := hidx i p hi
  rw [if_pos hlt, if_pos hlt, hww] at this
  exact this

/-- C6 as amended, at the state with the three windows managed and
`mfact = 0.95f`: three tiled clients, `nmaster = 1`, `ww = 1920`, and the
master width is 1824. -/
theorem tile_columns_witness :
    (tileTrace exCfg exWide 0).2.map (fun p => p.c) =
      (exWide.mon 0).clients.filter
        (fun c => !(exWide.cl c).isfloating && ISVISIBLE exWide c) ∧
    (∀ (i : Nat) (p : Placement), (tileTrace exCfg exWide 0).2[i]? = some p →
      p.x = (if (i : Int) < (exWide.mon 0).nmaster then (exWide.mon 0).wx
             else (exWide.mon 0).wx + 1824) ∧
      p.w = (if (i : Int) < (exWide.mon 0).nmaster then 1824 - 2 * (exWide.cl p.c).bw
             else (exWide.mon 0).ww - 1824 - 2 * (exWide.cl p.c).bw)) ∧
    (((3 : Nat) : Int) ≤ (exWide.mon 0).nmaster →
      ∀ p, p ∈ (tileTrace exCfg exWide 0).2 →
        p.x = (exWide.mon 0).wx ∧ p.w = (exWide.mon 0).ww - 2 * (exWide.cl p.c).bw) :=
  tile_columns exCfg exWide 0 3 1824 (by decide!) (by decide!) (by decide!)

/-- C6 as stated fails: with the three windows managed, `nmaster = 1`,
`ww = 1920` and `mfact = 0.95f = 15938355 / 2^24` (after `setmfact(0.45f)`),
the truncation of `ww * mfact` is 1823, but the `float` product is rounded to
1824: `tile` asks for the master width `1824 - 2` and puts the stack column at
`x = 1824`. -/
theorem tile_columns_not_exact :
    (exWide.mon 0).ww = 1920 ∧ (exWide.mon 0).wx = 0 ∧ (exWide.mon 0).nmaster = 1 ∧
    (exWide.mon 0).mfact = 15938355 / 16777216 ∧
    (exWide.mon 0).clients.filter
      (fun c => !(exWide.cl c).isfloating && ISVISIBLE exWide c) = [3, 2, 1] ∧
    (∀ c, c ∈ [3, 2, 1] → (exWide.cl c).bw = 1) ∧
    truncQ (((exWide.mon 0).ww : ℚ) * (exWide.mon 0).mfact) = 1823 ∧
    (tileTrace exCfg exWide 0).2.map (fun p => (p.c, p.x, p.w)) =
      [(3, 0, 1822), (2, 1824, 94), (1, 1824, 94)] := by
  decide!

/-- C5 as amended: after the windows A = 1, B = 2, C = 3 have been managed in
this order on the 1920x1080 monitor (work area `0, 14, 1920, 1066`, `mfact`
0.5, `nmaster` 1, border 1, tile layout), the newest window is the master:
C = (0, 14, 958, 1064), B = (960, 14, 958, 531), A = (960, 547, 958, 531). -/
theorem tile_three_windows :
    ((exABC.mon 0).wx, (exABC.mon 0).wy, (exABC.mon 0).ww, (exABC.mon 0).wh) =
      (0, 14, 1920, 1066) ∧
    (exABC.mon 0).clients = [3, 2, 1] ∧
    (∀ c, c ∈ (exABC.mon 0).clients →
      ISVISIBLE exABC c = true ∧ (exABC.cl c).isfloating = false ∧ (exABC.cl c).bw = 1) ∧
    geom exABC 3 = (0, 14, 958, 1064) ∧
    geom exABC 2 = (960, 14, 958, 531) ∧
    geom exABC 1 = (960, 547, 958, 531) :=
  ⟨by decide!, by decide!, by decide!, by decide!, by decide!, by decide!⟩

/-- C5 as stated fails: in that state A is not at `(0, 14, 958, 1064)`, B is
not at `(960, 14, 958, 532)` and C is not at `(960, 548, 958, 530)`. -/
theorem tile_three_windows_not_as_stated :
    geom exABC 1 ≠ (0, 14, 958, 1064) ∧ geom exABC 2 ≠ (960, 14, 958, 532) ∧
    geom exABC 3 ≠ (960, 548, 958, 530) :=
  ⟨by decide!, by decide!, by decide!⟩

end Dwm


/-! ## Tiled clients and the work area -/

namespace Dwm

theorem updatesizehints_other (s : State) (c d : Nat) (hd : d ≠ c) :
    (updatesizehints s c).cl d = s.cl d := by
  unfold updatesizehints
  rw [setCl_cl, if_neg hd]

theorem hintState_other (cfg : Config) (s : State) (c d : Nat) (hd : d ≠ c) :
    (hintState cfg s c).cl d = s.cl d := by
  unfold hintState
  split_ifs
  · exact updatesizehints_other s c d hd
  · rfl

theorem resize_other (cfg : Config) (s : State) (c d : Nat) (x y w h : Int) (interact : Bool)
    (hd : d ≠ c) : (resize cfg s c x y w h interact).cl d = s.cl d := by
  unfold resize applysizehints
  simp only
  split_ifs
  · unfold resizeclient
    rw [setCl_cl, if_neg hd]
    exact hintState_other cfg s c d hd
  · exact hintState_other cfg s c d hd

/-- After `resize` the client has the rectangle `applysizehints` returned. -/
theorem resize_geom (cfg : Config) (s : State) (c : Nat) (x y w h : Int) (interact : Bool) :
    ((resize cfg s c x y w h interact).cl c).x = (hintRect cfg s c x y w h interact).1 ∧
    ((resize cfg s c x y w h interact).cl c).y = (hintRect cfg s c x y w h interact).2.1 ∧
    ((resize cfg s c x y w h interact).cl c).w = (hintRect cfg s c x y w h interact).2.2.1 ∧
    ((resize cfg s c x y w h interact).cl c).h = (hintRect cfg s c x y w h interact).2.2.2 := by
  unfold resize applysizehints
  simp only
  split_ifs with hch
  · unfold resizeclient
    simp only [setCl_cl, if_true, and_self]
  · simp only [decide_eq_true_eq, not_or, not_not] at hch
    exact ⟨hch.1.symm, hch.2.1.symm, hch.2.2.1.symm, hch.2.2.2.symm⟩

theorem tileLoop_other (cfg : Config) (m n : Nat) (mw : Int) (l : List Nat) (d : Nat)
    (hd : d ∉ l) :
    ∀ (i : Nat) (my ty : Int) (s : State), (tileLoop cfg m n mw l i my ty s).1.cl d = s.cl d := by
  induction l with
  | nil => intro i my ty s; rfl
  | cons c rest ih =>
    intro i my ty s
    have h1 : d ≠ c := fun e => hd (e ▸ List.mem_cons_self _ _)
    have h2 : d ∉ rest := fun e => hd (List.mem_cons_of_mem _ e)
    unfold tileLoop
    simp only
    split_ifs
    all_goals first
      | exact ih h2 _ _ _ _
      | exact (ih h2 _ _ _ _).trans (resize_other cfg s c d _ _ _ _ false h1)

theorem monocleLoop_other (cfg : Config) (m : Nat) (l : List Nat) (d : Nat) (hd : d ∉ l) :
    ∀ s : State, (monocleLoop cfg m l s).1.cl d = s.cl d := by
  induction l with
  | nil => intro s; rfl
  | cons c rest ih =>
    intro s
    have h1 : d ≠ c := fun e => hd (e ▸ List.mem_cons_self _ _)
    have h2 : d ∉ rest := fun e => hd (List.mem_cons_of_mem _ e)
    unfold monocleLoop
    split_ifs
    · exact ih h2 _
    · exact (ih h2 _).trans (resize_other cfg s c d _ _ _ _ false h1)

/-- The geometry of a client after an unaltered request. -/
theorem resize_unaltered (cfg : Config) (s : State) (c : Nat) (x y w h : Int)
    (hp : (placement cfg s c x y w h).unaltered) :
    ((resize cfg s c x y w h false).cl c).x = x ∧ ((resize cfg s c x y w h false).cl c).y = y ∧
    ((resize cfg s c x y w h false).cl c).w = w ∧ ((resize cfg s c x y w h false).cl c).h = h := by
  obtain ⟨g1, g2, g3, g4⟩ := resize_geom cfg s c x y w h false
  obtain ⟨u1, u2, u3, u4⟩ := hp
  simp only [placement] at u1 u2 u3 u4
  exact ⟨g1.trans u1, g2.trans u2, g3.trans u3, g4.trans u4⟩

theorem cell_bounds (a d : Int) (ha : 0 ≤ a) (hd : 1 ≤ d) : 0 ≤ a / d ∧ a / d ≤ a :=
  ⟨Int.ediv_nonneg ha (by omega), Int.ediv_le_self d ha⟩

/-- The loop of `tile` puts every tiled client whose request is unaltered
inside the work area. -/
theorem tileLoop_inside (cfg : Config) (m n : Nat) (mw : Int) (s0 : State)
    (hw0 : 0 ≤ mw) (hw1 : mw ≤ (s0.mon m).ww) (l : List Nat) (hnd : l.Nodup) :
    ∀ (i : Nat) (my ty : Int) (s : State), Same s0 s →
      0 ≤ my → my ≤ (s0.mon m).wh → 0 ≤ ty → ty ≤ (s0.mon m).wh →
      (i : Int) + ((l.filter (fun c => !((s0.cl c).isfloating || !ISVISIBLE s0 c))).length : Int)
        ≤ n →
      (∀ p, p ∈ (tileLoop cfg m n mw l i my ty s).2 → p.unaltered) →
      ∀ c, c ∈ l → ((s0.cl c).isfloating || !ISVISIBLE s0 c) = false →
        InsideWorkArea (s0.mon m) ((tileLoop cfg m n mw l i my ty s).1.cl c) := by
  induction l with
  | nil => intro i my ty s _ _ _ _ _ _ _ c hc; cases hc
  | cons d rest ih =>
    intro i my ty s hs hmy0 hmy1 hty0 hty1 hcount hun c hc hct
    have hd1 : d ∉ rest := (List.nodup_cons.mp hnd).1
    have hd2 : rest.Nodup := (List.nodup_cons.mp hnd).2
    have hskip := hs.skip d
    unfold tileLoop at hun ⊢
    simp only at hun ⊢
    by_cases hsk : ((s.cl d).isfloating || !ISVISIBLE s d) = true
    · rw [if_pos hsk] at hun ⊢
      rw [hskip] at hsk
      have hcr : c ∈ rest := by
        rcases List.mem_cons.mp hc with e | e
        · rw [e, hsk] at hct; cases hct
        · exact e
      rw [List.filter_cons_of_neg (by simp [hsk])] at hcount
      exact ih hd2 i my ty s hs hmy0 hmy1 hty0 hty1 hcount hun c hcr hct
    · rw [if_neg hsk] at hun ⊢
      rw [hskip] at hsk
      rw [List.filter_cons_of_pos (by simpa using hsk), List.length_cons] at hcount
      push_cast at hcount
      have hlen : (0 : Int) ≤ ((rest.filter
          (fun c => !((s0.cl c).isfloating || !ISVISIBLE s0 c))).length : Int) :=
        Int.natCast_nonneg _
      by_cases hi : (i : Int) < (s.mon m).nmaster
      · simp only [if_pos hi] at hun ⊢
        have hdiv : (1 : Int) ≤ min (n : Int) (s.mon m).nmaster - i := by omega
        obtain ⟨hc0, hc1⟩ := cell_bounds ((s.mon m).wh - my)
          (min (n : Int) (s.mon m).nmaster - i) (by rw [hs.wh m]; omega) hdiv
        have hp := hun _ (List.mem_cons_self _ _)
        obtain ⟨gx, gy, gw, gh⟩ := resize_unaltered cfg s d _ _ _ _ hp
        have hbw := (same_resize cfg s d (s.mon m).wx ((s.mon m).wy + my)
          (mw - 2 * (s.cl d).bw)
          (((s.mon m).wh - my) / (min (n : Int) (s.mon m).nmaster - i) - 2 * (s.cl d).bw)
          false).cbw d
        have hs1 := same_trans hs (same_resize cfg s d (s.mon m).wx ((s.mon m).wy + my)
          (mw - 2 * (s.cl d).bw)
          (((s.mon m).wh - my) / (min (n : Int) (s.mon m).nmaster - i) - 2 * (s.cl d).bw)
          false)
        have hH : HEIGHT ((resize cfg s d (s.mon m).wx ((s.mon m).wy + my)
            (mw - 2 * (s.cl d).bw)
            (((s.mon m).wh - my) / (min (n : Int) (s.mon m).nmaster - i) - 2 * (s.cl d).bw)
            false).cl d) = ((s.mon m).wh - my) / (min (n : Int) (s.mon m).nmaster - i) := by
          unfold HEIGHT; rw [gh, hbw]; omega
        rcases List.mem_cons.mp hc with e | e
        · subst e
          rw [tileLoop_other cfg m n mw rest c hd1]
          unfold InsideWorkArea
          rw [gx, gy, gw, gh, hbw, hs.wx m, hs.wy m, hs.wh m] at *
          refine ⟨le_refl _, by omega, by omega, by omega⟩
        · refine ih hd2 (i + 1) _ ty _ hs1 ?_ ?_ hty0 hty1 (by push_cast; omega)
            (fun p hp => hun p (List.mem_cons_of_mem _ hp)) c e hct
          · rw [hH]; split_ifs <;> omega
          · rw [hH, hs.wh m]; split_ifs <;> omega
      · simp only [if_neg hi] at hun ⊢
        have hdiv : (1 : Int) ≤ (n : Int) - i := by omega
        obtain ⟨hc0, hc1⟩ := cell_bounds ((s.mon m).wh - ty) ((n : Int) - i)
          (by rw [hs.wh m]; omega) hdiv
        have hp := hun _ (List.mem_cons_self _ _)
        obtain ⟨gx, gy, gw, gh⟩ := resize_unaltered cfg s d _ _ _ _ hp
        have hbw := (same_resize cfg s d ((s.mon m).wx + mw) ((s.mon m).wy + ty)
          ((s.mon m).ww - mw - 2 * (s.cl d).bw)
          (((s.mon m).wh - ty) / ((n : Int) - i) - 2 * (s.cl d).bw) false).cbw d
        have hs1 := same_trans hs (same_resize cfg s d ((s.mon m).wx + mw) ((s.mon m).wy + ty)
          ((s.mon m).ww - mw - 2 * (s.cl d).bw)
          (((s.mon m).wh - ty) / ((n : Int) - i) - 2 * (s.cl d).bw) false)
        have hH : HEIGHT ((resize cfg s d ((s.mon m).wx + mw) ((s.mon m).wy + ty)
            ((s.mon m).ww - mw - 2 * (s.cl d).bw)
            (((s.mon m).wh - ty) / ((n : Int) - i) - 2 * (s.cl d).bw) false).cl d) =
            ((s.mon m).wh - ty) / ((n : Int) - i) := by
          unfold HEIGHT; rw [gh, hbw]; omega
        rcases List.mem_cons.mp hc with e | e
        · subst e
          rw [tileLoop_other cfg m n mw rest c hd1]
          unfold InsideWorkArea
          rw [gx, gy, gw, gh, hbw, hs.wx m, hs.wy m, hs.wh m, hs.ww m] at *
          refine ⟨by omega, by omega, by omega, by omega⟩
        · refine ih hd2 (i + 1) my _ _ hs1 hmy0 hmy1 ?_ ?_ (by push_cast; omega)
            (fun p hp => hun p (List.mem_cons_of_mem _ hp)) c e hct
          · rw [hH]; split_ifs <;> omega
          · rw [hH, hs.wh m]; split_ifs <;> omega

/-- The loop of `monocle` puts every tiled client whose request is unaltered
inside the work area. -/
theorem monocleLoop_inside (cfg : Config) (m : Nat) (s0 : State) (l : List Nat)
    (hnd : l.Nodup) :
    ∀ s : State, Same s0 s →
      (∀ p, p ∈ (monocleLoop cfg m l s).2 → p.unaltered) →
      ∀ c, c ∈ l → ((s0.cl c).isfloating || !ISVISIBLE s0 c) = false →
        InsideWorkArea (s0.mon m) ((monocleLoop cfg m l s).1.cl c) := by
  induction l with
  | nil => intro s _ _ c hc; cases hc
  | cons d rest ih =>
    intro s hs hun c hc hct
    have hd1 : d ∉ rest := (List.nodup_cons.mp hnd).1
    have hd2 : rest.Nodup := (List.nodup_cons.mp hnd).2
    have hskip := hs.skip d
    unfold monocleLoop at hun ⊢
    by_cases hsk : ((s.cl d).isfloating || !ISVISIBLE s d) = true
    · rw [if_pos hsk] at hun ⊢
      rw [hskip] at hsk
      have hcr : c ∈ rest := by
        rcases List.mem_cons.mp hc with e | e
        · rw [e, hsk] at hct; cases hct
        · exact e
      exact ih hd2 s hs hun c hcr hct
    · rw [if_neg hsk] at hun ⊢
      simp only at hun ⊢
      have hp := hun _ (List.mem_cons_self _ _)
      obtain ⟨gx, gy, gw, gh⟩ := resize_unaltered cfg s d _ _ _ _ hp
      have hbw := (same_resize cfg s d (s.mon m).wx (s.mon m).wy
        ((s.mon m).ww - 2 * (s.cl d).bw) ((s.mon m).wh - 2 * (s.cl d).bw) false).cbw d
      rcases List.mem_cons.mp hc with e | e
      · subst e
        rw [monocleLoop_other cfg m rest c hd1]
        unfold InsideWorkArea
        rw [gx, gy, gw, gh, hbw, hs.wx m, hs.wy m, hs.wh m, hs.ww m]
        refine ⟨le_refl _, le_refl _, by omega, by omega⟩
      · exact ih hd2 _ (same_trans hs (same_resize cfg s d _ _ _ _ false))
          (fun p hp => hun p (List.mem_cons_of_mem _ hp)) c e hct

theorem truncQ_bounds (q : ℚ) (z : Int) (h0 : 0 ≤ q) (h1 : q ≤ (z : ℚ)) :
    0 ≤ truncQ q ∧ truncQ q ≤ z := by
  have e : truncQ q = ⌊q⌋ := by
    unfold truncQ
    rw [Rat.floor_def, Int.tdiv_eq_ediv (Rat.num_nonneg.mpr h0) (Int.natCast_nonneg _)]
  rw [e]
  refine ⟨Int.floor_nonneg.mpr h0, ?_⟩
  have h2 : ((⌊q⌋ : Int) : ℚ) ≤ (z : ℚ) := le_trans (Int.floor_le q) h1
  exact_mod_cast h2

theorem tileMw_bounds (s : State) (m : Nat) (hww : 0 ≤ (s.mon m).ww)
    (hww24 : (s.mon m).ww < 2 ^ 24)
    (hmf : 0 ≤ (s.mon m).mfact ∧ (s.mon m).mfact ≤ 1) :
    0 ≤ tileMw s m ∧ tileMw s m ≤ (s.mon m).ww := by
  unfold tileMw
  simp only
  have hq : (0 : ℚ) ≤ ((s.mon m).ww : ℚ) := by exact_mod_cast hww
  split_ifs
  · rw [f32_int _ hww hww24]
    have hp : 0 ≤ ((s.mon m).ww : ℚ) * (s.mon m).mfact := mul_nonneg hq hmf.1
    have hle : ((s.mon m).ww : ℚ) * (s.mon m).mfact ≤ ((s.mon m).ww : ℚ) := by
      nlinarith [hmf.1, hmf.2]
    refine truncQ_bounds _ _ (f32_nonneg _ hp) ?_
    rcases eq_or_lt_of_le hp with e | e
    · rw [← e]
      have : f32 0 = 0 := by unfold f32 rnd; simp
      rw [this]
      exact hq
    · exact f32_le_int _ _ e hle hww24
  · exact ⟨le_refl _, hww⟩
  · exact ⟨hww, le_refl _⟩

/-- Above `2^24` the conversion of the width to `float` can round up: for
`ww = 2^24 + 3` and `mfact = 1` the product of `tile` is `2^24 + 4`. -/
theorem float_width_rounds_up :
    truncQ (f32 (f32 ((16777219 : Int) : ℚ) * 1)) = 16777220 := by
  decide!

theorem insideWorkArea_congr {m1 m2 : Monitor} (c : Client) (h1 : m2.wx = m1.wx)
    (h2 : m2.wy = m1.wy) (h3 : m2.ww = m1.ww) (h4 : m2.wh = m1.wh)
    (h : InsideWorkArea m1 c) : InsideWorkArea m2 c := by
  unfold InsideWorkArea at *
  rw [h1, h2, h3, h4]
  exact h

/-- C7 as amended: on a monitor with the tile or monocle layout, a work area of
nonnegative size whose width is below `2^24` (every integer up to there is a
`float`) and `0 <= mfact <= 1`, when `applysizehints` returns every
rectangle the layout requests unchanged (no floor of the bar height, no
size-hint adjustment, no position clamp), every visible non-floating client of
the monitor lies inside the work area after `arrange(m)`, border included. -/
theorem tiled_inside_work_area (cfg : Config) (s : State) (m : Nat)
    (hlay : (s.mon m).curlt.arrange ≠ none)
    (hnodup : (s.mon m).clients.Nodup)
    (hww : 0 ≤ (s.mon m).ww) (hww24 : (s.mon m).ww < 2 ^ 24) (hwh : 0 ≤ (s.mon m).wh)
    (hmf : 0 ≤ (s.mon m).mfact ∧ (s.mon m).mfact ≤ 1)
    (hun : ∀ p, p ∈ arrangeTrace cfg s m → p.unaltered) :
    ∀ c, c ∈ ((arrange cfg s m).mon m).clients → ISVISIBLE (arrange cfg s m) c = true →
      ((arrange cfg s m).cl c).isfloating = false →
      InsideWorkArea ((arrange cfg s m).mon m) ((arrange cfg s m).cl c) := by
  intro c hc hv hf
  have hA := same_arrange cfg s m
  rw [hA.clients] at hc
  rw [hA.visible] at hv
  rw [hA.cfloating] at hf
  refine insideWorkArea_congr _ (hA.wx m) (hA.wy m) (hA.ww m) (hA.wh m) ?_
  unfold arrangeTrace arrangemonTrace at hun
  unfold arrange arrangemon arrangemonTrace
  simp only at hun ⊢
  generalize hs2 : (showhide cfg (s.mon m).stack s).setMon m
      { (showhide cfg (s.mon m).stack s).mon m with
        ltsymbol := ((showhide cfg (s.mon m).stack s).mon m).curlt.symbol } = s2 at *
  have hS2 : Same s s2 := by
    rw [← hs2]
    exact same_trans (same_showhide cfg _ s) (same_setMon _ m _ (by rfl))
  refine insideWorkArea_congr _ (hS2.symm.wx m) (hS2.symm.wy m) (hS2.symm.ww m)
    (hS2.symm.wh m) ?_
  have hct : ((s2.cl c).isfloating || !ISVISIBLE s2 c) = false := by
    rw [hS2.skip, hf, hv]; rfl
  have hc2 : c ∈ (s2.mon m).clients := by rw [hS2.clients]; exact hc
  have hnd2 : (s2.mon m).clients.Nodup := by rw [hS2.clients]; exact hnodup
  have hlay2 : (s2.mon m).curlt.arrange ≠ none := by rw [hS2.curlt]; exact hlay
  split at hun
  · -- tile
    unfold tileTrace at hun ⊢
    simp only at hun ⊢
    have hcnt : tileCount s2 m ≠ 0 := by
      unfold tileCount tiled
      intro h0
      have hin : c ∈ (s2.mon m).clients.filter
          (fun c => !((s2.cl c).isfloating || !ISVISIBLE s2 c)) :=
        List.mem_filter.mpr ⟨hc2, by rw [hct]; rfl⟩
      rw [List.length_eq_zero.mp h0] at hin
      cases hin
    rw [if_neg hcnt] at hun ⊢
    have hb := tileMw_bounds s2 m (by rw [hS2.ww]; exact hww) (by rw [hS2.ww]; exact hww24)
      (by rw [hS2.mfact]; exact hmf)
    exact tileLoop_inside cfg m _ _ s2 hb.1 hb.2 _ hnd2 0 0 0 s2 (same_refl s2) (le_refl _)
      (by rw [hS2.wh]; exact hwh) (le_refl _) (by rw [hS2.wh]; exact hwh)
      (by unfold tileCount tiled; simp) hun c hc2 hct
  · -- monocle
    unfold monocleTrace at hun ⊢
    simp only at hun ⊢
    split_ifs at hun ⊢ with hn
    · have hS3 : Same s2 (s2.setMon m { s2.mon m with
          ltsymbol := "[" ++ toString ((s2.mon m).clients.filter (ISVISIBLE s2)).length ++ "]" }) :=
        same_setMon s2 m _ (by rfl)
      have hcl3 := hS3.clients m
      rw [hcl3] at hun ⊢
      refine insideWorkArea_congr _ (hS3.symm.wx m) (hS3.symm.wy m) (hS3.symm.ww m)
        (hS3.symm.wh m) ?_
      exact monocleLoop_inside cfg m _ _ hnd2 _ (same_refl _) hun c hc2
        (by rw [hS3.skip]; exact hct)
    · exact monocleLoop_inside cfg m s2 _ hnd2 s2 (same_refl s2) hun c hc2 hct
  · rename_i hnone
    exact absurd hnone hlay2

/-- C7 as amended, at the state with the three plain windows managed, for
window `2`. -/
theorem tiled_inside_work_area_witness :
    InsideWorkArea ((arrange exCfg exABC 0).mon 0) ((arrange exCfg exABC 0).cl 2) :=
  tiled_inside_work_area exCfg exABC 0 (by decide!) (by decide!) (by decide!) (by decide!)
    (by decide!) (by decide!) (by decide!) 2 (by decide!) (by decide!) (by decide!)

/-- C7 as stated fails: window `1` asks for a minimum size of 800 x 1200 and is
the only client of the 1920x1080 monitor under the tile layout; after
`arrange` it is visible, not floating, and 1200 pixels high at `y = 14`, beyond
the bottom of the work area. -/
theorem tiled_outside_work_area :
    (exTall.mon 0).curlt.arrange = some ArrangeFn.tile ∧
    ((arrange exCfg exTall 0).mon 0).clients = [1] ∧
    ISVISIBLE (arrange exCfg exTall 0) 1 = true ∧
    ((arrange exCfg exTall 0).cl 1).isfloating = false ∧
    geom (arrange exCfg exTall 0) 1 = (0, 14, 1918, 1200) ∧
    ¬ InsideWorkArea ((arrange exCfg exTall 0).mon 0) ((arrange exCfg exTall 0).cl 1) :=
  ⟨by decide!, by decide!, by decide!, by decide!, by decide!, by decide!⟩

end Dwm


/-! ## `view` twice, `toggleview`, `toggletag` -/

namespace Dwm

/-- `focus(NULL)` adds no member to a stack list: what is in a stack list
afterwards was in it before, or was in the stack list of `selmon`. -/
theorem focus_null_stack_mem (s : State) (i w : Nat)
    (hw : w ∈ ((focus s none).mon i).stack) :
    w ∈ (s.mon i).stack ∨ w ∈ (s.mon s.selmon).stack := by
  cases hf : focusTarget s none with
  | none =>
    rw [focus_none s none hf, setMon_mon] at hw
    by_cases hi : i = s.selmon
    · rw [if_pos hi] at hw; subst hi; exact Or.inl hw
    · rw [if_neg hi] at hw; exact Or.inl hw
  | some v =>
    rw [focus_some_mon s none v hf] at hw
    by_cases hi : i = (s.cl v).mon
    · rw [if_pos hi] at hw
      rcases List.mem_cons.mp hw with h | h
      · right; rw [h]; exact List.mem_of_find?_eq_some hf
      · left; exact List.mem_of_mem_erase h
    · rw [if_neg hi] at hw; exact Or.inl hw

/-- `focus(NULL); arrange(m)` keeps `selmon` and keeps the members of its stack
list pointing to it. -/
theorem focus_arrange_members (cfg : Config) (s : State) (m : Nat)
    (h : ∀ w, w ∈ (s.mon s.selmon).stack → (s.cl w).mon = s.selmon) :
    (arrange cfg (focus s none) m).selmon = s.selmon ∧
    ∀ w, w ∈ ((arrange cfg (focus s none) m).mon s.selmon).stack →
      ((arrange cfg (focus s none) m).cl w).mon = s.selmon := by
  have ha := same_arrange cfg (focus s none) m
  refine ⟨ha.2.1.trans (focus_none_selmon s h), fun w hw => ?_⟩
  rw [ha.stack] at hw
  rw [ha.cmon, focus_cmon]
  rcases focus_null_stack_mem s _ w hw with h1 | h1 <;> exact h w h1

theorem view_same (cfg : Config) (s : State) (ui : Nat)
    (he : ui &&& TAGMASK cfg = (s.mon s.selmon).tagset (s.mon s.selmon).seltags) :
    view cfg s ui = s := by
  unfold view
  simp only [he, if_true]

/-- `view` returns at once or ends in `focus(NULL); arrange(selmon)` on a state
that differs in the record of the selected monitor, with the same stack
list. -/
theorem view_shape (cfg : Config) (s : State) (ui : Nat) :
    view cfg s ui = s ∨
    ∃ v : Monitor, v.stack = (s.mon s.selmon).stack ∧
      view cfg s ui = arrange cfg (focus (s.setMon s.selmon v) none)
        (focus (s.setMon s.selmon v) none).selmon := by
  by_cases he : ui &&& TAGMASK cfg = (s.mon s.selmon).tagset (s.mon s.selmon).seltags
  · exact Or.inl (view_same cfg s ui he)
  · right
    refine ⟨if ui &&& TAGMASK cfg ≠ 0 then
        Monitor.setTagset { s.mon s.selmon with seltags := (s.mon s.selmon).seltags ^^^ 1 }
          ((s.mon s.selmon).seltags ^^^ 1) (ui &&& TAGMASK cfg)
      else { s.mon s.selmon with seltags := (s.mon s.selmon).seltags ^^^ 1 }, ?_, ?_⟩
    · split_ifs
      · rw [setTagset_stack]
      · rfl
    · unfold view
      simp only [if_neg he]

/-- `view` keeps `selmon` and keeps the members of its stack list pointing to
it. -/
theorem view_members (cfg : Config) (s : State) (ui : Nat)
    (h2 : ∀ w, w ∈ (s.mon s.selmon).stack → (s.cl w).mon = s.selmon) :
    (view cfg s ui).selmon = s.selmon ∧
    ∀ w, w ∈ ((view cfg s ui).mon s.selmon).stack → ((view cfg s ui).cl w).mon = s.selmon := by
  rcases view_shape cfg s ui with h | ⟨v, hv, h⟩
  · rw [h]; exact ⟨rfl, h2⟩
  · rw [h]
    have hk := focus_arrange_members cfg (s.setMon s.selmon v)
      (focus (s.setMon s.selmon v) none).selmon (fun w hw => by
        simp only [setMon_mon, setMon_selmon, if_true, setMon_cl] at hw ⊢
        rw [hv] at hw
        exact h2 w hw)
    simpa only [setMon_selmon] using hk

theorem tagset_zero (m : Monitor) : m.tagset 0 = m.tagset0 := rfl

theorem tagset_one (m : Monitor) : m.tagset 1 = m.tagset1 := rfl

/-- C11 as amended: `view(mask)` twice on the selected monitor, with
`t = mask & TAGMASK`.  The second call undoes the first exactly when `t` is the
current tag set (both calls return at once) or `t` is zero and the other bank
is not zero (both calls only flip `seltags`).  In every other case the second
call returns at once, so `seltags` stays flipped, the bank selected before the
calls is unchanged and the other bank holds `t`. -/
theorem view_twice_banks (cfg : Config) (s : State) (ui : Nat)
    (h1 : (s.mon s.selmon).seltags ≤ 1)
    (h2 : ∀ w, w ∈ (s.mon s.selmon).stack → (s.cl w).mon = s.selmon) :
    (view cfg (view cfg s ui) ui).selmon = s.selmon ∧
    ((ui &&& TAGMASK cfg = (s.mon s.selmon).tagset (s.mon s.selmon).seltags ∨
        (ui &&& TAGMASK cfg = 0 ∧
          (s.mon s.selmon).tagset ((s.mon s.selmon).seltags ^^^ 1) ≠ 0)) →
      ((view cfg (view cfg s ui) ui).mon s.selmon).seltags = (s.mon s.selmon).seltags ∧
      ((view cfg (view cfg s ui) ui).mon s.selmon).tagset 0 = (s.mon s.selmon).tagset 0 ∧
      ((view cfg (view cfg s ui) ui).mon s.selmon).tagset 1 = (s.mon s.selmon).tagset 1) ∧
    (¬ (ui &&& TAGMASK cfg = (s.mon s.selmon).tagset (s.mon s.selmon).seltags ∨
        (ui &&& TAGMASK cfg = 0 ∧
          (s.mon s.selmon).tagset ((s.mon s.selmon).seltags ^^^ 1) ≠ 0)) →
      ((view cfg (view cfg s ui) ui).mon s.selmon).seltags =
        (s.mon s.selmon).seltags ^^^ 1 ∧
      ((view cfg (view cfg s ui) ui).mon s.selmon).tagset (s.mon s.selmon).seltags =
        (s.mon s.selmon).tagset (s.mon s.selmon).seltags ∧
      ((view cfg (view cfg s ui) ui).mon s.selmon).tagset ((s.mon s.selmon).seltags ^^^ 1) =
        ui &&& TAGMASK cfg) := by
  obtain ⟨hsel, hmem⟩ := view_members cfg s ui h2
  obtain ⟨_, e1, e2⟩ := view_effect cfg s ui h1 h2
  have h1n : ((view cfg s ui).mon (view cfg s ui).selmon).seltags ≤ 1 := by
    rw [hsel]
    by_cases he : ui &&& TAGMASK cfg = (s.mon s.selmon).tagset (s.mon s.selmon).seltags
    · rw [(e1 he).1]; exact h1
    · rw [(e2 he).1]; exact xor_one_le_one _ h1
  have h2n : ∀ w, w ∈ ((view cfg s ui).mon (view cfg s ui).selmon).stack →
      ((view cfg s ui).cl w).mon = (view cfg s ui).selmon := by
    rw [hsel]; exact hmem
  obtain ⟨hsel2, f1, f2⟩ := view_effect cfg (view cfg s ui) ui h1n h2n
  rw [hsel] at hsel2 f1 f2
  refine ⟨hsel2, ?_, ?_⟩
  · rintro (he | ⟨hz, ho⟩)
    · rw [view_same cfg s ui he, view_same cfg s ui he]
      exact ⟨rfl, rfl, rfl⟩
    · by_cases he : ui &&& TAGMASK cfg = (s.mon s.selmon).tagset (s.mon s.selmon).seltags
      · rw [view_same cfg s ui he, view_same cfg s ui he]
        exact ⟨rfl, rfl, rfl⟩
      · obtain ⟨a1, a2, _, a4⟩ := e2 he
        have a5 := a4 hz
        have hne : ui &&& TAGMASK cfg ≠
            ((view cfg s ui).mon s.selmon).tagset ((view cfg s ui).mon s.selmon).seltags := by
          rw [a1, a5, hz]; exact fun h => ho h.symm
        obtain ⟨b1, b2, _, b4⟩ := f2 hne
        have b5 := b4 hz
        rw [a1] at b1 b2 b5
        rw [a5] at b2
        have hcase : (s.mon s.selmon).seltags = 0 ∨ (s.mon s.selmon).seltags = 1 := by omega
        rcases hcase with h | h
        · have x1 : (0 ^^^ 1 : Nat) = 1 := by decide
          have x2 : (1 ^^^ 1 : Nat) = 0 := by decide
          simp only [h, x1, x2] at a2 b1 b2 b5
          rw [h]
          exact ⟨b1, b5.trans a2, b2⟩
        · have x1 : (0 ^^^ 1 : Nat) = 1 := by decide
          have x2 : (1 ^^^ 1 : Nat) = 0 := by decide
          simp only [h, x1, x2] at a2 b1 b2 b5
          rw [h]
          exact ⟨b1, b2, b5.trans a2⟩
  · intro hn
    have he : ui &&& TAGMASK cfg ≠ (s.mon s.selmon).tagset (s.mon s.selmon).seltags :=
      fun h => hn (Or.inl h)
    obtain ⟨a1, a2, a3, a4⟩ := e2 he
    have hnew : ((view cfg s ui).mon s.selmon).tagset ((s.mon s.selmon).seltags ^^^ 1) =
        ui &&& TAGMASK cfg := by
      by_cases hz : ui &&& TAGMASK cfg = 0
      · rw [a4 hz]
        by_contra ho
        exact hn (Or.inr ⟨hz, fun h => ho (h.trans hz.symm)⟩)
      · exact a3 hz
    have heq : ui &&& TAGMASK cfg =
        ((view cfg s ui).mon s.selmon).tagset ((view cfg s ui).mon s.selmon).seltags := by
      rw [a1, hnew]
    obtain ⟨b1, b2, b3⟩ := f1 heq
    rw [tagset_zero, tagset_zero] at b2
    rw [tagset_one, tagset_one] at b3
    exact ⟨b1.trans a1, (tagset_congr b2 b3 _).trans a2, (tagset_congr b2 b3 _).trans hnew⟩

/-- C11 at the state with the three windows managed, for `view(2)`. -/
theorem view_twice_banks_witness :
    (view exCfg (view exCfg exABC 2) 2).selmon = exABC.selmon ∧
    ((2 &&& TAGMASK exCfg = (exABC.mon exABC.selmon).tagset (exABC.mon exABC.selmon).seltags ∨
        (2 &&& TAGMASK exCfg = 0 ∧
          (exABC.mon exABC.selmon).tagset ((exABC.mon exABC.selmon).seltags ^^^ 1) ≠ 0)) →
      ((view exCfg (view exCfg exABC 2) 2).mon exABC.selmon).seltags =
        (exABC.mon exABC.selmon).seltags ∧
      ((view exCfg (view exCfg exABC 2) 2).mon exABC.selmon).tagset 0 =
        (exABC.mon exABC.selmon).tagset 0 ∧
      ((view exCfg (view exCfg exABC 2) 2).mon exABC.selmon).tagset 1 =
        (exABC.mon exABC.selmon).tagset 1) ∧
    (¬ (2 &&& TAGMASK exCfg =
          (exABC.mon exABC.selmon).tagset (exABC.mon exABC.selmon).seltags ∨
        (2 &&& TAGMASK exCfg = 0 ∧
          (exABC.mon exABC.selmon).tagset ((exABC.mon exABC.selmon).seltags ^^^ 1) ≠ 0)) →
      ((view exCfg (view exCfg exABC 2) 2).mon exABC.selmon).seltags =
        (exABC.mon exABC.selmon).seltags ^^^ 1 ∧
      ((view exCfg (view exCfg exABC 2) 2).mon exABC.selmon).tagset
          (exABC.mon exABC.selmon).seltags =
        (exABC.mon exABC.selmon).tagset (exABC.mon exABC.selmon).seltags ∧
      ((view exCfg (view exCfg exABC 2) 2).mon exABC.selmon).tagset
          ((exABC.mon exABC.selmon).seltags ^^^ 1) = 2 &&& TAGMASK exCfg) :=
  view_twice_banks exCfg exABC 2 (by decide!) (by decide!)

/-- C11 as stated fails: with the three windows managed on tag 1 (`seltags = 0`,
both banks `1`), `view(2)` twice leaves `seltags = 1` and bank 1 equal to `2`:
the second call finds the current tag set equal to its argument and
returns. -/
theorem view_twice_not_restored :
    (exABC.mon exABC.selmon).seltags = 0 ∧ (exABC.mon exABC.selmon).tagset 0 = 1 ∧
    (exABC.mon exABC.selmon).tagset 1 = 1 ∧
    ((view exCfg (view exCfg exABC 2) 2).mon exABC.selmon).seltags = 1 ∧
    ((view exCfg (view exCfg exABC 2) 2).mon exABC.selmon).tagset 0 = 1 ∧
    ((view exCfg (view exCfg exABC 2) 2).mon exABC.selmon).tagset 1 = 2 := by
  decide!

theorem setTagset_tagset (m : Monitor) (i v : Nat) : (m.setTagset i v).tagset i = v := by
  unfold Monitor.setTagset Monitor.tagset
  by_cases hi : i = 0
  · simp only [hi, if_true]
  · simp only [hi, if_false]

theorem toggleview_reject (cfg : Config) (s : State) (ui : Nat)
    (h : (s.mon s.selmon).curtags ^^^ (ui &&& TAGMASK cfg) = 0) : toggleview cfg s ui = s := by
  unfold toggleview
  unfold Monitor.curtags at h
  simp only [h, ne_eq, not_true_eq_false, if_false]

theorem toggleview_accept (cfg : Config) (s : State) (ui : Nat)
    (h : (s.mon s.selmon).curtags ^^^ (ui &&& TAGMASK cfg) ≠ 0) :
    toggleview cfg s ui =
      arrange cfg
        (focus (s.setMon s.selmon ((s.mon s.selmon).setTagset (s.mon s.selmon).seltags
          ((s.mon s.selmon).curtags ^^^ (ui &&& TAGMASK cfg)))) none)
        (focus (s.setMon s.selmon ((s.mon s.selmon).setTagset (s.mon s.selmon).seltags
          ((s.mon s.selmon).curtags ^^^ (ui &&& TAGMASK cfg)))) none).selmon := by
  unfold toggleview
  unfold Monitor.curtags at h ⊢
  simp only [if_pos h]

theorem toggletag_reject (cfg : Config) (s : State) (ui c : Nat)
    (hc : (s.mon s.selmon).sel = some c)
    (h : (s.cl c).tags ^^^ (ui &&& TAGMASK cfg) = 0) : toggletag cfg s ui = s := by
  unfold toggletag
  rw [hc]
  simp only [h, ne_eq, not_true_eq_false, if_false]

theorem toggletag_accept (cfg : Config) (s : State) (ui c : Nat)
    (hc : (s.mon s.selmon).sel = some c)
    (h : (s.cl c).tags ^^^ (ui &&& TAGMASK cfg) ≠ 0) :
    toggletag cfg s ui =
      arrange cfg
        (focus (s.setCl c { s.cl c with tags := (s.cl c).tags ^^^ (ui &&& TAGMASK cfg) }) none)
        (focus (s.setCl c { s.cl c with tags := (s.cl c).tags ^^^ (ui &&& TAGMASK cfg) })
          none).selmon := by
  unfold toggletag
  rw [hc]
  simp only [if_pos h]

/-- C12: `toggleview(mask)` and `toggletag(mask)` on the selected monitor and
its selected client `c`, with `t = mask & TAGMASK`.  When the XOR of the current
tag set (of the tags of `c`) with `t` is zero the state is unchanged; otherwise
the current tag set (the tags of `c`) becomes that XOR; so a nonzero tag set
and nonzero tags stay nonzero.  `selmon` stays the same monitor, and
`toggletag` without a selected client changes nothing. -/
theorem toggle_keeps_nonzero (cfg : Config) (s : State) (ui : Nat)
    (h2 : ∀ w, w ∈ (s.mon s.selmon).stack → (s.cl w).mon = s.selmon) :
    ((s.mon s.selmon).curtags ^^^ (ui &&& TAGMASK cfg) = 0 → toggleview cfg s ui = s) ∧
    ((s.mon s.selmon).curtags ^^^ (ui &&& TAGMASK cfg) ≠ 0 →
      (toggleview cfg s ui).selmon = s.selmon ∧
      ((toggleview cfg s ui).mon s.selmon).curtags =
        (s.mon s.selmon).curtags ^^^ (ui &&& TAGMASK cfg)) ∧
    ((s.mon s.selmon).curtags ≠ 0 →
      ((toggleview cfg s ui).mon (toggleview cfg s ui).selmon).curtags ≠ 0) ∧
    ((s.mon s.selmon).sel = none → toggletag cfg s ui = s) ∧
    (∀ c, (s.mon s.selmon).sel = some c →
      ((s.cl c).tags ^^^ (ui &&& TAGMASK cfg) = 0 → toggletag cfg s ui = s) ∧
      ((s.cl c).tags ^^^ (ui &&& TAGMASK cfg) ≠ 0 →
        ((toggletag cfg s ui).cl c).tags = (s.cl c).tags ^^^ (ui &&& TAGMASK cfg)) ∧
      ((s.cl c).tags ≠ 0 → ((toggletag cfg s ui).cl c).tags ≠ 0)) := by
  have hv : (s.mon s.selmon).curtags ^^^ (ui &&& TAGMASK cfg) ≠ 0 →
      (toggleview cfg s ui).selmon = s.selmon ∧
      ((toggleview cfg s ui).mon s.selmon).curtags =
        (s.mon s.selmon).curtags ^^^ (ui &&& TAGMASK cfg) := by
    intro h
    rw [toggleview_accept cfg s ui h]
    generalize hs1 : s.setMon s.selmon ((s.mon s.selmon).setTagset (s.mon s.selmon).seltags
      ((s.mon s.selmon).curtags ^^^ (ui &&& TAGMASK cfg))) = s1
    have hsm : s1.selmon = s.selmon := by rw [← hs1]; rfl
    have hm1 : s1.mon s.selmon = (s.mon s.selmon).setTagset (s.mon s.selmon).seltags
        ((s.mon s.selmon).curtags ^^^ (ui &&& TAGMASK cfg)) := by
      rw [← hs1, setMon_mon, if_pos rfl]
    have hk := focus_arrange_members cfg s1 (focus s1 none).selmon (fun w hw => by
      rw [hsm, hm1, setTagset_stack] at hw
      rw [hsm, ← hs1, setMon_cl]
      exact h2 w hw)
    refine ⟨hk.1.trans hsm, ?_⟩
    obtain ⟨e1, e2, e3⟩ := focus_arrange_banks cfg s1 (focus s1 none).selmon s.selmon
    unfold Monitor.curtags
    rw [e1, tagset_congr e2 e3, hm1, setTagset_seltags, setTagset_tagset]
    rfl
  have ht : ∀ c, (s.mon s.selmon).sel = some c →
      (s.cl c).tags ^^^ (ui &&& TAGMASK cfg) ≠ 0 →
      ((toggletag cfg s ui).cl c).tags = (s.cl c).tags ^^^ (ui &&& TAGMASK cfg) := by
    intro c hc h
    rw [toggletag_accept cfg s ui c hc h, (same_arrange cfg _ _).ctags, focus_ctags, setCl_cl,
      if_pos rfl]
  refine ⟨toggleview_reject cfg s ui, hv, fun hnz => ?_, fun hn => ?_, fun c hc => ⟨
    toggletag_reject cfg s ui c hc, ht c hc, fun hnz => ?_⟩⟩
  · by_cases h : (s.mon s.selmon).curtags ^^^ (ui &&& TAGMASK cfg) = 0
    · rw [toggleview_reject cfg s ui h]; exact hnz
    · rw [(hv h).1, (hv h).2]; exact h
  · unfold toggletag
    rw [hn]
  · by_cases h : (s.cl c).tags ^^^ (ui &&& TAGMASK cfg) = 0
    · rw [toggletag_reject cfg s ui c hc h]; exact hnz
    · rw [ht c hc h]; exact h

/-- C12 at the state with the three windows managed (tag set `1`, window `3`
selected with tags `1`), for the mask `3`. -/
theorem toggle_keeps_nonzero_witness :
    ((exABC.mon exABC.selmon).curtags ^^^ (3 &&& TAGMASK exCfg) = 0 →
      toggleview exCfg exABC 3 = exABC) ∧
    ((exABC.mon exABC.selmon).curtags ^^^ (3 &&& TAGMASK exCfg) ≠ 0 →
      (toggleview exCfg exABC 3).selmon = exABC.selmon ∧
      ((toggleview exCfg exABC 3).mon exABC.selmon).curtags =
        (exABC.mon exABC.selmon).curtags ^^^ (3 &&& TAGMASK exCfg)) ∧
    ((exABC.mon exABC.selmon).curtags ≠ 0 →
      ((toggleview exCfg exABC 3).mon (toggleview exCfg exABC 3).selmon).curtags ≠ 0) ∧
    ((exABC.mon exABC.selmon).sel = none → toggletag exCfg exABC 3 = exABC) ∧
    (∀ c, (exABC.mon exABC.selmon).sel = some c →
      ((exABC.cl c).tags ^^^ (3 &&& TAGMASK exCfg) = 0 → toggletag exCfg exABC 3 = exABC) ∧
      ((exABC.cl c).tags ^^^ (3 &&& TAGMASK exCfg) ≠ 0 →
        ((toggletag exCfg exABC 3).cl c).tags = (exABC.cl c).tags ^^^ (3 &&& TAGMASK exCfg)) ∧
      ((exABC.cl c).tags ≠ 0 → ((toggletag exCfg exABC 3).cl c).tags ≠ 0)) :=
  toggle_keeps_nonzero exCfg exABC 3 (by decide!)

end Dwm


/-! ## `setmfact`, `incnmaster`, `setlayout` -/

namespace Dwm

theorem arrange_selmon (cfg : Config) (s : State) (m : Nat) :
    (arrange cfg s m).selmon = s.selmon :=
  (same_arrange cfg s m).2.1

theorem setmfact_reject (cfg : Config) (s : State) (d : ℚ)
    (h : mfactTarget (s.mon s.selmon).mfact d < f64 (1 / 20) ∨
      mfactTarget (s.mon s.selmon).mfact d > f64 (19 / 20)) :
    setmfact cfg s (some d) = s := by
  unfold setmfact
  simp only [if_pos h, ite_self]

theorem setmfact_floating (cfg : Config) (s : State) (d : ℚ)
    (h : (s.mon s.selmon).curlt.arrange = none) : setmfact cfg s (some d) = s := by
  unfold setmfact
  simp only [h, beq_self_eq_true, if_true]

theorem setmfact_accept (cfg : Config) (s : State) (d : ℚ)
    (hl : (s.mon s.selmon).curlt.arrange ≠ none)
    (h : ¬ (mfactTarget (s.mon s.selmon).mfact d < f64 (1 / 20) ∨
      mfactTarget (s.mon s.selmon).mfact d > f64 (19 / 20))) :
    setmfact cfg s (some d) =
      arrange cfg (s.setMon s.selmon
        { s.mon s.selmon with mfact := mfactTarget (s.mon s.selmon).mfact d }) s.selmon := by
  unfold setmfact
  have hb : ((s.mon s.selmon).curlt.arrange == none) = false := by
    cases hx : (s.mon s.selmon).curlt.arrange with
    | none => exact absurd hx hl
    | some a => rfl
  simp only [hb, if_neg h, Bool.false_eq_true, if_false, setMon_selmon]

theorem setmfact_selmon (cfg : Config) (s : State) (a : Option ℚ) :
    (setmfact cfg s a).selmon = s.selmon := by
  cases a with
  | none => rfl
  | some d =>
    by_cases hl : (s.mon s.selmon).curlt.arrange = none
    · rw [setmfact_floating cfg s d hl]
    · by_cases h : mfactTarget (s.mon s.selmon).mfact d < f64 (1 / 20) ∨
          mfactTarget (s.mon s.selmon).mfact d > f64 (19 / 20)
      · rw [setmfact_reject cfg s d h]
      · rw [setmfact_accept cfg s d hl h, arrange_selmon]; rfl

theorem setmfact_mfact (cfg : Config) (s : State) (d : ℚ)
    (hl : (s.mon s.selmon).curlt.arrange ≠ none)
    (h : ¬ (mfactTarget (s.mon s.selmon).mfact d < f64 (1 / 20) ∨
      mfactTarget (s.mon s.selmon).mfact d > f64 (19 / 20))) :
    ((setmfact cfg s (some d)).mon s.selmon).mfact = mfactTarget (s.mon s.selmon).mfact d := by
  rw [setmfact_accept cfg s d hl h, (same_arrange cfg _ _).mfact, setMon_mon, if_pos rfl]

/-- One call of `setmfact` keeps `mfact` of the selected monitor in
`[1/20, 19/20]`: the `double` constants `0.05` and `0.95` lie inside it. -/
theorem setmfact_range (cfg : Config) (s : State) (a : Option ℚ)
    (hr : 1 / 20 ≤ (s.mon s.selmon).mfact ∧ (s.mon s.selmon).mfact ≤ 19 / 20) :
    1 / 20 ≤ ((setmfact cfg s a).mon s.selmon).mfact ∧
      ((setmfact cfg s a).mon s.selmon).mfact ≤ 19 / 20 := by
  cases a with
  | none => exact hr
  | some d =>
    by_cases hl : (s.mon s.selmon).curlt.arrange = none
    · rw [setmfact_floating cfg s d hl]; exact hr
    · by_cases h : mfactTarget (s.mon s.selmon).mfact d < f64 (1 / 20) ∨
          mfactTarget (s.mon s.selmon).mfact d > f64 (19 / 20)
      · rw [setmfact_reject cfg s d h]; exact hr
      · rw [setmfact_mfact cfg s d hl h]
        exact ⟨le_trans f64_bounds.1 (not_lt.mp (fun hh => h (Or.inl hh))),
          le_trans (not_lt.mp (fun hh => h (Or.inr hh))) f64_bounds.2⟩

theorem setmfact_foldl (cfg : Config) (ds : List ℚ) :
    ∀ s : State, 1 / 20 ≤ (s.mon s.selmon).mfact ∧ (s.mon s.selmon).mfact ≤ 19 / 20 →
      (ds.foldl (fun t e => setmfact cfg t (some e)) s).selmon = s.selmon ∧
      1 / 20 ≤ ((ds.foldl (fun t e => setmfact cfg t (some e)) s).mon s.selmon).mfact ∧
      ((ds.foldl (fun t e => setmfact cfg t (some e)) s).mon s.selmon).mfact ≤ 19 / 20 := by
  induction ds with
  | nil => intro s hr; exact ⟨rfl, hr⟩
  | cons d rest ih =>
    intro s hr
    have h1 := setmfact_range cfg s (some d) hr
    have h2 := setmfact_selmon cfg s (some d)
    have h3 := ih (setmfact cfg s (some d)) (by rw [h2]; exact h1)
    rw [h2] at h3
    exact h3

/-- C13 as amended: `setmfact(d)` on a selected monitor with a tiling layout.
Let `f` be the `float` sum of `mfact` and `d` (the sum rounded to the nearest
`float`) for `d < 1`, and `d - 1.0`, taken in `double` and rounded to `float`,
otherwise.  When `f` lies between the `double` constants `0.05` and `0.95`,
`mfact` becomes `f`; otherwise the state is unchanged.  Every sequence of
`setmfact` calls from a state with `mfact` in `[1/20, 19/20]` leaves it in that
range. -/
theorem setmfact_sets_or_rejects (cfg : Config) (s : State) (d f : ℚ)
    (hl : (s.mon s.selmon).curlt.arrange ≠ none)
    (hf : f = if d < 1 then f32 ((s.mon s.selmon).mfact + d) else f32 (f64 (d - 1))) :
    (f64 (1 / 20) ≤ f ∧ f ≤ f64 (19 / 20) →
      (setmfact cfg s (some d)).selmon = s.selmon ∧
      ((setmfact cfg s (some d)).mon s.selmon).mfact = f) ∧
    (¬ (f64 (1 / 20) ≤ f ∧ f ≤ f64 (19 / 20)) → setmfact cfg s (some d) = s) ∧
    (1 / 20 ≤ (s.mon s.selmon).mfact ∧ (s.mon s.selmon).mfact ≤ 19 / 20 →
      ∀ ds : List ℚ,
        1 / 20 ≤ ((ds.foldl (fun t e => setmfact cfg t (some e)) s).mon s.selmon).mfact ∧
        ((ds.foldl (fun t e => setmfact cfg t (some e)) s).mon s.selmon).mfact ≤ 19 / 20) := by
  have ht : mfactTarget (s.mon s.selmon).mfact d = f := by
    rw [hf]
    unfold mfactTarget
    split_ifs
    · rw [add_comm]
    · rfl
  refine ⟨fun h => ⟨setmfact_selmon cfg s _, ?_⟩, fun h => ?_, fun hr ds =>
    (setmfact_foldl cfg ds s hr).2⟩
  · rw [← ht] at h ⊢
    exact setmfact_mfact cfg s d hl (fun hh => by
      rcases hh with hh | hh
      · exact absurd h.1 (not_le.mpr hh)
      · exact absurd h.2 (not_le.mpr hh))
  · apply setmfact_reject
    rw [ht]
    by_contra hh
    exact h ⟨not_lt.mp (fun x => hh (Or.inl x)), not_lt.mp (fun x => hh (Or.inr x))⟩

/-- C13 as amended, at the state with the three windows managed (tile layout)
and `mfact = 0.93f`, for `setmfact(0.02f)`: the `float` sum is
`0.95f = 15938355 / 2^24`. -/
theorem setmfact_sets_or_rejects_witness :
    (f64 (1 / 20) ≤ (15938355 / 16777216 : ℚ) ∧ (15938355 / 16777216 : ℚ) ≤ f64 (19 / 20) →
      (setmfact exCfg exMf93 (some (f32 (1 / 50)))).selmon = exMf93.selmon ∧
      ((setmfact exCfg exMf93 (some (f32 (1 / 50)))).mon exMf93.selmon).mfact =
        15938355 / 16777216) ∧
    (¬ (f64 (1 / 20) ≤ (15938355 / 16777216 : ℚ) ∧
        (15938355 / 16777216 : ℚ) ≤ f64 (19 / 20)) →
      setmfact exCfg exMf93 (some (f32 (1 / 50))) = exMf93) ∧
    (1 / 20 ≤ (exMf93.mon exMf93.selmon).mfact ∧ (exMf93.mon exMf93.selmon).mfact ≤ 19 / 20 →
      ∀ ds : List ℚ,
        1 / 20 ≤ ((ds.foldl (fun t e => setmfact exCfg t (some e)) exMf93).mon
          exMf93.selmon).mfact ∧
        ((ds.foldl (fun t e => setmfact exCfg t (some e)) exMf93).mon exMf93.selmon).mfact ≤
          19 / 20) :=
  setmfact_sets_or_rejects exCfg exMf93 (f32 (1 / 50)) (15938355 / 16777216) (by decide!)
    (by decide!)

/-- C13 as stated fails: with the three windows managed (tile layout) and
`mfact = 0.93f = 15602811 / 2^24` (after `setmfact(0.43f)` from `1/2`), the
argument `0.02f = 5368709 / 2^28` is below 1 and the exact sum
`mfact + 0.02f = 255013685 / 2^28` is above `0.95` (and above the `double`
`0.95`), so the claim leaves the state unchanged; `setmfact(0.02f)` accepts:
the `float` sum is `0.95f = 15938355 / 2^24`, which is not above the `double`
`0.95`, and `mfact` becomes `0.95f`, which is not the exact sum. -/
theorem setmfact_exact_sum_not_kept :
    (exMf93.mon exMf93.selmon).curlt.arrange = some ArrangeFn.tile ∧
    (exMf93.mon exMf93.selmon).mfact = 15602811 / 16777216 ∧
    (1 / 20 ≤ (exMf93.mon exMf93.selmon).mfact ∧ (exMf93.mon exMf93.selmon).mfact ≤ 19 / 20) ∧
    f32 (1 / 50) = 5368709 / 268435456 ∧ f32 (1 / 50) < 1 ∧
    (exMf93.mon exMf93.selmon).mfact + f32 (1 / 50) = 255013685 / 268435456 ∧
    ¬ ((exMf93.mon exMf93.selmon).mfact + f32 (1 / 50) ≤ 19 / 20) ∧
    ¬ ((exMf93.mon exMf93.selmon).mfact + f32 (1 / 50) ≤ f64 (19 / 20)) ∧
    ((setmfact exCfg exMf93 (some (f32 (1 / 50)))).mon exMf93.selmon).mfact =
      15938355 / 16777216 ∧
    ((setmfact exCfg exMf93 (some (f32 (1 / 50)))).mon exMf93.selmon).mfact ≠
      (exMf93.mon exMf93.selmon).mfact ∧
    ((setmfact exCfg exMf93 (some (f32 (1 / 50)))).mon exMf93.selmon).mfact ≠
      (exMf93.mon exMf93.selmon).mfact + f32 (1 / 50) := by
  decide!

/-- C14 as amended: on a selected monitor with a tiling layout and `mfact` in
`[1/20, 19/20]`, `setmfact(0.5)` and `setmfact(0.02f)` are relative.  The first
is accepted exactly when `mfact < 15099495 / 2^25` (for a `float` `mfact`: when
`mfact <= 0.45f = 7549747 / 2^24`) and the second exactly when
`mfact < 249644979 / 2^28` (for a `float` `mfact`: when
`mfact <= 0.93f = 15602811 / 2^24`); `mfact` becomes the `float` nearest to
the sum, and otherwise the state is unchanged.  `setmfact(1.5)` is absolute
and always accepted: `mfact` becomes `1/2`. -/
theorem setmfact_boundary (cfg : Config) (s : State)
    (hl : (s.mon s.selmon).curlt.arrange ≠ none)
    (hr : 1 / 20 ≤ (s.mon s.selmon).mfact ∧ (s.mon s.selmon).mfact ≤ 19 / 20) :
    ((s.mon s.selmon).mfact < 15099495 / 33554432 →
      ((setmfact cfg s (some (1 / 2))).mon s.selmon).mfact =
        f32 ((s.mon s.selmon).mfact + 1 / 2)) ∧
    (15099495 / 33554432 ≤ (s.mon s.selmon).mfact → setmfact cfg s (some (1 / 2)) = s) ∧
    ((s.mon s.selmon).mfact < 249644979 / 268435456 →
      ((setmfact cfg s (some (f32 (1 / 50)))).mon s.selmon).mfact =
        f32 ((s.mon s.selmon).mfact + f32 (1 / 50))) ∧
    (249644979 / 268435456 ≤ (s.mon s.selmon).mfact →
      setmfact cfg s (some (f32 (1 / 50))) = s) ∧
    ((setmfact cfg s (some (3 / 2))).mon s.selmon).mfact = 1 / 2 := by
  have hd : f32 (1 / 50) = 5368709 / 268435456 := by decide!
  rw [hd]
  have t1 : mfactTarget (s.mon s.selmon).mfact (1 / 2) =
      f32 ((s.mon s.selmon).mfact + 1 / 2) := by
    unfold mfactTarget
    rw [if_pos (by norm_num), add_comm]
  have t2 : mfactTarget (s.mon s.selmon).mfact (5368709 / 268435456) =
      f32 ((s.mon s.selmon).mfact + 5368709 / 268435456) := by
    unfold mfactTarget
    rw [if_pos (by norm_num), add_comm]
  have t3 : mfactTarget (s.mon s.selmon).mfact (3 / 2) = 1 / 2 := by
    unfold mfactTarget
    rw [if_neg (by norm_num)]
    decide!
  obtain ⟨r1, r2⟩ := hr
  have lo1 := f32_ge_lo ((s.mon s.selmon).mfact + 1 / 2) (by linarith) (by linarith)
  have hi1 := f32_le_hi ((s.mon s.selmon).mfact + 1 / 2) (by linarith) (by linarith)
  have lo2 := f32_ge_lo ((s.mon s.selmon).mfact + 5368709 / 268435456) (by linarith)
    (by linarith)
  have hi2 := f32_le_hi ((s.mon s.selmon).mfact + 5368709 / 268435456) (by linarith)
    (by linarith)
  refine ⟨fun h => ?_, fun h => ?_, fun h => ?_, fun h => ?_, ?_⟩
  · rw [setmfact_mfact cfg s _ hl (by
      rw [t1]
      rintro (hh | hh)
      · exact absurd lo1 (not_le.mpr hh)
      · exact absurd (hi1.mpr (by linarith)) (not_le.mpr hh)), t1]
  · apply setmfact_reject
    rw [t1]
    right
    by_contra hh
    have := hi1.mp (not_lt.mp hh)
    linarith
  · rw [setmfact_mfact cfg s _ hl (by
      rw [t2]
      rintro (hh | hh)
      · exact absurd lo2 (not_le.mpr hh)
      · exact absurd (hi2.mpr (by linarith)) (not_le.mpr hh)), t2]
  · apply setmfact_reject
    rw [t2]
    right
    by_contra hh
    have := hi2.mp (not_lt.mp hh)
    linarith
  · rw [setmfact_mfact cfg s _ hl (by
      rw [t3]
      have hb := f64_bounds
      rintro (hh | hh)
      · have : f64 (1 / 20) ≤ 1 / 2 := by decide!
        exact absurd this (not_le.mpr hh)
      · have : (1 : ℚ) / 2 ≤ f64 (19 / 20) := by decide!
        exact absurd this (not_le.mpr hh)), t3]

/-- C14 as amended, at the state with the three windows managed (tile layout,
`mfact = 1/2`). -/
theorem setmfact_boundary_witness :
    ((exABC.mon exABC.selmon).mfact < 15099495 / 33554432 →
      ((setmfact exCfg exABC (some (1 / 2))).mon exABC.selmon).mfact =
        f32 ((exABC.mon exABC.selmon).mfact + 1 / 2)) ∧
    (15099495 / 33554432 ≤ (exABC.mon exABC.selmon).mfact →
      setmfact exCfg exABC (some (1 / 2)) = exABC) ∧
    ((exABC.mon exABC.selmon).mfact < 249644979 / 268435456 →
      ((setmfact exCfg exABC (some (f32 (1 / 50)))).mon exABC.selmon).mfact =
        f32 ((exABC.mon exABC.selmon).mfact + f32 (1 / 50))) ∧
    (249644979 / 268435456 ≤ (exABC.mon exABC.selmon).mfact →
      setmfact exCfg exABC (some (f32 (1 / 50))) = exABC) ∧
    ((setmfact exCfg exABC (some (3 / 2))).mon exABC.selmon).mfact = 1 / 2 :=
  setmfact_boundary exCfg exABC (by decide!) (by decide!)

/-- C14 as stated fails: with the three windows managed (tile layout,
`mfact = 1/2`), `setmfact(0.5)` is rejected (`mfact` stays `1/2`: the argument
is relative and `1/2 + 1/2` is out of range), `setmfact(0.02f)` is accepted
(`mfact` becomes the `float` `0.52f = 1090519 / 2^21`), and after it
`setmfact(1.5)` is accepted (`mfact` goes back to `1/2`). -/
theorem setmfact_boundary_not_as_stated :
    (exABC.mon 0).curlt.arrange = some ArrangeFn.tile ∧ (exABC.mon 0).mfact = 1 / 2 ∧
    ((setmfact exCfg exABC (some (1 / 2))).mon 0).mfact = 1 / 2 ∧
    ((setmfact exCfg exABC (some (f32 (1 / 50)))).mon 0).mfact = 1090519 / 2097152 ∧
    ((setmfact exCfg (setmfact exCfg exABC (some (f32 (1 / 50)))) (some (3 / 2))).mon 0).mfact =
      1 / 2 := by
  decide!

theorem incnmaster_nmaster (cfg : Config) (s : State) (d : Int) :
    (incnmaster cfg s d).selmon = s.selmon ∧
    ((incnmaster cfg s d).mon s.selmon).nmaster = max ((s.mon s.selmon).nmaster + d) 0 := by
  unfold incnmaster
  simp only [setMon_selmon]
  refine ⟨arrange_selmon _ _ _, ?_⟩
  rw [(same_arrange cfg _ _).nmaster, setMon_mon, if_pos rfl]

theorem incnmaster_foldl (cfg : Config) (ds : List Int) :
    ∀ s : State, 0 ≤ (s.mon s.selmon).nmaster →
      (ds.foldl (incnmaster cfg) s).selmon = s.selmon ∧
      0 ≤ ((ds.foldl (incnmaster cfg) s).mon s.selmon).nmaster := by
  induction ds with
  | nil => intro s h; exact ⟨rfl, h⟩
  | cons d rest ih =>
    intro s _
    obtain ⟨h1, h2⟩ := incnmaster_nmaster cfg s d
    have h3 := ih (incnmaster cfg s d) (by rw [h1, h2]; exact le_max_right _ _)
    rw [h1] at h3
    exact h3

/-- C16: `incnmaster(d)` sets `nmaster` of the selected monitor to
`max(nmaster + d, 0)` and keeps `selmon`; so `incnmaster(-n)` with
`n ≥ nmaster` gives `0`, and every sequence of `incnmaster` calls from a state
with `nmaster ≥ 0` leaves `nmaster ≥ 0`. -/
theorem incnmaster_floors_at_zero (cfg : Config) (s : State) (d : Int) :
    (incnmaster cfg s d).selmon = s.selmon ∧
    ((incnmaster cfg s d).mon s.selmon).nmaster = max ((s.mon s.selmon).nmaster + d) 0 ∧
    (∀ n : Int, (s.mon s.selmon).nmaster ≤ n →
      ((incnmaster cfg s (-n)).mon s.selmon).nmaster = 0) ∧
    (0 ≤ (s.mon s.selmon).nmaster →
      ∀ ds : List Int, 0 ≤ ((ds.foldl (incnmaster cfg) s).mon s.selmon).nmaster) := by
  refine ⟨(incnmaster_nmaster cfg s d).1, (incnmaster_nmaster cfg s d).2, fun n hn => ?_,
    fun h ds => (incnmaster_foldl cfg ds s h).2⟩
  rw [(incnmaster_nmaster cfg s (-n)).2]
  exact max_eq_right (by linarith)

/-! ### `setlayout` -/

theorem updatesizehints_mon (s : State) (c : Nat) : (updatesizehints s c).mon = s.mon := rfl

theorem hintState_mon (cfg : Config) (s : State) (c : Nat) :
    (hintState cfg s c).mon = s.mon := by
  unfold hintState
  split_ifs
  · exact updatesizehints_mon s c
  · rfl

theorem resize_mon (cfg : Config) (s : State) (c : Nat) (x y w h : Int) (interact : Bool) :
    (resize cfg s c x y w h interact).mon = s.mon := by
  unfold resize applysizehints
  simp only
  split_ifs
  · exact hintState_mon cfg s c
  · exact hintState_mon cfg s c

theorem showhide_mon (cfg : Config) (l : List Nat) :
    ∀ s : State, (showhide cfg l s).mon = s.mon := by
  induction l with
  | nil => intro s; rfl
  | cons c rest ih =>
    intro s
    unfold showhide
    simp only
    split_ifs
    all_goals first
      | exact ih _
      | exact (ih _).trans (resize_mon _ _ _ _ _ _ _ _)

theorem tileLoop_mon (cfg : Config) (m n : Nat) (mw : Int) (l : List Nat) :
    ∀ (i : Nat) (my ty : Int) (s : State), (tileLoop cfg m n mw l i my ty s).1.mon = s.mon := by
  induction l with
  | nil => intro i my ty s; rfl
  | cons c rest ih =>
    intro i my ty s
    unfold tileLoop
    simp only
    split_ifs
    all_goals first
      | exact ih _ _ _ _
      | exact (ih _ _ _ _).trans (resize_mon _ _ _ _ _ _ _ _)

theorem monocleLoop_mon (cfg : Config) (m : Nat) (l : List Nat) :
    ∀ s : State, (monocleLoop cfg m l s).1.mon = s.mon := by
  induction l with
  | nil => intro s; rfl
  | cons c rest ih =>
    intro s
    unfold monocleLoop
    split_ifs
    · exact ih s
    · exact (ih _).trans (resize_mon _ _ _ _ _ _ _ _)

/-- The layout symbol `arrangemon` leaves on the monitor: the symbol of the
current layout, except that `monocle` with `n > 0` visible clients writes
`[n]`. -/
theorem arrangemon_ltsymbol (cfg : Config) (s : State) (m : Nat) :
    ((arrangemon cfg s m).mon m).ltsymbol =
      if (s.mon m).curlt.arrange = some ArrangeFn.monocle ∧
          0 < ((s.mon m).clients.filter (ISVISIBLE s)).length then
        "[" ++ toString ((s.mon m).clients.filter (ISVISIBLE s)).length ++ "]"
      else (s.mon m).curlt.symbol := by
  have hv : ISVISIBLE (s.setMon m { s.mon m with ltsymbol := (s.mon m).curlt.symbol }) =
      ISVISIBLE s := visible_setMon _ _ _ (by rfl)
  have hc : ((s.setMon m { s.mon m with ltsymbol := (s.mon m).curlt.symbol }).mon m).curlt =
      (s.mon m).curlt := by
    rw [setMon_mon, if_pos rfl]; rfl
  unfold arrangemon arrangemonTrace
  simp only
  rw [hc]
  cases ha : (s.mon m).curlt.arrange with
  | none =>
    simp only [setMon_mon, if_true]
    rw [if_neg (by rintro ⟨h, _⟩; cases h)]
  | some a =>
    cases a with
    | tile =>
      simp only
      rw [if_neg (by rintro ⟨h, _⟩; cases h)]
      unfold tileTrace
      simp only
      split_ifs
      · simp only [setMon_mon, if_true]
      · rw [tileLoop_mon]
        simp only [setMon_mon, if_true]
    | monocle =>
      simp only
      unfold monocleTrace
      simp only [hv, setMon_mon, if_true]
      rw [monocleLoop_mon]
      by_cases hn : 0 < ((s.mon m).clients.filter (ISVISIBLE s)).length
      · simp only [gt_iff_lt, hn, if_true, setMon_mon, and_self]
      · simp only [gt_iff_lt, hn, if_false, setMon_mon, if_true, and_false]

theorem arrange_ltsymbol (cfg : Config) (s : State) (m : Nat) :
    ((arrange cfg s m).mon m).ltsymbol =
      if (s.mon m).curlt.arrange = some ArrangeFn.monocle ∧
          0 < ((s.mon m).clients.filter (ISVISIBLE s)).length then
        "[" ++ toString ((s.mon m).clients.filter (ISVISIBLE s)).length ++ "]"
      else (s.mon m).curlt.symbol := by
  unfold arrange
  rw [arrangemon_ltsymbol, showhide_mon]
  have hv : ISVISIBLE (showhide cfg (s.mon m).stack s) = ISVISIBLE s := by
    funext c; exact (same_showhide cfg _ s).visible c
  rw [hv]

theorem Same.sellt {s t : State} (h : Same s t) (i : Nat) :
    (t.mon i).sellt = (s.mon i).sellt := by
  have h1 := congrArg Monitor.sellt (h.2.2.2.2.2.2.2.1 i)
  simpa [Monitor.core] using h1

theorem Same.lt {s t : State} (h : Same s t) (i j : Nat) :
    (t.mon i).lt j = (s.mon i).lt j := by
  have h0 := congrArg Monitor.lt0 (h.2.2.2.2.2.2.2.1 i)
  have h1 := congrArg Monitor.lt1 (h.2.2.2.2.2.2.2.1 i)
  simp only [Monitor.core] at h0 h1
  unfold Monitor.lt
  rw [h0, h1]

theorem setLt_frame (m : Monitor) (i : Nat) (l : Layout) :
    (m.setLt i l).sellt = m.sellt ∧ (m.setLt i l).sel = m.sel ∧
    (m.setLt i l).clients = m.clients ∧ (m.setLt i l).seltags = m.seltags ∧
    (m.setLt i l).tagset0 = m.tagset0 ∧ (m.setLt i l).tagset1 = m.tagset1 := by
  unfold Monitor.setLt
  split_ifs <;> exact ⟨rfl, rfl, rfl, rfl, rfl, rfl⟩

theorem setLt_lt (m : Monitor) (i : Nat) (l : Layout) (hi : i ≤ 1) (j : Nat) (hj : j ≤ 1) :
    (m.setLt i l).lt j = if j = i then l else m.lt j := by
  have hi2 : i = 0 ∨ i = 1 := by omega
  have hj2 : j = 0 ∨ j = 1 := by omega
  rcases hi2 with hi2 | hi2 <;> rcases hj2 with hj2 | hj2 <;> subst hi2 <;> subst hj2 <;>
    simp [Monitor.setLt, Monitor.lt]

theorem curtags_congr {a b : Monitor} (h1 : a.seltags = b.seltags)
    (h2 : a.tagset0 = b.tagset0) (h3 : a.tagset1 = b.tagset1) : a.curtags = b.curtags := by
  unfold Monitor.curtags Monitor.tagset
  rw [h1, h2, h3]

/-- The record `setlayout` leaves in `selmon` before it arranges: the lists,
the selection and the tag sets are those of before. -/
theorem setlayoutMon_frame (m : Monitor) (arg : Option Layout) :
    (setlayoutMon m arg).sel = m.sel ∧ (setlayoutMon m arg).clients = m.clients ∧
    (setlayoutMon m arg).curtags = m.curtags ∧
    (setlayoutMon m arg).ltsymbol = (setlayoutMon m arg).curlt.symbol := by
  have hflip : ∀ v : Monitor, v = m ∨ v = { m with sellt := m.sellt ^^^ 1 } →
      v.sel = m.sel ∧ v.clients = m.clients ∧ v.seltags = m.seltags ∧
      v.tagset0 = m.tagset0 ∧ v.tagset1 = m.tagset1 := by
    rintro v (h | h) <;> rw [h] <;> exact ⟨rfl, rfl, rfl, rfl, rfl⟩
  have hm1 : (if arg ≠ some (m.lt m.sellt) then { m with sellt := m.sellt ^^^ 1 } else m) = m ∨
      (if arg ≠ some (m.lt m.sellt) then { m with sellt := m.sellt ^^^ 1 } else m) =
        { m with sellt := m.sellt ^^^ 1 } := by
    by_cases h : arg ≠ some (m.lt m.sellt)
    · right; rw [if_pos h]
    · left; rw [if_neg h]
  obtain ⟨g1, g2, g3, g4, g5⟩ := hflip _ hm1
  unfold setlayoutMon
  generalize (if arg ≠ some (m.lt m.sellt) then { m with sellt := m.sellt ^^^ 1 } else m) = m1
    at g1 g2 g3 g4 g5 ⊢
  cases arg with
  | none => exact ⟨g1, g2, curtags_congr g3 g4 g5, rfl⟩
  | some l =>
    obtain ⟨_, k1, k2, k3, k4, k5⟩ := setLt_frame m1 m1.sellt l
    exact ⟨k1.trans g1, k2.trans g2, curtags_congr (k3.trans g3) (k4.trans g4) (k5.trans g5), rfl⟩

theorem setlayoutMon_null (m : Monitor) :
    (setlayoutMon m none).sellt = m.sellt ^^^ 1 ∧
    ∀ j, (setlayoutMon m none).lt j = m.lt j := by
  have h : (none : Option Layout) ≠ some (m.lt m.sellt) := fun hh => by cases hh
  unfold setlayoutMon
  rw [if_pos h]
  exact ⟨rfl, fun _ => rfl⟩

theorem setlayoutMon_current (m : Monitor) (h1 : m.sellt ≤ 1) :
    (setlayoutMon m (some (m.lt m.sellt))).sellt = m.sellt ∧
    ∀ j, j ≤ 1 → (setlayoutMon m (some (m.lt m.sellt))).lt j = m.lt j := by
  unfold setlayoutMon
  simp only [ne_eq, not_true_eq_false, if_false]
  refine ⟨(setLt_frame _ _ _).1, fun j hj => ?_⟩
  have h : ∀ v : Monitor, Monitor.lt { v with ltsymbol := (v.lt v.sellt).symbol } j = v.lt j :=
    fun _ => rfl
  rw [h, setLt_lt m _ _ h1 j hj]
  split_ifs with hji
  · rw [hji]
  · rfl

theorem setlayoutMon_other (m : Monitor) (l : Layout) (h1 : m.sellt ≤ 1)
    (hl : l ≠ m.lt m.sellt) :
    (setlayoutMon m (some l)).sellt = m.sellt ^^^ 1 ∧
    (setlayoutMon m (some l)).lt (m.sellt ^^^ 1) = l ∧
    (setlayoutMon m (some l)).lt m.sellt = m.lt m.sellt := by
  have hne : (some l : Option Layout) ≠ some (m.lt m.sellt) := fun h => hl (Option.some.inj h)
  have hx : m.sellt ^^^ 1 ≤ 1 := by
    have h2 : m.sellt = 0 ∨ m.sellt = 1 := by omega
    rcases h2 with h2 | h2 <;> rw [h2] <;> decide
  have hd : m.sellt ≠ m.sellt ^^^ 1 := by
    have h2 : m.sellt = 0 ∨ m.sellt = 1 := by omega
    rcases h2 with h2 | h2 <;> rw [h2] <;> decide
  unfold setlayoutMon
  simp only [if_pos hne]
  have h : ∀ (v : Monitor) (j : Nat),
      Monitor.lt { v with ltsymbol := (v.lt v.sellt).symbol } j = v.lt j := fun _ _ => rfl
  refine ⟨(setLt_frame _ _ _).1, ?_, ?_⟩
  · rw [h, setLt_lt _ _ _ hx _ hx, if_pos rfl]
  · rw [h, setLt_lt _ _ _ hx _ h1, if_neg hd]
    rfl

/-- The state `setlayout` returns differs from the state with the new record
of `selmon` at most in geometry, size hints and layout symbols. -/
theorem same_setlayout (cfg : Config) (s : State) (arg : Option Layout) :
    Same (s.setMon s.selmon (setlayoutMon (s.mon s.selmon) arg)) (setlayout cfg s arg) := by
  unfold setlayout
  simp only
  split
  · exact same_arrange cfg _ _
  · exact same_refl _

theorem setlayout_ltsymbol (cfg : Config) (s : State) (arg : Option Layout) :
    ((setlayout cfg s arg).mon s.selmon).ltsymbol =
      if (s.mon s.selmon).sel ≠ none ∧
          ((setlayout cfg s arg).mon s.selmon).curlt.arrange = some ArrangeFn.monocle ∧
          0 < ((s.mon s.selmon).clients.filter (ISVISIBLE s)).length then
        "[" ++ toString ((s.mon s.selmon).clients.filter (ISVISIBLE s)).length ++ "]"
      else ((setlayout cfg s arg).mon s.selmon).curlt.symbol := by
  obtain ⟨f1, f2, f3, f4⟩ := setlayoutMon_frame (s.mon s.selmon) arg
  rw [(same_setlayout cfg s arg).curlt]
  have hv : ISVISIBLE (s.setMon s.selmon (setlayoutMon (s.mon s.selmon) arg)) = ISVISIBLE s :=
    visible_setMon _ _ _ f3
  unfold setlayout
  simp only [setMon_selmon, setMon_mon, if_true]
  rw [f1]
  cases hsel : (s.mon s.selmon).sel with
  | none =>
    simp only [setMon_mon, if_true, ne_eq, not_true_eq_false, false_and, if_false]
    exact f4
  | some c =>
    simp only
    rw [arrange_ltsymbol, hv]
    simp only [setMon_mon, if_true, f2, ne_eq, reduceCtorEq, not_false_eq_true, true_and]

/-- C15 as amended: `setlayout(arg)` on the selected monitor (`sellt` is `0` or
`1`).  With a `NULL` argument `sellt` is flipped and no `lt` slot is modified.
With the layout that is current already, `sellt` and both slots are unchanged
(there is no flip).  With any other layout `sellt` is flipped and the newly
selected slot is set to it, the slot selected before being unchanged.  In all
cases `selmon` is kept, and `ltsymbol` is the symbol of `lt[sellt]`, unless
there is a selected client, `lt[sellt]` is the monocle layout and `n > 0`
clients of the monitor are visible: then it is `[n]`. -/
theorem setlayout_effect (cfg : Config) (s : State) (arg : Option Layout)
    (h1 : (s.mon s.selmon).sellt ≤ 1) :
    (setlayout cfg s arg).selmon = s.selmon ∧
    (arg = none →
      ((setlayout cfg s arg).mon s.selmon).sellt = (s.mon s.selmon).sellt ^^^ 1 ∧
      ((setlayout cfg s arg).mon s.selmon).lt 0 = (s.mon s.selmon).lt 0 ∧
      ((setlayout cfg s arg).mon s.selmon).lt 1 = (s.mon s.selmon).lt 1) ∧
    (arg = some ((s.mon s.selmon).lt (s.mon s.selmon).sellt) →
      ((setlayout cfg s arg).mon s.selmon).sellt = (s.mon s.selmon).sellt ∧
      ((setlayout cfg s arg).mon s.selmon).lt 0 = (s.mon s.selmon).lt 0 ∧
      ((setlayout cfg s arg).mon s.selmon).lt 1 = (s.mon s.selmon).lt 1) ∧
    (∀ l, arg = some l → l ≠ (s.mon s.selmon).lt (s.mon s.selmon).sellt →
      ((setlayout cfg s arg).mon s.selmon).sellt = (s.mon s.selmon).sellt ^^^ 1 ∧
      ((setlayout cfg s arg).mon s.selmon).lt ((s.mon s.selmon).sellt ^^^ 1) = l ∧
      ((setlayout cfg s arg).mon s.selmon).lt (s.mon s.selmon).sellt =
        (s.mon s.selmon).lt (s.mon s.selmon).sellt) ∧
    ((setlayout cfg s arg).mon s.selmon).ltsymbol =
      (if (s.mon s.selmon).sel ≠ none ∧
          (((setlayout cfg s arg).mon s.selmon).lt
            ((setlayout cfg s arg).mon s.selmon).sellt).arrange = some ArrangeFn.monocle ∧
          0 < ((s.mon s.selmon).clients.filter (ISVISIBLE s)).length then
        "[" ++ toString ((s.mon s.selmon).clients.filter (ISVISIBLE s)).length ++ "]"
      else (((setlayout cfg s arg).mon s.selmon).lt
        ((setlayout cfg s arg).mon s.selmon).sellt).symbol) := by
  have hs := same_setlayout cfg s arg
  have hm : (s.setMon s.selmon (setlayoutMon (s.mon s.selmon) arg)).mon s.selmon =
      setlayoutMon (s.mon s.selmon) arg := by rw [setMon_mon, if_pos rfl]
  refine ⟨hs.2.1, fun ha => ?_, fun ha => ?_, fun l ha hl => ?_, setlayout_ltsymbol cfg s arg⟩
  · rw [hs.sellt, hs.lt, hs.lt, hm, ha]
    exact ⟨(setlayoutMon_null _).1, (setlayoutMon_null _).2 0, (setlayoutMon_null _).2 1⟩
  · rw [hs.sellt, hs.lt, hs.lt, hm, ha]
    exact ⟨(setlayoutMon_current _ h1).1, (setlayoutMon_current _ h1).2 0 (by decide),
      (setlayoutMon_current _ h1).2 1 (by decide)⟩
  · rw [hs.sellt, hs.lt, hs.lt, hm, ha]
    exact setlayoutMon_other _ l h1 hl

/-- C15 at the state with the three windows managed (layouts tile and
floating, tile current), for the monocle layout. -/
theorem setlayout_effect_witness :
    (setlayout exCfg exABC (some exMonocle)).selmon = exABC.selmon ∧
    (some exMonocle = none →
      ((setlayout exCfg exABC (some exMonocle)).mon exABC.selmon).sellt =
        (exABC.mon exABC.selmon).sellt ^^^ 1 ∧
      ((setlayout exCfg exABC (some exMonocle)).mon exABC.selmon).lt 0 =
        (exABC.mon exABC.selmon).lt 0 ∧
      ((setlayout exCfg exABC (some exMonocle)).mon exABC.selmon).lt 1 =
        (exABC.mon exABC.selmon).lt 1) ∧
    (some exMonocle = some ((exABC.mon exABC.selmon).lt (exABC.mon exABC.selmon).sellt) →
      ((setlayout exCfg exABC (some exMonocle)).mon exABC.selmon).sellt =
        (exABC.mon exABC.selmon).sellt ∧
      ((setlayout exCfg exABC (some exMonocle)).mon exABC.selmon).lt 0 =
        (exABC.mon exABC.selmon).lt 0 ∧
      ((setlayout exCfg exABC (some exMonocle)).mon exABC.selmon).lt 1 =
        (exABC.mon exABC.selmon).lt 1) ∧
    (∀ l, some exMonocle = some l →
      l ≠ (exABC.mon exABC.selmon).lt (exABC.mon exABC.selmon).sellt →
      ((setlayout exCfg exABC (some exMonocle)).mon exABC.selmon).sellt =
        (exABC.mon exABC.selmon).sellt ^^^ 1 ∧
      ((setlayout exCfg exABC (some exMonocle)).mon exABC.selmon).lt
        ((exABC.mon exABC.selmon).sellt ^^^ 1) = l ∧
      ((setlayout exCfg exABC (some exMonocle)).mon exABC.selmon).lt
          (exABC.mon exABC.selmon).sellt =
        (exABC.mon exABC.selmon).lt (exABC.mon exABC.selmon).sellt) ∧
    ((setlayout exCfg exABC (some exMonocle)).mon exABC.selmon).ltsymbol =
      (if (exABC.mon exABC.selmon).sel ≠ none ∧
          (((setlayout exCfg exABC (some exMonocle)).mon exABC.selmon).lt
            ((setlayout exCfg exABC (some exMonocle)).mon exABC.selmon).sellt).arrange =
              some ArrangeFn.monocle ∧
          0 < ((exABC.mon exABC.selmon).clients.filter (ISVISIBLE exABC)).length then
        "[" ++ toString ((exABC.mon exABC.selmon).clients.filter (ISVISIBLE exABC)).length
          ++ "]"
      else (((setlayout exCfg exABC (some exMonocle)).mon exABC.selmon).lt
        ((setlayout exCfg exABC (some exMonocle)).mon exABC.selmon).sellt).symbol) :=
  setlayout_effect exCfg exABC (some exMonocle) (by decide!)

/-- C15 as stated fails: with the three windows managed (`sellt = 0`, slots
tile and floating), `setlayout` with the tile layout, which is current, leaves
`sellt = 0` (no flip); `setlayout` with the monocle layout flips `sellt` to `1`
and stores the layout in slot `1`, and the layout symbol is then `[3]`, not the
symbol `[M]` of the monocle layout. -/
theorem setlayout_not_as_stated :
    (exABC.mon 0).sellt = 0 ∧ (exABC.mon 0).lt 0 = exTile ∧ (exABC.mon 0).lt 1 = exFloat ∧
    ((setlayout exCfg exABC (some exTile)).mon 0).sellt = 0 ∧
    ((setlayout exCfg exABC (some exMonocle)).mon 0).sellt = 1 ∧
    ((setlayout exCfg exABC (some exMonocle)).mon 0).lt 0 = exTile ∧
    ((setlayout exCfg exABC (some exMonocle)).mon 0).lt 1 = exMonocle ∧
    ((setlayout exCfg exABC (some exMonocle)).mon 0).ltsymbol = "[3]" ∧
    exMonocle.symbol = "[M]" := by
  decide!

end Dwm


/-! ## `zoom` -/

namespace Dwm

/-- `nexttiled` finds nothing exactly when the filter of the tiled clients is
empty. -/
theorem nexttiled_nil (s : State) (l : List Nat) (h : nexttiled s l = []) :
    l.filter (fun c => !((s.cl c).isfloating || !ISVISIBLE s c)) = [] := by
  unfold nexttiled at h
  rw [List.dropWhile_eq_nil_iff] at h
  rw [List.filter_eq_nil_iff]
  intro a ha
  rw [h a ha]
  decide

/-- The client `nexttiled` finds is the first one of the filter of the tiled
clients, and what follows it in the list is filtered in the same way. -/
theorem nexttiled_cons (s : State) (l : List Nat) (x : Nat) (tl : List Nat) :
    nexttiled s l = x :: tl →
    l.filter (fun c => !((s.cl c).isfloating || !ISVISIBLE s c)) =
      x :: tl.filter (fun c => !((s.cl c).isfloating || !ISVISIBLE s c)) := by
  induction l with
  | nil => intro h; cases h
  | cons a l2 ih =>
    intro h
    unfold nexttiled at h ih
    rw [List.dropWhile_cons] at h
    rw [List.filter_cons]
    by_cases hq : ((s.cl a).isfloating || !ISVISIBLE s a) = true
    · rw [if_pos hq] at h
      rw [hq]
      simp only [Bool.not_true, Bool.false_eq_true, if_false]
      exact ih h
    · rw [if_neg hq] at h
      rw [Bool.not_eq_true] at hq
      rw [hq]
      simp only [Bool.not_false, if_true]
      injection h with h1 h2
      rw [h1, h2]

/-- `zoom` in terms of the list of tiled clients of the selected monitor. -/
theorem zoom_tiled (cfg : Config) (s : State) (c : Nat)
    (hsel : (s.mon s.selmon).sel = some c)
    (hl : (s.mon s.selmon).curlt.arrange ≠ none) (hf : (s.cl c).isfloating = false) :
    zoom cfg s =
      match tiled s s.selmon with
      | [] => pop cfg s c
      | t :: rest =>
        if c = t then
          match rest with
          | [] => s
          | t2 :: _ => pop cfg s t2
        else pop cfg s c := by
  have hb : ((s.mon s.selmon).curlt.arrange == none) = false := by
    cases hx : (s.mon s.selmon).curlt.arrange with
    | none => exact absurd hx hl
    | some a => rfl
  unfold zoom tiled
  rw [hsel]
  simp only [hb, hf, Bool.or_self, Bool.false_eq_true, if_false]
  cases h1 : nexttiled s (s.mon s.selmon).clients with
  | nil => rw [nexttiled_nil s _ h1]
  | cons t rest =>
    rw [nexttiled_cons s _ t rest h1]
    simp only
    by_cases hct : c = t
    · rw [if_pos hct, if_pos hct]
      cases h2 : nexttiled s rest with
      | nil => rw [nexttiled_nil s _ h2]
      | cons t2 r2 => rw [nexttiled_cons s _ t2 r2 h2]
    · rw [if_neg hct, if_neg hct]

/-- `pop(c)` for a client of the selected monitor: `selmon` is kept, `c` is
the head of the client list and the other clients keep their order; a visible
`c` is selected. -/
theorem pop_effect (cfg : Config) {s : State} (hs : ListsOK s) {c : Nat}
    (hc : c ∈ (s.mon s.selmon).clients) :
    (pop cfg s c).selmon = s.selmon ∧
    ((pop cfg s c).mon s.selmon).clients =
      c :: (s.mon s.selmon).clients.filter (fun x => x != c) ∧
    ((pop cfg s c).mon s.selmon).stack.Perm (s.mon s.selmon).stack ∧
    (ISVISIBLE s c = true → ((pop cfg s c).mon s.selmon).sel = some c) := by
  obtain ⟨hnd, hnds, hcs, hmon, _, _⟩ := hs.2 s.selmon hs.1
  have hcm : (s.cl c).mon = s.selmon := hmon c hc
  generalize hs1 : attach (detach s c) c = s1
  have c1 : s1.cl = s.cl := by rw [← hs1]; rfl
  have sm1 : s1.selmon = s.selmon := by rw [← hs1]; rfl
  have m1 : s1.mon s.selmon =
      { s.mon s.selmon with clients := c :: (s.mon s.selmon).clients.erase c } := by
    rw [← hs1, attach_mon, detach_cl, if_pos hcm.symm, detach_mon, if_pos hcm.symm]
  have st1 : (s1.mon s.selmon).stack = (s.mon s.selmon).stack := by rw [m1]
  have hv1 : ISVISIBLE s1 = ISVISIBLE s := by
    apply visible_congr
    · intro d; rw [c1]
    · intro d; rw [c1]
    · intro i
      rw [← hs1, attach_mon, detach_cl]
      by_cases hi : i = (s.cl c).mon
      · rw [if_pos hi, detach_mon, if_pos hi]; rfl
      · rw [if_neg hi, detach_mon, if_neg hi]
  have htm : ∀ w, focusTarget s1 (some c) = some w → (s.cl w).mon = s.selmon := by
    intro w hw
    unfold focusTarget at hw
    simp only at hw
    by_cases hvis : ISVISIBLE s1 c = true
    · simp only [hvis, Bool.not_true, Bool.false_eq_true, if_false] at hw
      injection hw with hw
      rw [← hw]; exact hcm
    · rw [Bool.not_eq_true] at hvis
      simp only [hvis, Bool.not_false, if_true] at hw
      have hmem := List.mem_of_find?_eq_some hw
      rw [sm1, st1] at hmem
      exact hmon w ((hcs w).mpr hmem)
  have hsm : (focus s1 (some c)).selmon = s.selmon := by
    cases hft : focusTarget s1 (some c) with
    | none => rw [focus_none s1 _ hft]; exact sm1
    | some w => rw [focus_some_selmon s1 _ w hft, c1]; exact htm w hft
  unfold pop
  rw [hs1]
  have ha := same_arrange cfg (focus s1 (some c)) ((focus s1 (some c)).cl c).mon
  refine ⟨ha.2.1.trans hsm, ?_, ?_, fun hvis => ?_⟩
  · rw [ha.clients, focus_clients, m1, hnd.erase_eq_filter]
  · rw [ha.stack]
    cases hft : focusTarget s1 (some c) with
    | none =>
      rw [focus_none s1 _ hft, setMon_mon, sm1, if_pos rfl]
      exact List.Perm.of_eq st1
    | some w =>
      rw [focus_some_mon s1 _ w hft, c1, htm w hft, if_pos rfl]
      simp only
      rw [st1]
      have hwm : w ∈ (s.mon s.selmon).stack := by
        unfold focusTarget at hft
        simp only at hft
        by_cases hvis : ISVISIBLE s1 c = true
        · simp only [hvis, Bool.not_true, Bool.false_eq_true, if_false] at hft
          injection hft with hft
          rw [← hft]; exact (hcs c).mp hc
        · rw [Bool.not_eq_true] at hvis
          simp only [hvis, Bool.not_false, if_true] at hft
          have hmem := List.mem_of_find?_eq_some hft
          rw [sm1, st1] at hmem
          exact hmem
      exact (List.perm_cons_erase hwm).symm
  · have hft : focusTarget s1 (some c) = some c := by
      unfold focusTarget
      simp only [hv1, hvis, Bool.not_true, Bool.false_eq_true, if_false]
    rw [ha.sel, focus_some_mon s1 _ c hft, c1, hcm, if_pos rfl]

theorem zoom_floating_layout (cfg : Config) (s : State)
    (h : (s.mon s.selmon).curlt.arrange = none) : zoom cfg s = s := by
  unfold zoom
  cases (s.mon s.selmon).sel with
  | none => rfl
  | some c => simp only [h, beq_self_eq_true, Bool.true_or, if_true]

theorem zoom_floating_client (cfg : Config) (s : State) (c : Nat)
    (hsel : (s.mon s.selmon).sel = some c) (h : (s.cl c).isfloating = true) :
    zoom cfg s = s := by
  unfold zoom
  rw [hsel]
  simp only [h, Bool.or_true, if_true]

/-- C17: `zoom` in a state with well-formed lists, `c` being the selected
client of the selected monitor and `tiled` the list of its tiled (visible,
not floating) clients in list order.  Under the floating layout, without a
selected client, with a floating `c`, or when `c` is the only tiled client,
the state is unchanged.  Otherwise `selmon` is kept and: when `c` is not the
first tiled client, `c` becomes the head of the client list, the others
keeping their order (and `c`, when visible, stays selected); when `c` is the
first tiled client and `t` the next one, `t` becomes the head of the client
list, the others keeping their order, and `t` is selected. -/
theorem zoom_promotes (cfg : Config) (s : State) (hs : ListsOK s) :
    ((s.mon s.selmon).curlt.arrange = none → zoom cfg s = s) ∧
    ((s.mon s.selmon).sel = none → zoom cfg s = s) ∧
    (∀ c, (s.mon s.selmon).sel = some c →
      ((s.cl c).isfloating = true → zoom cfg s = s) ∧
      (tiled s s.selmon = [c] → zoom cfg s = s) ∧
      ((s.mon s.selmon).curlt.arrange ≠ none → (s.cl c).isfloating = false →
        (zoom cfg s).selmon = s.selmon ∧
        ((tiled s s.selmon).head? ≠ some c →
          ((zoom cfg s).mon s.selmon).clients =
            c :: (s.mon s.selmon).clients.filter (fun x => x != c) ∧
          (ISVISIBLE s c = true → ((zoom cfg s).mon s.selmon).sel = some c)) ∧
        (∀ t rest, tiled s s.selmon = c :: t :: rest →
          ((zoom cfg s).mon s.selmon).clients =
            t :: (s.mon s.selmon).clients.filter (fun x => x != t) ∧
          ((zoom cfg s).mon s.selmon).sel = some t))) := by
  refine ⟨zoom_floating_layout cfg s, fun h => ?_, fun c hsel => ⟨
    zoom_floating_client cfg s c hsel, fun ht => ?_, fun hl hf => ?_⟩⟩
  · unfold zoom
    rw [h]
  · by_cases hl : (s.mon s.selmon).curlt.arrange = none
    · exact zoom_floating_layout cfg s hl
    · cases hf : (s.cl c).isfloating with
      | true => exact zoom_floating_client cfg s c hsel hf
      | false =>
        rw [zoom_tiled cfg s c hsel hl hf, ht]
        simp only [if_true]
  · obtain ⟨_, _, hcs, _, hselm, _⟩ := hs.2 s.selmon hs.1
    have hc : c ∈ (s.mon s.selmon).clients := (hcs c).mpr (hselm c hsel)
    have hz := zoom_tiled cfg s c hsel hl hf
    have hcases : zoom cfg s = s ∨ zoom cfg s = pop cfg s c ∨
        ∃ t rest, tiled s s.selmon = c :: t :: rest ∧ zoom cfg s = pop cfg s t := by
      cases h1 : tiled s s.selmon with
      | nil => rw [h1] at hz; exact Or.inr (Or.inl hz)
      | cons t rest =>
        rw [h1] at hz
        simp only at hz
        by_cases hct : c = t
        · rw [if_pos hct] at hz
          cases rest with
          | nil => exact Or.inl hz
          | cons t2 r2 => exact Or.inr (Or.inr ⟨t2, r2, by rw [hct], hz⟩)
        · rw [if_neg hct] at hz
          exact Or.inr (Or.inl hz)
    refine ⟨?_, fun hh => ?_, fun t rest ht => ?_⟩
    · rcases hcases with h | h | ⟨t, rest, ht, h⟩
      · rw [h]
      · rw [h]; exact (pop_effect cfg hs hc).1
      · rw [h]
        have htm : t ∈ tiled s s.selmon := by rw [ht]; simp
        exact (pop_effect cfg hs (List.mem_of_mem_filter htm)).1
    · have hp : zoom cfg s = pop cfg s c := by
        cases h1 : tiled s s.selmon with
        | nil => rw [h1] at hz; exact hz
        | cons t rest =>
          rw [h1] at hz hh
          simp only at hz
          have hct : c ≠ t := fun h => hh (by rw [h]; rfl)
          rw [if_neg hct] at hz
          exact hz
      rw [hp]
      exact ⟨(pop_effect cfg hs hc).2.1, (pop_effect cfg hs hc).2.2.2⟩
    · have hp : zoom cfg s = pop cfg s t := by
        rw [ht] at hz
        simp only [if_true] at hz
        exact hz
      have htm : t ∈ tiled s s.selmon := by rw [ht]; simp
      have htf := (List.mem_filter.mp htm).2
      have hvis : ISVISIBLE s t = true := by
        cases hv : ISVISIBLE s t with
        | true => rfl
        | false => rw [hv] at htf; simp at htf
      rw [hp]
      exact ⟨(pop_effect cfg hs (List.mem_of_mem_filter htm)).2.1,
        (pop_effect cfg hs (List.mem_of_mem_filter htm)).2.2.2 hvis⟩

/-- The state with the three windows managed has well-formed lists. -/
theorem exABC_listsOK : ListsOK exABC :=
  (inv_reachable exCfg exABC_reachable).1

/-- C17 at the state with the three windows managed: the client list is
`3, 2, 1`, window `3` is selected and all three are tiled. -/
theorem zoom_promotes_witness :
    ((exABC.mon exABC.selmon).curlt.arrange = none → zoom exCfg exABC = exABC) ∧
    ((exABC.mon exABC.selmon).sel = none → zoom exCfg exABC = exABC) ∧
    (∀ c, (exABC.mon exABC.selmon).sel = some c →
      ((exABC.cl c).isfloating = true → zoom exCfg exABC = exABC) ∧
      (tiled exABC exABC.selmon = [c] → zoom exCfg exABC = exABC) ∧
      ((exABC.mon exABC.selmon).curlt.arrange ≠ none → (exABC.cl c).isfloating = false →
        (zoom exCfg exABC).selmon = exABC.selmon ∧
        ((tiled exABC exABC.selmon).head? ≠ some c →
          ((zoom exCfg exABC).mon exABC.selmon).clients =
            c :: (exABC.mon exABC.selmon).clients.filter (fun x => x != c) ∧
          (ISVISIBLE exABC c = true → ((zoom exCfg exABC).mon exABC.selmon).sel = some c)) ∧
        (∀ t rest, tiled exABC exABC.selmon = c :: t :: rest →
          ((zoom exCfg exABC).mon exABC.selmon).clients =
            t :: (exABC.mon exABC.selmon).clients.filter (fun x => x != t) ∧
          ((zoom exCfg exABC).mon exABC.selmon).sel = some t))) :=
  zoom_promotes exCfg exABC exABC_listsOK

end Dwm


/-! ## `detach` and `detachstack` -/

namespace Dwm

/-- A chain reads the link fields of its own clients only. -/
theorem chain_congr (next next2 : Nat → Option Nat) (l : List Nat) :
    ∀ p : Option Nat, Chain next p l → (∀ x, x ∈ l → next2 x = next x) → Chain next2 p l := by
  induction l with
  | nil => intro p h _; exact h
  | cons a rest ih =>
    intro p h hx
    refine ⟨h.1, ?_⟩
    rw [hx a (List.mem_cons_self _ _)]
    exact ih _ h.2 (fun x hm => hx x (List.mem_cons_of_mem _ hm))

/-- A pointer starts at most one chain. -/
theorem chain_unique (next : Nat → Option Nat) (l : List Nat) :
    ∀ (p : Option Nat) (l2 : List Nat), Chain next p l → Chain next p l2 → l = l2 := by
  induction l with
  | nil =>
    intro p l2 h h2
    cases l2 with
    | nil => rfl
    | cons b r =>
      have e1 : p = none := h
      have e2 : p = some b := h2.1
      rw [e1] at e2
      cases e2
  | cons a rest ih =>
    intro p l2 h h2
    cases l2 with
    | nil =>
      have e1 : p = none := h2
      have e2 : p = some a := h.1
      rw [e1] at e2
      cases e2
    | cons b r =>
      have e : some a = some b := h.1.symm.trans h2.1
      injection e with e
      subst e
      rw [ih _ r h.2 h2.2]

/-- The part of a chain after a prefix is a chain. -/
theorem chain_suffix (next : Nat → Option Nat) (l2 : List Nat) (l1 : List Nat) :
    ∀ p : Option Nat, Chain next p (l1 ++ l2) → ∃ q, Chain next q l2 := by
  induction l1 with
  | nil => intro p h; exact ⟨p, h⟩
  | cons a rest ih => intro p h; exact ih _ h.2

/-- A `NULL`-terminated chain holds no client twice. -/
theorem chain_nodup (next : Nat → Option Nat) (l : List Nat) :
    ∀ p : Option Nat, Chain next p l → l.Nodup := by
  induction l with
  | nil => intro _ _; exact List.nodup_nil
  | cons a rest ih =>
    intro p h
    refine List.nodup_cons.mpr ⟨fun hm => ?_, ih _ h.2⟩
    obtain ⟨l1, l2, e, _⟩ := List.eq_append_cons_of_mem hm
    have h2 := h.2
    rw [e] at h2
    obtain ⟨q, hq⟩ := chain_suffix next (a :: l2) l1 _ h2
    have e2 := chain_unique next _ _ _ h.2 hq.2
    have hlen := congrArg List.length e
    rw [e2] at hlen
    simp at hlen
    omega

theorem store_deref (k : Links) (tc v : Option Nat) : (k.store tc v).deref tc = v := by
  cases tc with
  | none => rfl
  | some p => simp [Links.store, Links.deref]

theorem store_next (k : Links) (tc v : Option Nat) (x : Nat) (h : tc ≠ some x) :
    (k.store tc v).next x = k.next x := by
  cases tc with
  | none => rfl
  | some p =>
    have hp : x ≠ p := fun e => h (by rw [e])
    simp [Links.store, Function.update_apply, hp]

theorem store_deref_other (k : Links) (tc tc2 v : Option Nat) (h : tc ≠ tc2) :
    (k.store tc v).deref tc2 = k.deref tc2 := by
  cases tc2 with
  | none =>
    cases tc with
    | none => exact absurd rfl h
    | some p => rfl
  | some x => exact store_next k tc v x h

/-- The loop of `detach` from a cursor whose chain holds `c` after the prefix
`pre`: with more fuel than `pre` is long it stops at the link that points to
`c`, and the store `*tc = c->next` leaves the chain without `c`. -/
theorem walk_unlinks (k : Links) (c : Nat) (post : List Nat) :
    ∀ (pre : List Nat) (tc : Option Nat) (fuel : Nat),
      Chain k.next (k.deref tc) (pre ++ c :: post) → c ∉ pre →
      (∀ p, tc = some p → p ∉ pre ++ c :: post) → pre.length < fuel →
      ∃ tc2, k.walk c fuel tc = some tc2 ∧ (tc2 = tc ∨ ∃ z, z ∈ pre ∧ tc2 = some z) ∧
        Chain (k.store tc2 (k.next c)).next ((k.store tc2 (k.next c)).deref tc)
          (pre ++ post) := by
  intro pre
  induction pre with
  | nil =>
    intro tc fuel h _ hp hf
    obtain ⟨n, rfl⟩ : ∃ n, fuel = n + 1 := ⟨fuel - 1, by simp at hf; omega⟩
    have hd : k.deref tc = some c := h.1
    refine ⟨tc, ?_, Or.inl rfl, ?_⟩
    · unfold Links.walk
      rw [hd]
      simp only [if_true]
    · rw [store_deref]
      apply chain_congr k.next _ post _ h.2
      intro x hx
      apply store_next
      intro e
      exact hp x e (by simp [hx])
  | cons a rest ih =>
    intro tc fuel h hc hp hf
    obtain ⟨n, rfl⟩ : ∃ n, fuel = n + 1 := ⟨fuel - 1, by simp at hf; omega⟩
    have hd : k.deref tc = some a := h.1
    have hac : a ≠ c := fun e => hc (by rw [e]; exact List.mem_cons_self _ _)
    have hnd : (a :: (rest ++ c :: post)).Nodup := chain_nodup k.next _ _ h
    obtain ⟨tc2, w1, w2, w3⟩ := ih (some a) n h.2
      (fun hm => hc (List.mem_cons_of_mem _ hm))
      (fun p e => by injection e with e; rw [← e]; exact (List.nodup_cons.mp hnd).1)
      (by simp at hf; omega)
    have hne : tc2 ≠ tc := by
      intro e
      rcases w2 with w2 | ⟨z, hz, w2⟩
      · rw [w2] at e
        exact hp a e.symm (List.mem_cons_self _ _)
      · rw [w2] at e
        exact hp z e.symm (List.mem_cons_of_mem _ (List.mem_append_left _ hz))
    refine ⟨tc2, ?_, ?_, ?_⟩
    · unfold Links.walk
      rw [hd]
      simp only [if_neg hac]
      exact w1
    · rcases w2 with w2 | ⟨z, hz, w2⟩
      · exact Or.inr ⟨a, List.mem_cons_self _ _, w2⟩
      · exact Or.inr ⟨z, List.mem_cons_of_mem _ hz, w2⟩
    · refine ⟨?_, w3⟩
      rw [store_deref_other k tc2 tc _ hne]
      exact hd

/-- The unlinking of `detach` and `detachstack` on a linked list that holds
`l` with `c` in it terminates (fuel `l.length` is enough) and leaves a linked
list that holds `l` without `c`, in the same order. -/
theorem unlink_holds (k : Links) (c : Nat) (l : List Nat) (hk : k.Holds l) (hc : c ∈ l)
    (fuel : Nat) (hf : l.length ≤ fuel) :
    ∃ k2, k.unlink c fuel = some k2 ∧ k2.Holds (l.erase c) := by
  obtain ⟨pre, post, e, hpre⟩ := List.eq_append_cons_of_mem hc
  subst e
  obtain ⟨tc2, w1, _, w3⟩ := walk_unlinks k c post pre none fuel hk hpre
    (fun p hp => by cases hp) (by simp at hf; omega)
  refine ⟨k.store tc2 (k.next c), ?_, ?_⟩
  · unfold Links.unlink
    rw [w1]
  · rw [List.erase_append_right _ hpre, List.erase_cons_head]
    exact w3

theorem erase_eq_filter_of_chain (k : Links) (l : List Nat) (hk : k.Holds l) (c : Nat) :
    l.erase c = l.filter (fun x => x != c) :=
  (chain_nodup k.next l k.head hk).erase_eq_filter c

/-- Reading a linked list that holds `l` gives `l`. -/
theorem read_of_chain (k : Links) (l : List Nat) :
    ∀ p : Option Nat, Chain k.next p l → k.read l.length p = some l := by
  induction l with
  | nil =>
    intro p h
    have e : p = none := h
    rw [e]
    rfl
  | cons a rest ih =>
    intro p h
    rw [h.1]
    simp only [List.length_cons, Links.read, ih _ h.2]

/-- C18: `detachstack(c)` and `detach(c)` for a client `c` that is in the
stack list and in the client list of its monitor, the lists being held by
`NULL`-terminated linked lists (so `c` occurs exactly once in each).  The stack
list afterwards is the old one without `c`, in the same order, and it is what
the pointer loop of `detachstack` leaves in memory (the loop terminates).  When
`c` was selected, the new selection is the first client of the remaining stack
list that is visible (`ISVISIBLE`: its tags meet the current tag set of the
monitor), or `NULL`; otherwise the selection is unchanged.  In the same way
`detach(c)` removes `c` from the client list and keeps the order. -/
theorem detach_keeps_order (s : State) (c : Nat) (ks kc : Links)
    (hks : ks.Holds (s.mon (s.cl c).mon).stack) (hs : c ∈ (s.mon (s.cl c).mon).stack)
    (hkc : kc.Holds (s.mon (s.cl c).mon).clients) (hc : c ∈ (s.mon (s.cl c).mon).clients) :
    (s.mon (s.cl c).mon).stack.count c = 1 ∧ (s.mon (s.cl c).mon).clients.count c = 1 ∧
    ((detachstack s c).mon (s.cl c).mon).stack =
      (s.mon (s.cl c).mon).stack.filter (fun x => x != c) ∧
    (∃ k2, ks.unlink c (s.mon (s.cl c).mon).stack.length = some k2 ∧
      k2.Holds ((detachstack s c).mon (s.cl c).mon).stack) ∧
    ((s.mon (s.cl c).mon).sel = some c →
      ((detachstack s c).mon (s.cl c).mon).sel =
        ((s.mon (s.cl c).mon).stack.filter (fun x => x != c)).find? (ISVISIBLE s)) ∧
    ((s.mon (s.cl c).mon).sel ≠ some c →
      ((detachstack s c).mon (s.cl c).mon).sel = (s.mon (s.cl c).mon).sel) ∧
    (∀ w, (s.cl w).mon = (s.cl c).mon →
      ISVISIBLE s w = ((s.cl w).tags &&& (s.mon (s.cl c).mon).curtags != 0)) ∧
    ((detach s c).mon (s.cl c).mon).clients =
      (s.mon (s.cl c).mon).clients.filter (fun x => x != c) ∧
    (∃ k2, kc.unlink c (s.mon (s.cl c).mon).clients.length = some k2 ∧
      k2.Holds ((detach s c).mon (s.cl c).mon).clients) := by
  have e1 : ((detachstack s c).mon (s.cl c).mon).stack = (s.mon (s.cl c).mon).stack.erase c := by
    rw [detachstack_mon, if_pos rfl]
  have e2 : ((detach s c).mon (s.cl c).mon).clients = (s.mon (s.cl c).mon).clients.erase c := by
    rw [detach_mon, if_pos rfl]
  have f1 := erase_eq_filter_of_chain ks _ hks c
  have f2 := erase_eq_filter_of_chain kc _ hkc c
  refine ⟨List.count_eq_one_of_mem (chain_nodup _ _ _ hks) hs,
    List.count_eq_one_of_mem (chain_nodup _ _ _ hkc) hc, e1.trans f1, ?_, fun h => ?_,
    fun h => ?_, fun w hw => ?_, e2.trans f2, ?_⟩
  · rw [e1]; exact unlink_holds ks c _ hks hs _ (le_refl _)
  · rw [detachstack_mon, if_pos rfl]
    simp only [h, if_true]
    rw [f1]
  · rw [detachstack_mon, if_pos rfl]
    simp only [h, if_false]
  · unfold ISVISIBLE
    rw [hw]
  · rw [e2]; exact unlink_holds kc c _ hkc hc _ (le_refl _)

/-- C18 at the state with the three windows managed, for the selected window
`3`: both lists are `3, 2, 1`, held by the links `3 -> 2 -> 1`. -/
theorem detach_keeps_order_witness :
    (exABC.mon (exABC.cl 3).mon).stack.count 3 = 1 ∧
    (exABC.mon (exABC.cl 3).mon).clients.count 3 = 1 ∧
    ((detachstack exABC 3).mon (exABC.cl 3).mon).stack =
      (exABC.mon (exABC.cl 3).mon).stack.filter (fun x => x != 3) ∧
    (∃ k2, exLinks.unlink 3 (exABC.mon (exABC.cl 3).mon).stack.length = some k2 ∧
      k2.Holds ((detachstack exABC 3).mon (exABC.cl 3).mon).stack) ∧
    ((exABC.mon (exABC.cl 3).mon).sel = some 3 →
      ((detachstack exABC 3).mon (exABC.cl 3).mon).sel =
        ((exABC.mon (exABC.cl 3).mon).stack.filter (fun x => x != 3)).find?
          (ISVISIBLE exABC)) ∧
    ((exABC.mon (exABC.cl 3).mon).sel ≠ some 3 →
      ((detachstack exABC 3).mon (exABC.cl 3).mon).sel = (exABC.mon (exABC.cl 3).mon).sel) ∧
    (∀ w, (exABC.cl w).mon = (exABC.cl 3).mon →
      ISVISIBLE exABC w =
        ((exABC.cl w).tags &&& (exABC.mon (exABC.cl 3).mon).curtags != 0)) ∧
    ((detach exABC 3).mon (exABC.cl 3).mon).clients =
      (exABC.mon (exABC.cl 3).mon).clients.filter (fun x => x != 3) ∧
    (∃ k2, exLinks.unlink 3 (exABC.mon (exABC.cl 3).mon).clients.length = some k2 ∧
      k2.Holds ((detach exABC 3).mon (exABC.cl 3).mon).clients) :=
  detach_keeps_order exABC 3 exLinks exLinks (by decide!) (by decide!) (by decide!)
    (by decide!)

end Dwm


/-! ## `sendmon` there and back, `setfullscreen` on and off -/

namespace Dwm

theorem unlink_curtags (s : State) (c i : Nat) :
    ((detachstack (detach s c) c).mon i).curtags = (s.mon i).curtags := by
  rw [detachstack_mon, detach_cl, detach_mon]
  split_ifs <;> rfl

theorem link_curtags (s : State) (c i : Nat) :
    ((attachstack (attach s c) c).mon i).curtags = (s.mon i).curtags := by
  rw [attachstack_mon, attach_cl, attach_mon]
  split_ifs <;> rfl

theorem focus_curtags (s : State) (c : Option Nat) (i : Nat) :
    ((focus s c).mon i).curtags = (s.mon i).curtags :=
  curtags_congr (focus_seltags s c i) (focus_tagset0 s c i) (focus_tagset1 s c i)

/-- `sendmon(c, m)` of a managed client to another monitor: the
lists stay well-formed, `c` points to `m`, has the current tag set of `m` as
its tags and is in the client list of `m`; no monitor's current tag set
changes. -/
theorem sendmon_effect (cfg : Config) {s : State} (hs : ListsOK s) {c m : Nat}
    (hc : Managed s c) (hne : (s.cl c).mon ≠ m) :
    ListsOK (sendmon cfg s c m) ∧ (sendmon cfg s c m).nmons = s.nmons ∧
    ((sendmon cfg s c m).cl c).mon = m ∧
    ((sendmon cfg s c m).cl c).tags = (s.mon m).curtags ∧
    (∀ i, ((sendmon cfg s c m).mon i).curtags = (s.mon i).curtags) ∧
    c ∈ ((sendmon cfg s c m).mon m).clients := by
  unfold sendmon
  rw [if_neg hne]
  simp only
  obtain ⟨l1, m1⟩ := detach_lists hs hc
  have ct1 := unlink_curtags s c
  generalize hs1 : detachstack (detach s c) c = s1 at *
  have n1 : s1.nmons = s.nmons := by rw [← hs1]; simp
  have u1 : ¬ Managed s1 c := by
    rintro ⟨i, hi, hw⟩
    exact ((m1 i (n1 ▸ hi) c).mp hw).2 rfl
  obtain ⟨l2, u2⟩ := listsOK_unmanaged (t := s1.setCl c { s1.cl c with
      mon := m, tags := (s1.mon m).curtags }) l1 u1 rfl rfl rfl
    (fun d hd => by rw [setCl_cl, if_neg hd])
  obtain ⟨l3, _⟩ := attach_lists l2 u2
  have hcl2 : (s1.setCl c { s1.cl c with mon := m, tags := (s1.mon m).curtags }).cl c =
      { s1.cl c with mon := m, tags := (s1.mon m).curtags } := by
    rw [setCl_cl, if_pos rfl]
  generalize hs2 : s1.setCl c { s1.cl c with mon := m, tags := (s1.mon m).curtags } = s2 at *
  have hmon2 : (s2.cl c).mon = m := by rw [hcl2]
  have htag2 : (s2.cl c).tags = (s.mon m).curtags := by rw [hcl2]; exact ct1 m
  have hmons2 : s2.mon = s1.mon := by rw [← hs2]; rfl
  have n2 : s2.nmons = s.nmons := by rw [← hs2]; exact n1
  have ha := same_arrangeAll cfg (focus (attachstack (attach s2 c) c) none)
  refine ⟨listsOK_same ha (listsOK_focus l3 (fun v hv => by cases hv)).1, ?_, ?_, ?_, ?_, ?_⟩
  · rw [ha.1, focus_nmons, attachstack_nmons, attach_nmons, n2]
  · rw [ha.cmon, focus_cmon, attachstack_cl, attach_cl, hmon2]
  · rw [ha.ctags, focus_ctags, attachstack_cl, attach_cl, htag2]
  · intro i
    rw [ha.curtags, focus_curtags, link_curtags, hmons2, ct1]
  · rw [ha.clients, focus_clients, attachstack_mon, attach_cl, attach_mon, hmon2, if_pos rfl,
      if_pos rfl]
    exact List.mem_cons_self _ _

/-- In a state with well-formed lists a client in the client list of monitor
`a` is exactly once in each of its lists and in no list of another monitor. -/
theorem listsOK_once {t : State} (ht : ListsOK t) {c a b : Nat} (ha : a < t.nmons)
    (hb : b < t.nmons) (hab : b ≠ a) (hc : c ∈ (t.mon a).clients) :
    (t.mon a).clients.count c = 1 ∧ (t.mon a).stack.count c = 1 ∧
    c ∉ (t.mon b).clients ∧ c ∉ (t.mon b).stack := by
  obtain ⟨a1, a2, a3, a4, _, _⟩ := ht.2 a ha
  obtain ⟨_, _, b3, b4, _, _⟩ := ht.2 b hb
  have hnb : c ∉ (t.mon b).clients := fun h => hab ((b4 c h).symm.trans (a4 c hc))
  exact ⟨List.count_eq_one_of_mem a1 hc, List.count_eq_one_of_mem a2 ((a3 c).mp hc), hnb,
    fun h => hnb ((b3 c).mpr h)⟩

/-- C19: for a client `c` in the client list of its monitor `old` and another
monitor `m` of the list, in a state with well-formed lists.  After
`sendmon(c, m)`, `c` points to `m`, is exactly once in each list of `m` and in
no list of `old`, and its tags are the current tag set of `m`.  After
`sendmon(c, old)` on that state, `c` points to `old` again, is exactly once in
each list of `old` and in no list of `m`, and its tags are the current tag set
of `old`.  No monitor's current tag set changes.  `sendmon(c, c->mon)` changes
nothing. -/
theorem sendmon_round_trip (cfg : Config) (s : State) (c m : Nat) (hs : ListsOK s)
    (ho : (s.cl c).mon < s.nmons) (hc : c ∈ (s.mon (s.cl c).mon).clients)
    (hm : m < s.nmons) (hne : m ≠ (s.cl c).mon) :
    ((sendmon cfg s c m).cl c).mon = m ∧
    ((sendmon cfg s c m).cl c).tags = ((sendmon cfg s c m).mon m).curtags ∧
    ((sendmon cfg s c m).mon m).clients.count c = 1 ∧
    ((sendmon cfg s c m).mon m).stack.count c = 1 ∧
    c ∉ ((sendmon cfg s c m).mon (s.cl c).mon).clients ∧
    c ∉ ((sendmon cfg s c m).mon (s.cl c).mon).stack ∧
    ((sendmon cfg (sendmon cfg s c m) c (s.cl c).mon).cl c).mon = (s.cl c).mon ∧
    ((sendmon cfg (sendmon cfg s c m) c (s.cl c).mon).cl c).tags =
      ((sendmon cfg (sendmon cfg s c m) c (s.cl c).mon).mon (s.cl c).mon).curtags ∧
    ((sendmon cfg (sendmon cfg s c m) c (s.cl c).mon).mon (s.cl c).mon).clients.count c = 1 ∧
    ((sendmon cfg (sendmon cfg s c m) c (s.cl c).mon).mon (s.cl c).mon).stack.count c = 1 ∧
    c ∉ ((sendmon cfg (sendmon cfg s c m) c (s.cl c).mon).mon m).clients ∧
    c ∉ ((sendmon cfg (sendmon cfg s c m) c (s.cl c).mon).mon m).stack ∧
    (∀ i, ((sendmon cfg s c m).mon i).curtags = (s.mon i).curtags) ∧
    (∀ i, ((sendmon cfg (sendmon cfg s c m) c (s.cl c).mon).mon i).curtags =
      (s.mon i).curtags) ∧
    sendmon cfg s c (s.cl c).mon = s := by
  obtain ⟨l1, n1, c1, t1, g1, e1⟩ :=
    sendmon_effect cfg hs ⟨(s.cl c).mon, ho, hc⟩ (fun h => hne h.symm)
  generalize hs1 : sendmon cfg s c m = s1 at *
  obtain ⟨l2, n2, c2, t2, g2, e2⟩ :=
    sendmon_effect cfg l1 ⟨m, n1 ▸ hm, e1⟩ (m := (s.cl c).mon) (by rw [c1]; exact hne)
  generalize hs2 : sendmon cfg s1 c (s.cl c).mon = s2 at *
  obtain ⟨p1, p2, p3, p4⟩ := listsOK_once l1 (n1 ▸ hm) (n1 ▸ ho) (fun h => hne h.symm) e1
  obtain ⟨q1, q2, q3, q4⟩ := listsOK_once l2 (n2 ▸ n1 ▸ ho) (n2 ▸ n1 ▸ hm) hne e2
  refine ⟨c1, t1.trans (g1 m).symm, p1, p2, p3, p4, c2, ?_, q1, q2, q3, q4, g1,
    fun i => (g2 i).trans (g1 i), ?_⟩
  · rw [t2, g2]
  · unfold sendmon
    rw [if_pos rfl]

/-- The state with window `1` managed on the first of two monitors has
well-formed lists. -/
theorem exTwo_listsOK : ListsOK exTwo :=
  (inv_reachable exCfg (Reachable.step _ _ (Reachable.init _ exInit2_initial)
    (Step.manage exInit2 1 exWa exInp (by decide!)))).1

/-- C19 on two monitors, for window `1` of the first monitor sent to the
second one and back. -/
theorem sendmon_round_trip_witness :
    ((sendmon exCfg exTwo 1 1).cl 1).mon = 1 ∧
    ((sendmon exCfg exTwo 1 1).cl 1).tags = ((sendmon exCfg exTwo 1 1).mon 1).curtags ∧
    ((sendmon exCfg exTwo 1 1).mon 1).clients.count 1 = 1 ∧
    ((sendmon exCfg exTwo 1 1).mon 1).stack.count 1 = 1 ∧
    1 ∉ ((sendmon exCfg exTwo 1 1).mon (exTwo.cl 1).mon).clients ∧
    1 ∉ ((sendmon exCfg exTwo 1 1).mon (exTwo.cl 1).mon).stack ∧
    ((sendmon exCfg (sendmon exCfg exTwo 1 1) 1 (exTwo.cl 1).mon).cl 1).mon =
      (exTwo.cl 1).mon ∧
    ((sendmon exCfg (sendmon exCfg exTwo 1 1) 1 (exTwo.cl 1).mon).cl 1).tags =
      ((sendmon exCfg (sendmon exCfg exTwo 1 1) 1 (exTwo.cl 1).mon).mon
        (exTwo.cl 1).mon).curtags ∧
    ((sendmon exCfg (sendmon exCfg exTwo 1 1) 1 (exTwo.cl 1).mon).mon
      (exTwo.cl 1).mon).clients.count 1 = 1 ∧
    ((sendmon exCfg (sendmon exCfg exTwo 1 1) 1 (exTwo.cl 1).mon).mon
      (exTwo.cl 1).mon).stack.count 1 = 1 ∧
    1 ∉ ((sendmon exCfg (sendmon exCfg exTwo 1 1) 1 (exTwo.cl 1).mon).mon 1).clients ∧
    1 ∉ ((sendmon exCfg (sendmon exCfg exTwo 1 1) 1 (exTwo.cl 1).mon).mon 1).stack ∧
    (∀ i, ((sendmon exCfg exTwo 1 1).mon i).curtags = (exTwo.mon i).curtags) ∧
    (∀ i, ((sendmon exCfg (sendmon exCfg exTwo 1 1) 1 (exTwo.cl 1).mon).mon i).curtags =
      (exTwo.mon i).curtags) ∧
    sendmon exCfg exTwo 1 (exTwo.cl 1).mon = exTwo :=
  sendmon_round_trip exCfg exTwo 1 1 exTwo_listsOK (by decide!) (by decide!) (by decide!)
    (by decide!)

/-! ### `setfullscreen` -/

theorem Same.cfullscreen {s t : State} (h : Same s t) (c : Nat) :
    (t.cl c).isfullscreen = (s.cl c).isfullscreen := by
  have h1 := congrArg Client.isfullscreen (h.2.2.2.2.2.2.2.2 c)
  simpa [Client.core] using h1

theorem setfullscreen_on (cfg : Config) (s : State) (c : Nat)
    (h : (s.cl c).isfullscreen = false) :
    (setfullscreen cfg s c true).cl c =
      { s.cl c with isfullscreen := true, oldstate := (s.cl c).isfloating,
                    oldbw := (s.cl c).bw, bw := 0, isfloating := true,
                    oldx := (s.cl c).x, x := (s.mon (s.cl c).mon).mx,
                    oldy := (s.cl c).y, y := (s.mon (s.cl c).mon).my,
                    oldw := (s.cl c).w, w := (s.mon (s.cl c).mon).mw,
                    oldh := (s.cl c).h, h := (s.mon (s.cl c).mon).mh } := by
  unfold setfullscreen resizeclient
  simp only [h, Bool.not_false, Bool.and_self, if_true, setCl_cl, setCl_mon]

theorem setfullscreen_off (cfg : Config) (s : State) (c : Nat)
    (h : (s.cl c).isfullscreen = true) :
    setfullscreen cfg s c false =
      arrange cfg (exitFullscreen s c) ((exitFullscreen s c).cl c).mon := by
  unfold setfullscreen exitFullscreen
  simp only [h, Bool.not_true, Bool.and_false, Bool.false_eq_true, if_false, Bool.not_false,
    Bool.and_self, if_true]

theorem exitFullscreen_cl (s : State) (c : Nat) :
    (exitFullscreen s c).cl c =
      { s.cl c with isfullscreen := false, isfloating := (s.cl c).oldstate,
                    bw := (s.cl c).oldbw, x := (s.cl c).oldx, y := (s.cl c).oldy,
                    w := (s.cl c).oldw, h := (s.cl c).oldh, oldx := (s.cl c).oldx,
                    oldy := (s.cl c).oldy, oldw := (s.cl c).oldw, oldh := (s.cl c).oldh } := by
  unfold exitFullscreen resizeclient
  simp only [setCl_cl, if_true]

/-- C20: for a client `c` that is not fullscreen.  `setfullscreen(c, 1)` sets
`isfullscreen`, `isfloating`, makes `bw` zero and gives `c` the geometry
`(mx, my, mw, mh)` of its monitor.  A following `setfullscreen(c, 0)` is
`arrange(c->mon)` on a state (`exitFullscreen`, the state after its
`resizeclient`) in which `c` has the geometry it had before the first call;
after it `isfullscreen` is off and `isfloating` and `bw` are those of before
the first call.  `setfullscreen(c, 1)` on the fullscreen client and
`setfullscreen(c, 0)` on the client that is not fullscreen change nothing. -/
theorem setfullscreen_round_trip (cfg : Config) (s : State) (c : Nat)
    (h : (s.cl c).isfullscreen = false) :
    ((setfullscreen cfg s c true).cl c).isfullscreen = true ∧
    ((setfullscreen cfg s c true).cl c).isfloating = true ∧
    ((setfullscreen cfg s c true).cl c).bw = 0 ∧
    geom (setfullscreen cfg s c true) c =
      ((s.mon (s.cl c).mon).mx, (s.mon (s.cl c).mon).my, (s.mon (s.cl c).mon).mw,
        (s.mon (s.cl c).mon).mh) ∧
    setfullscreen cfg (setfullscreen cfg s c true) c false =
      arrange cfg (exitFullscreen (setfullscreen cfg s c true) c)
        ((exitFullscreen (setfullscreen cfg s c true) c).cl c).mon ∧
    geom (exitFullscreen (setfullscreen cfg s c true) c) c = geom s c ∧
    ((setfullscreen cfg (setfullscreen cfg s c true) c false).cl c).isfullscreen = false ∧
    ((setfullscreen cfg (setfullscreen cfg s c true) c false).cl c).isfloating =
      (s.cl c).isfloating ∧
    ((setfullscreen cfg (setfullscreen cfg s c true) c false).cl c).bw = (s.cl c).bw ∧
    setfullscreen cfg (setfullscreen cfg s c true) c true = setfullscreen cfg s c true ∧
    setfullscreen cfg s c false = s := by
  have h1 := setfullscreen_on cfg s c h
  have hfs : ((setfullscreen cfg s c true).cl c).isfullscreen = true := by rw [h1]
  have h2 := setfullscreen_off cfg (setfullscreen cfg s c true) c hfs
  have h3 := exitFullscreen_cl (setfullscreen cfg s c true) c
  rw [h1] at h3
  simp only at h3
  refine ⟨hfs, by rw [h1], by rw [h1], by unfold geom; rw [h1], h2, ?_, ?_, ?_, ?_, ?_, ?_⟩
  · unfold geom
    rw [h3]
  · rw [h2, (same_arrange cfg _ _).cfullscreen, h3]
  · rw [h2, (same_arrange cfg _ _).cfloating, h3]
  · rw [h2, (same_arrange cfg _ _).cbw, h3]
  · generalize setfullscreen cfg s c true = s1 at hfs
    unfold setfullscreen
    simp only [hfs, Bool.not_true, Bool.and_false, Bool.false_and, Bool.false_eq_true, if_false,
      Bool.not_false]
  · unfold setfullscreen
    simp only [h, Bool.false_and, Bool.false_eq_true, if_false, Bool.not_false, Bool.and_false]

/-- C20 at the state with the three windows managed, for window `1`. -/
theorem setfullscreen_round_trip_witness :
    ((setfullscreen exCfg exABC 1 true).cl 1).isfullscreen = true ∧
    ((setfullscreen exCfg exABC 1 true).cl 1).isfloating = true ∧
    ((setfullscreen exCfg exABC 1 true).cl 1).bw = 0 ∧
    geom (setfullscreen exCfg exABC 1 true) 1 =
      ((exABC.mon (exABC.cl 1).mon).mx, (exABC.mon (exABC.cl 1).mon).my,
        (exABC.mon (exABC.cl 1).mon).mw, (exABC.mon (exABC.cl 1).mon).mh) ∧
    setfullscreen exCfg (setfullscreen exCfg exABC 1 true) 1 false =
      arrange exCfg (exitFullscreen (setfullscreen exCfg exABC 1 true) 1)
        ((exitFullscreen (setfullscreen exCfg exABC 1 true) 1).cl 1).mon ∧
    geom (exitFullscreen (setfullscreen exCfg exABC 1 true) 1) 1 = geom exABC 1 ∧
    ((setfullscreen exCfg (setfullscreen exCfg exABC 1 true) 1 false).cl 1).isfullscreen =
      false ∧
    ((setfullscreen exCfg (setfullscreen exCfg exABC 1 true) 1 false).cl 1).isfloating =
      (exABC.cl 1).isfloating ∧
    ((setfullscreen exCfg (setfullscreen exCfg exABC 1 true) 1 false).cl 1).bw =
      (exABC.cl 1).bw ∧
    setfullscreen exCfg (setfullscreen exCfg exABC 1 true) 1 true =
      setfullscreen exCfg exABC 1 true ∧
    setfullscreen exCfg exABC 1 false = exABC :=
  setfullscreen_round_trip exCfg exABC 1 (by decide!)

end Dwm


/-! ## `updatesizehints`: fixed clients; `monocle` -/

namespace Dwm

theorem updatesizehints_minw (s : State) (c : Nat) (size : XSizeHints)
    (h : s.xhints c = some size) :
    ((updatesizehints s c).cl c).minw =
      (if size.flags &&& PMinSize ≠ 0 then size.min_width
       else if size.flags &&& PBaseSize ≠ 0 then size.base_width else 0) := by
  unfold updatesizehints
  simp -zeta only [h]
  rw [setCl_cl, if_pos rfl]
  split_ifs <;> rfl

theorem updatesizehints_minh (s : State) (c : Nat) (size : XSizeHints)
    (h : s.xhints c = some size) :
    ((updatesizehints s c).cl c).minh =
      (if size.flags &&& PMinSize ≠ 0 then size.min_height
       else if size.flags &&& PBaseSize ≠ 0 then size.base_height else 0) := by
  unfold updatesizehints
  simp -zeta only [h]
  rw [setCl_cl, if_pos rfl]
  split_ifs <;> rfl

theorem updatesizehints_basew (s : State) (c : Nat) (size : XSizeHints)
    (h : s.xhints c = some size) :
    ((updatesizehints s c).cl c).basew =
      (if size.flags &&& PBaseSize ≠ 0 then size.base_width
       else if size.flags &&& PMinSize ≠ 0 then size.min_width else 0) := by
  unfold updatesizehints
  simp -zeta only [h]
  rw [setCl_cl, if_pos rfl]
  split_ifs <;> rfl

theorem updatesizehints_baseh (s : State) (c : Nat) (size : XSizeHints)
    (h : s.xhints c = some size) :
    ((updatesizehints s c).cl c).baseh =
      (if size.flags &&& PBaseSize ≠ 0 then size.base_height
       else if size.flags &&& PMinSize ≠ 0 then size.min_height else 0) := by
  unfold updatesizehints
  simp -zeta only [h]
  rw [setCl_cl, if_pos rfl]
  split_ifs <;> rfl

theorem updatesizehints_maxw (s : State) (c : Nat) (size : XSizeHints)
    (h : s.xhints c = some size) :
    ((updatesizehints s c).cl c).maxw =
      (if size.flags &&& PMaxSize ≠ 0 then size.max_width else 0) := by
  unfold updatesizehints
  simp -zeta only [h]
  rw [setCl_cl, if_pos rfl]
  split_ifs <;> rfl

theorem updatesizehints_maxh (s : State) (c : Nat) (size : XSizeHints)
    (h : s.xhints c = some size) :
    ((updatesizehints s c).cl c).maxh =
      (if size.flags &&& PMaxSize ≠ 0 then size.max_height else 0) := by
  unfold updatesizehints
  simp -zeta only [h]
  rw [setCl_cl, if_pos rfl]
  split_ifs <;> rfl

/-- Without hints (`XGetWMNormalHints` fails) every size is zero. -/
theorem updatesizehints_none (s : State) (c : Nat) (h : s.xhints c = none) :
    ((updatesizehints s c).cl c).minw = 0 ∧ ((updatesizehints s c).cl c).minh = 0 ∧
    ((updatesizehints s c).cl c).basew = 0 ∧ ((updatesizehints s c).cl c).baseh = 0 ∧
    ((updatesizehints s c).cl c).maxw = 0 ∧ ((updatesizehints s c).cl c).maxh = 0 := by
  unfold updatesizehints
  simp -zeta only [h]
  rw [setCl_cl, if_pos rfl]
  exact ⟨rfl, rfl, rfl, rfl, rfl, rfl⟩

theorem updatesizehints_isfixed (s : State) (c : Nat) :
    ((updatesizehints s c).cl c).isfixed =
      (((updatesizehints s c).cl c).maxw != 0 && ((updatesizehints s c).cl c).maxh != 0 &&
        ((updatesizehints s c).cl c).maxw == ((updatesizehints s c).cl c).minw &&
        ((updatesizehints s c).cl c).maxh == ((updatesizehints s c).cl c).minh) := by
  unfold updatesizehints
  rw [setCl_cl, if_pos rfl]

/-- C29 as amended: `updatesizehints` sets `isfixed` exactly when the maximum
width and height it stored are both nonzero and equal to the stored minimum
width and height.  The stored minimum is the minimum size of the hints, else
their base size, else zero; the stored base size is the base size of the
hints, else their minimum size, else zero; the stored maximum is the maximum
size of the hints, else zero.  A client whose hints cannot be read, or give no
maximum size, is not fixed. -/
theorem isfixed_iff_nonzero_max_eq_min (s : State) (c : Nat) :
    (((updatesizehints s c).cl c).isfixed = true ↔
      ((updatesizehints s c).cl c).maxw ≠ 0 ∧ ((updatesizehints s c).cl c).maxh ≠ 0 ∧
      ((updatesizehints s c).cl c).maxw = ((updatesizehints s c).cl c).minw ∧
      ((updatesizehints s c).cl c).maxh = ((updatesizehints s c).cl c).minh) ∧
    (∀ size, s.xhints c = some size →
      ((updatesizehints s c).cl c).minw =
        (if size.flags &&& PMinSize ≠ 0 then size.min_width
         else if size.flags &&& PBaseSize ≠ 0 then size.base_width else 0) ∧
      ((updatesizehints s c).cl c).minh =
        (if size.flags &&& PMinSize ≠ 0 then size.min_height
         else if size.flags &&& PBaseSize ≠ 0 then size.base_height else 0) ∧
      ((updatesizehints s c).cl c).basew =
        (if size.flags &&& PBaseSize ≠ 0 then size.base_width
         else if size.flags &&& PMinSize ≠ 0 then size.min_width else 0) ∧
      ((updatesizehints s c).cl c).baseh =
        (if size.flags &&& PBaseSize ≠ 0 then size.base_height
         else if size.flags &&& PMinSize ≠ 0 then size.min_height else 0) ∧
      ((updatesizehints s c).cl c).maxw =
        (if size.flags &&& PMaxSize ≠ 0 then size.max_width else 0) ∧
      ((updatesizehints s c).cl c).maxh =
        (if size.flags &&& PMaxSize ≠ 0 then size.max_height else 0) ∧
      (size.flags &&& PMaxSize = 0 → ((updatesizehints s c).cl c).isfixed = false)) ∧
    (s.xhints c = none → ((updatesizehints s c).cl c).isfixed = false) := by
  have hiff : ((updatesizehints s c).cl c).isfixed = true ↔
      ((updatesizehints s c).cl c).maxw ≠ 0 ∧ ((updatesizehints s c).cl c).maxh ≠ 0 ∧
      ((updatesizehints s c).cl c).maxw = ((updatesizehints s c).cl c).minw ∧
      ((updatesizehints s c).cl c).maxh = ((updatesizehints s c).cl c).minh := by
    rw [updatesizehints_isfixed]
    simp only [Bool.and_eq_true, bne_iff_ne, ne_eq, beq_iff_eq, and_assoc]
  refine ⟨hiff, fun size h => ⟨updatesizehints_minw s c size h, updatesizehints_minh s c size h,
    updatesizehints_basew s c size h, updatesizehints_baseh s c size h,
    updatesizehints_maxw s c size h, updatesizehints_maxh s c size h, fun hz => ?_⟩,
    fun h => ?_⟩
  · cases hf : ((updatesizehints s c).cl c).isfixed with
    | false => rfl
    | true =>
      have h1 := (hiff.mp hf).1
      rw [updatesizehints_maxw s c size h, if_neg (not_not.mpr hz)] at h1
      exact absurd rfl h1
  · cases hf : ((updatesizehints s c).cl c).isfixed with
    | false => rfl
    | true => exact absurd (updatesizehints_none s c h).2.2.2.2.1 (hiff.mp hf).1

/-- C29 as stated fails: for a window without size hints `updatesizehints`
stores minimum, maximum and base size zero, so minimum and maximum are equal
in both dimensions, and the client is not fixed. -/
theorem isfixed_not_for_zero_sizes :
    exInit.xhints 1 = none ∧
    ((updatesizehints exInit 1).cl 1).minw = ((updatesizehints exInit 1).cl 1).maxw ∧
    ((updatesizehints exInit 1).cl 1).minh = ((updatesizehints exInit 1).cl 1).maxh ∧
    ((updatesizehints exInit 1).cl 1).basew = 0 ∧ ((updatesizehints exInit 1).cl 1).baseh = 0 ∧
    ((updatesizehints exInit 1).cl 1).isfixed = false := by
  decide!

/-! ### `monocle` -/

/-- The calls of `resize` in the loop of `monocle`: one for each tiled client
of the list, in order, each for the work area less the client's border. -/
theorem monocleLoop_requests (cfg : Config) (m : Nat) (s0 : State) (l : List Nat) :
    ∀ s : State, Same s0 s →
      ((monocleLoop cfg m l s).2.map (fun p => p.c) =
        l.filter (fun c => !((s0.cl c).isfloating || !ISVISIBLE s0 c))) ∧
      ∀ p, p ∈ (monocleLoop cfg m l s).2 →
        p.x = (s0.mon m).wx ∧ p.y = (s0.mon m).wy ∧
        p.w = (s0.mon m).ww - 2 * (s0.cl p.c).bw ∧
        p.h = (s0.mon m).wh - 2 * (s0.cl p.c).bw := by
  induction l with
  | nil =>
    intro s _
    exact ⟨rfl, fun p hp => by simp [monocleLoop] at hp⟩
  | cons c rest ih =>
    intro s hs
    unfold monocleLoop
    have hskip := hs.skip c
    by_cases hc : ((s.cl c).isfloating || !ISVISIBLE s c) = true
    · rw [if_pos hc]
      rw [hskip] at hc
      obtain ⟨e1, e2⟩ := ih s hs
      exact ⟨by rw [e1, List.filter_cons_of_neg (by simp [hc])], e2⟩
    · rw [if_neg hc]
      rw [hskip] at hc
      simp only
      obtain ⟨e1, e2⟩ := ih _ (same_trans hs (same_resize cfg s c (s.mon m).wx (s.mon m).wy
        ((s.mon m).ww - 2 * (s.cl c).bw) ((s.mon m).wh - 2 * (s.cl c).bw) false))
      refine ⟨?_, fun p hp => ?_⟩
      · rw [List.map_cons, e1, List.filter_cons_of_pos (by simpa using hc)]
        rfl
      · rcases List.mem_cons.mp hp with h | h
        · rw [h]
          simp only [placement, hs.wx m, hs.wy m, hs.ww m, hs.wh m, hs.cbw c, and_self]
        · exact e2 p h

/-- C26 as amended: `monocle` on monitor `m`, with `n` the number of clients
of `m` that are visible (floating ones included).  When `n > 0` the layout
symbol becomes `[n]`; when `n = 0` it is left as it is.  `resize` is called
once for each visible client of `m` that is not floating, in `clients` order,
for the position `(wx, wy)` and the size `(ww - 2*bw, wh - 2*bw)`. -/
theorem monocle_symbol_and_requests (cfg : Config) (s : State) (m : Nat) :
    ((monocle cfg s m).mon m).ltsymbol =
      (if 0 < ((s.mon m).clients.filter (ISVISIBLE s)).length then
        "[" ++ toString ((s.mon m).clients.filter (ISVISIBLE s)).length ++ "]"
      else (s.mon m).ltsymbol) ∧
    (monocleTrace cfg s m).2.map (fun p => p.c) = tiled s m ∧
    (∀ p, p ∈ (monocleTrace cfg s m).2 →
      p.x = (s.mon m).wx ∧ p.y = (s.mon m).wy ∧
      p.w = (s.mon m).ww - 2 * (s.cl p.c).bw ∧ p.h = (s.mon m).wh - 2 * (s.cl p.c).bw) := by
  have hsame : ∀ sym : String, Same s (s.setMon m { s.mon m with ltsymbol := sym }) :=
    fun sym => same_setMon s m _ (by rfl)
  by_cases hn : 0 < ((s.mon m).clients.filter (ISVISIBLE s)).length
  · obtain ⟨e1, e2⟩ := monocleLoop_requests cfg m s (s.mon m).clients _
      (hsame ("[" ++ toString ((s.mon m).clients.filter (ISVISIBLE s)).length ++ "]"))
    unfold monocle monocleTrace
    simp only [gt_iff_lt, if_pos hn, setMon_mon, if_true]
    refine ⟨?_, ?_, e2⟩
    · rw [monocleLoop_mon, setMon_mon, if_pos rfl]
    · rw [e1]; rfl
  · obtain ⟨e1, e2⟩ := monocleLoop_requests cfg m s (s.mon m).clients s (same_refl s)
    unfold monocle monocleTrace
    simp only [gt_iff_lt, if_neg hn]
    refine ⟨?_, ?_, e2⟩
    · rw [monocleLoop_mon]
    · rw [e1]; rfl

/-- C26 as stated fails: on the monitor without clients (`N = 0`) `monocle`
leaves the layout symbol as it is, and `arrangemon` with the monocle layout
leaves the symbol `[M]` of the layout, not `[0]`. -/
theorem monocle_symbol_without_clients :
    ((exInit.mon 0).clients.filter (ISVISIBLE exInit)).length = 0 ∧
    ((monocle exCfg exInit 0).mon 0).ltsymbol = "[]=" ∧
    ((arrangemon exCfg (exInit.setMon 0 { exInit.mon 0 with lt0 := exMonocle }) 0).mon
      0).ltsymbol = "[M]" := by
  decide!

end Dwm


/-! ## `clientmessage`, `togglefloating`, `recttomon` -/

namespace Dwm

/-- After `setfullscreen(c, b)` the flag `isfullscreen` of `c` is `b`. -/
theorem setfullscreen_flag (cfg : Config) (s : State) (c : Nat) (b : Bool) :
    ((setfullscreen cfg s c b).cl c).isfullscreen = b := by
  cases b with
  | true =>
    cases h : (s.cl c).isfullscreen with
    | false => rw [setfullscreen_on cfg s c h]
    | true =>
      have e : setfullscreen cfg s c true = s := by
        unfold setfullscreen
        simp only [h, Bool.not_true, Bool.and_false, Bool.false_and, Bool.false_eq_true,
          if_false, Bool.not_false]
      rw [e, h]
  | false =>
    cases h : (s.cl c).isfullscreen with
    | false =>
      have e : setfullscreen cfg s c false = s := by
        unfold setfullscreen
        simp only [h, Bool.false_and, Bool.false_eq_true, if_false, Bool.not_false,
          Bool.and_false]
      rw [e, h]
    | true =>
      rw [setfullscreen_off cfg s c h, (same_arrange cfg _ _).cfullscreen, exitFullscreen_cl]

/-- C22: `clientmessage` for the window `w` of the message.  For an unmanaged
window the state is unchanged.  For a managed client `c`: a `_NET_WM_STATE`
message whose `data.l[1]` or `data.l[2]` is the fullscreen atom leaves
`isfullscreen` off for the action code 0, on for 1, and negated for 2; a
`_NET_ACTIVE_WINDOW` message leaves `c` urgent when `c` is not the selected
client of `selmon`, and leaves the state unchanged when it is. -/
theorem clientmessage_effect (cfg : Config) (atoms : Atoms) (s : State)
    (cme : XClientMessageEvent) :
    (wintoclient s cme.window = none → clientmessage cfg atoms s cme = s) ∧
    (∀ c, wintoclient s cme.window = some c →
      (cme.message_type = atoms.netWMState →
        cme.l1 = atoms.netWMFullscreen ∨ cme.l2 = atoms.netWMFullscreen →
        (cme.l0 = 0 → ((clientmessage cfg atoms s cme).cl c).isfullscreen = false) ∧
        (cme.l0 = 1 → ((clientmessage cfg atoms s cme).cl c).isfullscreen = true) ∧
        (cme.l0 = 2 →
          ((clientmessage cfg atoms s cme).cl c).isfullscreen = !(s.cl c).isfullscreen)) ∧
      (cme.message_type ≠ atoms.netWMState → cme.message_type = atoms.netActiveWindow →
        ((s.mon s.selmon).sel ≠ some c →
          ((clientmessage cfg atoms s cme).cl c).isurgent = true) ∧
        ((s.mon s.selmon).sel = some c → clientmessage cfg atoms s cme = s))) := by
  refine ⟨fun h => ?_, fun c hc => ⟨fun ht hfs => ?_, fun hnt ht => ?_⟩⟩
  · unfold clientmessage
    rw [h]
  · have e : clientmessage cfg atoms s cme =
        setfullscreen cfg s c (cme.l0 == 1 || (cme.l0 == 2 && !(s.cl c).isfullscreen)) := by
      unfold clientmessage
      rw [hc]
      simp only [if_pos ht, if_pos hfs]
    rw [e, setfullscreen_flag]
    refine ⟨fun h0 => ?_, fun h0 => ?_, fun h0 => ?_⟩
    · rw [h0]; rfl
    · rw [h0]; rfl
    · rw [h0]
      cases (s.cl c).isfullscreen <;> rfl
  · have e : clientmessage cfg atoms s cme =
        if (s.mon s.selmon).sel ≠ some c ∧ (s.cl c).isurgent = false then seturgent s c true
        else s := by
      unfold clientmessage
      rw [hc]
      simp only [if_neg hnt, if_pos ht]
    rw [e]
    refine ⟨fun hsel => ?_, fun hsel => ?_⟩
    · cases hu : (s.cl c).isurgent with
      | true =>
        rw [if_neg (fun hh => Bool.noConfusion hh.2)]
        exact hu
      | false =>
        rw [if_pos ⟨hsel, rfl⟩]
        unfold seturgent
        rw [setCl_cl, if_pos rfl]
    · rw [if_neg (fun hh => hh.1 hsel)]

/-! ### `togglefloating` -/

/-- A call of `resize` leaves the client `d` with valid hints with the same
`isfixed` and valid hints. -/
theorem resize_keeps_valid (cfg : Config) (s : State) (c d : Nat) (x y w h : Int)
    (interact : Bool) (hv : (s.cl d).hintsvalid = true) :
    ((resize cfg s c x y w h interact).cl d).hintsvalid = true ∧
    ((resize cfg s c x y w h interact).cl d).isfixed = (s.cl d).isfixed := by
  by_cases hd : d = c
  · subst hd
    have hst : hintState cfg s d = s := by
      unfold hintState
      rw [hv]
      simp only [Bool.not_true, Bool.and_false, Bool.false_eq_true, if_false]
    unfold resize applysizehints
    simp only [hst]
    split_ifs
    · unfold resizeclient
      rw [setCl_cl, if_pos rfl]
      exact ⟨hv, rfl⟩
    · exact ⟨hv, rfl⟩
  · rw [resize_other cfg s c d x y w h interact hd]
    exact ⟨hv, rfl⟩

theorem showhide_keeps_valid (cfg : Config) (d : Nat) (l : List Nat) :
    ∀ s : State, (s.cl d).hintsvalid = true →
      ((showhide cfg l s).cl d).hintsvalid = true ∧
      ((showhide cfg l s).cl d).isfixed = (s.cl d).isfixed := by
  induction l with
  | nil => intro s hv; exact ⟨hv, rfl⟩
  | cons c rest ih =>
    intro s hv
    unfold showhide
    simp only
    split_ifs
    · obtain ⟨a1, a2⟩ := resize_keeps_valid cfg s c d (s.cl c).x (s.cl c).y (s.cl c).w
        (s.cl c).h false hv
      obtain ⟨b1, b2⟩ := ih _ a1
      exact ⟨b1, b2.trans a2⟩
    · exact ih s hv
    · exact ih s hv

theorem tileLoop_keeps_valid (cfg : Config) (m n : Nat) (mw : Int) (d : Nat) (l : List Nat) :
    ∀ (i : Nat) (my ty : Int) (s : State), (s.cl d).hintsvalid = true →
      ((tileLoop cfg m n mw l i my ty s).1.cl d).hintsvalid = true ∧
      ((tileLoop cfg m n mw l i my ty s).1.cl d).isfixed = (s.cl d).isfixed := by
  induction l with
  | nil => intro i my ty s hv; exact ⟨hv, rfl⟩
  | cons c rest ih =>
    intro i my ty s hv
    have hr := fun x y w h => resize_keeps_valid cfg s c d x y w h false hv
    unfold tileLoop
    simp only
    split_ifs
    all_goals first
      | exact ih _ _ _ _ hv
      | exact ⟨(ih _ _ _ _ (hr _ _ _ _).1).1, ((ih _ _ _ _ (hr _ _ _ _).1).2).trans (hr _ _ _ _).2⟩

theorem monocleLoop_keeps_valid (cfg : Config) (m d : Nat) (l : List Nat) :
    ∀ s : State, (s.cl d).hintsvalid = true →
      ((monocleLoop cfg m l s).1.cl d).hintsvalid = true ∧
      ((monocleLoop cfg m l s).1.cl d).isfixed = (s.cl d).isfixed := by
  induction l with
  | nil => intro s hv; exact ⟨hv, rfl⟩
  | cons c rest ih =>
    intro s hv
    unfold monocleLoop
    split_ifs
    · exact ih s hv
    · obtain ⟨a1, a2⟩ := resize_keeps_valid cfg s c d (s.mon m).wx (s.mon m).wy
        ((s.mon m).ww - 2 * (s.cl c).bw) ((s.mon m).wh - 2 * (s.cl c).bw) false hv
      obtain ⟨b1, b2⟩ := ih _ a1
      exact ⟨b1, b2.trans a2⟩

/-- `arrange` leaves a client with valid hints with the same `isfixed` and
valid hints. -/
theorem arrange_keeps_valid (cfg : Config) (s : State) (m d : Nat)
    (hv : (s.cl d).hintsvalid = true) :
    ((arrange cfg s m).cl d).hintsvalid = true ∧
    ((arrange cfg s m).cl d).isfixed = (s.cl d).isfixed := by
  obtain ⟨a1, a2⟩ := showhide_keeps_valid cfg d (s.mon m).stack s hv
  unfold arrange
  generalize showhide cfg (s.mon m).stack s = s1 at a1 a2
  have key : ((arrangemon cfg s1 m).cl d).hintsvalid = true ∧
      ((arrangemon cfg s1 m).cl d).isfixed = (s1.cl d).isfixed := by
    unfold arrangemon arrangemonTrace
    simp only
    split
    · unfold tileTrace
      simp only
      split_ifs
      · exact ⟨a1, rfl⟩
      · exact tileLoop_keeps_valid cfg m _ _ d _ 0 0 0 _ a1
    · unfold monocleTrace
      simp only
      split_ifs
      · exact monocleLoop_keeps_valid cfg m d _ _ a1
      · exact monocleLoop_keeps_valid cfg m d _ _ a1
    · exact ⟨a1, rfl⟩
  exact ⟨key.1, key.2.trans a2⟩

theorem togglefloating_none (cfg : Config) (s : State)
    (h : (s.mon s.selmon).sel = none) : togglefloating cfg s = s := by
  unfold togglefloating
  rw [h]

theorem togglefloating_fullscreen (cfg : Config) (s : State) (c : Nat)
    (hsel : (s.mon s.selmon).sel = some c) (h : (s.cl c).isfullscreen = true) :
    togglefloating cfg s = s := by
  unfold togglefloating
  rw [hsel]
  simp only [h, if_true]

/-- One call of `togglefloating` on the selected client `c` that is not
fullscreen: the new flag, what stays, and `isfixed` when the hints are
valid. -/
theorem togglefloating_step (cfg : Config) (s : State) (c : Nat)
    (hsel : (s.mon s.selmon).sel = some c) (hfs : (s.cl c).isfullscreen = false) :
    ((togglefloating cfg s).cl c).isfloating = (!(s.cl c).isfloating || (s.cl c).isfixed) ∧
    (togglefloating cfg s).selmon = s.selmon ∧
    ((togglefloating cfg s).mon s.selmon).sel = some c ∧
    ((togglefloating cfg s).cl c).isfullscreen = false ∧
    ((s.cl c).hintsvalid = true →
      ((togglefloating cfg s).cl c).hintsvalid = true ∧
      ((togglefloating cfg s).cl c).isfixed = (s.cl c).isfixed) := by
  obtain ⟨s1, hs1⟩ : ∃ s1, s1 = s.setCl c { s.cl c with
      isfloating := !(s.cl c).isfloating || (s.cl c).isfixed } := ⟨_, rfl⟩
  have hc1 : s1.cl c =
      { s.cl c with isfloating := !(s.cl c).isfloating || (s.cl c).isfixed } := by
    rw [hs1, setCl_cl, if_pos rfl]
  have hsm1 : s1.selmon = s.selmon := by rw [hs1]; rfl
  have hmon1 : s1.mon = s.mon := by rw [hs1]; rfl
  have e : togglefloating cfg s =
      arrange cfg
        (if (s1.cl c).isfloating = true then
          resize cfg s1 c (s1.cl c).x (s1.cl c).y (s1.cl c).w (s1.cl c).h false else s1)
        (if (s1.cl c).isfloating = true then
          resize cfg s1 c (s1.cl c).x (s1.cl c).y (s1.cl c).w (s1.cl c).h false
          else s1).selmon := by
    have hne : ¬ (s.cl c).isfullscreen = true := by rw [hfs]; decide
    subst hs1
    unfold togglefloating
    rw [hsel]
    simp only [if_neg hne]
  have h12 : Same s1 (if (s1.cl c).isfloating = true then
      resize cfg s1 c (s1.cl c).x (s1.cl c).y (s1.cl c).w (s1.cl c).h false else s1) := by
    split_ifs
    · exact same_resize cfg s1 c _ _ _ _ false
    · exact same_refl s1
  have hv2 : (s1.cl c).hintsvalid = true →
      ((if (s1.cl c).isfloating = true then
        resize cfg s1 c (s1.cl c).x (s1.cl c).y (s1.cl c).w (s1.cl c).h false
        else s1).cl c).hintsvalid = true ∧
      ((if (s1.cl c).isfloating = true then
        resize cfg s1 c (s1.cl c).x (s1.cl c).y (s1.cl c).w (s1.cl c).h false
        else s1).cl c).isfixed = (s1.cl c).isfixed := by
    intro hv
    split_ifs
    · exact resize_keeps_valid cfg s1 c c _ _ _ _ false hv
    · exact ⟨hv, rfl⟩
  generalize (if (s1.cl c).isfloating = true then
      resize cfg s1 c (s1.cl c).x (s1.cl c).y (s1.cl c).w (s1.cl c).h false else s1) = s2
    at e h12 hv2
  have h2r := same_arrange cfg s2 s2.selmon
  rw [e]
  refine ⟨?_, ?_, ?_, ?_, fun hv => ?_⟩
  · rw [h2r.cfloating, h12.cfloating, hc1]
  · rw [h2r.2.1, h12.2.1, hsm1]
  · rw [h2r.sel, h12.sel, hmon1, hsel]
  · rw [h2r.cfullscreen, h12.cfullscreen, hc1]
    exact hfs
  · have hv1 : (s1.cl c).hintsvalid = true := by rw [hc1]; exact hv
    obtain ⟨a1, a2⟩ := hv2 hv1
    obtain ⟨b1, b2⟩ := arrange_keeps_valid cfg s2 s2.selmon c a1
    refine ⟨b1, b2.trans (a2.trans ?_)⟩
    rw [hc1]

/-- C25 as amended: `togglefloating` without a selected client or with a
fullscreen selected client leaves the state unchanged.  For a selected client
`c` that is not fullscreen it sets `isfloating` to `!isfloating || isfixed`
(with the `isfixed` of the time of the call) and keeps the selection.  When
the size hints of `c` are valid, the call leaves `isfixed` as it is, so that
for a client that is not fixed two calls restore `isfloating`, and a fixed
client is floating after the first and after the second call. -/
theorem togglefloating_effect (cfg : Config) (s : State) :
    ((s.mon s.selmon).sel = none → togglefloating cfg s = s) ∧
    (∀ c, (s.mon s.selmon).sel = some c →
      ((s.cl c).isfullscreen = true → togglefloating cfg s = s) ∧
      ((s.cl c).isfullscreen = false →
        ((togglefloating cfg s).cl c).isfloating =
          (!(s.cl c).isfloating || (s.cl c).isfixed) ∧
        (togglefloating cfg s).selmon = s.selmon ∧
        ((togglefloating cfg s).mon s.selmon).sel = some c ∧
        ((s.cl c).hintsvalid = true →
          ((togglefloating cfg s).cl c).isfixed = (s.cl c).isfixed ∧
          ((s.cl c).isfixed = false →
            ((togglefloating cfg (togglefloating cfg s)).cl c).isfloating =
              (s.cl c).isfloating) ∧
          ((s.cl c).isfixed = true →
            ((togglefloating cfg s).cl c).isfloating = true ∧
            ((togglefloating cfg (togglefloating cfg s)).cl c).isfloating = true)))) := by
  refine ⟨togglefloating_none cfg s, fun c hsel => ⟨togglefloating_fullscreen cfg s c hsel,
    fun hfs => ?_⟩⟩
  obtain ⟨a1, a2, a3, a4, a5⟩ := togglefloating_step cfg s c hsel hfs
  refine ⟨a1, a2, a3, fun hv => ?_⟩
  obtain ⟨v1, v2⟩ := a5 hv
  obtain ⟨b1, _, _, _, _⟩ := togglefloating_step cfg (togglefloating cfg s) c
    (by rw [a2]; exact a3) a4
  refine ⟨v2, fun hnf => ?_, fun hf => ?_⟩
  · rw [b1, a1, v2, hnf]
    cases (s.cl c).isfloating <;> rfl
  · rw [b1, a1, v2, hf]
    cases (s.cl c).isfloating <;> exact ⟨rfl, rfl⟩

/-- C25 as stated fails: window `1` is selected, not fullscreen, not floating
and not fixed, and its size hints are stale and now give equal minimum and
maximum size.  The first `togglefloating` makes it floating and `resize`
refreshes the hints, which makes it fixed; the second call leaves it
floating, so two calls do not restore the flag. -/
theorem togglefloating_twice_not_restored :
    (exStale.mon exStale.selmon).sel = some 1 ∧ (exStale.cl 1).isfullscreen = false ∧
    (exStale.cl 1).isfixed = false ∧ (exStale.cl 1).isfloating = false ∧
    ((togglefloating exCfg exStale).cl 1).isfloating = true ∧
    ((togglefloating exCfg exStale).cl 1).isfixed = true ∧
    ((togglefloating exCfg (togglefloating exCfg exStale)).cl 1).isfloating = true := by
  decide!

/-! ### `recttomon` -/

theorem intersect_nonneg (x y w h : Int) (m : Monitor) : 0 ≤ INTERSECT x y w h m := by
  unfold INTERSECT
  exact mul_nonneg (le_max_left _ _) (le_max_left _ _)

/-- The loop of `recttomon` from the pair `(r0, a0)`: either no monitor of the
list has an area above `a0` and the pair is unchanged, or the result is the
first monitor of the list with the largest area, which is above `a0`. -/
theorem recttomonLoop_spec (s : State) (x y w h : Int) (l : List Nat) :
    ∀ (r0 : Nat) (a0 : Int),
      (recttomonLoop s x y w h l (r0, a0) = (r0, a0) ∧
        ∀ m, m ∈ l → INTERSECT x y w h (s.mon m) ≤ a0) ∨
      ∃ pre post, l = pre ++ (recttomonLoop s x y w h l (r0, a0)).1 :: post ∧
        (recttomonLoop s x y w h l (r0, a0)).2 =
          INTERSECT x y w h (s.mon (recttomonLoop s x y w h l (r0, a0)).1) ∧
        a0 < (recttomonLoop s x y w h l (r0, a0)).2 ∧
        (∀ m, m ∈ pre →
          INTERSECT x y w h (s.mon m) < (recttomonLoop s x y w h l (r0, a0)).2) ∧
        (∀ m, m ∈ post →
          INTERSECT x y w h (s.mon m) ≤ (recttomonLoop s x y w h l (r0, a0)).2) := by
  induction l with
  | nil =>
    intro r0 a0
    left
    exact ⟨rfl, fun m hm => by cases hm⟩
  | cons m rest ih =>
    intro r0 a0
    unfold recttomonLoop
    by_cases hgt : INTERSECT x y w h (s.mon m) > a0
    · rw [if_pos hgt]
      right
      rcases ih m (INTERSECT x y w h (s.mon m)) with ⟨e, hall⟩ | ⟨pre, post, e1, e2, e3, e4, e5⟩
      · rw [e]
        exact ⟨[], rest, rfl, rfl, hgt, fun v hv => (by cases hv), hall⟩
      · refine ⟨m :: pre, post, by rw [List.cons_append, ← e1], e2, lt_trans hgt e3,
          fun v hv => ?_, e5⟩
        rcases List.mem_cons.mp hv with hv | hv
        · rw [hv]; exact e3
        · exact e4 v hv
    · rw [if_neg hgt]
      rcases ih r0 a0 with ⟨e, hall⟩ | ⟨pre, post, e1, e2, e3, e4, e5⟩
      · left
        refine ⟨e, fun v hv => ?_⟩
        rcases List.mem_cons.mp hv with hv | hv
        · rw [hv]; exact not_lt.mp hgt
        · exact hall v hv
      · right
        refine ⟨m :: pre, post, by rw [List.cons_append, ← e1], e2, e3, fun v hv => ?_, e5⟩
        rcases List.mem_cons.mp hv with hv | hv
        · rw [hv]; exact lt_of_le_of_lt (not_lt.mp hgt) e3
        · exact e4 v hv

/-- After `sendmon(c, m)` the client points to `m`. -/
theorem sendmon_cmon (cfg : Config) (s : State) (c m : Nat) :
    ((sendmon cfg s c m).cl c).mon = m := by
  unfold sendmon
  by_cases h : (s.cl c).mon = m
  · rw [if_pos h]; exact h
  · rw [if_neg h]
    simp only
    rw [(same_arrangeAll cfg _).cmon, focus_cmon, attachstack_cl, attach_cl, setCl_cl,
      if_pos rfl]

/-- C28: `recttomon(x, y, w, h)`.  The areas `INTERSECT` are not negative.
When no monitor of the list shares a positive area with the rectangle the
result is `selmon`; otherwise it is a monitor of the list whose area is the
largest, and the first such monitor in list order.  The last statement of
`movemouse` and `resizemouse` (`dragRelease`) leaves the state unchanged when
`recttomon` of the client's rectangle is `selmon`; otherwise it is `sendmon`
to that monitor, `selmon = m` and `focus(NULL)`, after which the client points
to that monitor. -/
theorem recttomon_maximal (cfg : Config) (s : State) (x y w h : Int) :
    (∀ m, 0 ≤ INTERSECT x y w h m) ∧
    ((∀ i, i < s.nmons → INTERSECT x y w h (s.mon i) ≤ 0) →
      recttomon s x y w h = s.selmon) ∧
    ((∃ i, i < s.nmons ∧ 0 < INTERSECT x y w h (s.mon i)) →
      recttomon s x y w h < s.nmons ∧
      0 < INTERSECT x y w h (s.mon (recttomon s x y w h)) ∧
      (∀ i, i < s.nmons →
        INTERSECT x y w h (s.mon i) ≤ INTERSECT x y w h (s.mon (recttomon s x y w h))) ∧
      (∀ i, i < recttomon s x y w h →
        INTERSECT x y w h (s.mon i) < INTERSECT x y w h (s.mon (recttomon s x y w h)))) ∧
    (∀ c,
      (recttomon s (s.cl c).x (s.cl c).y (s.cl c).w (s.cl c).h = s.selmon →
        dragRelease cfg s c = s) ∧
      (recttomon s (s.cl c).x (s.cl c).y (s.cl c).w (s.cl c).h ≠ s.selmon →
        dragRelease cfg s c =
          focus { sendmon cfg s c (recttomon s (s.cl c).x (s.cl c).y (s.cl c).w (s.cl c).h)
            with selmon := recttomon s (s.cl c).x (s.cl c).y (s.cl c).w (s.cl c).h } none ∧
        ((dragRelease cfg s c).cl c).mon =
          recttomon s (s.cl c).x (s.cl c).y (s.cl c).w (s.cl c).h)) := by
  have hspec := recttomonLoop_spec s x y w h (List.range s.nmons) s.selmon 0
  refine ⟨intersect_nonneg x y w h, fun hall => ?_, fun hex => ?_, fun c => ⟨fun he => ?_,
    fun hne => ?_⟩⟩
  · unfold recttomon
    rcases hspec with ⟨e, _⟩ | ⟨pre, post, e1, e2, e3, _, _⟩
    · rw [e]
    · exfalso
      generalize recttomonLoop s x y w h (List.range s.nmons) (s.selmon, 0) = ra at *
      have hmem : ra.1 ∈ List.range s.nmons := by
        rw [e1]; exact List.mem_append_right _ (List.mem_cons_self _ _)
      have := hall _ (List.mem_range.mp hmem)
      rw [← e2] at this
      exact absurd e3 (not_lt.mpr this)
  · obtain ⟨i0, hi0, hpos⟩ := hex
    unfold recttomon
    rcases hspec with ⟨_, hall⟩ | ⟨pre, post, e1, e2, e3, e4, e5⟩
    · exact absurd hpos (not_lt.mpr (hall i0 (List.mem_range.mpr hi0)))
    · generalize recttomonLoop s x y w h (List.range s.nmons) (s.selmon, 0) = ra at *
      have hmem : ra.1 ∈ List.range s.nmons := by
        rw [e1]; exact List.mem_append_right _ (List.mem_cons_self _ _)
      have hsorted : (pre ++ ra.1 :: post).Pairwise (fun a b => a < b) := by
        rw [← e1]; exact List.pairwise_lt_range s.nmons
      have hsplit := List.pairwise_append.mp hsorted
      have hcases : ∀ i, i < s.nmons → i ∈ pre ∨ i = ra.1 ∨ i ∈ post := by
        intro i hi
        have hm : i ∈ List.range s.nmons := List.mem_range.mpr hi
        rw [e1] at hm
        rcases List.mem_append.mp hm with hm | hm
        · exact Or.inl hm
        · rcases List.mem_cons.mp hm with hm | hm
          · exact Or.inr (Or.inl hm)
          · exact Or.inr (Or.inr hm)
      refine ⟨List.mem_range.mp hmem, by rw [← e2]; exact e3, fun i hi => ?_, fun i hi => ?_⟩
      · rw [← e2]
        rcases hcases i hi with hm | hm | hm
        · exact le_of_lt (e4 i hm)
        · rw [hm, e2]
        · exact e5 i hm
      · rw [← e2]
        have hin : i < s.nmons := lt_trans hi (List.mem_range.mp hmem)
        rcases hcases i hin with hm | hm | hm
        · exact e4 i hm
        · exact absurd hm (Nat.ne_of_lt hi)
        · have := (List.pairwise_cons.mp hsplit.2.1).1 i hm
          exact absurd hi (Nat.lt_asymm this)
  · unfold dragRelease
    simp only [he, ne_eq, not_true_eq_false, if_false]
  · have e : dragRelease cfg s c =
        focus { sendmon cfg s c (recttomon s (s.cl c).x (s.cl c).y (s.cl c).w (s.cl c).h)
          with selmon := recttomon s (s.cl c).x (s.cl c).y (s.cl c).w (s.cl c).h } none := by
      unfold dragRelease
      simp only [if_pos hne]
    refine ⟨e, ?_⟩
    rw [e, focus_cmon]
    exact sendmon_cmon cfg s c _

end Dwm


/-! ## `focus` and `focusstack` -/

namespace Dwm

theorem find_eq_head_filter (p : Nat → Bool) (l : List Nat) :
    l.find? p = (l.filter p).head? := by
  induction l with
  | nil => rfl
  | cons a rest ih =>
    by_cases ha : p a = true
    · rw [List.find?_cons_of_pos _ ha, List.filter_cons_of_pos ha]
      rfl
    · rw [List.find?_cons_of_neg _ ha, List.filter_cons_of_neg ha, ih]

/-- In a list `A ++ sel :: B` without `sel` in `A`, the element after the
position of `sel`, cyclically. -/
theorem next_index (A B : List Nat) (sel : Nat) (hn : sel ∉ A) :
    (A ++ sel :: B)[((A ++ sel :: B).indexOf sel + 1) % (A ++ sel :: B).length]? =
      match B.head? with
      | some c => some c
      | none => (A ++ sel :: B).head? := by
  rw [List.indexOf_append_of_not_mem hn, List.indexOf_cons_self, List.length_append,
    List.length_cons]
  cases B with
  | nil =>
    simp only [List.length_nil, Nat.add_zero, Nat.zero_add, Nat.mod_self, List.head?_nil]
    exact (List.head?_eq_getElem? _).symm
  | cons b rest =>
    have hlt : A.length + 0 + 1 < A.length + ((b :: rest).length + 1) := by
      simp only [List.length_cons]; omega
    rw [Nat.mod_eq_of_lt hlt, List.getElem?_append_right (by omega)]
    have e : A.length + 0 + 1 - A.length = 1 := by omega
    rw [e]
    simp only [List.getElem?_cons_succ, List.getElem?_cons_zero, List.head?_cons]

/-- In a list `A ++ sel :: B` without `sel` in `A`, the element before the
position of `sel`, cyclically. -/
theorem prev_index (A B : List Nat) (sel : Nat) (hn : sel ∉ A) :
    (A ++ sel :: B)[((A ++ sel :: B).indexOf sel + (A ++ sel :: B).length - 1) %
        (A ++ sel :: B).length]? =
      match A.getLast? with
      | some c => some c
      | none => (sel :: B).getLast? := by
  rw [List.indexOf_append_of_not_mem hn, List.indexOf_cons_self, List.length_append,
    List.length_cons]
  cases hA : A.getLast? with
  | none =>
    have hnil : A = [] := List.getLast?_eq_none_iff.mp hA
    subst hnil
    simp only [List.length_nil, Nat.zero_add, List.nil_append]
    have hlt : B.length + 1 - 1 < B.length + 1 := by omega
    rw [Nat.mod_eq_of_lt hlt, List.getLast?_eq_getElem?, List.length_cons]
  | some a =>
    have hne : A ≠ [] := fun h => by rw [h] at hA; cases hA
    have hpos : 0 < A.length := List.length_pos.mpr hne
    have e : A.length + 0 + (A.length + (B.length + 1)) - 1 =
        (A.length - 1) + (A.length + (B.length + 1)) := by omega
    rw [e, Nat.add_mod_right, Nat.mod_eq_of_lt (by omega),
      List.getElem?_append_left (by omega), ← List.getLast?_eq_getElem?, hA]

/-- The client the loops of `focusstack` find is the cyclic neighbour of the
selected client among the visible clients of `selmon->clients`. -/
theorem focusstackTarget_spec (s : State) (sel : Nat) (dir : Int)
    (hmem : sel ∈ (s.mon s.selmon).clients) (hvis : ISVISIBLE s sel = true) :
    focusstackTarget s sel dir =
      specFocusNext ((s.mon s.selmon).clients.filter (ISVISIBLE s)) sel dir := by
  obtain ⟨pre, post, e, hpre⟩ := List.eq_append_cons_of_mem hmem
  have hall : ∀ a, a ∈ pre → (a != sel) = true := by
    intro a ha
    simp only [bne_iff_ne, ne_eq]
    exact fun h => hpre (h ▸ ha)
  have hself : ¬ (sel != sel) = true := by simp
  have hdw : (pre ++ sel :: post).dropWhile (fun i => i != sel) = sel :: post := by
    rw [List.dropWhile_append_of_pos hall, List.dropWhile_cons_of_neg (p := fun i => i != sel) hself]
  have htw : (pre ++ sel :: post).takeWhile (fun i => i != sel) = pre := by
    rw [List.takeWhile_append_of_pos hall, List.takeWhile_cons_of_neg (p := fun i => i != sel) hself,
      List.append_nil]
  have hfil : (pre ++ sel :: post).filter (ISVISIBLE s) =
      pre.filter (ISVISIBLE s) ++ sel :: post.filter (ISVISIBLE s) := by
    rw [List.filter_append, List.filter_cons_of_pos hvis]
  have hnA : sel ∉ pre.filter (ISVISIBLE s) := fun h => hpre (List.mem_of_mem_filter h)
  unfold focusstackTarget specFocusNext
  simp only
  rw [e, hdw, htw, hfil]
  by_cases hd : dir > 0
  · rewrite [if_pos hd, if_pos hd, next_index _ _ sel hnA, List.drop_one, List.tail_cons,
      find_eq_head_filter, find_eq_head_filter, hfil]
    cases (post.filter (ISVISIBLE s)).head? <;> rfl
  · rewrite [if_neg hd, if_neg hd, prev_index _ _ sel hnA, List.filter_cons_of_pos hvis]
    cases (pre.filter (ISVISIBLE s)).getLast? <;> rfl

/-- The cyclic neighbour exists and is a visible client of the list. -/
theorem specFocusNext_mem (vis : List Nat) (sel : Nat) (dir : Int) (hsel : sel ∈ vis) :
    ∃ t, specFocusNext vis sel dir = some t ∧ t ∈ vis := by
  have hpos : 0 < vis.length := List.length_pos_of_mem hsel
  unfold specFocusNext
  split_ifs
  · have hlt := Nat.mod_lt (vis.indexOf sel + 1) hpos
    exact ⟨vis[(vis.indexOf sel + 1) % vis.length], List.getElem?_eq_getElem hlt,
      List.getElem_mem _⟩
  · have hlt := Nat.mod_lt (vis.indexOf sel + vis.length - 1) hpos
    exact ⟨vis[(vis.indexOf sel + vis.length - 1) % vis.length], List.getElem?_eq_getElem hlt,
      List.getElem_mem _⟩

theorem focusTarget_visible (s : State) (w : Nat) (h : ISVISIBLE s w = true) :
    focusTarget s (some w) = some w := by
  unfold focusTarget
  simp only [h, Bool.not_true, Bool.false_eq_true, if_false]

theorem focusTarget_fallback (s : State) (c : Option Nat)
    (h : c = none ∨ ∃ w, c = some w ∧ ISVISIBLE s w = false) :
    focusTarget s c = (s.mon s.selmon).stack.find? (ISVISIBLE s) := by
  unfold focusTarget
  rcases h with h | ⟨w, h, hv⟩
  · rw [h]
  · rw [h]
    simp only [hv, Bool.not_false, if_true]

/-- What `focus` does once its target `w` is known: `selmon` is the monitor of
`w`, `w` is its selected client and the head of its stack list, and `w` is not
urgent. -/
theorem focus_target (s : State) (c : Option Nat) (w : Nat) (h : focusTarget s c = some w) :
    (focus s c).selmon = (s.cl w).mon ∧ ((focus s c).cl w).mon = (s.cl w).mon ∧
    ((focus s c).mon (focus s c).selmon).sel = some w ∧
    ((focus s c).cl w).isurgent = false ∧
    ((focus s c).mon (s.cl w).mon).stack = w :: (s.mon (s.cl w).mon).stack.erase w ∧
    ((s.mon (s.cl w).mon).stack.Nodup →
      ((focus s c).mon (s.cl w).mon).stack =
        w :: (s.mon (s.cl w).mon).stack.filter (fun x => x != w)) := by
  have e1 := focus_some_selmon s c w h
  have e2 := focus_some_mon s c w h (s.cl w).mon
  rw [if_pos rfl] at e2
  refine ⟨e1, focus_cmon s c w, by rw [e1, e2], ?_, by rw [e2], fun hnd => ?_⟩
  · rw [focus_some_cl s c w h, if_pos rfl]
  · rw [e2, hnd.erase_eq_filter]

/-- C23: `focus(c)`.  The client lists are not modified.  For a visible client
`w`: afterwards `selmon` is the monitor of `w`, `w` is its selected client, is
not urgent and is the head of the stack list of its monitor, the rest of the
stack list being the old one without `w` (in the same order when the list has
no repetition).  For `NULL` or an invisible client: with `t` the first visible
client of `selmon->stack`, the same holds for `t` (in a well-formed state `t`
points to `selmon`, so `selmon` is kept); when `selmon->stack` has no visible
client, `selmon` is kept, `selmon->sel` becomes `NULL` and nothing else
changes. -/
theorem focus_selects (s : State) (c : Option Nat) :
    (∀ i, ((focus s c).mon i).clients = (s.mon i).clients) ∧
    (∀ w, c = some w → ISVISIBLE s w = true →
      (focus s c).selmon = (s.cl w).mon ∧ ((focus s c).cl w).mon = (s.cl w).mon ∧
      ((focus s c).mon (focus s c).selmon).sel = some w ∧
      ((focus s c).cl w).isurgent = false ∧
      ((focus s c).mon (s.cl w).mon).stack = w :: (s.mon (s.cl w).mon).stack.erase w ∧
      ((s.mon (s.cl w).mon).stack.Nodup →
        ((focus s c).mon (s.cl w).mon).stack =
          w :: (s.mon (s.cl w).mon).stack.filter (fun x => x != w))) ∧
    ((c = none ∨ ∃ w, c = some w ∧ ISVISIBLE s w = false) →
      (∀ t, (s.mon s.selmon).stack.find? (ISVISIBLE s) = some t →
        (focus s c).selmon = (s.cl t).mon ∧
        ((focus s c).mon (focus s c).selmon).sel = some t ∧
        ((focus s c).mon (s.cl t).mon).stack = t :: (s.mon (s.cl t).mon).stack.erase t ∧
        ((s.cl t).mon = s.selmon → (s.mon s.selmon).stack.Nodup →
          (focus s c).selmon = s.selmon ∧
          ((focus s c).mon s.selmon).stack =
            t :: (s.mon s.selmon).stack.filter (fun x => x != t))) ∧
      ((s.mon s.selmon).stack.find? (ISVISIBLE s) = none →
        (focus s c).selmon = s.selmon ∧ ((focus s c).mon s.selmon).sel = none ∧
        focus s c = s.setMon s.selmon { s.mon s.selmon with sel := none })) := by
  refine ⟨focus_clients s c, fun w hc hv => ?_, fun hc => ⟨fun t ht => ?_, fun hn => ?_⟩⟩
  · exact focus_target s c w (by rw [hc]; exact focusTarget_visible s w hv)
  · have hft : focusTarget s c = some t := by rw [focusTarget_fallback s c hc]; exact ht
    obtain ⟨a1, _, a3, _, a5, a6⟩ := focus_target s c t hft
    refine ⟨a1, a3, a5, fun hm hnd => ?_⟩
    rw [hm] at a1 a6
    exact ⟨a1, a6 hnd⟩
  · have hft : focusTarget s c = none := by rw [focusTarget_fallback s c hc]; exact hn
    have e := focus_none s c hft
    refine ⟨by rw [e]; rfl, by rw [e, setMon_mon, if_pos rfl], e⟩

/-- C24: `focusstack` in a state with well-formed lists.  Without a selected
client, or with a fullscreen selected client under `lockfullscreen`, the state
is unchanged.  Otherwise, for a visible selected client `c`, `selmon` is kept
and the new selected client is the cyclic neighbour of `c` among the visible
clients of `selmon->clients` in list order (`specFocusNext`): the next one for
a positive argument, the previous one otherwise, which for `c` at the head of
the client list is the last visible client of the list. -/
theorem focusstack_cyclic (cfg : Config) (s : State) (dir : Int) (hs : ListsOK s) :
    ((s.mon s.selmon).sel = none → focusstack cfg s dir = s) ∧
    (∀ c, (s.mon s.selmon).sel = some c →
      (((s.cl c).isfullscreen && cfg.lockfullscreen) = true → focusstack cfg s dir = s) ∧
      (((s.cl c).isfullscreen && cfg.lockfullscreen) = false → ISVISIBLE s c = true →
        (focusstack cfg s dir).selmon = s.selmon ∧
        ((focusstack cfg s dir).mon s.selmon).sel =
          specFocusNext ((s.mon s.selmon).clients.filter (ISVISIBLE s)) c dir ∧
        (∃ t, specFocusNext ((s.mon s.selmon).clients.filter (ISVISIBLE s)) c dir = some t ∧
          t ∈ (s.mon s.selmon).clients.filter (ISVISIBLE s)) ∧
        (dir ≤ 0 → (s.mon s.selmon).clients.head? = some c →
          ((focusstack cfg s dir).mon s.selmon).sel =
            ((s.mon s.selmon).clients.filter (ISVISIBLE s)).getLast?))) := by
  refine ⟨fun h => ?_, fun c hsel => ⟨fun hl => ?_, fun hl hvis => ?_⟩⟩
  · unfold focusstack
    rw [h]
  · unfold focusstack
    rw [hsel]
    simp only [hl, if_true]
  · obtain ⟨_, _, hcs, hmon, hselm, _⟩ := hs.2 s.selmon hs.1
    have hc : c ∈ (s.mon s.selmon).clients := (hcs c).mpr (hselm c hsel)
    have hcv : c ∈ (s.mon s.selmon).clients.filter (ISVISIBLE s) :=
      List.mem_filter.mpr ⟨hc, hvis⟩
    have hspec := focusstackTarget_spec s c dir hc hvis
    obtain ⟨t, ht, htm⟩ := specFocusNext_mem _ c dir hcv
    have htv : ISVISIBLE s t = true := (List.mem_filter.mp htm).2
    have htmon : (s.cl t).mon = s.selmon := hmon t (List.mem_of_mem_filter htm)
    have e : focusstack cfg s dir = focus s (some t) := by
      unfold focusstack
      rw [hsel]
      simp only [hl, Bool.false_eq_true, if_false, hspec, ht]
    obtain ⟨a1, _, a3, _, _, _⟩ := focus_target s (some t) t (focusTarget_visible s t htv)
    rw [htmon] at a1
    rw [a1] at a3
    have hsel2 : ((focusstack cfg s dir).mon s.selmon).sel =
        specFocusNext ((s.mon s.selmon).clients.filter (ISVISIBLE s)) c dir := by
      rw [e, a3, ht]
    refine ⟨by rw [e]; exact a1, hsel2, ⟨t, ht, htm⟩, fun hd hhead => ?_⟩
    rw [hsel2]
    cases hcl : (s.mon s.selmon).clients with
    | nil => rw [hcl] at hc; cases hc
    | cons a rest =>
      rw [hcl] at hhead
      simp only [List.head?_cons, Option.some.injEq] at hhead
      subst hhead
      rw [List.filter_cons_of_pos hvis]
      unfold specFocusNext
      rw [if_neg (not_lt.mpr hd), List.indexOf_cons_self, List.getLast?_eq_getElem?,
        List.length_cons]
      have e2 : (0 + ((rest.filter (ISVISIBLE s)).length + 1) - 1) %
          ((rest.filter (ISVISIBLE s)).length + 1) =
          (rest.filter (ISVISIBLE s)).length + 1 - 1 := by
        rw [Nat.zero_add]
        exact Nat.mod_eq_of_lt (by omega)
      rw [e2]

/-- C24 at the state with the three windows managed: the client list is
`3, 2, 1`, all visible, and window `3` at its head is selected; for the
argument `-1`. -/
theorem focusstack_cyclic_witness :
    ((exABC.mon exABC.selmon).sel = none → focusstack exCfg exABC (-1) = exABC) ∧
    (∀ c, (exABC.mon exABC.selmon).sel = some c →
      (((exABC.cl c).isfullscreen && exCfg.lockfullscreen) = true →
        focusstack exCfg exABC (-1) = exABC) ∧
      (((exABC.cl c).isfullscreen && exCfg.lockfullscreen) = false →
        ISVISIBLE exABC c = true →
        (focusstack exCfg exABC (-1)).selmon = exABC.selmon ∧
        ((focusstack exCfg exABC (-1)).mon exABC.selmon).sel =
          specFocusNext ((exABC.mon exABC.selmon).clients.filter (ISVISIBLE exABC)) c (-1) ∧
        (∃ t, specFocusNext ((exABC.mon exABC.selmon).clients.filter (ISVISIBLE exABC)) c
            (-1) = some t ∧
          t ∈ (exABC.mon exABC.selmon).clients.filter (ISVISIBLE exABC)) ∧
        ((-1 : Int) ≤ 0 → (exABC.mon exABC.selmon).clients.head? = some c →
          ((focusstack exCfg exABC (-1)).mon exABC.selmon).sel =
            ((exABC.mon exABC.selmon).clients.filter (ISVISIBLE exABC)).getLast?))) :=
  focusstack_cyclic exCfg exABC (-1) exABC_listsOK

end Dwm


/-! ## The fullscreen invariant -/

namespace Dwm

theorem Same.mgeom {s t : State} (h : Same s t) (i : Nat) :
    (t.mon i).mx = (s.mon i).mx ∧ (t.mon i).my = (s.mon i).my ∧
    (t.mon i).mw = (s.mon i).mw ∧ (t.mon i).mh = (s.mon i).mh := by
  have h1 := congrArg Monitor.mx (h.2.2.2.2.2.2.2.1 i)
  have h2 := congrArg Monitor.my (h.2.2.2.2.2.2.2.1 i)
  have h3 := congrArg Monitor.mw (h.2.2.2.2.2.2.2.1 i)
  have h4 := congrArg Monitor.mh (h.2.2.2.2.2.2.2.1 i)
  simp only [Monitor.core] at h1 h2 h3 h4
  exact ⟨h1, h2, h3, h4⟩

/-- The invariant carries over to a state in which the monitors have the same
geometry and every fullscreen client was fullscreen before, with the same
flags, border width, geometry and monitor. -/
theorem fullOK_of_frame {s t : State} (h : FullOK s)
    (hm : ∀ i, (t.mon i).mx = (s.mon i).mx ∧ (t.mon i).my = (s.mon i).my ∧
      (t.mon i).mw = (s.mon i).mw ∧ (t.mon i).mh = (s.mon i).mh)
    (hc : ∀ d, (t.cl d).isfullscreen = true →
      (s.cl d).isfullscreen = true ∧ (t.cl d).isfloating = (s.cl d).isfloating ∧
      (t.cl d).bw = (s.cl d).bw ∧ geom t d = geom s d ∧ (t.cl d).mon = (s.cl d).mon) :
    FullOK t := by
  intro d hd
  obtain ⟨a1, a2, a3, a4, a5⟩ := hc d hd
  obtain ⟨b1, b2, b3⟩ := h d a1
  obtain ⟨m1, m2, m3, m4⟩ := hm (s.cl d).mon
  rw [a2, a3, a4, a5, m1, m2, m3, m4]
  exact ⟨b1, b2, b3⟩

/-- `showhide` does not touch a fullscreen client. -/
theorem showhide_fullscreen (cfg : Config) (d : Nat) (l : List Nat) :
    ∀ s : State, (s.cl d).isfullscreen = true → (showhide cfg l s).cl d = s.cl d := by
  induction l with
  | nil => intro s _; rfl
  | cons c rest ih =>
    intro s hd
    unfold showhide
    simp only
    by_cases hv : ISVISIBLE s c = true
    · rw [if_pos hv]
      by_cases hr : (((s.mon (s.cl c).mon).curlt.arrange == none || (s.cl c).isfloating) &&
          !(s.cl c).isfullscreen) = true
      · rw [if_pos hr]
        have hne : d ≠ c := by
          intro e
          rw [← e, hd] at hr
          simp at hr
        have e1 := resize_other cfg s c d (s.cl c).x (s.cl c).y (s.cl c).w (s.cl c).h false hne
        rw [ih _ (by rw [e1]; exact hd), e1]
      · rw [if_neg hr]
        exact ih s hd
    · rw [if_neg hv]
      exact ih s hd

/-- The loop of `tile` does not touch a floating client. -/
theorem tileLoop_floating (cfg : Config) (m n : Nat) (mw : Int) (d : Nat) (l : List Nat) :
    ∀ (i : Nat) (my ty : Int) (s : State), (s.cl d).isfloating = true →
      (tileLoop cfg m n mw l i my ty s).1.cl d = s.cl d := by
  induction l with
  | nil => intro i my ty s _; rfl
  | cons c rest ih =>
    intro i my ty s hd
    unfold tileLoop
    simp only
    by_cases hsk : ((s.cl c).isfloating || !ISVISIBLE s c) = true
    · rw [if_pos hsk]
      exact ih _ _ _ _ hd
    · rw [if_neg hsk]
      have hne : d ≠ c := by
        intro e
        rw [← e, hd] at hsk
        simp at hsk
      have hr := fun x y w h => resize_other cfg s c d x y w h false hne
      split_ifs
      all_goals
        simp only
        rw [ih _ _ _ _ (by rw [hr]; exact hd), hr]

/-- The loop of `monocle` does not touch a floating client. -/
theorem monocleLoop_floating (cfg : Config) (m d : Nat) (l : List Nat) :
    ∀ s : State, (s.cl d).isfloating = true → (monocleLoop cfg m l s).1.cl d = s.cl d := by
  induction l with
  | nil => intro s _; rfl
  | cons c rest ih =>
    intro s hd
    unfold monocleLoop
    by_cases hsk : ((s.cl c).isfloating || !ISVISIBLE s c) = true
    · rw [if_pos hsk]
      exact ih s hd
    · rw [if_neg hsk]
      have hne : d ≠ c := by
        intro e
        rw [← e, hd] at hsk
        simp at hsk
      have hr := fun x y w h => resize_other cfg s c d x y w h false hne
      simp only
      rw [ih _ (by rw [hr]; exact hd), hr]

/-- `arrangemon` does not touch a floating client. -/
theorem arrangemon_floating (cfg : Config) (s : State) (m d : Nat)
    (hfl : (s.cl d).isfloating = true) : (arrangemon cfg s m).cl d = s.cl d := by
  unfold arrangemon arrangemonTrace
  simp only
  obtain ⟨s2, hs2⟩ : ∃ s2, s2 = s.setMon m { s.mon m with ltsymbol := (s.mon m).curlt.symbol } :=
    ⟨_, rfl⟩
  have hcl : s2.cl = s.cl := by rw [hs2]; rfl
  have hfl2 : (s2.cl d).isfloating = true := by rw [hcl]; exact hfl
  rw [← hs2, ← hcl]
  split
  · unfold tileTrace
    simp only
    split_ifs
    · rfl
    · exact tileLoop_floating cfg m _ _ d _ 0 0 0 s2 hfl2
  · unfold monocleTrace
    simp only
    split_ifs
    · have e := fun sym : String => monocleLoop_floating cfg m d (s2.mon m).clients
        (s2.setMon m { s2.mon m with ltsymbol := sym }) hfl2
      simp only [setMon_mon, if_true]
      exact e _
    · exact monocleLoop_floating cfg m d _ s2 hfl2
  · rfl

/-- `arrange` does not touch a client that is fullscreen and floating. -/
theorem arrange_fullscreen (cfg : Config) (s : State) (m d : Nat)
    (hfs : (s.cl d).isfullscreen = true) (hfl : (s.cl d).isfloating = true) :
    (arrange cfg s m).cl d = s.cl d := by
  have e1 := showhide_fullscreen cfg d (s.mon m).stack s hfs
  unfold arrange
  rw [arrangemon_floating cfg _ m d (by rw [e1]; exact hfl), e1]

theorem fullOK_arrange (cfg : Config) {s : State} (h : FullOK s) (m : Nat) :
    FullOK (arrange cfg s m) := by
  have hs := same_arrange cfg s m
  apply fullOK_of_frame h hs.mgeom
  intro d hd
  have hfs : (s.cl d).isfullscreen = true := by rw [← hs.cfullscreen]; exact hd
  have e := arrange_fullscreen cfg s m d hfs (h d hfs).1
  refine ⟨hfs, by rw [e], by rw [e], by unfold geom; rw [e], by rw [e]⟩

theorem fullOK_focus {s : State} (h : FullOK s) (c : Option Nat) : FullOK (focus s c) := by
  cases hf : focusTarget s c with
  | none =>
    rw [focus_none s c hf]
    apply fullOK_of_frame h
    · intro i
      rw [setMon_mon]
      split_ifs with hi
      · rw [hi]; exact ⟨rfl, rfl, rfl, rfl⟩
      · exact ⟨rfl, rfl, rfl, rfl⟩
    · intro d hd
      exact ⟨hd, rfl, rfl, rfl, rfl⟩
  | some w =>
    apply fullOK_of_frame h
    · intro i
      rw [focus_some_mon s c w hf]
      split_ifs <;> exact ⟨rfl, rfl, rfl, rfl⟩
    · intro d hd
      have e := focus_some_cl s c w hf d
      unfold geom
      rw [e] at hd ⊢
      by_cases hdw : d = w
      · rw [if_pos hdw] at hd ⊢
        rw [hdw]
        exact ⟨hd, rfl, rfl, rfl, rfl⟩
      · rw [if_neg hdw] at hd ⊢
        exact ⟨hd, rfl, rfl, rfl, rfl⟩

theorem fullOK_setMon {s : State} (h : FullOK s) (m : Nat) (v : Monitor)
    (hv : v.mx = (s.mon m).mx ∧ v.my = (s.mon m).my ∧ v.mw = (s.mon m).mw ∧
      v.mh = (s.mon m).mh) : FullOK (s.setMon m v) := by
  apply fullOK_of_frame h
  · intro i
    rw [setMon_mon]
    split_ifs with hi
    · rw [hi]; exact hv
    · exact ⟨rfl, rfl, rfl, rfl⟩
  · intro d hd
    exact ⟨hd, rfl, rfl, rfl, rfl⟩

/-- Rewriting the record of a client keeps the invariant when the new record
is not fullscreen. -/
theorem fullOK_setCl {s : State} (h : FullOK s) (c : Nat) (v : Client)
    (hv : v.isfullscreen = false) : FullOK (s.setCl c v) := by
  apply fullOK_of_frame h ?_ ?_
  · intro i; exact ⟨rfl, rfl, rfl, rfl⟩
  intro d hd
  unfold geom
  rw [setCl_cl] at hd ⊢
  by_cases hdc : d = c
  · rw [if_pos hdc, hv] at hd
    cases hd
  · rw [if_neg hdc] at hd ⊢
    exact ⟨hd, rfl, rfl, rfl, rfl⟩

/-- Changing only the tags of a client keeps the invariant. -/
theorem fullOK_setTags {s : State} (h : FullOK s) (c : Nat) (t : Nat) :
    FullOK (s.setCl c { s.cl c with tags := t }) := by
  apply fullOK_of_frame h ?_ ?_
  · intro i; exact ⟨rfl, rfl, rfl, rfl⟩
  intro d hd
  unfold geom
  rw [setCl_cl] at hd ⊢
  by_cases hdc : d = c
  · rw [if_pos hdc] at hd ⊢
    rw [hdc]
    exact ⟨hd, rfl, rfl, rfl, rfl⟩
  · rw [if_neg hdc] at hd ⊢
    exact ⟨hd, rfl, rfl, rfl, rfl⟩

theorem setTagset_mgeom (m : Monitor) (i v : Nat) :
    (m.setTagset i v).mx = m.mx ∧ (m.setTagset i v).my = m.my ∧
    (m.setTagset i v).mw = m.mw ∧ (m.setTagset i v).mh = m.mh := by
  unfold Monitor.setTagset
  split_ifs <;> exact ⟨rfl, rfl, rfl, rfl⟩

theorem fullOK_view (cfg : Config) {s : State} (h : FullOK s) (ui : Nat) :
    FullOK (view cfg s ui) := by
  by_cases he : ui &&& TAGMASK cfg = (s.mon s.selmon).tagset (s.mon s.selmon).seltags
  · rw [view_same cfg s ui he]; exact h
  · unfold view
    simp only
    rw [if_neg he]
    apply fullOK_arrange
    apply fullOK_focus
    apply fullOK_setMon h
    split_ifs
    · exact setTagset_mgeom _ _ _
    · exact ⟨rfl, rfl, rfl, rfl⟩

theorem fullOK_toggleview (cfg : Config) {s : State} (h : FullOK s) (ui : Nat) :
    FullOK (toggleview cfg s ui) := by
  by_cases he : (s.mon s.selmon).curtags ^^^ (ui &&& TAGMASK cfg) = 0
  · rw [toggleview_reject cfg s ui he]; exact h
  · rw [toggleview_accept cfg s ui he]
    apply fullOK_arrange
    apply fullOK_focus
    apply fullOK_setMon h
    exact setTagset_mgeom _ _ _

theorem fullOK_tag (cfg : Config) {s : State} (h : FullOK s) (ui : Nat) :
    FullOK (tag cfg s ui) := by
  unfold tag
  split
  · exact h
  · split_ifs
    · exact fullOK_arrange cfg (fullOK_focus (fullOK_setTags h _ _) none) _
    · exact h

theorem fullOK_toggletag (cfg : Config) {s : State} (h : FullOK s) (ui : Nat) :
    FullOK (toggletag cfg s ui) := by
  unfold toggletag
  split
  · exact h
  · simp only
    split_ifs
    · exact fullOK_arrange cfg (fullOK_focus (fullOK_setTags h _ _) none) _
    · exact h

theorem fullOK_togglefloating (cfg : Config) {s : State} (h : FullOK s) :
    FullOK (togglefloating cfg s) := by
  unfold togglefloating
  split
  · exact h
  · rename_i c hsel
    by_cases hfs : (s.cl c).isfullscreen = true
    · rw [if_pos hfs]; exact h
    · rw [if_neg hfs]
      rw [Bool.not_eq_true] at hfs
      simp only
      have h1 : FullOK (s.setCl c { s.cl c with
          isfloating := !(s.cl c).isfloating || (s.cl c).isfixed }) :=
        fullOK_setCl h c _ hfs
      apply fullOK_arrange
      split_ifs
      · have hsame := same_resize cfg (s.setCl c { s.cl c with
          isfloating := !(s.cl c).isfloating || (s.cl c).isfixed }) c
          (s.cl c).x (s.cl c).y (s.cl c).w (s.cl c).h false
        simp only [setCl_cl, if_true]
        apply fullOK_of_frame h1 hsame.mgeom
        intro d hd
        by_cases hdc : d = c
        · rw [hdc, hsame.cfullscreen, setCl_cl, if_pos rfl] at hd
          rw [hfs] at hd
          cases hd
        · have e := resize_other cfg (s.setCl c { s.cl c with
            isfloating := !(s.cl c).isfloating || (s.cl c).isfixed }) c d
            (s.cl c).x (s.cl c).y (s.cl c).w (s.cl c).h false hdc
          unfold geom
          rw [e] at hd ⊢
          exact ⟨hd, rfl, rfl, rfl, rfl⟩
      · exact h1

theorem fullOK_setfullscreen (cfg : Config) {s : State} (h : FullOK s) (c : Nat) (b : Bool) :
    FullOK (setfullscreen cfg s c b) := by
  cases hfs : (s.cl c).isfullscreen with
  | false =>
    cases b with
    | false =>
      have e : setfullscreen cfg s c false = s := by
        unfold setfullscreen
        simp only [hfs, Bool.false_and, Bool.false_eq_true, if_false, Bool.not_false,
          Bool.and_false]
      rw [e]; exact h
    | true =>
      have hc := setfullscreen_on cfg s c hfs
      have hother : ∀ d, d ≠ c → (setfullscreen cfg s c true).cl d = s.cl d := by
        intro d hd
        unfold setfullscreen resizeclient
        simp only [hfs, Bool.not_false, Bool.and_self, if_true, setCl_cl, if_neg hd]
      have hmon : (setfullscreen cfg s c true).mon = s.mon := by
        unfold setfullscreen resizeclient
        simp only [hfs, Bool.not_false, Bool.and_self, if_true, setCl_mon]
      intro d hd
      by_cases hdc : d = c
      · subst hdc
        unfold geom
        rw [hc, hmon]
        exact ⟨rfl, rfl, rfl⟩
      · unfold geom
        rw [hother d hdc] at hd ⊢
        rw [hmon]
        exact h d hd
  | true =>
    cases b with
    | true =>
      have e : setfullscreen cfg s c true = s := by
        unfold setfullscreen
        simp only [hfs, Bool.not_true, Bool.and_false, Bool.false_and, Bool.false_eq_true,
          if_false, Bool.not_false]
      rw [e]; exact h
    | false =>
      rw [setfullscreen_off cfg s c hfs]
      apply fullOK_arrange
      have hc := exitFullscreen_cl s c
      have hother : ∀ d, d ≠ c → (exitFullscreen s c).cl d = s.cl d := by
        intro d hd
        unfold exitFullscreen resizeclient
        simp only [setCl_cl, if_neg hd]
      apply fullOK_of_frame h ?_ ?_
      · intro i; exact ⟨rfl, rfl, rfl, rfl⟩
      intro d hd
      by_cases hdc : d = c
      · rw [hdc, hc] at hd
        cases hd
      · unfold geom
        rw [hother d hdc] at hd ⊢
        exact ⟨hd, rfl, rfl, rfl, rfl⟩

theorem fullOK_step (cfg : Config) {s t : State} (h : FullOK s) (hst : FullStep cfg s t) :
    FullOK t := by
  cases hst with
  | setfullscreen c b => exact fullOK_setfullscreen cfg h c b
  | togglefloating => exact fullOK_togglefloating cfg h
  | view ui => exact fullOK_view cfg h ui
  | toggleview ui => exact fullOK_toggleview cfg h ui
  | tag ui => exact fullOK_tag cfg h ui
  | toggletag ui => exact fullOK_toggletag cfg h ui
  | arrange m => exact fullOK_arrange cfg h m

theorem focus_cfullscreen (s : State) (c : Option Nat) (d : Nat) :
    ((focus s c).cl d).isfullscreen = (s.cl d).isfullscreen := by
  cases hf : focusTarget s c with
  | none => rw [focus_none s c hf]; rfl
  | some w =>
    rw [focus_some_cl s c w hf d]
    split_ifs with hdw
    · rw [hdw]
    · rfl

/-- `manage` leaves the fullscreen flag of every other client as it was. -/
theorem manage_cfullscreen (cfg : Config) {s : State} (hs : ListsOK s) (w : Nat)
    (wa : XWindowAttributes) (inp : ManageInput) (d : Nat) (hd : d ≠ w) :
    ((manage cfg s w wa inp).cl d).isfullscreen = (s.cl d).isfullscreen := by
  unfold manage
  simp only
  rw [focus_cfullscreen, (same_arrange cfg _ _).cfullscreen]
  exact congrArg Client.isfullscreen ((manageInit_frame cfg hs w wa inp).2.2.2.2.1 d hd)

theorem fullOK_of_none {s : State} (h : ∀ c, (s.cl c).isfullscreen = false) : FullOK s := by
  intro c hc
  rw [h c] at hc
  cases hc

theorem exA_fullOK : FullOK exA := by
  apply fullOK_of_none
  intro c
  by_cases hc : c = 1
  · subst hc; decide!
  · have e := manage_cfullscreen exCfg (inv_initial exInit_initial).1 1 exWa exInp c hc
    unfold exA
    rw [e]
    rfl

theorem exTwo_fullOK : FullOK exTwo := by
  apply fullOK_of_none
  intro c
  by_cases hc : c = 1
  · subst hc; decide!
  · have e := manage_cfullscreen exCfg (inv_initial exInit2_initial).1 1 exWa exInp c hc
    unfold exTwo
    rw [e]
    rfl

/-- A `ConfigureRequest` with `CWBorderWidth` for a managed window stores the
requested border width, whatever the state of the client. -/
theorem configurerequest_border (s : State) (ev : XConfigureRequestEvent)
    (hm : wintoclient s ev.window = some ev.window)
    (hb : ev.value_mask &&& CWBorderWidth ≠ 0) :
    (configurerequest s ev).cl ev.window =
      { s.cl ev.window with bw := ev.border_width } := by
  unfold configurerequest
  rw [hm]
  simp only
  rw [if_pos hb, setCl_cl, if_pos rfl]

/-- A `ConfigureRequest` without `CWBorderWidth` but with `CWWidth` for a
floating client stores the requested width. -/
theorem configurerequest_width (s : State) (ev : XConfigureRequestEvent)
    (hm : wintoclient s ev.window = some ev.window)
    (hb : ev.value_mask &&& CWBorderWidth = 0) (hw : ev.value_mask &&& CWWidth ≠ 0)
    (hf : (s.cl ev.window).isfloating = true) :
    ((configurerequest s ev).cl ev.window).w = ev.width ∧
    ((configurerequest s ev).cl ev.window).isfullscreen = (s.cl ev.window).isfullscreen := by
  unfold configurerequest
  rw [hm]
  simp -zeta only [hb, ne_eq, not_true_eq_false, if_false]
  lift_lets
  intro c0 m c1 c2 c3 c4 c5 c6
  have h0 : c0.isfloating = true := hf
  have e3 : c3.w = ev.width ∧ c3.isfullscreen = c2.isfullscreen := by
    simp only [c3]; rw [if_pos hw]; exact ⟨rfl, rfl⟩
  have e1 : c1.isfullscreen = c0.isfullscreen := by
    simp only [c1]; split_ifs <;> rfl
  have e2 : c2.isfullscreen = c1.isfullscreen := by
    simp only [c2]; split_ifs <;> rfl
  have e4 : c4.w = c3.w ∧ c4.isfullscreen = c3.isfullscreen := by
    simp only [c4]; split_ifs <;> exact ⟨rfl, rfl⟩
  have e5 : c5.w = c4.w ∧ c5.isfullscreen = c4.isfullscreen := by
    simp only [c5]; split_ifs <;> exact ⟨rfl, rfl⟩
  have e6 : c6.w = c5.w ∧ c6.isfullscreen = c5.isfullscreen := by
    simp only [c6]; split_ifs <;> exact ⟨rfl, rfl⟩
  rw [h0, Bool.true_or, if_pos rfl, setCl_cl, if_pos rfl, e6.1, e6.2, e5.1, e5.2,
    e4.1, e4.2, e3.1, e3.2, e2, e1]
  exact ⟨rfl, rfl⟩

/-- The fullscreen invariant (every client with `isfullscreen` set has
`isfloating` set, `bw = 0` and the geometry `(mx, my, mw, mh)` of its monitor)
is kept by `setfullscreen`, `togglefloating`, `view`, `toggleview`, `tag`,
`toggletag` and `arrange`: it holds in every state reached by these from a
state in which it holds. -/
theorem fullOK_steps (cfg : Config) (s t : State) (h : FullOK s)
    (hst : Relation.ReflTransGen (FullStep cfg) s t) : FullOK t := by
  induction hst with
  | refl => exact h
  | tail _ hbc ih => exact fullOK_step cfg ih hbc

/-- C21: the fullscreen invariant is not kept by `configurerequest` and by
`sendmon`.  With window `1` managed and made fullscreen, a `ConfigureRequest`
with `CWBorderWidth` and border width 5 leaves the client fullscreen with
`bw = 5`.  On two monitors, the fullscreen window `1` of the first monitor sent
to the second one with `sendmon` is fullscreen on monitor `1`, whose `mx` is
1920, with the geometry `(0, 0, 1920, 1080)` of the first one.  The invariant
holds before the two steps and fails after each. -/
theorem fullscreen_invariant_not_kept :
    FullOK (setfullscreen exCfg exA 1 true) ∧
    (exFullBorder.cl 1).isfullscreen = true ∧ (exFullBorder.cl 1).bw = 5 ∧
    ¬ FullOK exFullBorder ∧
    FullOK (setfullscreen exCfg exTwo 1 true) ∧
    (exFullMoved.cl 1).isfullscreen = true ∧ (exFullMoved.cl 1).mon = 1 ∧
    geom exFullMoved 1 = (0, 0, 1920, 1080) ∧ (exFullMoved.mon 1).mx = 1920 ∧
    ¬ FullOK exFullMoved := by
  refine ⟨fullOK_setfullscreen exCfg exA_fullOK 1 true, by decide!, by decide!, ?_,
    fullOK_setfullscreen exCfg exTwo_fullOK 1 true, by decide!, by decide!, by decide!,
    by decide!, ?_⟩
  · intro h
    have h1 := (h 1 (by decide!)).2.1
    revert h1
    decide!
  · intro h
    have h1 := congrArg Prod.fst (h 1 (by decide!)).2.2
    revert h1
    decide!

end Dwm


/-! ## Well-formed tag masks -/

namespace Dwm

theorem one_and_tagmask (cfg : Config) (hn : 0 < cfg.ntags) : 1 &&& TAGMASK cfg = 1 := by
  unfold TAGMASK
  rw [Nat.one_shiftLeft, Nat.and_pow_two_sub_one_eq_mod]
  exact Nat.mod_eq_of_lt (Nat.one_lt_two_pow (by omega))

theorem maskOK_one (cfg : Config) (hn : 0 < cfg.ntags) : MaskOK cfg 1 :=
  ⟨by decide, one_and_tagmask cfg hn⟩

theorem maskOK_and (cfg : Config) (u : Nat) (h : u &&& TAGMASK cfg ≠ 0) :
    MaskOK cfg (u &&& TAGMASK cfg) :=
  ⟨h, by rw [Nat.and_assoc, Nat.and_self]⟩

theorem maskOK_xor (cfg : Config) {a : Nat} (u : Nat) (ha : a &&& TAGMASK cfg = a)
    (h : a ^^^ (u &&& TAGMASK cfg) ≠ 0) : MaskOK cfg (a ^^^ (u &&& TAGMASK cfg)) :=
  ⟨h, by rw [Nat.and_xor_distrib_right, ha, Nat.and_assoc, Nat.and_self]⟩

theorem or_and_zero {a b m : Nat} (ha : a &&& m = 0) (hb : b &&& m = 0) :
    (a ||| b) &&& m = 0 := by
  apply Nat.eq_of_testBit_eq
  intro i
  have h1 := congrArg (fun x => x.testBit i) ha
  have h2 := congrArg (fun x => x.testBit i) hb
  simp only [Nat.testBit_and, Nat.zero_testBit] at h1 h2
  simp only [Nat.testBit_and, Nat.testBit_or, Nat.zero_testBit]
  cases hm : m.testBit i
  · simp only [Bool.and_false]
  · rw [hm, Bool.and_true] at h1 h2
    rw [h1, h2]
    rfl

theorem maskOK_curtags {cfg : Config} {s : State} {i : Nat}
    (h : MaskOK cfg (s.mon i).tagset0 ∧ MaskOK cfg (s.mon i).tagset1) :
    MaskOK cfg (s.mon i).curtags := by
  unfold Monitor.curtags Monitor.tagset
  split_ifs
  · exact h.1
  · exact h.2

/-- The invariant moves to a state with the same tag sets and tags whose
clients were all managed before. -/
theorem tagsOK_sub {cfg : Config} {s t : State} (h : TagsOK cfg s) (hn : t.nmons = s.nmons)
    (hb0 : ∀ i, (t.mon i).tagset0 = (s.mon i).tagset0)
    (hb1 : ∀ i, (t.mon i).tagset1 = (s.mon i).tagset1)
    (hmem : ∀ i, i < s.nmons → ∀ w, w ∈ (t.mon i).clients → Managed s w)
    (ht : ∀ w, (t.cl w).tags = (s.cl w).tags) : TagsOK cfg t := by
  refine ⟨fun i hi => ?_, fun c hc => ?_⟩
  · rw [hb0, hb1]; exact h.1 i (hn ▸ hi)
  · obtain ⟨i, hi, hw⟩ := hc
    rw [ht]
    exact h.2 c (hmem i (hn ▸ hi) c hw)

theorem tagsOK_same {cfg : Config} {s t : State} (h : TagsOK cfg s) (hs : Same s t) :
    TagsOK cfg t :=
  tagsOK_sub h hs.1 hs.tagset0 hs.tagset1
    (fun i hi w hw => ⟨i, hi, by rw [← hs.clients]; exact hw⟩) hs.ctags

theorem tagsOK_focus {cfg : Config} {s : State} (h : TagsOK cfg s) (c : Option Nat) :
    TagsOK cfg (focus s c) :=
  tagsOK_sub h (focus_nmons s c) (focus_tagset0 s c) (focus_tagset1 s c)
    (fun i hi w hw => ⟨i, hi, by rw [← focus_clients s c]; exact hw⟩) (focus_ctags s c)

theorem tagsOK_focus_arrange {cfg : Config} {s : State} (h : TagsOK cfg s) (c : Option Nat)
    (m : Nat) : TagsOK cfg (arrange cfg (focus s c) m) :=
  tagsOK_same (tagsOK_focus h c) (same_arrange cfg _ m)

theorem tagsOK_selmon {cfg : Config} {s : State} (h : TagsOK cfg s) (m : Nat) :
    TagsOK cfg { s with selmon := m } :=
  tagsOK_sub h rfl (fun _ => rfl) (fun _ => rfl) (fun i hi _ hw => ⟨i, hi, hw⟩) (fun _ => rfl)

theorem tagsOK_netClientList {cfg : Config} {s : State} (h : TagsOK cfg s) (l : List Nat) :
    TagsOK cfg { s with netClientList := l } :=
  tagsOK_sub h rfl (fun _ => rfl) (fun _ => rfl) (fun i hi _ hw => ⟨i, hi, hw⟩) (fun _ => rfl)

theorem tagsOK_xhints {cfg : Config} {s : State} (h : TagsOK cfg s)
    (f : Nat → Option XSizeHints) : TagsOK cfg { s with xhints := f } :=
  tagsOK_sub h rfl (fun _ => rfl) (fun _ => rfl) (fun i hi _ hw => ⟨i, hi, hw⟩) (fun _ => rfl)

theorem tagsOK_detach {cfg : Config} {s : State} (h : TagsOK cfg s) (c : Nat) :
    TagsOK cfg (detach s c) := by
  refine tagsOK_sub h rfl ?_ ?_ ?_ (fun _ => rfl)
  · intro i; rw [detach_mon]; split_ifs <;> rfl
  · intro i; rw [detach_mon]; split_ifs <;> rfl
  · intro i hi w hw
    rw [detach_mon] at hw
    split_ifs at hw
    · exact ⟨i, hi, List.mem_of_mem_erase hw⟩
    · exact ⟨i, hi, hw⟩

theorem tagsOK_detachstack {cfg : Config} {s : State} (h : TagsOK cfg s) (c : Nat) :
    TagsOK cfg (detachstack s c) := by
  refine tagsOK_sub h (detachstack_nmons s c) ?_ ?_ ?_ (fun w => by rw [detachstack_cl])
  · intro i; rw [detachstack_mon]; split_ifs <;> rfl
  · intro i; rw [detachstack_mon]; split_ifs <;> rfl
  · intro i hi w hw
    rw [detachstack_mon] at hw
    split_ifs at hw <;> exact ⟨i, hi, hw⟩

theorem tagsOK_attachstack {cfg : Config} {s : State} (h : TagsOK cfg s) (c : Nat) :
    TagsOK cfg (attachstack s c) := by
  refine tagsOK_sub h rfl ?_ ?_ ?_ (fun _ => rfl)
  · intro i; rw [attachstack_mon]; split_ifs <;> rfl
  · intro i; rw [attachstack_mon]; split_ifs <;> rfl
  · intro i hi w hw
    rw [attachstack_mon] at hw
    split_ifs at hw <;> exact ⟨i, hi, hw⟩

/-- Linking a client with well-formed tags into a client list. -/
theorem tagsOK_attach {cfg : Config} {s : State} (h : TagsOK cfg s) (c : Nat)
    (hc : MaskOK cfg (s.cl c).tags) : TagsOK cfg (attach s c) := by
  refine ⟨fun i hi => ?_, fun w hw => ?_⟩
  · rw [attach_mon]
    split_ifs <;> exact h.1 i hi
  · obtain ⟨i, hi, hm⟩ := hw
    rw [attach_mon] at hm
    rw [attach_cl]
    split_ifs at hm
    · rcases List.mem_cons.mp hm with e | e
      · rw [e]; exact hc
      · exact h.2 w ⟨i, hi, e⟩
    · exact h.2 w ⟨i, hi, hm⟩

/-- Writing the record of a client whose new tags are well-formed if it is
managed. -/
theorem tagsOK_setCl {cfg : Config} {s : State} (h : TagsOK cfg s) (c : Nat) (v : Client)
    (hv : Managed s c → MaskOK cfg v.tags) : TagsOK cfg (s.setCl c v) := by
  refine ⟨h.1, fun w hw => ?_⟩
  rw [setCl_cl]
  split_ifs with hwc
  · exact hv (hwc ▸ hw)
  · exact h.2 w hw

/-- Writing the record of a monitor: same clients, well-formed tag sets. -/
theorem tagsOK_setMon {cfg : Config} {s : State} (h : TagsOK cfg s) (m : Nat) (v : Monitor)
    (hc : v.clients = (s.mon m).clients)
    (hv : m < s.nmons → MaskOK cfg v.tagset0 ∧ MaskOK cfg v.tagset1) :
    TagsOK cfg (s.setMon m v) := by
  refine ⟨fun i hi => ?_, fun w hw => ?_⟩
  · rw [setMon_mon]
    split_ifs with him
    · exact hv (him ▸ hi)
    · exact h.1 i hi
  · obtain ⟨i, hi, hm⟩ := hw
    rw [setMon_mon] at hm
    refine h.2 w ⟨i, hi, ?_⟩
    split_ifs at hm with him
    · rw [him, ← hc]; exact hm
    · exact hm

theorem tagsOK_focusmon {cfg : Config} {s : State} (h : TagsOK cfg s) (dir : Int) :
    TagsOK cfg (focusmon s dir) := by
  unfold focusmon
  simp only
  split_ifs
  · exact h
  · exact h
  · exact tagsOK_focus (tagsOK_selmon h _) none

theorem tagsOK_focusstack {cfg : Config} {s : State} (h : TagsOK cfg s) (dir : Int) :
    TagsOK cfg (focusstack cfg s dir) := by
  unfold focusstack
  split
  · exact h
  · split_ifs
    · exact h
    · split
      · exact tagsOK_focus h _
      · exact h

theorem tagsOK_pop {cfg : Config} {s : State} (h : TagsOK cfg s) {c : Nat}
    (hc : Managed s c) : TagsOK cfg (pop cfg s c) := by
  unfold pop
  exact tagsOK_focus_arrange (tagsOK_attach (tagsOK_detach h c) c (h.2 c hc)) _ _

theorem tagsOK_zoom {cfg : Config} {s : State} (hs : ListsOK s) (h : TagsOK cfg s) :
    TagsOK cfg (zoom cfg s) := by
  unfold zoom
  split
  · exact h
  · rename_i c hsel
    have hc : Managed s c :=
      ⟨s.selmon, hs.1, ((hs.2 _ hs.1).2.2.1 c).mpr ((hs.2 _ hs.1).2.2.2.2.1 c hsel)⟩
    split_ifs
    · exact h
    · split
      · rename_i t rest ht
        split_ifs
        · split
          · exact h
          · rename_i t2 rest2 ht2
            apply tagsOK_pop h
            refine ⟨s.selmon, hs.1, ?_⟩
            have h1 : t2 ∈ nexttiled s rest := by rw [ht2]; exact List.mem_cons_self _ _
            have h2 : t2 ∈ rest := (List.dropWhile_sublist _).subset h1
            have h3 : t2 ∈ nexttiled s (s.mon s.selmon).clients := by
              rw [ht]; exact List.mem_cons_of_mem _ h2
            exact (List.dropWhile_sublist _).subset h3
        · exact tagsOK_pop h hc
      · exact tagsOK_pop h hc

theorem tagsOK_unmanage {cfg : Config} {s : State} (h : TagsOK cfg s) (c : Nat) :
    TagsOK cfg (unmanage cfg s c) := by
  unfold unmanage updateclientlist
  exact tagsOK_same (tagsOK_netClientList
    (tagsOK_focus (tagsOK_detachstack (tagsOK_detach h c) c) none) _) (same_arrange cfg _ _)

theorem tagsOK_sendmon {cfg : Config} {s : State} (h : TagsOK cfg s) (c : Nat) {m : Nat}
    (hm : m < s.nmons) : TagsOK cfg (sendmon cfg s c m) := by
  unfold sendmon
  split_ifs
  · exact h
  · simp only
    have h1 : TagsOK cfg (detachstack (detach s c) c) :=
      tagsOK_detachstack (tagsOK_detach h c) c
    have hn1 : m < (detachstack (detach s c) c).nmons := by
      rw [detachstack_nmons, detach_nmons]; exact hm
    generalize detachstack (detach s c) c = s1 at h1 hn1 ⊢
    have hcur : MaskOK cfg (s1.mon m).curtags := maskOK_curtags (h1.1 m hn1)
    have h2 : TagsOK cfg (s1.setCl c { s1.cl c with mon := m, tags := (s1.mon m).curtags }) :=
      tagsOK_setCl h1 c _ (fun _ => hcur)
    exact tagsOK_same (tagsOK_focus (tagsOK_attachstack (tagsOK_attach h2 c
      (by rw [setCl_cl, if_pos rfl]; exact hcur)) c) none) (same_arrangeAll cfg _)

theorem tagsOK_tagmon {cfg : Config} {s : State} (hs : ListsOK s) (h : TagsOK cfg s)
    (dir : Int) : TagsOK cfg (tagmon cfg s dir) := by
  unfold tagmon
  split
  · exact h
  · split_ifs
    · exact h
    · exact tagsOK_sendmon h _ (dirtomon_lt hs.1 dir)

theorem setTagset_banks (m : Monitor) (i v : Nat) :
    ((m.setTagset i v).tagset0 = v ∧ (m.setTagset i v).tagset1 = m.tagset1 ∨
     (m.setTagset i v).tagset0 = m.tagset0 ∧ (m.setTagset i v).tagset1 = v) ∧
    (m.setTagset i v).clients = m.clients := by
  unfold Monitor.setTagset
  split_ifs
  · exact ⟨Or.inl ⟨rfl, rfl⟩, rfl⟩
  · exact ⟨Or.inr ⟨rfl, rfl⟩, rfl⟩

/-- Storing a well-formed mask in one bank of a monitor. -/
theorem tagsOK_setTagset {cfg : Config} {s : State} (h : TagsOK cfg s) (m : Nat)
    (v0 : Monitor) (hc : v0.clients = (s.mon m).clients)
    (hv0 : m < s.nmons → MaskOK cfg v0.tagset0 ∧ MaskOK cfg v0.tagset1) (i v : Nat)
    (hv : m < s.nmons → MaskOK cfg v) : TagsOK cfg (s.setMon m (v0.setTagset i v)) := by
  obtain ⟨hb, hcl⟩ := setTagset_banks v0 i v
  apply tagsOK_setMon h m _ (hcl.trans hc)
  intro hm
  rcases hb with ⟨e0, e1⟩ | ⟨e0, e1⟩
  · rw [e0, e1]; exact ⟨hv hm, (hv0 hm).2⟩
  · rw [e0, e1]; exact ⟨(hv0 hm).1, hv hm⟩

theorem tagsOK_view {cfg : Config} {s : State} (h : TagsOK cfg s) (ui : Nat) :
    TagsOK cfg (view cfg s ui) := by
  by_cases he : ui &&& TAGMASK cfg = (s.mon s.selmon).tagset (s.mon s.selmon).seltags
  · rw [view_same cfg s ui he]; exact h
  · unfold view
    simp only
    rw [if_neg he]
    apply tagsOK_focus_arrange
    split_ifs with hz
    · refine tagsOK_setTagset h _ _ ?_ ?_ _ _ (fun _ => maskOK_and cfg ui hz)
      · rfl
      · exact fun hm => h.1 _ hm
    · refine tagsOK_setMon h _ _ ?_ ?_
      · rfl
      · exact fun hm => h.1 _ hm

theorem tagsOK_toggleview {cfg : Config} {s : State} (h : TagsOK cfg s) (ui : Nat) :
    TagsOK cfg (toggleview cfg s ui) := by
  by_cases he : (s.mon s.selmon).curtags ^^^ (ui &&& TAGMASK cfg) = 0
  · rw [toggleview_reject cfg s ui he]; exact h
  · rw [toggleview_accept cfg s ui he]
    apply tagsOK_focus_arrange
    refine tagsOK_setTagset h _ _ ?_ ?_ _ _
      (fun hm => maskOK_xor cfg ui (maskOK_curtags (h.1 _ hm)).2 he)
    · rfl
    · exact fun hm => h.1 _ hm

theorem tagsOK_tag {cfg : Config} {s : State} (h : TagsOK cfg s) (ui : Nat) :
    TagsOK cfg (tag cfg s ui) := by
  unfold tag
  split
  · exact h
  · split_ifs with hz
    · exact tagsOK_focus_arrange (tagsOK_setCl h _ _ (fun _ => maskOK_and cfg ui hz)) _ _
    · exact h

theorem tagsOK_toggletag {cfg : Config} {s : State} (h : TagsOK cfg s) (ui : Nat) :
    TagsOK cfg (toggletag cfg s ui) := by
  unfold toggletag
  split
  · exact h
  · simp only
    split_ifs with hz
    · exact tagsOK_focus_arrange
        (tagsOK_setCl h _ _ (fun hm => maskOK_xor cfg ui (h.2 _ hm).2 hz)) _ _
    · exact h

/-- `tag` with a mask outside `TAGMASK` changes nothing. -/
theorem tag_outside_mask (cfg : Config) (s : State) (ui : Nat)
    (h : ui &&& TAGMASK cfg = 0) : tag cfg s ui = s := by
  unfold tag
  split
  · rfl
  · rw [if_neg (fun hh => hh h)]

/-- The tags `applyrules` leaves are well-formed. -/
theorem applyrules_maskOK (cfg : Config) (s : State) (c : Nat) (rules : List Rule)
    (hb : ∀ i, i < s.nmons → MaskOK cfg (s.mon i).tagset0 ∧ MaskOK cfg (s.mon i).tagset1)
    (hc : (s.cl c).mon < s.nmons) :
    MaskOK cfg ((applyrules cfg s c rules).cl c).tags := by
  unfold applyrules
  simp only [setCl_cl, if_true]
  split_ifs with ht
  · exact maskOK_and cfg _ ht
  · exact maskOK_curtags (hb _ (applyrules_fold_mon s rules _ hc))

theorem applyrules_fold_tags (cfg : Config) (s : State) (rules : List Rule)
    (h : ∀ r, r ∈ rules → r.tags &&& TAGMASK cfg = 0) :
    ∀ c0 : Client, c0.tags &&& TAGMASK cfg = 0 →
      (rules.foldl (fun a r =>
        match (List.range s.nmons).find? (fun i => (s.mon i).num == r.monitor) with
        | some m => { ({ a with isfloating := r.isfloating, tags := a.tags ||| r.tags } : Client)
                      with mon := m }
        | none => { a with isfloating := r.isfloating, tags := a.tags ||| r.tags }) c0).tags
        &&& TAGMASK cfg = 0 := by
  induction rules with
  | nil => intro c0 h0; exact h0
  | cons r rest ih =>
    intro c0 h0
    simp only [List.foldl_cons]
    apply ih (fun q hq => h q (List.mem_cons_of_mem _ hq))
    have hr := h r (List.mem_cons_self _ _)
    split <;> exact or_and_zero h0 hr

/-- When no matching rule has a tag inside `TAGMASK`, `applyrules` gives the
client the current tag set of its monitor. -/
theorem applyrules_fallback (cfg : Config) (s : State) (c : Nat) (rules : List Rule)
    (h : ∀ r, r ∈ rules → r.tags &&& TAGMASK cfg = 0) :
    ((applyrules cfg s c rules).cl c).tags =
      (s.mon ((applyrules cfg s c rules).cl c).mon).curtags := by
  unfold applyrules
  simp only [setCl_cl, if_true]
  rw [if_neg]
  intro hh
  exact hh (applyrules_fold_tags cfg s rules h _ (Nat.zero_and _))

theorem manageNew_maskOK (cfg : Config) {s : State} (hs : ListsOK s) (h : TagsOK cfg s)
    (w : Nat) (wa : XWindowAttributes) (inp : ManageInput) :
    MaskOK cfg ((manageNew cfg s w wa inp).cl w).tags := by
  unfold manageNew
  simp only
  split
  · rename_i t ht
    rw [setCl_cl, if_pos rfl]
    have htm : Managed s t := by
      rw [← wintoclient_eq_some]
      split at ht
      · rename_i tw _
        rcases wintoclient_cases s tw with h1 | h1
        · rw [h1] at ht; injection ht with ht; subst ht; exact h1
        · rw [h1] at ht; cases ht
      · cases ht
    exact h.2 t htm
  · exact applyrules_maskOK cfg _ w inp.rules h.1 (by rw [setCl_cl, if_pos rfl]; exact hs.1)

theorem setfullscreen_ctags (cfg : Config) (s : State) (c : Nat) (b : Bool) (d : Nat) :
    ((setfullscreen cfg s c b).cl d).tags = (s.cl d).tags := by
  unfold setfullscreen
  simp only
  split_ifs
  · unfold resizeclient
    simp only [setCl_cl]
    split_ifs with hd
    · rw [hd]
    · rfl
  · rw [(same_arrange cfg _ _).ctags]
    unfold resizeclient
    simp only [setCl_cl]
    split_ifs with hd
    · rw [hd]
    · rfl
  · rfl

theorem manageInit_ctags (cfg : Config) (s : State) (w : Nat) (wa : XWindowAttributes)
    (inp : ManageInput) :
    ((manageInit cfg s w wa inp).cl w).tags = ((manageNew cfg s w wa inp).cl w).tags := by
  unfold manageInit
  simp only
  generalize manageNew cfg s w wa inp = s1
  have e2 : ((manageGeom cfg s1 w).cl w).tags = (s1.cl w).tags := by
    unfold manageGeom
    simp only [setCl_cl, if_true]
    split_ifs <;> rfl
  generalize manageGeom cfg s1 w = s2 at e2 ⊢
  have e3 : ((updatewindowtype cfg s2 w inp.fullscreen inp.dialog).cl w).tags =
      (s2.cl w).tags := by
    unfold updatewindowtype
    simp only
    split_ifs
    all_goals first
      | exact setfullscreen_ctags cfg s2 w true w
      | rfl
      | (rw [setCl_cl, if_pos rfl]
         first
           | done
           | exact setfullscreen_ctags cfg s2 w true w)
  generalize updatewindowtype cfg s2 w inp.fullscreen inp.dialog = s3 at e3 ⊢
  have e4 : ((updatesizehints s3 w).cl w).tags = (s3.cl w).tags :=
    (same_updatesizehints s3 w).ctags w
  generalize updatesizehints s3 w = s4 at e4 ⊢
  have e5 : ((updatewmhints s4 w inp.wmhints).cl w).tags = (s4.cl w).tags := by
    unfold updatewmhints
    split
    · rfl
    · simp only [setCl_cl, if_true]
      split_ifs
      · rfl
      · rw [setCl_cl, if_pos rfl]
  generalize updatewmhints s4 w inp.wmhints = s5 at e5 ⊢
  have e6 : ((manageFloat s5 w inp.trans).cl w).tags = (s5.cl w).tags := by
    unfold manageFloat
    simp only
    split_ifs
    · rw [setCl_cl, if_pos rfl]
    · rfl
  rw [e6, e5, e4, e3, e2]

theorem tagsOK_manage (cfg : Config) {s : State} (hs : ListsOK s) (h : TagsOK cfg s)
    (w : Nat) (wa : XWindowAttributes) (inp : ManageInput) :
    TagsOK cfg (manage cfg s w wa inp) := by
  obtain ⟨a1, a2, _, _, a5, _⟩ := manageInit_frame cfg hs w wa inp
  have hw : MaskOK cfg ((manageInit cfg s w wa inp).cl w).tags := by
    rw [manageInit_ctags]; exact manageNew_maskOK cfg hs h w wa inp
  have h6 : TagsOK cfg (manageInit cfg s w wa inp) := by
    refine ⟨fun i hi => ?_, fun c hc => ?_⟩
    · rw [a2]; exact h.1 i (a1 ▸ hi)
    · by_cases hcw : c = w
      · rw [hcw]; exact hw
      · rw [a5 c hcw]
        obtain ⟨i, hi, hm⟩ := hc
        exact h.2 c ⟨i, a1 ▸ hi, a2 ▸ hm⟩
  unfold manage
  simp only
  generalize manageInit cfg s w wa inp = s6 at hw h6 ⊢
  apply tagsOK_focus
  apply tagsOK_same _ (same_arrange cfg _ _)
  have h8 := tagsOK_netClientList (tagsOK_attachstack (tagsOK_attach h6 w hw) w)
    ((attachstack (attach s6 w) w).netClientList ++ [w])
  refine tagsOK_setMon h8 _ _ ?_ ?_
  · rfl
  · exact fun hm => h8.1 _ hm

theorem tagsOK_initial (cfg : Config) (hn : 0 < cfg.ntags) {s : State} (h : Initial s) :
    TagsOK cfg s := by
  refine ⟨fun i hi => ?_, fun c hc => ?_⟩
  · obtain ⟨_, _, _, _, b5, b6⟩ := h.2.2.2 i hi
    rw [b5, b6]
    exact ⟨maskOK_one cfg hn, maskOK_one cfg hn⟩
  · obtain ⟨i, hi, hm⟩ := hc
    rw [(h.2.2.2 i hi).1] at hm
    cases hm

theorem tagsOK_step (cfg : Config) {s t : State} (hs : Inv s) (h : TagsOK cfg s)
    (hst : Step cfg s t) : TagsOK cfg t := by
  cases hst with
  | manage w wa inp hw => exact tagsOK_manage cfg hs.1 h w wa inp
  | unmanage c hc => exact tagsOK_unmanage h c
  | focus c hc => exact tagsOK_focus h _
  | focusNull => exact tagsOK_focus h _
  | focusmon dir => exact tagsOK_focusmon h dir
  | focusstack dir => exact tagsOK_focusstack h dir
  | zoom => exact tagsOK_zoom hs.1 h
  | sendmon c m hc hm => exact tagsOK_sendmon h c hm
  | tagmon dir => exact tagsOK_tagmon hs.1 h dir
  | view ui => exact tagsOK_view h ui
  | toggleview ui => exact tagsOK_toggleview h ui
  | tag ui => exact tagsOK_tag h ui
  | toggletag ui => exact tagsOK_toggletag h ui
  | xprop f => exact tagsOK_xhints h f

theorem tagsOK_reachable (cfg : Config) (hn : 0 < cfg.ntags) {s : State}
    (h : Reachable cfg s) : TagsOK cfg s := by
  induction h with
  | init s h => exact tagsOK_initial cfg hn h
  | step s t hr hst ih => exact tagsOK_step cfg (inv_reachable cfg hr) ih hst

/-- C30: with at least one tag configured, in every state reached from a
state as `setup` leaves it (monitors from `createmon`, both tag sets `1`) by
the handlers and actions of `Step` (among them `manage` with `applyrules`,
`sendmon`, `tagmon`, `view`, `toggleview`, `tag`, `toggletag`), both tag sets
of every monitor are nonzero and within `TAGMASK`, and the tags of every
managed client are nonzero and within `TAGMASK`.  `tag` with
`mask & TAGMASK == 0` changes nothing, and `applyrules` gives the client the
current tag set of its monitor when no matching rule has a tag inside
`TAGMASK`. -/
theorem tag_masks_well_formed (cfg : Config) (s : State) (hn : 0 < cfg.ntags)
    (h : Reachable cfg s) :
    (∀ i, i < s.nmons →
      (s.mon i).tagset0 ≠ 0 ∧ (s.mon i).tagset0 &&& TAGMASK cfg = (s.mon i).tagset0 ∧
      (s.mon i).tagset1 ≠ 0 ∧ (s.mon i).tagset1 &&& TAGMASK cfg = (s.mon i).tagset1) ∧
    (∀ c, Managed s c →
      (s.cl c).tags ≠ 0 ∧ (s.cl c).tags &&& TAGMASK cfg = (s.cl c).tags) ∧
    (∀ ui, ui &&& TAGMASK cfg = 0 → tag cfg s ui = s) ∧
    (∀ (c : Nat) (rules : List Rule), (∀ r, r ∈ rules → r.tags &&& TAGMASK cfg = 0) →
      ((applyrules cfg s c rules).cl c).tags =
        (s.mon ((applyrules cfg s c rules).cl c).mon).curtags) := by
  have ht := tagsOK_reachable cfg hn h
  exact ⟨fun i hi => ⟨(ht.1 i hi).1.1, (ht.1 i hi).1.2, (ht.1 i hi).2.1, (ht.1 i hi).2.2⟩,
    fun c hc => ht.2 c hc, tag_outside_mask cfg s,
    fun c rules hr => applyrules_fallback cfg s c rules hr⟩

/-- C30 at the state with the three windows managed, with nine tags. -/
theorem tag_masks_well_formed_witness :
    (∀ i, i < exABC.nmons →
      (exABC.mon i).tagset0 ≠ 0 ∧
      (exABC.mon i).tagset0 &&& TAGMASK exCfg = (exABC.mon i).tagset0 ∧
      (exABC.mon i).tagset1 ≠ 0 ∧
      (exABC.mon i).tagset1 &&& TAGMASK exCfg = (exABC.mon i).tagset1) ∧
    (∀ c, Managed exABC c →
      (exABC.cl c).tags ≠ 0 ∧ (exABC.cl c).tags &&& TAGMASK exCfg = (exABC.cl c).tags) ∧
    (∀ ui, ui &&& TAGMASK exCfg = 0 → tag exCfg exABC ui = exABC) ∧
    (∀ (c : Nat) (rules : List Rule), (∀ r, r ∈ rules → r.tags &&& TAGMASK exCfg = 0) →
      ((applyrules exCfg exABC c rules).cl c).tags =
        (exABC.mon ((applyrules exCfg exABC c rules).cl c).mon).curtags) :=
  tag_masks_well_formed exCfg exABC (by decide) exABC_reachable

end Dwm


/-! ## The heights of a column of `tile` -/

namespace Dwm

theorem specColumn_length (wy wh : Int) :
    ∀ (k : Nat) (used : Int), (specColumn wy wh k used).length = k := by
  intro k
  induction k with
  | zero => intro used; rfl
  | succ k ih => intro used; simp only [specColumn, List.length_cons, ih]

/-- The outer heights of a column worded as in the specification add up to
what was left of the height. -/
theorem specColumn_sum (wy wh : Int) :
    ∀ (k : Nat) (used : Int), 1 ≤ k →
      ((specColumn wy wh k used).map Prod.snd).sum = wh - used := by
  intro k
  induction k with
  | zero => intro used hk; omega
  | succ k ih =>
    intro used hk
    rcases Nat.eq_zero_or_pos k with h0 | h0
    · subst h0
      simp only [specColumn, List.map_cons, List.map_nil, List.sum_cons, List.sum_nil,
        Nat.cast_zero, zero_add, Int.ediv_one, add_zero]
    · simp only [specColumn, List.map_cons, List.sum_cons]
      rw [ih _ h0]
      omega

theorem specColumn_used (wy wh : Int) (k : Nat) (u v : Int) (h : 1 ≤ k → u = v) :
    specColumn wy wh k u = specColumn wy wh k v := by
  rcases Nat.eq_zero_or_pos k with h0 | h0
  · subst h0; rfl
  · rw [h h0]

/-- After a cell of a column with at least two clients left, the offset moves
on by the height of the cell. -/
theorem cell_next (wh my d : Int) (h0 : my ≤ wh) (hd : 2 ≤ d) :
    (if my + (wh - my) / d < wh then my + (wh - my) / d else my) = my + (wh - my) / d := by
  split_ifs with h
  · rfl
  · rcases eq_or_lt_of_le h0 with e | e
    · rw [e]; simp
    · exfalso
      apply h
      have := Int.ediv_lt_of_lt_mul (a := wh - my) (b := wh - my) (c := d) (by omega)
        (by nlinarith)
      omega

/-- After `resize` the outer height of the client is the height
`applysizehints` made of the request plus the two borders. -/
theorem placement_height (cfg : Config) (s : State) (d : Nat) (x y w h : Int) :
    HEIGHT ((resize cfg s d x y w h false).cl d) =
      (placement cfg s d x y w h).ah + 2 * (s.cl d).bw := by
  unfold HEIGHT
  rw [(resize_geom cfg s d x y w h false).2.2.2, (same_resize cfg s d x y w h false).cbw d]
  rfl

/-- The position statements of `applysizehints` leave a position inside the
work area alone when the border width is not negative. -/
theorem clampAxis_keeps (scr lo len outer bw p d : Int) (hp : p < lo + len) (hlo : lo ≤ p)
    (hd : 1 ≤ d) (hbw : 0 ≤ bw) : clampAxis false scr lo len outer bw p d = p := by
  unfold clampAxis
  simp only [Bool.false_eq_true, if_false]
  rw [if_neg (by omega), if_neg (by omega)]

theorem placement_ay (cfg : Config) (s : State) (d : Nat) (x y w h : Int)
    (hy0 : (s.mon (s.cl d).mon).wy ≤ y)
    (hy1 : y < (s.mon (s.cl d).mon).wy + (s.mon (s.cl d).mon).wh)
    (hbw : 0 ≤ (s.cl d).bw) : (placement cfg s d x y w h).ay = y := by
  unfold placement hintRect
  simp only
  split_ifs <;>
    (simp only [clampRect]
     exact clampAxis_keeps _ _ _ _ _ _ _ hy1 hy0 (le_max_left _ _) hbw)

/-- One step of a column of `tile`: the offset after a cell whose height is not
altered. -/
theorem offset_next (wh my cell : Int) (h0 : 0 ≤ my) (h1 : my = 0 ∨ my < wh) (hc : 0 ≤ cell) :
    0 ≤ (if my + cell < wh then my + cell else my) ∧
    ((if my + cell < wh then my + cell else my) = 0 ∨
      (if my + cell < wh then my + cell else my) < wh) := by
  split_ifs with h
  · exact ⟨by omega, Or.inr h⟩
  · exact ⟨h0, h1⟩

/-- The master column in the loop of `tile`: when `applysizehints` returns the
heights requested for the master column unchanged, the `(y, outer height)`
pairs of its requests are the column from the offset `my` as the specification
words it, whatever happens to the stack column. -/
theorem tileLoop_master (cfg : Config) (m n : Nat) (mw : Int) (s0 : State)
    (hnm : 0 ≤ (s0.mon m).nmaster) (hwh : 0 ≤ (s0.mon m).wh) (l : List Nat) :
    ∀ (i : Nat) (my ty : Int) (s : State), Same s0 s →
      0 ≤ my → (my = 0 ∨ my < (s0.mon m).wh) →
      i + (l.filter (fun c => !((s0.cl c).isfloating || !ISVISIBLE s0 c))).length = n →
      (∀ p, p ∈ (tileLoop cfg m n mw l i my ty s).2.take
          (min n (s0.mon m).nmaster.toNat - i) → p.ah = p.h) →
      ((tileLoop cfg m n mw l i my ty s).2.take (min n (s0.mon m).nmaster.toNat - i)).map
          (fun p => (p.y, p.ah + 2 * (s0.cl p.c).bw)) =
        specColumn (s0.mon m).wy (s0.mon m).wh (min n (s0.mon m).nmaster.toNat - i) my ∧
      (0 < (s0.mon m).wh →
        ∀ p, p ∈ (tileLoop cfg m n mw l i my ty s).2.take
            (min n (s0.mon m).nmaster.toNat - i) →
          0 ≤ (s0.cl p.c).bw → (s0.cl p.c).mon = m → p.ay = p.y) := by
  induction l with
  | nil =>
    intro i my ty s _ _ _ hcount _
    simp only [List.filter_nil, List.length_nil, Nat.add_zero] at hcount
    have e1 : min n (s0.mon m).nmaster.toNat - i = 0 := by omega
    rw [e1]
    exact ⟨rfl, fun _ p hp => by simp at hp⟩
  | cons d rest ih =>
    intro i my ty s hs hmy0 hmy1 hcount hun
    have hskip := hs.skip d
    unfold tileLoop at hun ⊢
    simp only at hun ⊢
    by_cases hsk : ((s.cl d).isfloating || !ISVISIBLE s d) = true
    · rw [if_pos hsk] at hun ⊢
      rw [hskip] at hsk
      rw [List.filter_cons_of_neg (by simp [hsk])] at hcount
      exact ih i my ty s hs hmy0 hmy1 hcount hun
    · rw [if_neg hsk] at hun ⊢
      rw [hskip] at hsk
      rw [List.filter_cons_of_pos (by simpa using hsk)] at hcount
      rw [List.length_cons] at hcount
      by_cases hi : (i : Int) < (s.mon m).nmaster
      · simp only [if_pos hi] at hun ⊢
        have hi0 : (i : Int) < (s0.mon m).nmaster := by rw [← hs.nmaster m]; exact hi
        have hdiv : min (n : Int) (s.mon m).nmaster - i =
            ((min n (s0.mon m).nmaster.toNat - (i + 1) : Nat) : Int) + 1 := by
          rw [hs.nmaster m]; omega
        have hk : min n (s0.mon m).nmaster.toNat - i =
            (min n (s0.mon m).nmaster.toNat - (i + 1)) + 1 := by omega
        have hmyle : my ≤ (s0.mon m).wh := by omega
        obtain ⟨hc0, _⟩ := cell_bounds ((s.mon m).wh - my)
          (min (n : Int) (s.mon m).nmaster - i) (by rw [hs.wh m]; omega) (by omega)
        have hH := placement_height cfg s d (s.mon m).wx ((s.mon m).wy + my)
          (mw - 2 * (s.cl d).bw)
          (((s.mon m).wh - my) / (min (n : Int) (s.mon m).nmaster - i) - 2 * (s.cl d).bw)
        have hs1 := same_trans hs (same_resize cfg s d (s.mon m).wx ((s.mon m).wy + my)
          (mw - 2 * (s.cl d).bw)
          (((s.mon m).wh - my) / (min (n : Int) (s.mon m).nmaster - i) - 2 * (s.cl d).bw)
          false)
        rw [hk] at hun ⊢
        rw [List.take_succ_cons] at hun ⊢
        have hp := hun _ (List.mem_cons_self _ _)
        have hph : (placement cfg s d (s.mon m).wx ((s.mon m).wy + my)
            (mw - 2 * (s.cl d).bw)
            (((s.mon m).wh - my) / (min (n : Int) (s.mon m).nmaster - i) -
              2 * (s.cl d).bw)).ah =
            ((s.mon m).wh - my) / (min (n : Int) (s.mon m).nmaster - i) - 2 * (s.cl d).bw :=
          hp
        rw [hph] at hH
        have hH2 : HEIGHT ((resize cfg s d (s.mon m).wx ((s.mon m).wy + my)
            (mw - 2 * (s.cl d).bw)
            (((s.mon m).wh - my) / (min (n : Int) (s.mon m).nmaster - i) - 2 * (s.cl d).bw)
            false).cl d) = ((s.mon m).wh - my) / (min (n : Int) (s.mon m).nmaster - i) := by
          rw [hH]; omega
        rw [hH2] at hun ⊢
        obtain ⟨o1, o2⟩ := offset_next (s.mon m).wh my
          (((s.mon m).wh - my) / (min (n : Int) (s.mon m).nmaster - i)) hmy0
          (by rw [hs.wh m]; exact hmy1) hc0
        obtain ⟨ih1, ih2⟩ := ih (i + 1) _ ty _ hs1 o1
          (o2.imp id (fun e => by rw [← hs.wh m]; exact e)) (by omega)
          (fun p hp => hun p (List.mem_cons_of_mem _ hp))
        constructor
        · rw [List.map_cons, ih1, specColumn]
          congr 1
          · show ((s.mon m).wy + my,
              (placement cfg s d (s.mon m).wx ((s.mon m).wy + my)
                (mw - 2 * (s.cl d).bw)
                (((s.mon m).wh - my) / (min (n : Int) (s.mon m).nmaster - i) -
                  2 * (s.cl d).bw)).ah + 2 * (s0.cl d).bw) = _
            rw [hph, hs.cbw d, hs.wy m, hs.wh m, hdiv]
            congr 1
            omega
          · apply specColumn_used
            intro hk1
            rw [hs.wh m, hdiv]
            exact cell_next _ _ _ hmyle (by omega)
        · intro hpos p hp hbw hmon
          rcases List.mem_cons.mp hp with e | e
          · subst e
            have hbw2 : 0 ≤ (s.cl d).bw := by rw [hs.cbw d]; exact hbw
            have hmon2 : (s.cl d).mon = m := by rw [hs.cmon d]; exact hmon
            apply placement_ay cfg s d _ _ _ _ _ _ hbw2
            · rw [hmon2]; omega
            · rw [hmon2, hs.wh m]; omega
          · exact ih2 hpos p e hbw hmon
      · simp only [if_neg hi] at hun ⊢
        have hi0 : ¬ (i : Int) < (s0.mon m).nmaster := by rw [← hs.nmaster m]; exact hi
        have hx : min n (s0.mon m).nmaster.toNat - i = 0 := by omega
        rw [hx]
        exact ⟨rfl, fun _ p hp => by simp at hp⟩

/-- The stack column in the loop of `tile`: when `applysizehints` returns the
heights requested for the stack column unchanged, the `(y, outer height)`
pairs of its requests are the column from the offset `ty` as the specification
words it, whatever happens to the master column. -/
theorem tileLoop_stack (cfg : Config) (m n : Nat) (mw : Int) (s0 : State)
    (hnm : 0 ≤ (s0.mon m).nmaster) (hwh : 0 ≤ (s0.mon m).wh) (l : List Nat) :
    ∀ (i : Nat) (my ty : Int) (s : State), Same s0 s →
      0 ≤ ty → (ty = 0 ∨ ty < (s0.mon m).wh) →
      i + (l.filter (fun c => !((s0.cl c).isfloating || !ISVISIBLE s0 c))).length = n →
      (∀ p, p ∈ (tileLoop cfg m n mw l i my ty s).2.drop
          (min n (s0.mon m).nmaster.toNat - i) → p.ah = p.h) →
      ((tileLoop cfg m n mw l i my ty s).2.drop (min n (s0.mon m).nmaster.toNat - i)).map
          (fun p => (p.y, p.ah + 2 * (s0.cl p.c).bw)) =
        specColumn (s0.mon m).wy (s0.mon m).wh
          (n - max i (min n (s0.mon m).nmaster.toNat)) ty ∧
      (0 < (s0.mon m).wh →
        ∀ p, p ∈ (tileLoop cfg m n mw l i my ty s).2.drop
            (min n (s0.mon m).nmaster.toNat - i) →
          0 ≤ (s0.cl p.c).bw → (s0.cl p.c).mon = m → p.ay = p.y) := by
  induction l with
  | nil =>
    intro i my ty s _ _ _ hcount _
    simp only [List.filter_nil, List.length_nil, Nat.add_zero] at hcount
    have e2 : n - max i (min n (s0.mon m).nmaster.toNat) = 0 := by omega
    rw [e2]
    exact ⟨by simp [tileLoop, specColumn], fun _ p hp => by simp [tileLoop] at hp⟩
  | cons d rest ih =>
    intro i my ty s hs hty0 hty1 hcount hun
    have hskip := hs.skip d
    unfold tileLoop at hun ⊢
    simp only at hun ⊢
    by_cases hsk : ((s.cl d).isfloating || !ISVISIBLE s d) = true
    · rw [if_pos hsk] at hun ⊢
      rw [hskip] at hsk
      rw [List.filter_cons_of_neg (by simp [hsk])] at hcount
      exact ih i my ty s hs hty0 hty1 hcount hun
    · rw [if_neg hsk] at hun ⊢
      rw [hskip] at hsk
      rw [List.filter_cons_of_pos (by simpa using hsk)] at hcount
      rw [List.length_cons] at hcount
      by_cases hi : (i : Int) < (s.mon m).nmaster
      · simp only [if_pos hi] at hun ⊢
        have hi0 : (i : Int) < (s0.mon m).nmaster := by rw [← hs.nmaster m]; exact hi
        have hk : min n (s0.mon m).nmaster.toNat - i =
            (min n (s0.mon m).nmaster.toNat - (i + 1)) + 1 := by omega
        have hx : n - max i (min n (s0.mon m).nmaster.toNat) =
            n - max (i + 1) (min n (s0.mon m).nmaster.toNat) := by omega
        have hs1 := same_trans hs (same_resize cfg s d (s.mon m).wx ((s.mon m).wy + my)
          (mw - 2 * (s.cl d).bw)
          (((s.mon m).wh - my) / (min (n : Int) (s.mon m).nmaster - i) - 2 * (s.cl d).bw)
          false)
        rw [hk] at hun ⊢
        rw [List.drop_succ_cons] at hun ⊢
        rw [hx]
        exact ih (i + 1) _ ty _ hs1 hty0 hty1 (by omega) hun
      · simp only [if_neg hi] at hun ⊢
        have hi0 : ¬ (i : Int) < (s0.mon m).nmaster := by rw [← hs.nmaster m]; exact hi
        have hdiv : (n : Int) - i =
            ((n - max (i + 1) (min n (s0.mon m).nmaster.toNat) : Nat) : Int) + 1 := by omega
        have hk : n - max i (min n (s0.mon m).nmaster.toNat) =
            (n - max (i + 1) (min n (s0.mon m).nmaster.toNat)) + 1 := by omega
        have hx : min n (s0.mon m).nmaster.toNat - i = 0 := by omega
        have hx1 : min n (s0.mon m).nmaster.toNat - (i + 1) = 0 := by omega
        have htyle : ty ≤ (s0.mon m).wh := by omega
        obtain ⟨hc0, _⟩ := cell_bounds ((s.mon m).wh - ty) ((n : Int) - i)
          (by rw [hs.wh m]; omega) (by omega)
        have hH := placement_height cfg s d ((s.mon m).wx + mw) ((s.mon m).wy + ty)
          ((s.mon m).ww - mw - 2 * (s.cl d).bw)
          (((s.mon m).wh - ty) / ((n : Int) - i) - 2 * (s.cl d).bw)
        have hs1 := same_trans hs (same_resize cfg s d ((s.mon m).wx + mw) ((s.mon m).wy + ty)
          ((s.mon m).ww - mw - 2 * (s.cl d).bw)
          (((s.mon m).wh - ty) / ((n : Int) - i) - 2 * (s.cl d).bw) false)
        rw [hx] at hun ⊢
        rw [List.drop_zero] at hun ⊢
        have hp := hun _ (List.mem_cons_self _ _)
        have hph : (placement cfg s d ((s.mon m).wx + mw) ((s.mon m).wy + ty)
            ((s.mon m).ww - mw - 2 * (s.cl d).bw)
            (((s.mon m).wh - ty) / ((n : Int) - i) - 2 * (s.cl d).bw)).ah =
            ((s.mon m).wh - ty) / ((n : Int) - i) - 2 * (s.cl d).bw :=
          hp
        rw [hph] at hH
        have hH2 : HEIGHT ((resize cfg s d ((s.mon m).wx + mw) ((s.mon m).wy + ty)
            ((s.mon m).ww - mw - 2 * (s.cl d).bw)
            (((s.mon m).wh - ty) / ((n : Int) - i) - 2 * (s.cl d).bw) false).cl d) =
            ((s.mon m).wh - ty) / ((n : Int) - i) := by
          rw [hH]; omega
        rw [hH2] at hun ⊢
        obtain ⟨o1, o2⟩ := offset_next (s.mon m).wh ty
          (((s.mon m).wh - ty) / ((n : Int) - i)) hty0
          (by rw [hs.wh m]; exact hty1) hc0
        have hun2 : ∀ p, p ∈ (tileLoop cfg m n mw rest (i + 1) my
            (if ty + ((s.mon m).wh - ty) / ((n : Int) - i) < (s.mon m).wh then
              ty + ((s.mon m).wh - ty) / ((n : Int) - i) else ty)
            (resize cfg s d ((s.mon m).wx + mw) ((s.mon m).wy + ty)
              ((s.mon m).ww - mw - 2 * (s.cl d).bw)
              (((s.mon m).wh - ty) / ((n : Int) - i) - 2 * (s.cl d).bw) false)).2.drop
              (min n (s0.mon m).nmaster.toNat - (i + 1)) → p.ah = p.h := by
          intro p hp
          rw [hx1, List.drop_zero] at hp
          exact hun p (List.mem_cons_of_mem _ hp)
        obtain ⟨ih1, ih2⟩ := ih (i + 1) my _ _ hs1 o1
          (o2.imp id (fun e => by rw [← hs.wh m]; exact e)) (by omega) hun2
        rw [hx1, List.drop_zero] at ih1 ih2
        constructor
        · rw [List.map_cons, ih1, hk, specColumn]
          congr 1
          · show ((s.mon m).wy + ty,
              (placement cfg s d ((s.mon m).wx + mw) ((s.mon m).wy + ty)
                ((s.mon m).ww - mw - 2 * (s.cl d).bw)
                (((s.mon m).wh - ty) / ((n : Int) - i) - 2 * (s.cl d).bw)).ah +
                2 * (s0.cl d).bw) = _
            rw [hph, hs.cbw d, hs.wy m, hs.wh m, hdiv]
            congr 1
            omega
          · apply specColumn_used
            intro hk1
            rw [hs.wh m, hdiv]
            exact cell_next _ _ _ htyle (by omega)
        · intro hpos p hp hbw hmon
          rcases List.mem_cons.mp hp with e | e
          · subst e
            have hbw2 : 0 ≤ (s.cl d).bw := by rw [hs.cbw d]; exact hbw
            have hmon2 : (s.cl d).mon = m := by rw [hs.cmon d]; exact hmon
            apply placement_ay cfg s d _ _ _ _ _ _ hbw2
            · rw [hmon2]; omega
            · rw [hmon2, hs.wh m]; omega
          · exact ih2 hpos p e hbw hmon

/-- The `j`-th cell of a column worded as in the specification, with the
height used before it written as a sum. -/
theorem specColumn_index (wy wh : Int) :
    ∀ (k : Nat) (used : Int) (j : Nat) (q : Int × Int),
      (specColumn wy wh k used)[j]? = some q →
      q = (wy + (used + (((specColumn wy wh k used).take j).map Prod.snd).sum),
        (wh - (used + (((specColumn wy wh k used).take j).map Prod.snd).sum)) /
          ((k : Int) - j)) := by
  intro k
  induction k with
  | zero => intro used j q h; simp [specColumn] at h
  | succ k ih =>
    intro used j q h
    cases j with
    | zero =>
      simp only [specColumn, List.getElem?_cons_zero, Option.some.injEq] at h
      rw [← h]
      simp
    | succ j =>
      simp only [specColumn, List.getElem?_cons_succ] at h
      have := ih _ j q h
      rw [this]
      simp only [specColumn, List.take_succ_cons, List.map_cons, List.sum_cons]
      push_cast
      rw [show (k : Int) + 1 - ((j : Int) + 1) = (k : Int) - j by ring]
      rw [show used + (wh - used) / ((k : Int) + 1) +
          (List.map Prod.snd (List.take j (specColumn wy wh k
            (used + (wh - used) / ((k : Int) + 1))))).sum =
          used + ((wh - used) / ((k : Int) + 1) +
          (List.map Prod.snd (List.take j (specColumn wy wh k
            (used + (wh - used) / ((k : Int) + 1))))).sum) by ring]

/-- C27: one column of `tile`.  With `n` the number of visible non-floating
clients of `m`, `nmaster` and `wh` not negative, the first `min(n, nmaster)`
calls of `resize` are the master column and the others the stack column.  For
a column `col` of `k >= 1` clients whose requested heights `applysizehints`
returns unchanged (nothing is assumed on `x`, `y`, `w`, nor on the other
column): the `j`-th client of the column gets the outer height
`(wh - used) / (k - j)`, where `used` is the sum of the outer heights
`h + 2*bw` of the earlier clients of the column, and is requested at
`y = wy + used`, so at `wy` for `j = 0` (the column is the one the
specification words, `specColumn`); the outer heights of the column add up to
`wh`; and when `wh > 0`, the border width is not negative and the client
belongs to `m`, `applysizehints` leaves `y` as requested. -/
theorem tile_column_heights (cfg : Config) (s : State) (m n k : Nat) (stack : Bool)
    (col : List Placement)
    (hn : n = ((s.mon m).clients.filter
      (fun c => !(s.cl c).isfloating && ISVISIBLE s c)).length)
    (hnm : 0 ≤ (s.mon m).nmaster) (hwh : 0 ≤ (s.mon m).wh)
    (hk : k = if stack then n - min n (s.mon m).nmaster.toNat
              else min n (s.mon m).nmaster.toNat)
    (hcol : col = if stack then (tileTrace cfg s m).2.drop (min n (s.mon m).nmaster.toNat)
                  else (tileTrace cfg s m).2.take (min n (s.mon m).nmaster.toNat))
    (hk1 : 1 ≤ k)
    (hun : ∀ p, p ∈ col → p.ah = p.h) :
    col.map (fun p => p.c) =
      (if stack then
        ((s.mon m).clients.filter (fun c => !(s.cl c).isfloating && ISVISIBLE s c)).drop
          (min n (s.mon m).nmaster.toNat)
       else
        ((s.mon m).clients.filter (fun c => !(s.cl c).isfloating && ISVISIBLE s c)).take
          (min n (s.mon m).nmaster.toNat)) ∧
    col.length = k ∧
    (∀ (j : Nat) (p : Placement), col[j]? = some p →
      p.ah + 2 * (s.cl p.c).bw =
        ((s.mon m).wh - ((col.take j).map (fun q => q.ah + 2 * (s.cl q.c).bw)).sum) /
          ((k : Int) - j) ∧
      p.y = (s.mon m).wy + ((col.take j).map (fun q => q.ah + 2 * (s.cl q.c).bw)).sum) ∧
    col.map (fun p => (p.y, p.ah + 2 * (s.cl p.c).bw)) =
      specColumn (s.mon m).wy (s.mon m).wh k 0 ∧
    (col.map (fun p => p.ah + 2 * (s.cl p.c).bw)).sum = (s.mon m).wh ∧
    (0 < (s.mon m).wh →
      ∀ p, p ∈ col → 0 ≤ (s.cl p.c).bw → (s.cl p.c).mon = m → p.ay = p.y) := by
  have hcount : tileCount s m = n := by
    unfold tileCount
    rw [tiled_eq_filter, hn]
  have hn0 : n ≠ 0 := by
    intro h0
    subst hk
    cases stack <;> simp [h0] at hk1
  have hT : (tileTrace cfg s m).2 =
      (tileLoop cfg m n (tileMw s m) (s.mon m).clients 0 0 0 s).2 := by
    unfold tileTrace
    simp only
    rw [hcount, if_neg hn0]
  have hcnt : 0 + ((s.mon m).clients.filter
      (fun c => !((s.cl c).isfloating || !ISVISIBLE s c))).length = n := by
    rw [Nat.zero_add, ← hcount]
    rfl
  have hmapc : (tileTrace cfg s m).2.map (fun p => p.c) =
      (s.mon m).clients.filter (fun c => !(s.cl c).isfloating && ISVISIBLE s c) := by
    rw [← tiled_eq_filter]
    exact (tile_trace cfg s m).1
  have key : col.map (fun p => (p.y, p.ah + 2 * (s.cl p.c).bw)) =
        specColumn (s.mon m).wy (s.mon m).wh k 0 ∧
      (0 < (s.mon m).wh →
        ∀ p, p ∈ col → 0 ≤ (s.cl p.c).bw → (s.cl p.c).mon = m → p.ay = p.y) := by
    cases stack with
    | false =>
      simp only [Bool.false_eq_true, if_false] at hk hcol
      rw [hcol, hT] at hun ⊢
      have h := tileLoop_master cfg m n (tileMw s m) s hnm hwh (s.mon m).clients 0 0 0 s
        (same_refl s) (le_refl _) (Or.inl rfl) hcnt
      rw [Nat.sub_zero, ← hk] at h
      rw [← hk] at hun ⊢
      exact h hun
    | true =>
      simp only [if_true] at hk hcol
      rw [hcol, hT] at hun ⊢
      have h := tileLoop_stack cfg m n (tileMw s m) s hnm hwh (s.mon m).clients 0 0 0 s
        (same_refl s) (le_refl _) (Or.inl rfl) hcnt
      rw [Nat.sub_zero, Nat.zero_max, ← hk] at h
      exact h hun
  obtain ⟨hspec, hay⟩ := key
  have hlen : col.length = k := by
    have := congrArg List.length hspec
    rw [List.length_map, specColumn_length] at this
    exact this
  have hsnd : col.map (fun p => p.ah + 2 * (s.cl p.c).bw) =
      (specColumn (s.mon m).wy (s.mon m).wh k 0).map Prod.snd := by
    rw [← hspec, List.map_map]
    rfl
  refine ⟨?_, hlen, ?_, hspec, ?_, hay⟩
  · rw [hcol]
    cases stack with
    | false =>
      simp only [Bool.false_eq_true, if_false]
      simp only [List.map_take, hmapc]
    | true =>
      simp only [if_true]
      simp only [List.map_drop, hmapc]
  · intro j p hp
    have hq : (specColumn (s.mon m).wy (s.mon m).wh k 0)[j]? =
        some (p.y, p.ah + 2 * (s.cl p.c).bw) := by
      rw [← hspec, List.getElem?_map, hp]
      rfl
    have hi := specColumn_index _ _ _ _ _ _ hq
    have htake : ((specColumn (s.mon m).wy (s.mon m).wh k 0).take j).map Prod.snd =
        (col.take j).map (fun q => q.ah + 2 * (s.cl q.c).bw) := by
      simp only [List.map_take, hsnd]
    rw [htake, zero_add] at hi
    have h1 := congrArg Prod.fst hi
    have h2 := congrArg Prod.snd hi
    exact ⟨h2, h1⟩
  · rw [hsnd, specColumn_sum _ _ _ _ hk1]
    omega

/-- C27 at the state with the three windows managed (work area
`0, 14, 1920, 1066`, `nmaster` 1), for the stack column: windows `2` and `1`,
with two cells of outer height 533 at `y = 14` and `y = 547`. -/
theorem tile_column_heights_witness :
    ((tileTrace exCfg exABC 0).2.drop 1).map (fun p => p.c) =
      (if true then
        ((exABC.mon 0).clients.filter
          (fun c => !(exABC.cl c).isfloating && ISVISIBLE exABC c)).drop
          (min 3 (exABC.mon 0).nmaster.toNat)
       else
        ((exABC.mon 0).clients.filter
          (fun c => !(exABC.cl c).isfloating && ISVISIBLE exABC c)).take
          (min 3 (exABC.mon 0).nmaster.toNat)) ∧
    ((tileTrace exCfg exABC 0).2.drop 1).length = 2 ∧
    (∀ (j : Nat) (p : Placement), ((tileTrace exCfg exABC 0).2.drop 1)[j]? = some p →
      p.ah + 2 * (exABC.cl p.c).bw =
        ((exABC.mon 0).wh -
          ((((tileTrace exCfg exABC 0).2.drop 1).take j).map
            (fun q => q.ah + 2 * (exABC.cl q.c).bw)).sum) / (((2 : Nat) : Int) - j) ∧
      p.y = (exABC.mon 0).wy +
        ((((tileTrace exCfg exABC 0).2.drop 1).take j).map
          (fun q => q.ah + 2 * (exABC.cl q.c).bw)).sum) ∧
    ((tileTrace exCfg exABC 0).2.drop 1).map
        (fun p => (p.y, p.ah + 2 * (exABC.cl p.c).bw)) =
      specColumn (exABC.mon 0).wy (exABC.mon 0).wh 2 0 ∧
    (((tileTrace exCfg exABC 0).2.drop 1).map
        (fun p => p.ah + 2 * (exABC.cl p.c).bw)).sum = (exABC.mon 0).wh ∧
    (0 < (exABC.mon 0).wh →
      ∀ p, p ∈ (tileTrace exCfg exABC 0).2.drop 1 →
        0 ≤ (exABC.cl p.c).bw → (exABC.cl p.c).mon = 0 → p.ay = p.y) :=
  tile_column_heights exCfg exABC 0 3 2 true ((tileTrace exCfg exABC 0).2.drop 1)
    (by decide!) (by decide!) (by decide!) (by decide!) (by decide!) (by decide!)
    (by decide!)

/-- The columns of that state: the calls of `resize` that `tile` makes, the
master column of one cell of height 1066 and the stack column of two cells of
height 533. -/
theorem tile_column_example :
    (exABC.mon 0).clients.filter
      (fun c => !(exABC.cl c).isfloating && ISVISIBLE exABC c) = [3, 2, 1] ∧
    (exABC.mon 0).nmaster = 1 ∧
    (tileTrace exCfg exABC 0).2.map (fun p => (p.c, p.y, p.h, p.ah)) =
      [(3, 14, 1064, 1064), (2, 14, 531, 531), (1, 547, 531, 531)] ∧
    specColumn (exABC.mon 0).wy (exABC.mon 0).wh 1 0 = [(14, 1066)] ∧
    specColumn (exABC.mon 0).wy (exABC.mon 0).wh 2 0 = [(14, 533), (547, 533)] :=
  ⟨by decide!, by decide!, by decide!, by decide!, by decide!⟩

end Dwm
